import Mathlib

/-! ViennaRNA cofolding partition function: a shallow embedding of `part_func_co.c`.

The C code works on `double` (`FLT_OR_DBL`) values.  The embedding models them as
elements of an arbitrary linearly ordered field `α` (exact arithmetic, no rounding),
so every definition below is executable on `ℚ`, and the theorems hold on `ℝ` as
well.  The transcendental functions `log` and `exp` of `<math.h>` are passed in as
parameters.  C `int` values are modelled as `Int` (no overflow: the sizes involved
are sequence lengths).  Buffers addressed by an `int` offset are functions
`Int → α`; a write is `Function.update`.
-/

namespace ViennaRNA

/-! ## Definitions -/

section Newton

variable {α : Type} [LinearOrderedField α]

/-- The value `det` computed in the body of the loop of `Newton_Conc`
(part_func_co.c, lines 960-961). -/
def newton_det (KAB KAA KBB cA cB : α) : α :=
  1 + 16 * KAA * KBB * cA * cB + KAB * (cA + cB) + 4 * KAA * cA + 4 * KBB * cB +
    4 * KAB * (KBB * cB * cB + KAA * cA * cA)

/-- The step `xn` computed in the body of the loop of `Newton_Conc`
(part_func_co.c, lines 966-967). -/
def newton_xn (KAB KAA KBB concA concB cA cB : α) : α :=
  ((2 * KBB * cB * cB + cB - concB) * (KAB * cA) - KAB * cA * cB * (4 * KBB * cB + 1) -
      (2 * KAA * cA * cA + cA - concA) * (4 * KBB * cB + KAB * cA + 1)) /
    newton_det KAB KAA KBB cA cB

/-- The step `yn` computed in the body of the loop of `Newton_Conc`
(part_func_co.c, lines 972-973). -/
def newton_yn (KAB KAA KBB concA concB cA cB : α) : α :=
  ((2 * KAA * cA * cA + cA - concA) * (KAB * cB) - KAB * cA * cB * (4 * KAA * cA + 1) -
      (2 * KBB * cB * cB + cB - concB) * (4 * KAA * cA + KAB * cB + 1)) /
    newton_det KAB KAA KBB cA cB

/-- The un-simplified determinant kept in the comment at part_func_co.c line 959. -/
def newton_det_comment (KAB KAA KBB cA cB : α) : α :=
  (4 * KAA * cA + KAB * cB + 1) * (4 * KBB * cB + KAB * cA + 1) - (KAB * cB) * (KAB * cA)

/-- The un-simplified `xn` kept in the comment at part_func_co.c lines 963-964. -/
def newton_xn_comment (KAB KAA KBB concA concB cA cB : α) : α :=
  ((2 * KBB * cB * cB + KAB * cA * cB + cB - concB) * (KAB * cA) -
      (2 * KAA * cA * cA + KAB * cA * cB + cA - concA) * (4 * KBB * cB + KAB * cA + 1)) /
    newton_det_comment KAB KAA KBB cA cB

/-- The un-simplified `yn` kept in the comment at part_func_co.c lines 969-970. -/
def newton_yn_comment (KAB KAA KBB concA concB cA cB : α) : α :=
  ((2 * KAA * cA * cA + KAB * cA * cB + cA - concA) * (KAB * cB) -
      (2 * KBB * cB * cB + KAB * cA * cB + cB - concB) * (4 * KAA * cA + KAB * cB + 1)) /
    newton_det_comment KAB KAA KBB cA cB

/-- First mass-action residual `f1` of the concentration solver (spec 4.7). -/
def newton_f1 (KAB KAA concA cA cB : α) : α :=
  2 * KAA * cA ^ 2 + KAB * cA * cB + cA - concA

/-- Second mass-action residual `f2` of the concentration solver (spec 4.7). -/
def newton_f2 (KAB KBB concB cA cB : α) : α :=
  2 * KBB * cB ^ 2 + KAB * cA * cB + cB - concB

/-- The five-element array `ConcVec` filled at the end of `Newton_Conc`:
`v0 .. v4` are `ConcVec[0] .. ConcVec[4]`. -/
structure ConcVec (α : Type) where
  v0 : α
  v1 : α
  v2 : α
  v3 : α
  v4 : α
  deriving DecidableEq

/-- The assignments to `ConcVec` after the loop (part_func_co.c, lines 984-988). -/
def mkConcVec (KAB KAA KBB cA cB : α) : ConcVec α :=
  { v0 := cA * cB * KAB
    v1 := cA * cA * KAA
    v2 := cB * cB * KBB
    v3 := cA
    v4 := cB }

/-- State of `Newton_Conc` when its loop is left: the last iterate, the
counter `i`, whether the non-convergence warning was issued, and whether the loop of
this model was left because `det` was `0`.  In that case the C code divides by zero in
`xn` and `yn` and goes on with values that are not finite numbers; the model does not
follow it there, and `cA`, `cB` are the iterate at which `det` vanished. -/
structure NewtonRun (α : Type) where
  cA : α
  cB : α
  i : Nat
  warned : Bool
  det_zero : Bool
  deriving DecidableEq

/-- The test `EPS > TOL` of `Newton_Conc` for `EPS = fabs(xn / cA) + fabs(yn / cB)`
(part_func_co.c, lines 974 and 981), for finite `xn`, `yn`, `cA`, `cB`, with the
divisions by zero of IEEE arithmetic: `0 / 0` is NaN, which makes `EPS` NaN and the
comparison false; `xn / 0` with `xn != 0` is infinite, which makes `EPS` infinite and
the comparison true. -/
def newton_EPS_gt_TOL (xn yn cA cB : α) : Bool :=
  if (cA = 0 ∧ xn = 0) ∨ (cB = 0 ∧ yn = 0) then false
  else if cA = 0 ∨ cB = 0 then true
  else decide (|xn / cA| + |yn / cB| > 1 / 10 ^ 6)

/-- The `do { ... } while (EPS > TOL)` loop of `Newton_Conc` (lines 958-982).
The first argument is recursion fuel; `Newton_run` starts it with enough fuel
for the loop's own cut-off `i > 10000` to fire first.  The numbers are exact; an
iteration in which `det` is `0` ends the run of the model with `det_zero` set. -/
def Newton_loop (KAB KAA KBB concA concB : α) : Nat → Nat → α → α → NewtonRun α
  | 0, i, cA, cB => ⟨cA, cB, i, false, false⟩
  | fuel + 1, i, cA, cB =>
    let xn := newton_xn KAB KAA KBB concA concB cA cB
    let yn := newton_yn KAB KAA KBB concA concB cA cB
    let cA1 := cA + xn
    let cB1 := cB + yn
    let i1 := i + 1
    if newton_det KAB KAA KBB cA cB = 0 then ⟨cA, cB, i1, decide (i1 > 10000), true⟩
    else if i1 > 10000 then ⟨cA1, cB1, i1, true, false⟩
    else if newton_EPS_gt_TOL xn yn cA cB = true then
      Newton_loop KAB KAA KBB concA concB fuel i1 cA1 cB1
    else ⟨cA1, cB1, i1, false, false⟩

/-- The loop of `Newton_Conc` started at `i = 0`, `cA = concA`, `cB = concB`. -/
def Newton_run (KAB KAA KBB concA concB : α) : NewtonRun α :=
  Newton_loop KAB KAA KBB concA concB 10001 0 concA concB

/-- The vector returned by `Newton_Conc` (part_func_co.c, lines 941-991). -/
def Newton_Conc (KAB KAA KBB concA concB : α) : ConcVec α :=
  let r := Newton_run KAB KAA KBB concA concB
  mkConcVec KAB KAA KBB r.cA r.cB

end Newton

section Index

/-- Modelled from the spec: the row table `iindx` of the fold compound is filled by
`vrna_idx_row_wise`, which is not among the sources.  Its formula is the one of
spec section 3, `iindx[i] = ((n+1-i)(n-i))/2 + n + 1`, which is also the one the
comment in `pf_co` (part_func_co.c, lines 399-402) gives for the packing. -/
def iindx (n i : Int) : Int :=
  Int.tdiv ((n + 1 - i) * (n - i)) 2 + n + 1

/-- The offset `ij = my_iindx[i] - j` with which `pf_co` and `pf_co_bppm` address
`q`, `qb`, `qm` and `probs` (part_func_co.c, lines 407, 413, 549). -/
def pack (n i j : Int) : Int :=
  iindx n i - j

end Index

section DimerProbs

variable {α : Type} [LinearOrderedField α]

/-- One entry `vrna_ep_t` of a pair-probability list: the pair `(i, j)` and its
probability `p`. -/
structure vrna_ep_t (α : Type) where
  i : Int
  j : Int
  p : α
  deriving DecidableEq

/-- A pointer into a zero-terminated array of `vrna_ep_t` is modelled by the list of
the entries from the pointer on (`lp++` is `List.tail`); `ep_deref lp` is `*lp`.
The terminating entry may be written out as `⟨0, 0, 0⟩`; reading at the end of the
list also gives the zero entry. -/
def ep_deref (lp : List (vrna_ep_t α)) : vrna_ep_t α :=
  lp.headD ⟨0, 0, 0⟩

/-- The loop `while (offset + lp2->i < i && lp2->i > 0) lp2++;`
(part_func_co.c, lines 276-277). -/
def skip_i (offset i : Int) : List (vrna_ep_t α) → List (vrna_ep_t α)
  | [] => []
  | e :: es => if offset + e.i < i ∧ e.i > 0 then skip_i offset i es else e :: es

/-- The loop `while ((offset + lp2->j) < j && (lp2->j > 0)) lp2++;`
(part_func_co.c, lines 279-280). -/
def skip_j (offset j : Int) : List (vrna_ep_t α) → List (vrna_ep_t α)
  | [] => []
  | e :: es => if offset + e.j < j ∧ e.j > 0 then skip_j offset j es else e :: es

/-- The loop `for (lp1 = prAB; lp1->j > 0; lp1++)` of `vrna_pf_dimer_probs`
(part_func_co.c, lines 272-298), for the current positions `lp1`, `lp2` and the
current `offset`.  The result is the array from `lp1` on after the loop, and the
number of "numeric instability" warnings issued.  (`pp` is a `float` in the source;
the narrowing conversion is not modelled.) -/
def dimer_probs_loop (pAB : α) (prB : List (vrna_ep_t α)) (Alength : Int) :
    List (vrna_ep_t α) → List (vrna_ep_t α) → Int → List (vrna_ep_t α) × Nat
  | [], _, _ => ([], 0)
  | e :: rest, lp2, offset =>
    if e.j > 0 then
      let lp2a := skip_i offset e.i lp2
      let lp2b := if offset + (ep_deref lp2a).i = e.i then skip_j offset e.j lp2a else lp2a
      let lp2c := if (ep_deref lp2b).j = 0 then prB else lp2b
      let offset1 := if (ep_deref lp2b).j = 0 then Alength else offset
      let hit : Bool :=
        decide (offset1 + (ep_deref lp2c).i = e.i ∧ offset1 + (ep_deref lp2c).j = e.j)
      let pp := if hit then (ep_deref lp2c).p else 0
      let lp2d := if hit then lp2c.tail else lp2c
      let p1 := (e.p - (1 - pAB) * pp) / pAB
      let r := dimer_probs_loop pAB prB Alength rest lp2d offset1
      if p1 < 0 then ({ e with p := 0 } :: r.1, r.2 + 1) else ({ e with p := p1 } :: r.1, r.2)
    else (e :: rest, 0)

/-- The function `vrna_pf_dimer_probs` (part_func_co.c, lines 241-302): the array
`prAB` after the call and the number of warnings.  `exp` is the exponential of
`<math.h>`, `kT` is `exp_params->kT`. -/
def vrna_pf_dimer_probs (exp : α → α) (FAB FA FB : α) (prAB prA prB : List (vrna_ep_t α))
    (Alength : Int) (kT : α) : List (vrna_ep_t α) × Nat :=
  let mykT := kT / 1000
  let pAB := 1 - exp ((1 / mykT) * (FAB - FA - FB))
  if pAB > 0 then dimer_probs_loop pAB prB Alength prAB prA 0 else (prAB, 0)

/-- The monomer probability `pmon(i, j)` in the words of spec section 4.8: the
probability of the entry `(i, j)` of `prA`, or of the entry `(i - Alength, j - Alength)`
of `prB`, and `0` when neither list has such an entry. -/
def pmon_spec (prA prB : List (vrna_ep_t α)) (Alength i j : Int) : α :=
  match prA.find? (fun e => decide (e.i = i ∧ e.j = j)) with
  | some e => e.p
  | none =>
    match prB.find? (fun e => decide (e.i = i - Alength ∧ e.j = j - Alength)) with
    | some e => e.p
    | none => 0

/-- The rescaled value of spec section 4.8 for one entry of `prAB`:
`max(0, (p - (1 - pAB) * pmon(i, j)) / pAB)`. -/
def rescale_spec (pAB : α) (prA prB : List (vrna_ep_t α)) (Alength : Int)
    (e : vrna_ep_t α) : α :=
  max 0 ((e.p - (1 - pAB) * pmon_spec prA prB Alength e.i e.j) / pAB)

end DimerProbs

section Concentrations

variable {α : Type} [LinearOrderedField α]

/-- One entry `vrna_dimer_conc_t` of the result of `vrna_pf_dimer_concentrations`. -/
structure vrna_dimer_conc_t (α : Type) where
  Ac_start : α
  Bc_start : α
  ABc : α
  AAc : α
  BBc : α
  Ac : α
  Bc : α
  deriving DecidableEq

/-- The body of the loop of `vrna_pf_dimer_concentrations` for one pair of start
concentrations (part_func_co.c, lines 333-345). -/
def conc_entry (KAB KAA KBB a b : α) : vrna_dimer_conc_t α :=
  let v := Newton_Conc KAB KAA KBB a b
  { Ac_start := a
    Bc_start := b
    ABc := v.v0
    AAc := v.v1
    BBc := v.v2
    Ac := v.v3
    Bc := v.v4 }

/-- The loop `for (i = 0; startconc[i] != 0 || startconc[i + 1] != 0; i += 2)`
(part_func_co.c, lines 332-353).  The list is `startconc` from index `i = 2 * k` on,
`cap` is the number of entries allocated for `Concentration`.  The result is the list
of the entries written from index `k` on, and the final capacity.  A read past the
end of the list (no `(0, 0)` pair) ends the loop. -/
def dimer_conc_loop (KAB KAA KBB : α) :
    List α → Nat → Nat → List (vrna_dimer_conc_t α) × Nat
  | a :: b :: rest, k, cap =>
    if a ≠ 0 ∨ b ≠ 0 then
      let cap1 := if (2 * k + 2) / 2 % 20 = 0 then (2 * k + 2) / 2 + 20 else cap
      let r := dimer_conc_loop KAB KAA KBB rest (k + 1) cap1
      (conc_entry KAB KAA KBB a b :: r.1, r.2)
    else ([], cap)
  | _, _, cap => ([], cap)

/-- The function `vrna_pf_dimer_concentrations` (part_func_co.c, lines 305-356): the
entries of `Concentration` that were written, in order, and the allocated capacity.
`exp` is the exponential of `<math.h>`, `kT` is `exp_params->kT`. -/
def vrna_pf_dimer_concentrations (exp : α → α) (FcAB FcAA FcBB FEA FEB : α)
    (startconc : List α) (kT : α) : List (vrna_dimer_conc_t α) × Nat :=
  let kT1 := kT / 1000
  let KAA := exp ((2 * FEA - FcAA) / kT1)
  let KBB := exp ((2 * FEB - FcBB) / kT1)
  let KAB := exp ((FEA + FEB - FcAB) / kT1)
  dimer_conc_loop KAB KAA KBB startconc 0 20

end Concentrations

section FoldCompound

variable {α : Type} [LinearOrderedField α]

/-- The list `lo, lo+1, ..., hi` of the values of an ascending `for` loop
`for (x = lo; x <= hi; x++)`. -/
def upto (lo hi : Int) : List Int :=
  (List.range (hi + 1 - lo).toNat).map (fun (k : Nat) => lo + (k : Int))

/-- The list `hi, hi-1, ..., lo` of the values of a descending `for` loop
`for (x = hi; x >= lo; x--)`. -/
def downto (hi lo : Int) : List Int :=
  (upto lo hi).reverse

/-- The fields of the model details `vrna_md_t` that `part_func_co.c` reads. -/
structure vrna_md_t where
  backtrack_type : Char
  compute_bpp : Bool
  min_loop_size : Int
  rtype : Int → Int

/-- The fields of `vrna_exp_param_t` that `part_func_co.c` reads. -/
structure vrna_exp_param_t (α : Type) where
  kT : α
  pf_scale : α
  expDuplexInit : α
  expMLclosing : α
  model_details : vrna_md_t

/-- The hard constraints `vrna_hc_t`: the byte matrix and the four up-counts. -/
structure vrna_hc_t where
  matrix : Int → Nat
  up_ext : Int → Int
  up_hp : Int → Int
  up_int : Int → Int
  up_ml : Int → Int

/-- The soft constraints `vrna_sc_t`, as far as `pf_co_bppm` reads them; a field that
is `none` is a `NULL` pointer. -/
structure vrna_sc_t (α : Type) where
  exp_energy_up : Option (Int → Int → α)
  exp_energy_bp : Option (Int → α)
  exp_energy_stack : Option (Int → α)
  exp_f : Option (Int → Int → Int → Int → Int → α)

/-- The partition-function matrices `vrna_mx_pf_t`; `qm1` may be a `NULL` pointer. -/
structure vrna_mx_pf_t (α : Type) where
  q : Int → α
  qb : Int → α
  qm : Int → α
  qm1 : Option (Int → α)
  probs : Int → α
  q1k : Int → α
  qln : Int → α
  scale : Int → α
  expMLbase : Int → α

/-- The fields of the fold compound `vrna_fold_compound_t` that `part_func_co.c`
reads and writes.  `sequence` is the C string without its terminating NUL;
`sequence_encoding2` (`S`) is only tested against `NULL`, so only whether it is
present is kept, and `sequence_encoding` (`S1`) is `none` when it is `NULL`. -/
structure vrna_fold_compound_t (α : Type) where
  length : Int
  cutpoint : Int
  sequence : List Char
  sequence_encoding2 : Bool
  sequence_encoding : Option (Int → Int)
  strand_number : Int → Nat
  ptype : Int → Int
  iindx : Int → Int
  jindx : Int → Int
  exp_params : vrna_exp_param_t α
  hc : vrna_hc_t
  sc : Option (vrna_sc_t α)
  exp_matrices : vrna_mx_pf_t α

/-- The external collaborators of `part_func_co.c`: the mathematical library, the
limits of `<float.h>`, the constant `MAXLOOP`, and the functions of the package that
are defined in other files.  `Ael` and `Aml` are the types of the auxiliary arrays
`vrna_mx_pf_aux_el_t` and `vrna_mx_pf_aux_ml_t`; the "fast" functions return their
value together with the updated auxiliary arrays.  The loop-energy functions read the
fold compound (the matrices filled so far) and do not write it. -/
structure Externals (α Ael Aml : Type) where
  log : α → α
  exp : α → α
  max_real : α
  FLT_MAX : α
  MAXLOOP : Int
  fold_compound_prepare : vrna_fold_compound_t α → Bool × vrna_fold_compound_t α
  exp_E_ext_fast_init : vrna_fold_compound_t α → Ael
  exp_E_ml_fast_init : vrna_fold_compound_t α → Aml
  exp_E_hp_loop : vrna_fold_compound_t α → Int → Int → α
  exp_E_int_loop : vrna_fold_compound_t α → Int → Int → α
  exp_E_mb_loop_fast : vrna_fold_compound_t α → Int → Int → (Int → α) → α
  exp_E_ml_fast : vrna_fold_compound_t α → Int → Int → Aml → α × Aml
  exp_E_ext_fast : vrna_fold_compound_t α → Int → Int → Ael → α × Ael
  exp_E_ext_fast_rotate : vrna_fold_compound_t α → Ael → Ael
  exp_E_ml_fast_rotate : vrna_fold_compound_t α → Aml → Aml
  aux_qqm : Aml → Int → α
  aux_qqm1 : Aml → Int → α
  exp_E_ExtLoop : Int → Int → Int → vrna_exp_param_t α → α
  exp_E_IntLoop : Int → Int → Int → Int → Int → Int → Int → Int → vrna_exp_param_t α → α
  exp_E_MLstem : Int → Int → Int → vrna_exp_param_t α → α
  db_from_probs : (Int → α) → Int → List Char

/-- The assignment `qb[ij] = v`. -/
def set_qb (vc : vrna_fold_compound_t α) (ij : Int) (v : α) : vrna_fold_compound_t α :=
  { vc with exp_matrices := { vc.exp_matrices with qb := Function.update vc.exp_matrices.qb ij v } }

/-- The assignment `qm[ij] = v`. -/
def set_qm (vc : vrna_fold_compound_t α) (ij : Int) (v : α) : vrna_fold_compound_t α :=
  { vc with exp_matrices := { vc.exp_matrices with qm := Function.update vc.exp_matrices.qm ij v } }

/-- The assignment `q[ij] = v`. -/
def set_q (vc : vrna_fold_compound_t α) (ij : Int) (v : α) : vrna_fold_compound_t α :=
  { vc with exp_matrices := { vc.exp_matrices with q := Function.update vc.exp_matrices.q ij v } }

/-- The statement `if (qm1) qm1[k] = v;`. -/
def set_qm1 (vc : vrna_fold_compound_t α) (k : Int) (v : α) : vrna_fold_compound_t α :=
  match vc.exp_matrices.qm1 with
  | some qm1 => { vc with exp_matrices := { vc.exp_matrices with qm1 := some (Function.update qm1 k v) } }
  | none => vc

/-- The state of `pf_co` between two cells: the fold compound with its matrices, the
two auxiliary arrays, the running maximum `Qmax`, and the "Q close to overflow"
warnings issued so far, each with its `(i, j, temp)`. -/
structure PfCoState (α Ael Aml : Type) where
  vc : vrna_fold_compound_t α
  aux_mx_el : Ael
  aux_mx_ml : Aml
  Qmax : α
  warnings : List (Int × Int × α)

/-- The fatal error of `pf_co`, "overflow in co_pf_fold while calculating q[i,j]":
the cell named by the diagnostic and the state when the program is left. -/
structure PfCoAbort (α Ael Aml : Type) where
  i : Int
  j : Int
  state : PfCoState α Ael Aml

variable {Ael Aml : Type}

/-- The value `qbt1` that `pf_co` stores into `qb[ij]` for the cell `(i, j)`
(part_func_co.c, lines 414-423). -/
def pf_co_qbt1 (O : Externals α Ael Aml) (st : PfCoState α Ael Aml) (i j : Int) : α :=
  if st.vc.hc.matrix (st.vc.jindx j + i) ≠ 0 then
    0 + O.exp_E_hp_loop st.vc i j + O.exp_E_int_loop st.vc i j +
      O.exp_E_mb_loop_fast st.vc i j (O.aux_qqm1 st.aux_mx_ml)
  else 0

/-- The body of the inner loop of `pf_co` for the cell `(i, j)`
(part_func_co.c, lines 413-444). -/
def pf_co_cell (O : Externals α Ael Aml) (j : Int) (st : PfCoState α Ael Aml) (i : Int) :
    Except (PfCoAbort α Ael Aml) (PfCoState α Ael Aml) :=
  let ij := st.vc.iindx i - j
  let vc1 := set_qb st.vc ij (pf_co_qbt1 O st i j)
  let ml := O.exp_E_ml_fast vc1 i j st.aux_mx_ml
  let vc2 := set_qm vc1 ij ml.1
  let vc3 := set_qm1 vc2 (vc2.jindx j + i) (O.aux_qqm ml.2 i)
  let el := O.exp_E_ext_fast vc3 i j st.aux_mx_el
  let temp := el.1
  let vc4 := set_q vc3 ij temp
  let Qmax1 := if temp > st.Qmax then temp else st.Qmax
  let warnings1 :=
    if temp > st.Qmax ∧ temp > O.max_real / 10 then st.warnings ++ [(i, j, temp)]
    else st.warnings
  let st1 : PfCoState α Ael Aml :=
    { vc := vc4, aux_mx_el := el.2, aux_mx_ml := ml.2, Qmax := Qmax1, warnings := warnings1 }
  if temp ≥ O.max_real then Except.error { i := i, j := j, state := st1 } else Except.ok st1

/-- The inner loop `for (i = j - turn - 1; i >= 1; i--)` of `pf_co`, over the listed
values of `i`. -/
def pf_co_cells (O : Externals α Ael Aml) (j : Int) :
    List Int → PfCoState α Ael Aml → Except (PfCoAbort α Ael Aml) (PfCoState α Ael Aml)
  | [], st => Except.ok st
  | i :: is, st =>
    match pf_co_cell O j st i with
    | Except.ok st1 => pf_co_cells O j is st1
    | Except.error e => Except.error e

/-- One iteration of the outer loop of `pf_co`: the inner loop for column `j` and the
rotation of the auxiliary arrays (part_func_co.c, lines 411-450). -/
def pf_co_column (O : Externals α Ael Aml) (turn : Int) (st : PfCoState α Ael Aml) (j : Int) :
    Except (PfCoAbort α Ael Aml) (PfCoState α Ael Aml) :=
  match pf_co_cells O j (downto (j - turn - 1) 1) st with
  | Except.ok st1 =>
    Except.ok { st1 with
      aux_mx_el := O.exp_E_ext_fast_rotate st1.vc st1.aux_mx_el
      aux_mx_ml := O.exp_E_ml_fast_rotate st1.vc st1.aux_mx_ml }
  | Except.error e => Except.error e

/-- The outer loop `for (j = turn + 2; j <= n; j++)` of `pf_co`, over the listed
values of `j`. -/
def pf_co_columns (O : Externals α Ael Aml) (turn : Int) :
    List Int → PfCoState α Ael Aml → Except (PfCoAbort α Ael Aml) (PfCoState α Ael Aml)
  | [], st => Except.ok st
  | j :: js, st =>
    match pf_co_column O turn st j with
    | Except.ok st1 => pf_co_columns O turn js st1
    | Except.error e => Except.error e

/-- The inner loop of the array initialisation of `pf_co`: `qb[my_iindx[i] - (i + d)] = 0`
for the listed values of `i` (part_func_co.c, lines 405-409). -/
def pf_co_init_row (d : Int) : List Int → vrna_fold_compound_t α → vrna_fold_compound_t α
  | [], vc => vc
  | i :: is, vc => pf_co_init_row d is (set_qb vc (vc.iindx i - (i + d)) 0)

/-- The array initialisation `for (d = 0; d <= turn; d++) for (i = 1; i <= n - d; i++)`
of `pf_co`, over the listed values of `d` (part_func_co.c, lines 404-409). -/
def pf_co_init : List Int → vrna_fold_compound_t α → vrna_fold_compound_t α
  | [], vc => vc
  | d :: ds, vc => pf_co_init ds (pf_co_init_row d (upto 1 (vc.length - d)) vc)

/-- The forward recursion `pf_co` (part_func_co.c, lines 360-455).  `turn` is hard-coded
to `0` as in the source.  The result is the final state, or the abort of the overflow
error. -/
def pf_co (O : Externals α Ael Aml) (vc : vrna_fold_compound_t α) :
    Except (PfCoAbort α Ael Aml) (PfCoState α Ael Aml) :=
  let n := vc.length
  let turn : Int := 0
  let aux_mx_el := O.exp_E_ext_fast_init vc
  let aux_mx_ml := O.exp_E_ml_fast_init vc
  let vc1 := pf_co_init (upto 0 turn) vc
  pf_co_columns O turn (upto (turn + 2) n)
    { vc := vc1, aux_mx_el := aux_mx_el, aux_mx_ml := aux_mx_ml, Qmax := 0, warnings := [] }

/-- The state of `pf_co` when its main loop is entered (part_func_co.c, lines 374-409). -/
def pf_co_start (O : Externals α Ael Aml) (vc : vrna_fold_compound_t α) :
    PfCoState α Ael Aml :=
  { vc := pf_co_init (upto 0 0) vc
    aux_mx_el := O.exp_E_ext_fast_init vc
    aux_mx_ml := O.exp_E_ml_fast_init vc
    Qmax := 0
    warnings := [] }

/-- The state in which the body of the inner loop of `pf_co` leaves the program for one
cell, whether or not the cell raises the overflow error. -/
def pf_co_after (r : Except (PfCoAbort α Ael Aml) (PfCoState α Ael Aml)) :
    PfCoState α Ael Aml :=
  match r with
  | Except.ok st => st
  | Except.error e => e.state

/-- The cells `(i, j)` for which the inner loop of `pf_co` runs its body in column `j`,
in the order of computation, each with the exterior value `temp` stored into `q[ij]`;
the list ends with the cell that raises the overflow error, if there is one. -/
def pf_co_cells_trace (O : Externals α Ael Aml) (j : Int) :
    List Int → PfCoState α Ael Aml → List (Int × Int × α)
  | [], _ => []
  | i :: is, st =>
    (i, j, (pf_co_after (pf_co_cell O j st i)).vc.exp_matrices.q (st.vc.iindx i - j)) ::
      match pf_co_cell O j st i with
      | Except.ok st1 => pf_co_cells_trace O j is st1
      | Except.error _ => []

/-- The cells for which the main loop of `pf_co` runs its body over the listed columns,
in the order of computation, each with its exterior value. -/
def pf_co_columns_trace (O : Externals α Ael Aml) (turn : Int) :
    List Int → PfCoState α Ael Aml → List (Int × Int × α)
  | [], _ => []
  | j :: js, st =>
    pf_co_cells_trace O j (downto (j - turn - 1) 1) st ++
      match pf_co_column O turn st j with
      | Except.ok st1 => pf_co_columns_trace O turn js st1
      | Except.error _ => []

/-- The cells computed by a run of `pf_co`, in the order of computation, each with the
exterior value computed for it. -/
def pf_co_trace (O : Externals α Ael Aml) (vc : vrna_fold_compound_t α) :
    List (Int × Int × α) :=
  pf_co_columns_trace O 0 (upto (0 + 2) vc.length) (pf_co_start O vc)

/-- The entries of a list of computed cells for which `pf_co` prints
"Q close to overflow": those whose value exceeds both the running maximum `Qmax` of
the values before it and `max_real / 10` (part_func_co.c, lines 436-440). -/
def pf_co_warned (max_real : α) : α → List (Int × Int × α) → List (Int × Int × α)
  | _, [] => []
  | Qmax, c :: cs =>
    if c.2.2 > Qmax then
      (if c.2.2 > max_real / 10 then c :: pf_co_warned max_real c.2.2 cs
       else pf_co_warned max_real c.2.2 cs)
    else pf_co_warned max_real Qmax cs

/-- The parts of the fold compound that the forward recursion never writes: two fold compounds agree on them. -/
def SameFrame (vc vc1 : vrna_fold_compound_t α) : Prop :=
  vc1.length = vc.length ∧ vc1.iindx = vc.iindx ∧ vc1.jindx = vc.jindx ∧ vc1.hc = vc.hc ∧
    vc1.cutpoint = vc.cutpoint ∧ vc1.sequence = vc.sequence ∧ vc1.exp_params = vc.exp_params

end FoldCompound

section Outside

variable {α : Type} [LinearOrderedField α] {Ael Aml : Type}

/-- The replacement `if (type == 0) type = 7;` made at every use of a pair type. -/
def ptype_or_7 (type : Int) : Int :=
  if type = 0 then 7 else type

/-- The test `hard_constraints[...] & VRNA_CONSTRAINT_CONTEXT_...` of a hard-constraint
byte against a context mask. -/
def hc_allows (byte mask : Nat) : Bool :=
  Nat.land byte mask != 0

/-- The factor `sc->exp_f(a, b, c, d, decomp, sc->data)` when soft constraints with a
callback are present, and `1` (no multiplication) otherwise. -/
def sc_exp_f (sc : Option (vrna_sc_t α)) (a b c d decomp : Int) : α :=
  match sc with
  | some s =>
    match s.exp_f with
    | some f => f a b c d decomp
    | none => 1
  | none => 1

/-- The factor `sc->exp_energy_up[i][u]` when present, and `1` otherwise. -/
def sc_exp_energy_up (sc : Option (vrna_sc_t α)) (i u : Int) : α :=
  match sc with
  | some s =>
    match s.exp_energy_up with
    | some f => f i u
    | none => 1
  | none => 1

/-- The factor `sc->exp_energy_bp[ij]` when present, and `1` otherwise. -/
def sc_exp_energy_bp (sc : Option (vrna_sc_t α)) (ij : Int) : α :=
  match sc with
  | some s =>
    match s.exp_energy_bp with
    | some f => f ij
    | none => 1
  | none => 1

/-- The factor `exp_energy_stack[i] * exp_energy_stack[k] * exp_energy_stack[l] *
exp_energy_stack[j]` applied when `sc->exp_energy_stack` is present and
`(i + 1 == k) && (j - 1 == l)`, and `1` otherwise (part_func_co.c, lines 621-628). -/
def sc_exp_energy_stack (sc : Option (vrna_sc_t α)) (i j k l : Int) : α :=
  match sc with
  | some s =>
    match s.exp_energy_stack with
    | some f => if i + 1 = k ∧ j - 1 = l then f i * f k * f l * f j else 1
    | none => 1
  | none => 1

/-- The hard-constraint context masks `VRNA_CONSTRAINT_CONTEXT_*` and the decomposition
codes `VRNA_DECOMP_*` that `pf_co_bppm` uses; they are macros of headers that are not
among the sources. -/
structure Constants where
  CONTEXT_EXT_LOOP : Nat
  CONTEXT_INT_LOOP : Nat
  CONTEXT_INT_LOOP_ENC : Nat
  CONTEXT_MB_LOOP : Nat
  CONTEXT_MB_LOOP_ENC : Nat
  DECOMP_EXT_STEM_OUTSIDE : Int
  DECOMP_PAIR_IL : Int

/-- The local state of `pf_co_bppm` during its sweeps: the array `probs`, the rolling
arrays `prm_l`, `prm_l1`, `prml`, the accumulators `Qrout`, `Qlout`, the scalar
`prm_MLb`, the running maximum `Qmax`, the overflow counter `ov`, and the
"P close to overflow" warnings issued so far, each with its `(k, l, probs[kl])`. -/
structure BppmState (α : Type) where
  probs : Int → α
  prm_l : Int → α
  prm_l1 : Int → α
  prml : Int → α
  Qrout : Int → α
  Qlout : Int → α
  prm_MLb : α
  Qmax : α
  ov : Nat
  warnings : List (Int × Int × α)

/-- The initialisation of `q1k` and `qln` (part_func_co.c, lines 536-541). -/
def bppm_init_q1k_qln (vc : vrna_fold_compound_t α) : vrna_fold_compound_t α :=
  let n := vc.length
  let step := fun (m : vrna_mx_pf_t α) (k : Int) =>
    { m with
      q1k := Function.update m.q1k k (m.q (vc.iindx 1 - k))
      qln := Function.update m.qln k (m.q (vc.iindx k - n)) }
  let m1 := (upto 1 n).foldl step vc.exp_matrices
  let m2 := { m1 with q1k := Function.update m1.q1k 0 1 }
  let m3 := { m2 with qln := Function.update m2.qln (n + 1) 1 }
  { vc with exp_matrices := m3 }

/-- The body of the loop over `j` of step 1 of `pf_co_bppm`, "exterior pair i,j"
(part_func_co.c, lines 549-565). -/
def bppm_ext_pair (O : Externals α Ael Aml) (C : Constants) (vc : vrna_fold_compound_t α)
    (S1 : Int → Int) (i : Int) (probs : Int → α) (j : Int) : Int → α :=
  let n := vc.length
  let sn := vc.strand_number
  let ij := vc.iindx i - j
  if hc_allows (vc.hc.matrix (vc.jindx j + i)) C.CONTEXT_EXT_LOOP = true ∧
      vc.exp_matrices.qb ij > 0 then
    let type := ptype_or_7 (vc.ptype (vc.jindx j + i))
    let s5 := if i > 1 ∧ sn i = sn (i - 1) then S1 (i - 1) else -1
    let s3 := if j < n ∧ sn (j + 1) = sn j then S1 (j + 1) else -1
    let p := vc.exp_matrices.q1k (i - 1) * vc.exp_matrices.qln (j + 1) / vc.exp_matrices.q1k n
    let p1 := p * O.exp_E_ExtLoop type s5 s3 vc.exp_params
    let p2 := p1 * sc_exp_f vc.sc 1 n i j C.DECOMP_EXT_STEM_OUTSIDE
    Function.update probs ij p2
  else Function.update probs ij 0

/-- The body of the loop over `i` of step 1 of `pf_co_bppm`
(part_func_co.c, lines 544-567). -/
def bppm_ext_row (O : Externals α Ael Aml) (C : Constants) (vc : vrna_fold_compound_t α)
    (S1 : Int → Int) (turn : Int) (probs : Int → α) (i : Int) : Int → α :=
  let n := vc.length
  let p1 := (upto i (min (i + turn) n)).foldl
    (fun p j => Function.update p (vc.iindx i - j) 0) probs
  (upto (i + turn + 1) n).foldl (bppm_ext_pair O C vc S1 i) p1

/-- The innermost body of step 2 of `pf_co_bppm`, one enclosing pair `(i, j)` of the
pair `(k, l)` in an interior loop (part_func_co.c, lines 589-637).  `type_2` is the
reversed type of `(k, l)`, already replaced by `7` when `0`. -/
def bppm_int_ij (O : Externals α Ael Aml) (C : Constants) (vc : vrna_fold_compound_t α)
    (S1 : Int → Int) (l k type_2 i : Int) (probs : Int → α) (j : Int) : Int → α :=
  let sn := vc.strand_number
  let kl := vc.iindx k - l
  let u1 := k - i - 1
  let u2 := j - l - 1
  let ij := vc.iindx i - j
  if hc_allows (vc.hc.matrix (vc.jindx j + i)) C.CONTEXT_INT_LOOP = true then
    if sn k = sn i ∧ sn j = sn l then
      if probs ij > 0 then
        let type := ptype_or_7 (vc.ptype (vc.jindx j + i))
        let tmp2 := probs ij * vc.exp_matrices.scale (u1 + u2 + 2) *
          O.exp_E_IntLoop u1 u2 type type_2 (S1 (i + 1)) (S1 (j - 1)) (S1 (k - 1)) (S1 (l + 1))
            vc.exp_params
        let tmp3 := tmp2 * (sc_exp_energy_up vc.sc (i + 1) u1 * sc_exp_energy_up vc.sc (l + 1) u2)
        let tmp4 := tmp3 * sc_exp_energy_bp vc.sc ij
        let tmp5 := tmp4 * sc_exp_energy_stack vc.sc i j k l
        let tmp6 := tmp5 * sc_exp_f vc.sc i j k l C.DECOMP_PAIR_IL
        Function.update probs kl (probs kl + tmp6)
      else probs
    else probs
  else probs

/-- The body of the loop over `k` of step 2 of `pf_co_bppm`, "bonding k,l as substem of
2:loop enclosed by i,j" (part_func_co.c, lines 571-641).  The `break` of the loop over
`j` depends on `j` only, so that loop runs over the longest prefix of its range on which
`hc_up_int[l + 1] < u2` is false. -/
def bppm_int_k (O : Externals α Ael Aml) (C : Constants) (vc : vrna_fold_compound_t α)
    (S1 : Int → Int) (l : Int) (probs : Int → α) (k : Int) : Int → α :=
  let n := vc.length
  let kl := vc.iindx k - l
  let type_2 := vc.exp_params.model_details.rtype (vc.ptype (vc.jindx l + k))
  if vc.exp_matrices.qb kl = 0 then probs
  else if hc_allows (vc.hc.matrix (vc.jindx l + k)) C.CONTEXT_INT_LOOP_ENC = true then
    (upto (max 1 (k - O.MAXLOOP - 1)) (k - 1)).foldl
      (fun p i =>
        let u1 := k - i - 1
        if vc.hc.up_int (i + 1) < u1 then p
        else
          ((upto (l + 1) (min (l + O.MAXLOOP - k + i + 2) n)).takeWhile
              (fun j => decide (¬ vc.hc.up_int (l + 1) < j - l - 1))).foldl
            (bppm_int_ij O C vc S1 l k (ptype_or_7 type_2) i) p)
      probs
  else probs

/-- The value `prmt1` of step 3 of `pf_co_bppm` for the pair `(k, l)`: the contribution
of the enclosing pair `(k - 1, l + 1)` (part_func_co.c, lines 649-678). -/
def bppm_prmt1 (O : Externals α Ael Aml) (C : Constants) (vc : vrna_fold_compound_t α)
    (S1 : Int → Int) (l : Int) (probs : Int → α) (k : Int) : α :=
  let sn := vc.strand_number
  let rtype := vc.exp_params.model_details.rtype
  let expMLclosing := vc.exp_params.expMLclosing
  let i := k - 1
  let ii := vc.iindx i
  let tt0 := rtype (vc.ptype (vc.jindx (l + 1) + i))
  if sn k = sn i ∧ hc_allows (vc.hc.matrix (vc.jindx (l + 1) + i)) C.CONTEXT_MB_LOOP = true then
    probs (ii - (l + 1)) * expMLclosing *
        O.exp_E_MLstem (ptype_or_7 tt0) (S1 l) (S1 (i + 1)) vc.exp_params *
      sc_exp_energy_bp vc.sc (ii - (l + 1))
  else 0

/-- The value `prmt` of step 3 of `pf_co_bppm` for the pair `(k, l)` after
`prmt *= expMLclosing`: the contributions of the enclosing pairs `(k - 1, j)` with
`j > l + 1` (part_func_co.c, lines 649-719). -/
def bppm_prmt (O : Externals α Ael Aml) (C : Constants) (vc : vrna_fold_compound_t α)
    (S1 : Int → Int) (l : Int) (probs : Int → α) (k : Int) : α :=
  let n := vc.length
  let sn := vc.strand_number
  let m := vc.exp_matrices
  let rtype := vc.exp_params.model_details.rtype
  let expMLclosing := vc.exp_params.expMLclosing
  let i := k - 1
  let ii := vc.iindx i
  let ll := vc.iindx (l + 1)
  let prmt0 : α :=
    if sn k = sn i then
      (upto (l + 2) n).foldl
        (fun acc j =>
          if hc_allows (vc.hc.matrix (vc.jindx j + i)) C.CONTEXT_MB_LOOP = true ∧
              sn j = sn (j - 1) then
            acc + probs (ii - j) *
                O.exp_E_MLstem (ptype_or_7 (rtype (vc.ptype (vc.jindx j + i)))) (S1 (j - 1))
                  (S1 (i + 1)) vc.exp_params *
                m.qm (ll - (j - 1)) *
              sc_exp_energy_bp vc.sc (vc.iindx i - j)
          else acc)
        0
    else 0
  prmt0 * expMLclosing

/-- The value `temp` that step 3 of `pf_co_bppm` adds to `probs[kl]`
(part_func_co.c, lines 771-782), from the current `prm_MLb` and `prml`. -/
def bppm_ml_temp (O : Externals α Ael Aml) (vc : vrna_fold_compound_t α) (S1 : Int → Int)
    (l k : Int) (prm_MLb : α) (prml : Int → α) : α :=
  let n := vc.length
  let sn := vc.strand_number
  let m := vc.exp_matrices
  let tt := vc.ptype (vc.jindx l + k)
  let temp0 := (upto 1 (k - 2)).foldl
    (fun t i1 =>
      if sn (i1 + 1) = sn i1 ∧ sn k = sn (k - 1) then
        t + prml i1 * m.qm (vc.iindx (i1 + 1) - (k - 1))
      else t)
    prm_MLb
  let s5 := if k > 1 ∧ sn k = sn (k - 1) then S1 (k - 1) else -1
  let s3 := if l < n ∧ sn (l + 1) = sn l then S1 (l + 1) else -1
  temp0 * (O.exp_E_MLstem (ptype_or_7 tt) s5 s3 vc.exp_params * m.scale 2)

/-- The body of the loop over `k` of step 3 of `pf_co_bppm`, "bonding k,l as substem of
multi-loop enclosed by i,j" (part_func_co.c, lines 646-797). -/
def bppm_ml_k (O : Externals α Ael Aml) (C : Constants) (vc : vrna_fold_compound_t α)
    (S1 : Int → Int) (l : Int) (st : BppmState α) (k : Int) : BppmState α :=
  let m := vc.exp_matrices
  let kl := vc.iindx k - l
  let i := k - 1
  let prmt1 := bppm_prmt1 O C vc S1 l st.probs k
  let prmt := bppm_prmt O C vc S1 l st.probs k
  let prml1 := Function.update st.prml i prmt
  let prm_l_i : α :=
    if vc.hc.up_ml (l + 1) ≠ 0 then
      st.prm_l1 i * m.expMLbase 1 * sc_exp_energy_up vc.sc (l + 1) 1 + prmt1
    else prmt1
  let prm_l_new := Function.update st.prm_l i prm_l_i
  let prm_MLb1 : α :=
    if vc.hc.up_ml i ≠ 0 then
      st.prm_MLb * m.expMLbase 1 * sc_exp_energy_up vc.sc i 1 + prml1 i
    else prml1 i
  let prml2 := Function.update prml1 i (prml1 i + prm_l_new i)
  let st1 : BppmState α := { st with prml := prml2, prm_l := prm_l_new, prm_MLb := prm_MLb1 }
  if m.qb kl = 0 then st1
  else if hc_allows (vc.hc.matrix (vc.jindx l + k)) C.CONTEXT_MB_LOOP_ENC = true then
    let p := st.probs kl + bppm_ml_temp O vc S1 l k prm_MLb1 prml2
    let Qmax1 := if p > st.Qmax then p else st.Qmax
    let warnings1 :=
      if p > st.Qmax ∧ p > O.max_real / 10 then st.warnings ++ [(k, l, p)] else st.warnings
    if p ≥ O.max_real then
      { st1 with
        probs := Function.update st.probs kl O.FLT_MAX
        Qmax := Qmax1
        warnings := warnings1
        ov := st.ov + 1 }
    else
      { st1 with
        probs := Function.update st.probs kl p
        Qmax := Qmax1
        warnings := warnings1 }
  else st1

/-- Step 3 of `pf_co_bppm` for one `l`, followed by the exchange of `prm_l` and `prm_l1`
(part_func_co.c, lines 643-806). -/
def bppm_ml_l (O : Externals α Ael Aml) (C : Constants) (vc : vrna_fold_compound_t α)
    (S1 : Int → Int) (turn l : Int) (st : BppmState α) : BppmState α :=
  let n := vc.length
  let sn := vc.strand_number
  let st0 : BppmState α := { st with prm_MLb := 0 }
  let st1 : BppmState α :=
    if l < n ∧ sn (l + 1) = sn l then
      (upto 2 (l - turn - 1)).foldl (bppm_ml_k O C vc S1 l) st0
    else
      { st0 with prm_l := (upto 0 n).foldl (fun a i => Function.update a i 0) st0.prm_l }
  { st1 with prm_l1 := st1.prm_l, prm_l := st1.prm_l1 }

/-- The accumulation into `Qrout[l]` for one pair `(k, t)` (part_func_co.c, lines 821-840). -/
def bppm_Qrout_kt (O : Externals α Ael Aml) (vc : vrna_fold_compound_t α) (S1 : Int → Int)
    (l : Int) (probs : Int → α) (t : Int) (Qrout : Int → α) (k : Int) : Int → α :=
  let sn := vc.strand_number
  let cp := vc.cutpoint
  let m := vc.exp_matrices
  let kt := vc.iindx k - t
  let samestrand : Bool := decide (sn (k + 1) = sn k)
  let type := ptype_or_7 (vc.exp_params.model_details.rtype (vc.ptype (vc.jindx t + k)))
  let temp := probs kt *
      O.exp_E_ExtLoop type (S1 (t - 1)) (if samestrand then S1 (k + 1) else -1) vc.exp_params *
    m.scale 2
  let temp1 := if l + 1 < t then temp * m.q (vc.iindx (l + 1) - (t - 1)) else temp
  let temp2 := if samestrand then temp1 * m.q (vc.iindx (k + 1) - (cp - 1)) else temp1
  Function.update Qrout l (Qrout l + temp2)

/-- The addition of `Qrout[l]` into `probs[k,l]` for `l > cp` (part_func_co.c, lines 846-862). -/
def bppm_Qrout_add (O : Externals α Ael Aml) (vc : vrna_fold_compound_t α) (S1 : Int → Int)
    (l : Int) (Qrout : Int → α) (probs : Int → α) (k : Int) : Int → α :=
  let n := vc.length
  let cp := vc.cutpoint
  let m := vc.exp_matrices
  if m.qb (vc.iindx k - l) ≠ 0 then
    let kl := vc.iindx k - l
    let type := ptype_or_7 (vc.ptype (vc.jindx l + k))
    let temp := Qrout l *
      O.exp_E_ExtLoop type (if k > cp then S1 (k - 1) else -1) (if l < n then S1 (l + 1) else -1)
        vc.exp_params
    let temp1 := if k > cp then temp * m.q (vc.iindx cp - (k - 1)) else temp
    Function.update probs kl (probs kl + temp1)
  else probs

/-- The accumulation into `Qlout[t]` for one triple `(t, s, k)`
(part_func_co.c, lines 869-888). -/
def bppm_Qlout_tsk (O : Externals α Ael Aml) (vc : vrna_fold_compound_t α) (S1 : Int → Int)
    (probs : Int → α) (t s : Int) (Qlout : Int → α) (k : Int) : Int → α :=
  let sn := vc.strand_number
  let cp := vc.cutpoint
  let m := vc.exp_matrices
  let sk := vc.iindx s - k
  if m.qb sk ≠ 0 then
    let samestrand : Bool := decide (sn k = sn (k - 1))
    let type := ptype_or_7 (vc.exp_params.model_details.rtype (vc.ptype (vc.jindx k + s)))
    let temp := probs sk *
        O.exp_E_ExtLoop type (if samestrand then S1 (k - 1) else -1) (S1 (s + 1)) vc.exp_params *
      m.scale 2
    let temp1 := if s + 1 < t then temp * m.q (vc.iindx (s + 1) - (t - 1)) else temp
    let temp2 := if samestrand then temp1 * m.q (vc.iindx cp - (k - 1)) else temp1
    Function.update Qlout t (Qlout t + temp2)
  else Qlout

/-- The addition of `Qlout[k]` into `probs[k,l]` for `l < cp` (part_func_co.c, lines 894-909). -/
def bppm_Qlout_add (O : Externals α Ael Aml) (vc : vrna_fold_compound_t α) (S1 : Int → Int)
    (l : Int) (Qlout : Int → α) (probs : Int → α) (k : Int) : Int → α :=
  let cp := vc.cutpoint
  let m := vc.exp_matrices
  if m.qb (vc.iindx k - l) ≠ 0 then
    let type := ptype_or_7 (vc.ptype (vc.jindx l + k))
    let temp := Qlout k *
      O.exp_E_ExtLoop type (if k > 1 then S1 (k - 1) else -1)
        (if l < cp - 1 then S1 (l + 1) else -1) vc.exp_params
    let temp1 := if l + 1 < cp then temp * m.q (vc.iindx (l + 1) - (cp - 1)) else temp
    Function.update probs (vc.iindx k - l) (probs (vc.iindx k - l) + temp1)
  else probs

/-- The dimer-crossing part of one iteration `l` of the outer sweep of `pf_co_bppm`,
"computation of .(..(...)..&..). type features" (part_func_co.c, lines 808-911). -/
def bppm_dimer_l (O : Externals α Ael Aml) (vc : vrna_fold_compound_t α) (S1 : Int → Int)
    (l : Int) (st : BppmState α) : BppmState α :=
  let n := vc.length
  let cp := vc.cutpoint
  if cp ≤ 0 then st
  else if l = n ∨ l ≤ 2 then st
  else if l > cp then
    let Qrout1 :=
      if l < n then
        (downto n (l + 1)).foldl
          (fun Q t => (upto 1 (cp - 1)).foldl (bppm_Qrout_kt O vc S1 l st.probs t) Q) st.Qrout
      else st.Qrout
    let probs1 := (downto (l - 1) cp).foldl (bppm_Qrout_add O vc S1 l Qrout1) st.probs
    { st with Qrout := Qrout1, probs := probs1 }
  else if l = cp then
    let Qlout1 := (upto 2 (cp - 1)).foldl
      (fun Q t => (upto 1 (t - 1)).foldl
        (fun Q1 s => (upto cp n).foldl (bppm_Qlout_tsk O vc S1 st.probs t s) Q1) Q) st.Qlout
    { st with Qlout := Qlout1 }
  else if l < cp then
    { st with probs := (upto 1 (l - 1)).foldl (bppm_Qlout_add O vc S1 l st.Qlout) st.probs }
  else st

/-- One iteration `l` of the outer sweep of `pf_co_bppm` (part_func_co.c, lines 569-912). -/
def bppm_l (O : Externals α Ael Aml) (C : Constants) (vc : vrna_fold_compound_t α)
    (S1 : Int → Int) (turn : Int) (st : BppmState α) (l : Int) : BppmState α :=
  let st1 : BppmState α :=
    { st with probs := (upto 1 (l - turn - 1)).foldl (bppm_int_k O C vc S1 l) st.probs }
  let st2 := bppm_ml_l O C vc S1 turn l st1
  bppm_dimer_l O vc S1 l st2

/-- The final multiplication `probs[ij] *= qb[ij]` for `i + turn < j`
(part_func_co.c, lines 915-919). -/
def bppm_final (vc : vrna_fold_compound_t α) (turn : Int) (probs : Int → α) : Int → α :=
  (upto 1 vc.length).foldl
    (fun p i => (upto (i + turn + 1) vc.length).foldl
      (fun p1 j => Function.update p1 (vc.iindx i - j)
        (p1 (vc.iindx i - j) * vc.exp_matrices.qb (vc.iindx i - j))) p)
    probs

/-- Step 1 of `pf_co_bppm`, "exterior pair i,j and initialization of pr array": the
array `probs` after the loop over `i` (part_func_co.c, lines 543-567). -/
def bppm_step1 (O : Externals α Ael Aml) (C : Constants) (vc : vrna_fold_compound_t α)
    (S1 : Int → Int) (turn : Int) : Int → α :=
  (upto 1 vc.length).foldl (bppm_ext_row O C vc S1 turn) vc.exp_matrices.probs

/-- The state of `pf_co_bppm` after step 1 and the outer sweep
`for (l = n; l > turn + 1; l--)`, before the final multiplication by `qb`
(part_func_co.c, lines 528-912); the rolling arrays and accumulators start zeroed. -/
def bppm_sweep (O : Externals α Ael Aml) (C : Constants) (vc : vrna_fold_compound_t α)
    (S1 : Int → Int) (turn : Int) : BppmState α :=
  (downto vc.length (turn + 2)).foldl (bppm_l O C vc S1 turn)
    { probs := bppm_step1 O C vc S1 turn
      prm_l := fun _ => 0
      prm_l1 := fun _ => 0
      prml := fun _ => 0
      Qrout := fun _ => 0
      Qlout := fun _ => 0
      prm_MLb := 0
      Qmax := 0
      ov := 0
      warnings := [] }

/-- The cells `(i, j)` with `1 ≤ i ≤ j ≤ n` of the array `probs` are all non-negative. -/
def TriNonneg (vc : vrna_fold_compound_t α) (probs : Int → α) : Prop :=
  ∀ i j : Int, 1 ≤ i → i ≤ j → j ≤ vc.length → 0 ≤ probs (vc.iindx i - j)

/-- The local state of `pf_co_bppm` is non-negative: the cells of the triangle of `probs`,
every entry of the rolling arrays and accumulators, and `prm_MLb`. -/
def BppmNonneg (vc : vrna_fold_compound_t α) (st : BppmState α) : Prop :=
  TriNonneg vc st.probs ∧ (∀ x, 0 ≤ st.prm_l x) ∧ (∀ x, 0 ≤ st.prm_l1 x) ∧
    (∀ x, 0 ≤ st.prml x) ∧ (∀ x, 0 ≤ st.Qrout x) ∧ (∀ x, 0 ≤ st.Qlout x) ∧ 0 ≤ st.prm_MLb

/-- The inputs of `pf_co_bppm` are non-negative: every entry of `q`, `qb`, `qm`, `scale`
and `expMLbase`, the factor `expMLclosing`, every value of the three energy functions and
the constant `FLT_MAX`; and there are no soft constraints. -/
def NonnegInputs (O : Externals α Ael Aml) (vc : vrna_fold_compound_t α) : Prop :=
  (∀ x, 0 ≤ vc.exp_matrices.q x) ∧ (∀ x, 0 ≤ vc.exp_matrices.qb x) ∧
    (∀ x, 0 ≤ vc.exp_matrices.qm x) ∧ (∀ x, 0 ≤ vc.exp_matrices.scale x) ∧
    (∀ x, 0 ≤ vc.exp_matrices.expMLbase x) ∧ 0 ≤ vc.exp_params.expMLclosing ∧
    (∀ t a b P, 0 ≤ O.exp_E_ExtLoop t a b P) ∧
    (∀ u1 u2 t t2 a b c d P, 0 ≤ O.exp_E_IntLoop u1 u2 t t2 a b c d P) ∧
    (∀ t a b P, 0 ≤ O.exp_E_MLstem t a b P) ∧ 0 ≤ O.FLT_MAX ∧ vc.sc = none

/-- What `pf_co_bppm` leaves behind: the fold compound with `probs`, `q1k`, `qln`
written, the dot-bracket string stored through `structure` (when the pointer is not
`NULL`), the overflow counter `ov` (a warning is printed when it is positive) and the
"P close to overflow" warnings. -/
structure BppmResult (α : Type) where
  vc : vrna_fold_compound_t α
  structure_buf : Option (List Char)
  ov : Nat
  warnings : List (Int × Int × α)

/-- The outside recursion `pf_co_bppm` (part_func_co.c, lines 459-938).  `turn` is
hard-coded to `0` as in the source; `structure_buf` is the argument `structure`, `none`
for a `NULL` pointer, and otherwise the previous content of the caller's buffer. -/
def pf_co_bppm (O : Externals α Ael Aml) (C : Constants) (vc : vrna_fold_compound_t α)
    (structure_buf : Option (List Char)) : BppmResult α :=
  let n := vc.length
  let turn : Int := 0
  match vc.sequence_encoding2, vc.sequence_encoding with
  | true, some S1 =>
    let vc1 := bppm_init_q1k_qln vc
    let st1 := bppm_sweep O C vc1 S1 turn
    let probs2 := bppm_final vc1 turn st1.probs
    let vc2 : vrna_fold_compound_t α :=
      { vc1 with exp_matrices := { vc1.exp_matrices with probs := probs2 } }
    { vc := vc2
      structure_buf :=
        match structure_buf with
        | some _ => some (O.db_from_probs probs2 n)
        | none => none
      ov := st1.ov
      warnings := st1.warnings }
  | _, _ => { vc := vc, structure_buf := structure_buf, ov := 0, warnings := [] }

end Outside

section Dimer

variable {α : Type} [LinearOrderedField α] {Ael Aml : Type}

/-- The C library function `strncmp` on strings given without their terminating NUL:
compares at most `k` characters and stops at the end of a string. -/
def strncmp : List Char → List Char → Nat → Int
  | _, _, 0 => 0
  | [], [], _ + 1 => 0
  | [], b :: _, _ + 1 => 0 - (b.toNat : Int)
  | a :: _, [], _ + 1 => (a.toNat : Int)
  | a :: as, b :: bs, k + 1 =>
    if a = b then (if a.toNat = 0 then 0 else strncmp as bs k)
    else (a.toNat : Int) - (b.toNat : Int)

/-- The result `vrna_dimer_pf_t` of `vrna_pf_dimer`. -/
structure vrna_dimer_pf_t (α : Type) where
  F0AB : α
  FAB : α
  FcAB : α
  FA : α
  FB : α

/-- The value `Q` selected by the backtrack type (part_func_co.c, lines 156-161). -/
def dimer_Q (vc : vrna_fold_compound_t α) : α :=
  let n := vc.length
  let matrices := vc.exp_matrices
  if vc.exp_params.model_details.backtrack_type = 'C' then matrices.qb (vc.iindx 1 - n)
  else if vc.exp_params.model_details.backtrack_type = 'M' then matrices.qm (vc.iindx 1 - n)
  else matrices.q (vc.iindx 1 - n)

/-- The value `free_energy` (part_func_co.c, line 167). -/
def dimer_free_energy (log : α → α) (vc : vrna_fold_compound_t α) : α :=
  (-log (dimer_Q vc) - (vc.length : α) * log vc.exp_params.pf_scale) * vc.exp_params.kT / 1000

/-- The value of `QAB` before the correction for symmetry (part_func_co.c, lines 180-182). -/
def dimer_QAB_raw (vc : vrna_fold_compound_t α) : α :=
  let n := vc.length
  let matrices := vc.exp_matrices
  (matrices.q (vc.iindx 1 - n) -
      matrices.q (vc.iindx 1 - (vc.cutpoint - 1)) * matrices.q (vc.iindx vc.cutpoint - n)) *
    vc.exp_params.expDuplexInit

/-- The test of the correction for symmetry (part_func_co.c, lines 184-185):
`sequence + vc->cutpoint - 1` is the string from the 0-based index `cutpoint - 1` on. -/
def dimer_symmetric (vc : vrna_fold_compound_t α) : Bool :=
  decide (vc.length - (vc.cutpoint - 1) * 2 = 0) &&
    decide (strncmp vc.sequence (vc.sequence.drop (vc.cutpoint - 1).toNat)
      (vc.cutpoint - 1).toNat = 0)

/-- The value of `QAB` after the correction for symmetry (part_func_co.c, lines 180-186). -/
def dimer_QAB (vc : vrna_fold_compound_t α) : α :=
  if dimer_symmetric vc = true then dimer_QAB_raw vc / 2 else dimer_QAB_raw vc

/-- The computation of the result `X` of `vrna_pf_dimer` from the filled matrices
(part_func_co.c, lines 156-204). -/
def dimer_summary (log : α → α) (vc : vrna_fold_compound_t α) : vrna_dimer_pf_t α :=
  let params := vc.exp_params
  let n := vc.length
  let matrices := vc.exp_matrices
  let free_energy := dimer_free_energy log vc
  if vc.cutpoint > 0 then
    let kT := params.kT / 1000
    let Qzero := matrices.q (vc.iindx 1 - n)
    let QAB := dimer_QAB vc
    let QToT := matrices.q (vc.iindx 1 - (vc.cutpoint - 1)) *
      matrices.q (vc.iindx vc.cutpoint - n) + QAB
    { FAB := -kT * (log QToT + (n : α) * log params.pf_scale)
      F0AB := -kT * (log Qzero + (n : α) * log params.pf_scale)
      FcAB := if QAB > 1 / 10 ^ 17 then -kT * (log QAB + (n : α) * log params.pf_scale) else 999
      FA := -kT * (log (matrices.q (vc.iindx 1 - (vc.cutpoint - 1))) +
        ((vc.cutpoint - 1 : Int) : α) * log params.pf_scale)
      FB := -kT * (log (matrices.q (vc.iindx vc.cutpoint - n)) +
        ((n - vc.cutpoint + 1 : Int) : α) * log params.pf_scale) }
  else
    { FA := free_energy
      FB := free_energy
      FAB := free_energy
      F0AB := free_energy
      FcAB := 0 }

/-- What a call of `vrna_pf_dimer` produces: the returned `X`, the fold compound and the
caller's `structure` buffer after the call, and the diagnostics of the two passes. -/
structure DimerRun (α : Type) where
  X : vrna_dimer_pf_t α
  vc : vrna_fold_compound_t α
  structure_buf : Option (List Char)
  prepared : Bool
  pf_warnings : List (Int × Int × α)
  bppm_ov : Nat
  bppm_warnings : List (Int × Int × α)

/-- The function `vrna_pf_dimer` (part_func_co.c, lines 108-238).  The user status
callback `stat_cb` and the messages on `stderr` other than those of the two passes are
not modelled.  The result is an error when `pf_co` leaves the program with its overflow
error. -/
def vrna_pf_dimer (O : Externals α Ael Aml) (C : Constants) (vc : vrna_fold_compound_t α)
    (structure_buf : Option (List Char)) : Except (PfCoAbort α Ael Aml) (DimerRun α) :=
  match O.fold_compound_prepare vc with
  | (false, vc0) =>
    Except.ok
      { X := { FA := 0, FB := 0, FAB := 0, F0AB := 0, FcAB := 0 }
        vc := vc0
        structure_buf := structure_buf
        prepared := false
        pf_warnings := []
        bppm_ov := 0
        bppm_warnings := [] }
  | (true, vc0) =>
    match pf_co O vc0 with
    | Except.error e => Except.error e
    | Except.ok st =>
      let X := dimer_summary O.log st.vc
      if st.vc.exp_params.model_details.compute_bpp = true then
        let r := pf_co_bppm O C st.vc structure_buf
        Except.ok
          { X := X
            vc := r.vc
            structure_buf := r.structure_buf
            prepared := true
            pf_warnings := st.warnings
            bppm_ov := r.ov
            bppm_warnings := r.warnings }
      else
        Except.ok
          { X := X
            vc := st.vc
            structure_buf := structure_buf
            prepared := true
            pf_warnings := st.warnings
            bppm_ov := 0
            bppm_warnings := [] }

end Dimer

section Examples

variable (α : Type) [LinearOrderedField α]

/-- A concrete set of collaborators used to run the model on examples: every loop
energy function is a constant (hairpin weight `1`, no interior or multibranch
contribution, exterior value `2`, stem weights `1`), the auxiliary arrays are trivial,
`max_real` is `1000`, `MAXLOOP` is `30`, and preparing the fold compound succeeds
without changing it. -/
def exampleExternals (log exp : α → α) : Externals α Unit Unit :=
  { log := log
    exp := exp
    max_real := 1000
    FLT_MAX := 1000
    MAXLOOP := 30
    fold_compound_prepare := fun vc => (true, vc)
    exp_E_ext_fast_init := fun _ => ()
    exp_E_ml_fast_init := fun _ => ()
    exp_E_hp_loop := fun _ _ _ => 1
    exp_E_int_loop := fun _ _ _ => 0
    exp_E_mb_loop_fast := fun _ _ _ _ => 0
    exp_E_ml_fast := fun _ _ _ _ => (0, ())
    exp_E_ext_fast := fun _ _ _ _ => (2, ())
    exp_E_ext_fast_rotate := fun _ _ => ()
    exp_E_ml_fast_rotate := fun _ _ => ()
    aux_qqm := fun _ _ => 0
    aux_qqm1 := fun _ _ => 0
    exp_E_ExtLoop := fun _ _ _ _ => 1
    exp_E_IntLoop := fun _ _ _ _ _ _ _ _ _ => 1
    exp_E_MLstem := fun _ _ _ _ => 1
    db_from_probs := fun _ _ => [] }

/-- A concrete fold compound used to run the model on examples: the given sequence,
cut point, backtrack type and hard-constraint matrix, `iindx` as in `iindx`,
`jindx[j] = j(j-1)/2`, `kT = 1000`, `pf_scale = 1`, `expDuplexInit = 1`, all matrices
zero and no soft constraints. -/
def exampleFoldCompound (sequence : List Char) (cutpoint : Int) (backtrack_type : Char)
    (hc_matrix : Int → Nat) : vrna_fold_compound_t α :=
  { length := sequence.length
    cutpoint := cutpoint
    sequence := sequence
    sequence_encoding2 := true
    sequence_encoding := some (fun _ => 1)
    strand_number := fun i => if cutpoint > 0 ∧ i ≥ cutpoint then 1 else 0
    ptype := fun _ => 1
    iindx := fun i => iindx sequence.length i
    jindx := fun j => Int.tdiv (j * (j - 1)) 2
    exp_params :=
      { kT := 1000
        pf_scale := 1
        expDuplexInit := 1
        expMLclosing := 1
        model_details :=
          { backtrack_type := backtrack_type
            compute_bpp := false
            min_loop_size := 0
            rtype := fun t => t } }
    hc :=
      { matrix := hc_matrix
        up_ext := fun _ => 0
        up_hp := fun _ => 0
        up_int := fun _ => 0
        up_ml := fun _ => 0 }
    sc := none
    exp_matrices :=
      { q := fun _ => 0
        qb := fun _ => 0
        qm := fun _ => 0
        qm1 := none
        probs := fun _ => 0
        q1k := fun _ => 0
        qln := fun _ => 0
        scale := fun _ => 1
        expMLbase := fun _ => 1 } }

/-- The collaborators of `exampleExternals`, except that preparing the fold compound
fails (and leaves it as it is). -/
def exampleExternalsUnprepared (log exp : α → α) : Externals α Unit Unit :=
  { exampleExternals α log exp with fold_compound_prepare := fun vc => (false, vc) }

/-- The collaborators of `exampleExternals`, except that the exterior value computed for
the cell `(i, j)` is `200 + 10 * j - i`: above `max_real / 10 = 100`, below
`max_real = 1000` for short sequences, and larger for every cell than for the cells
computed before it. -/
def exampleExternalsRising (log exp : α → α) : Externals α Unit Unit :=
  { exampleExternals α log exp with
    exp_E_ext_fast := fun _ i j _ => (((200 + 10 * j - i : Int) : α), ()) }

/-- A concrete fold compound used to run the outside recursion on examples: the fold
compound of `exampleFoldCompound` with every pair allowed in every context (byte `63`),
with `q = 1` everywhere and with the given `qb`. -/
def exampleOutsideCompound (sequence : List Char) (cutpoint : Int) (qb : Int → α) :
    vrna_fold_compound_t α :=
  { exampleFoldCompound α sequence cutpoint 'F' (fun _ => 63) with
    exp_matrices :=
      { q := fun _ => 1
        qb := qb
        qm := fun _ => 0
        qm1 := none
        probs := fun _ => 0
        q1k := fun _ => 0
        qln := fun _ => 0
        scale := fun _ => 1
        expMLbase := fun _ => 1 } }

/-- The values of the context masks and decomposition codes used to run the model on
examples: the six contexts of spec section 4.2 as the bits `1, 2, 4, 8, 16, 32` (the
hairpin context `2` is not used by `pf_co_bppm`). -/
def exampleConstants : Constants :=
  { CONTEXT_EXT_LOOP := 1
    CONTEXT_INT_LOOP := 4
    CONTEXT_INT_LOOP_ENC := 8
    CONTEXT_MB_LOOP := 16
    CONTEXT_MB_LOOP_ENC := 32
    DECOMP_EXT_STEM_OUTSIDE := 19
    DECOMP_PAIR_IL := 2 }

end Examples

/-- The cells in the order in which the two nested loops of `pf_co` visit them,
`for (j = turn + 2; j <= n; j++) for (i = j - turn - 1; i >= 1; i--)` with `turn = 0`
(part_func_co.c, lines 411-413): column by column, and `i` descending in a column. -/
def pf_co_order (n : Int) : List (Int × Int) :=
  (upto (0 + 2) n).flatMap (fun j => (downto (j - 0 - 1) 1).map (fun i => (i, j)))

section Wrapper

/-- The element `s[i]` of a C string given by its characters: the characters, then the
terminating NUL (an index outside the string also gives NUL). -/
def cstr_get (s : List Char) (i : Int) : Char :=
  if 0 ≤ i then s.getD i.toNat (Char.ofNat 0) else Char.ofNat 0

/-- The C string held by a buffer of `size` bytes: the characters before the first NUL. -/
def cstr_of_buf (buf : Int → Char) (size : Int) : List Char :=
  ((upto 0 (size - 1)).map buf).takeWhile (fun c => decide (c ≠ Char.ofNat 0))

/-- The string `seq` that `wrap_co_pf_fold` builds from `sequence` and the global
`cut_point` and hands to `vrna_fold_compound` (part_func_co.c, lines 1207-1222).  The
buffer of `length + 2` bytes comes zeroed from `vrna_alloc`; after the first loop `i` is
`cut_point - 1`, or `0` when the loop did not run. -/
def wrap_co_pf_fold_seq (sequence : List Char) (cut_point : Int) : List Char :=
  let length : Int := sequence.length
  let seq0 : Int → Char := fun _ => Char.ofNat 0
  if cut_point > -1 then
    let seq1 := (upto 0 (cut_point - 1 - 1)).foldl
      (fun s i => Function.update s i (cstr_get sequence i)) seq0
    let i1 := max 0 (cut_point - 1)
    let seq2 := Function.update seq1 i1 '&'
    let seq3 := (upto i1 (length - 1)).foldl
      (fun s i => Function.update s (i + 1) (cstr_get sequence i)) seq2
    cstr_of_buf seq3 (length + 2)
  else sequence

end Wrapper

section Msa

/-- The function `strcmp` of `<string.h>` on two C strings given by their characters
(without the terminating NUL): `0` when they agree, and otherwise the difference of the
first two bytes that differ, the end of a string counting as the byte `0`. -/
def strcmp : List Char → List Char → Int
  | [], [] => 0
  | [], b :: _ => 0 - (b.toNat : Int)
  | a :: _, [] => (a.toNat : Int)
  | a :: as, b :: bs =>
    if a = b then (if a.toNat = 0 then 0 else strcmp as bs)
    else (a.toNat : Int) - (b.toNat : Int)

/-- The value `(int)strlen(s)`: the length of the string converted to a 32-bit `int`
(a length that does not fit wraps around). -/
def strlen_int (s : List Char) : Int :=
  ((s.length : Int) + 2 ^ 31) % 2 ^ 32 - 2 ^ 31

/-- The warnings that the functions of `file_formats_msa.c` modelled here can print. -/
inductive MsaWarning where
  | cannot_open
  | no_file_pointer
  | format_unknown
  | no_format_selected
  | several_formats
  | seek_failed
  | sanity_check_failed
  | ids_not_unique
  | lengths_differ
  deriving DecidableEq

/-- The function `check_alignment` (file_formats_msa.c, lines 720-746): the value `pass`
that it returns and the warnings that it prints.  `names[i]` and `aln[i]` are the
strings of the two arrays. -/
def check_alignment (names aln : Int → List Char) (seq_num : Int) : Int × List MsaWarning :=
  let s1 := (upto 0 (seq_num - 1)).foldl
    (fun s i => (upto (i + 1) (seq_num - 1)).foldl
      (fun (s1 : Int × List MsaWarning) j =>
        if strcmp (names i) (names j) = 0 then (0, s1.2 ++ [MsaWarning.ids_not_unique])
        else s1) s)
    ((1 : Int), ([] : List MsaWarning))
  let l := strlen_int (aln 0)
  (upto 1 (seq_num - 1)).foldl
    (fun (s : Int × List MsaWarning) i =>
      if strlen_int (aln i) ≠ l then (0, s.2 ++ [MsaWarning.lengths_differ]) else s) s1

/-- The objects that the four out-parameters `names`, `aln`, `id`, `structure` point to:
`none` is `NULL`, an array of strings is given by its entries before the terminating
`NULL` entry. -/
structure MsaRecord where
  names : Option (List (List Char))
  aln : Option (List (List Char))
  id : Option (List Char)
  structure_str : Option (List Char)
  deriving DecidableEq

/-- Which of the four pointer arguments `names`, `aln`, `id`, `structure` are not
`NULL`. -/
structure MsaArgs where
  names : Bool
  aln : Bool
  id : Bool
  structure_str : Bool
  deriving DecidableEq

/-- The option bits `VRNA_FILE_FORMAT_MSA_*` that the two reading functions test; they
are macros of a header that is not among the sources. -/
structure MsaConstants where
  FORMAT_STOCKHOLM : Nat
  FORMAT_CLUSTAL : Nat
  FORMAT_FASTA : Nat
  FORMAT_DEFAULT : Nat
  NOCHECK : Nat

/-- The collaborators of the two reading functions: `fopen(filename, "r")` (`none` when
it fails), `fseek(fp, fp_position, SEEK_SET)` back to the position where the file was
opened (`none` when it fails), and the three entries of the table `known_parsers`, each
called with the stream, the pointer arguments, the objects they point to and the
verbosity, and returning its count, the objects it leaves and the stream. -/
structure MsaExternals (Stream Filename : Type) where
  fopen : Filename → Option Stream
  fseek : Stream → Option Stream
  parse : Nat → Stream → MsaArgs → MsaRecord → Int → Int × MsaRecord × Stream

/-- The test `options & code` of an option bit. -/
def msa_option_set (options code : Nat) : Bool :=
  Nat.land options code != 0

/-- The field `code` of the entry `known_parsers[i]` (file_formats_msa.c, lines 92-97). -/
def msa_known_code (K : MsaConstants) (i : Nat) : Nat :=
  match i with
  | 0 => K.FORMAT_STOCKHOLM
  | 1 => K.FORMAT_CLUSTAL
  | _ => K.FORMAT_FASTA

/-- The string `(*names)[i]` of a record (the empty string when there is none). -/
def msa_names (mem : MsaRecord) (i : Int) : List Char :=
  (mem.names.getD []).getD i.toNat []

/-- The string `(*aln)[i]` of a record (the empty string when there is none). -/
def msa_aln (mem : MsaRecord) (i : Int) : List Char :=
  (mem.aln.getD []).getD i.toNat []

/-- The function `free_msa_record` (file_formats_msa.c, lines 615-651), as far as the
pointers are concerned: `*id` and `*structure` are set to `NULL` when `id` and
`structure` are given, `*names` and `*aln` when they are given and not `NULL`. -/
def free_msa_record (args : MsaArgs) (mem : MsaRecord) : MsaRecord :=
  { names := if args.names = true ∧ mem.names.isSome = true then none else mem.names
    aln := if args.aln = true ∧ mem.aln.isSome = true then none else mem.aln
    id := if args.id = true then none else mem.id
    structure_str := if args.structure_str = true then none else mem.structure_str }

/-- The assignments `*names = NULL; *aln = NULL; if (id) *id = NULL;
if (structure) *structure = NULL;` at the start of the two reading functions. -/
def msa_reset (args : MsaArgs) (mem : MsaRecord) : MsaRecord :=
  { names := none
    aln := none
    id := if args.id = true then none else mem.id
    structure_str := if args.structure_str = true then none else mem.structure_str }

/-- The common end of the two reading functions (file_formats_msa.c, lines 208-219 and
278-289): unless `VRNA_FILE_FORMAT_MSA_NOCHECK` is set, a positive count is checked with
`check_alignment`, and on failure the data are freed and the count becomes `0`. -/
def msa_checked (K : MsaConstants) (args : MsaArgs) (options : Nat) (seq_num : Int)
    (mem : MsaRecord) (w : List MsaWarning) : Int × MsaRecord × List MsaWarning :=
  if seq_num > 0 ∧ msa_option_set options K.NOCHECK = false then
    let c := check_alignment (msa_names mem) (msa_aln mem) seq_num
    if c.1 = 0 then
      (0, free_msa_record args mem, w ++ c.2 ++ [MsaWarning.sanity_check_failed])
    else (seq_num, mem, w ++ c.2)
  else (seq_num, mem, w)

/-- The entries of `known_parsers` selected by `options`, in the order of the table. -/
def msa_select (K : MsaConstants) (options : Nat) : List Nat :=
  (List.range 3).filter (fun i => msa_option_set options (msa_known_code K i))

variable {Stream Filename : Type}

/-- The function `vrna_file_msa_read_record` (file_formats_msa.c, lines 226-293): the
value returned, the objects behind the four pointers after the call, and the warnings.
The first selected entry of `known_parsers` is used. -/
def vrna_file_msa_read_record (K : MsaConstants) (P : MsaExternals Stream Filename)
    (fp : Option Stream) (args : MsaArgs) (mem : MsaRecord) (options : Nat) :
    Int × MsaRecord × List MsaWarning :=
  match fp with
  | none => (0, mem, [MsaWarning.no_file_pointer])
  | some s =>
    if args.names = true ∧ args.aln = true then
      let mem1 := msa_reset args mem
      match msa_select K options with
      | [] => (0, mem1, [MsaWarning.no_format_selected])
      | i :: rest =>
        let w := if rest ≠ [] then [MsaWarning.several_formats] else []
        let pr := P.parse i s args mem1 0
        msa_checked K args options pr.1 pr.2.1 w
    else (0, mem, [])

/-- The loop over `known_parsers` of `vrna_file_msa_read` (file_formats_msa.c,
lines 190-203) for the listed entries: the last count `r`, the objects left, the stream
and the warnings.  The loop is left at the first count that is positive. -/
def msa_try_formats (K : MsaConstants) (P : MsaExternals Stream Filename) (options : Nat)
    (args : MsaArgs) :
    List Nat → Int → MsaRecord → Stream → List MsaWarning →
      Int × MsaRecord × Stream × List MsaWarning
  | [], r, mem, fp, w => (r, mem, fp, w)
  | i :: is, r, mem, fp, w =>
    if msa_option_set options (msa_known_code K i) = true then
      match P.fseek fp with
      | some fp1 =>
        let pr := P.parse i fp1 args mem 0
        if pr.1 > 0 then (pr.1, pr.2.1, pr.2.2, w)
        else msa_try_formats K P options args is pr.1 pr.2.1 pr.2.2 w
      | none => msa_try_formats K P options args is r mem fp (w ++ [MsaWarning.seek_failed])
    else msa_try_formats K P options args is r mem fp w

/-- The function `vrna_file_msa_read` (file_formats_msa.c, lines 152-223): the value
returned, the objects behind the four pointers after the call, and the warnings. -/
def vrna_file_msa_read (K : MsaConstants) (P : MsaExternals Stream Filename)
    (filename : Filename) (args : MsaArgs) (mem : MsaRecord) (options : Nat) :
    Int × MsaRecord × List MsaWarning :=
  match P.fopen filename with
  | none => (0, mem, [MsaWarning.cannot_open])
  | some fp =>
    if args.names = true ∧ args.aln = true then
      let mem1 := msa_reset args mem
      let options1 := if options = 0 then K.FORMAT_DEFAULT else options
      let t := msa_try_formats K P options1 args [0, 1, 2] (-1) mem1 fp []
      if t.1 = -1 then (0, t.2.1, t.2.2.2 ++ [MsaWarning.format_unknown])
      else msa_checked K args options1 t.1 t.2.1 t.2.2.2
    else (0, mem, [])

end Msa

section MsaExamples

/-- Values of the option bits used to run the model on examples. -/
def exampleMsaConstants : MsaConstants :=
  { FORMAT_STOCKHOLM := 2
    FORMAT_CLUSTAL := 1
    FORMAT_FASTA := 4
    FORMAT_DEFAULT := 7
    NOCHECK := 4096 }

/-- Collaborators used to run the model on examples: every file opens, every `fseek`
succeeds, and every format reads the same two sequences `GC` and `GC`, both named `a`,
without id and structure. -/
def exampleMsaExternals : MsaExternals Unit Unit :=
  { fopen := fun _ => some ()
    fseek := fun _ => some ()
    parse := fun _ _ _ _ _ =>
      (2, { names := some [['a'], ['a']], aln := some [['G', 'C'], ['G', 'C']],
            id := none, structure_str := none }, ()) }

end MsaExamples

section DimerQuotients

variable {α : Type} [LinearOrderedField α]

/-- The value `pAB` computed by `vrna_pf_dimer_probs` (part_func_co.c, lines 259 and
265): `mykT = exp_params->kT / 1000.; pAB = 1. - exp((1 / mykT) * (FAB - FA - FB));`. -/
def dimer_probs_pAB (exp : α → α) (FAB FA FB kT : α) : α :=
  let mykT := kT / 1000
  1 - exp ((1 / mykT) * (FAB - FA - FB))

/-- The value `KAB` computed by `vrna_pf_dimer_concentrations` (part_func_co.c,
lines 323-330): `kT = exp_params->kT / 1000.; KAB = exp((FEA + FEB - FcAB) / kT);`. -/
def dimer_conc_KAB (exp : α → α) (FcAB FEA FEB kT : α) : α :=
  let kT1 := kT / 1000
  exp ((FEA + FEB - FcAB) / kT1)

end DimerQuotients

section OutsideInterior

variable {α : Type} [LinearOrderedField α] {Ael Aml : Type}

/-- Whether the innermost body of step 2 of `pf_co_bppm` reaches the statement
`probs[kl] += tmp2` for the enclosing pair `(i, j)`: the three tests on the hard
constraint of `(i, j)`, on the strands and on `probs[ij] > 0`
(part_func_co.c, lines 590-593). -/
def bppm_int_adds (C : Constants) (vc : vrna_fold_compound_t α) (l k i : Int)
    (probs : Int → α) (j : Int) : Bool :=
  hc_allows (vc.hc.matrix (vc.jindx j + i)) C.CONTEXT_INT_LOOP &&
    decide (vc.strand_number k = vc.strand_number i ∧
      vc.strand_number j = vc.strand_number l) &&
    decide (probs (vc.iindx i - j) > 0)

/-- The value `tmp2` of the enclosing pair `(i, j)` for the pair `(k, l)` before the
soft-constraint factors (part_func_co.c, lines 597-607).  `type_2` is the reversed type
of `(k, l)`, already replaced by `7` when `0`. -/
def bppm_int_tmp2 (O : Externals α Ael Aml) (vc : vrna_fold_compound_t α) (S1 : Int → Int)
    (l k type_2 : Int) (probs : Int → α) (i j : Int) : α :=
  let u1 := k - i - 1
  let u2 := j - l - 1
  let type := ptype_or_7 (vc.ptype (vc.jindx j + i))
  probs (vc.iindx i - j) * vc.exp_matrices.scale (u1 + u2 + 2) *
    O.exp_E_IntLoop u1 u2 type type_2 (S1 (i + 1)) (S1 (j - 1)) (S1 (k - 1)) (S1 (l + 1))
      vc.exp_params

/-- The body of the loop over `k` of step 2 of `pf_co_bppm` (part_func_co.c,
lines 571-641) as in `bppm_int_k`, together with the list of the enclosing pairs
`(i, j)` for which the statement `probs[kl] += tmp2` was executed, in the order of
execution. -/
def bppm_int_k_pairs (O : Externals α Ael Aml) (C : Constants) (vc : vrna_fold_compound_t α)
    (S1 : Int → Int) (l : Int) (probs : Int → α) (k : Int) : (Int → α) × List (Int × Int) :=
  let n := vc.length
  let kl := vc.iindx k - l
  let type_2 := vc.exp_params.model_details.rtype (vc.ptype (vc.jindx l + k))
  if vc.exp_matrices.qb kl = 0 then (probs, [])
  else if hc_allows (vc.hc.matrix (vc.jindx l + k)) C.CONTEXT_INT_LOOP_ENC = true then
    (upto (max 1 (k - O.MAXLOOP - 1)) (k - 1)).foldl
      (fun s i =>
        let u1 := k - i - 1
        if vc.hc.up_int (i + 1) < u1 then s
        else
          ((upto (l + 1) (min (l + O.MAXLOOP - k + i + 2) n)).takeWhile
              (fun j => decide (¬ vc.hc.up_int (l + 1) < j - l - 1))).foldl
            (fun s1 j =>
              (bppm_int_ij O C vc S1 l k (ptype_or_7 type_2) i s1.1 j,
                if bppm_int_adds C vc l k i s1.1 j = true then s1.2 ++ [(i, j)] else s1.2))
            s)
      (probs, [])
  else (probs, [])

/-- The enclosing pairs `(i, j)` that the two loops over `i` and `j` of step 2 of
`pf_co_bppm` visit for the pair `(k, l)` (part_func_co.c, lines 583-591) and that pass
the three tests of `bppm_int_adds` on the given array, in the order of the loops. -/
def bppm_int_visited (O : Externals α Ael Aml) (C : Constants) (vc : vrna_fold_compound_t α)
    (l : Int) (probs : Int → α) (k : Int) : List (Int × Int) :=
  (upto (max 1 (k - O.MAXLOOP - 1)) (k - 1)).flatMap
    (fun i =>
      if vc.hc.up_int (i + 1) < k - i - 1 then []
      else
        (((upto (l + 1) (min (l + O.MAXLOOP - k + i + 2) vc.length)).takeWhile
            (fun j => decide (¬ vc.hc.up_int (l + 1) < j - l - 1))).filter
          (bppm_int_adds C vc l k i probs)).map (fun j => (i, j)))

end OutsideInterior

section InteriorExamples

/-- A fold compound used to run the interior-loop step on an example: the fold compound
of `exampleOutsideCompound` with `qb = 1` everywhere, except that up to `100` unpaired
bases are allowed in every loop context at every position. -/
def exampleLoopCompound (α : Type) [LinearOrderedField α] (sequence : List Char) :
    vrna_fold_compound_t α :=
  { exampleOutsideCompound α sequence (-1) (fun _ => 1) with
    hc :=
      { matrix := fun _ => 63
        up_ext := fun _ => 100
        up_hp := fun _ => 100
        up_int := fun _ => 100
        up_ml := fun _ => 100 } }

end InteriorExamples

section MsaParsers

/-- The test `isspace(c)` of `<ctype.h>` in the "C" locale: the space and the characters
`\t`, `\n`, `\v`, `\f`, `\r`. -/
def isspace (c : Char) : Bool :=
  c.toNat = 32 || (9 ≤ c.toNat && c.toNat ≤ 13)

/-- The call `sscanf(line, "%s %s", a, b)` of `<stdio.h>`: the number it returns (`-1` is
`EOF`) and the two strings `a` and `b`; a conversion `%s` skips white space and takes the
characters up to the next white space or the end of the string. -/
def sscanf_s_s (line : List Char) : Int × List Char × List Char :=
  let l1 := line.dropWhile isspace
  let a := l1.takeWhile (fun c => !isspace c)
  let l2 := (l1.dropWhile (fun c => !isspace c)).dropWhile isspace
  let b := l2.takeWhile (fun c => !isspace c)
  if a = [] then (-1, [], [])
  else if b = [] then (1, a, [])
  else (2, a, b)

/-- The calls `sscanf(line, "#=GF ID %s", *id)` and `sscanf(line, "#=GC SS_cons %s",
*structure)` for a line that starts with the `k` characters before the conversion: the
string converted, `none` when the call does not return `1`. -/
def sscanf_after (k : Nat) (line : List Char) : Option (List Char) :=
  let a := ((line.drop k).dropWhile isspace).takeWhile (fun c => !isspace c)
  if a = [] then none else some a

/-- The test `strstr(hay, needle) != NULL` of `<string.h>`. -/
def strstr_found (hay needle : List Char) : Bool :=
  hay.tails.any (fun t => needle.isPrefixOf t)

/-- The string `"STOCKHOLM 1.0"`. -/
def str_STOCKHOLM : List Char :=
  ['S', 'T', 'O', 'C', 'K', 'H', 'O', 'L', 'M', ' ', '1', '.', '0']

/-- The string `"CLUSTAL"`. -/
def str_CLUSTAL : List Char :=
  ['C', 'L', 'U', 'S', 'T', 'A', 'L']

/-- The helper `vrna_seq_toupper` of the package, which is not among the sources: the
string it leaves in place of its argument. -/
structure MsaHelpers where
  seq_toupper : List Char → List Char

/-- The function `endmarker_msa_record` (file_formats_msa.c, lines 702-717): for
`seq_num > 0` both arrays are resized to `seq_num + 1` entries and entry `seq_num` is set to
`NULL`, so the entries before the terminating `NULL` are the first `seq_num` ones. -/
def endmarker_msa_record (mem : MsaRecord) (seq_num : Int) : MsaRecord :=
  if seq_num > 0 then
    { mem with
      names := some ((mem.names.getD []).take seq_num.toNat)
      aln := some ((mem.aln.getD []).take seq_num.toNat) }
  else mem

/-- The statements that store the entry `i` of `*names` and `*aln` after
`vrna_realloc(*names, sizeof(char *) * (i + 1))` (file_formats_msa.c, lines 433-441 and
579-582): the first `i` entries are kept and entry `i` is set. -/
def msa_store (mem : MsaRecord) (i : Int) (name seq : List Char) : MsaRecord :=
  { mem with
    names := some ((mem.names.getD []).take i.toNat ++ [name])
    aln := some ((mem.aln.getD []).take i.toNat ++ [seq]) }

/-- The loop `while((line=get_line(fp)))` of `parse_stockholm_alignment` inside a record
(file_formats_msa.c, lines 340-450), over the lines that `get_line` (not among the
sources) delivers, each without its newline: the value of `seq_num` when the loop is left,
the objects behind the four pointers, and the lines not yet read.  Messages are not
modelled. -/
def stockholm_record (args : MsaArgs) :
    List (List Char) → Int → Int → MsaRecord → Int × MsaRecord × List (List Char)
  | [], seq_num, _, mem => (seq_num, mem, [])
  | line :: rest, seq_num, seq_length, mem =>
    if strncmp line ['/', '/'] 2 = 0 then (seq_num, mem, rest)
    else
      match line with
      | [] => stockholm_record args rest seq_num seq_length mem
      | c :: _ =>
        if c = ' ' then stockholm_record args rest seq_num seq_length mem
        else if c = '#' then
          if strstr_found line str_STOCKHOLM = true then
            stockholm_record args rest 0 seq_length (free_msa_record args mem)
          else if strncmp line ['#', '=', 'G', 'F'] 4 = 0 then
            if args.id = true ∧ strncmp line ['#', '=', 'G', 'F', ' ', 'I', 'D'] 7 = 0 then
              stockholm_record args rest seq_num seq_length
                { mem with id := sscanf_after 7 line }
            else stockholm_record args rest seq_num seq_length mem
          else if strncmp line ['#', '=', 'G', 'C'] 4 = 0 then
            if args.structure_str = true ∧
                strncmp line ['#', '=', 'G', 'C', ' ', 'S', 'S', '_', 'c', 'o', 'n', 's'] 12 = 0
            then
              stockholm_record args rest seq_num seq_length
                { mem with structure_str := sscanf_after 12 line }
            else stockholm_record args rest seq_num seq_length mem
          else stockholm_record args rest seq_num seq_length mem
        else
          let sc := sscanf_s_s line
          if sc.1 = 2 then
            let seq_num1 := seq_num + 1
            let tmp_l := strlen_int sc.2.2
            if seq_num1 = 1 then
              stockholm_record args rest seq_num1 tmp_l (msa_store mem (seq_num1 - 1) sc.2.1 sc.2.2)
            else if seq_length ≠ tmp_l then (0, free_msa_record args mem, rest)
            else
              stockholm_record args rest seq_num1 seq_length
                (msa_store mem (seq_num1 - 1) sc.2.1 sc.2.2)
          else stockholm_record args rest seq_num seq_length mem

/-- The function `parse_stockholm_alignment` (file_formats_msa.c, lines 296-464): the
value returned, the objects behind the four pointers, and the lines not yet read.  `fp`
is `none` for a `NULL` file pointer and otherwise the lines that `get_line` delivers. -/
def parse_stockholm_alignment (fp : Option (List (List Char))) (args : MsaArgs)
    (mem : MsaRecord) (_verbosity : Int) : Int × MsaRecord × List (List Char) :=
  match fp with
  | none => (0, mem, [])
  | some lines =>
    if args.names = true ∧ args.aln = true then
      let mem1 := msa_reset args mem
      match lines.dropWhile (fun line => !strstr_found line str_STOCKHOLM) with
      | [] => (0, endmarker_msa_record mem1 0, [])
      | _ :: body =>
        let r := stockholm_record args body 0 0 mem1
        (r.1, endmarker_msa_record r.2.1 r.1, r.2.2)
    else (0, mem, lines)

/-- The entry `parse_aln_stockholm` of `known_parsers` (file_formats_msa.c,
lines 654-663). -/
def parse_aln_stockholm (fp : List (List Char)) (args : MsaArgs) (mem : MsaRecord)
    (verbosity : Int) : Int × MsaRecord × List (List Char) :=
  parse_stockholm_alignment (some fp) args mem verbosity

/-- The loop `while (line!=NULL)` of `parse_clustal_alignment` (file_formats_msa.c,
lines 546-604), over the lines that `get_line` delivers: the value returned by the
function when it is left inside the loop (`some 0`, inconsistent names) or `none` when the
loop ends, the value of `seq_num`, the objects behind the pointers, and the lines not yet
read. -/
def clustal_lines (H : MsaHelpers) :
    List (List Char) → Int → Int → MsaRecord → Option Int × Int × MsaRecord × List (List Char)
  | [], _, seq_num, mem => (none, seq_num, mem, [])
  | line :: rest, nn, seq_num, mem =>
    let n := strlen_int line
    if n < 4 ∨ isspace (line.headD (Char.ofNat 0)) = true then
      clustal_lines H rest 0 seq_num mem
    else if line.headD (Char.ofNat 0) = '#' then clustal_lines H rest nn seq_num mem
    else
      let sc := sscanf_s_s line
      if sc.1 = 2 then
        let seq := H.seq_toupper (sc.2.2.map (fun c => if c = '.' then '-' else c))
        if nn = seq_num then
          clustal_lines H rest (nn + 1) (if nn + 1 > seq_num then nn + 1 else seq_num)
            (msa_store mem nn sc.2.1 seq)
        else if strcmp sc.2.1 (msa_names mem nn) ≠ 0 then (some 0, seq_num, mem, rest)
        else
          clustal_lines H rest (nn + 1) (if nn + 1 > seq_num then nn + 1 else seq_num)
            { mem with aln := some ((mem.aln.getD []).set nn.toNat (msa_aln mem nn ++ seq)) }
      else clustal_lines H rest nn seq_num mem

/-- The function `parse_clustal_alignment` (file_formats_msa.c, lines 520-612): the value
returned, the objects behind the pointers, and the lines not yet read. -/
def parse_clustal_alignment (H : MsaHelpers) (clust : List (List Char)) (mem : MsaRecord)
    (_verbosity : Int) : Int × MsaRecord × List (List Char) :=
  match clust with
  | [] => (0, mem, [])
  | line :: rest =>
    if strncmp line str_CLUSTAL 7 ≠ 0 then (0, mem, rest)
    else
      let r := clustal_lines H rest 0 0 mem
      match r.1 with
      | some v => (v, r.2.2.1, r.2.2.2)
      | none => (r.2.1, endmarker_msa_record r.2.2.1 r.2.1, r.2.2.2)

/-- The entry `parse_aln_clustal` of `known_parsers` (file_formats_msa.c,
lines 666-681). -/
def parse_aln_clustal (H : MsaHelpers) (fp : List (List Char)) (args : MsaArgs)
    (mem : MsaRecord) (verbosity : Int) : Int × MsaRecord × List (List Char) :=
  let mem1 : MsaRecord :=
    { mem with
      id := if args.id = true then none else mem.id
      structure_str := if args.structure_str = true then none else mem.structure_str }
  parse_clustal_alignment H fp mem1 verbosity

/-- The collaborators of the two reading functions with the Stockholm and the Clustal
reader of this file as the first two entries of `known_parsers`; the FASTA reader, which
relies on `vrna_file_fasta_read_record`, stays a parameter, as do `fopen` and `fseek`.
The stream is the list of the lines still to be read. -/
def msaFileParsers {Filename : Type} (H : MsaHelpers)
    (fasta : List (List Char) → MsaArgs → MsaRecord → Int → Int × MsaRecord × List (List Char))
    (fopen : Filename → Option (List (List Char)))
    (fseek : List (List Char) → Option (List (List Char))) :
    MsaExternals (List (List Char)) Filename :=
  { fopen := fopen
    fseek := fseek
    parse := fun i s args mem verbosity =>
      match i with
      | 0 => parse_aln_stockholm s args mem verbosity
      | 1 => parse_aln_clustal H s args mem verbosity
      | _ => fasta s args mem verbosity }

/-- A sequence line of a Stockholm record in the words of the claim: a line that starts
neither with `#` nor with a space (and is not empty) and has the two fields
`name sequence`; the value is the pair of the two fields. -/
def stockholm_seq_line (line : List Char) : Option (List Char × List Char) :=
  match line with
  | [] => none
  | c :: _ =>
    if c = ' ' ∨ c = '#' then none
    else if (sscanf_s_s line).1 = 2 then some ((sscanf_s_s line).2.1, (sscanf_s_s line).2.2)
    else none

end MsaParsers

section MsaParserExamples

/-- A model of `vrna_seq_toupper` used to run the readers on examples: every character
is replaced by `Char.toUpper`. -/
def exampleMsaHelpers : MsaHelpers :=
  { seq_toupper := fun s => s.map Char.toUpper }

/-- The collaborators used to run the reading functions on examples: the readers of this
file, a FASTA reader that reads nothing, and a stream that is given as the file name. -/
def exampleMsaFileParsers : MsaExternals (List (List Char)) (List (List Char)) :=
  msaFileParsers exampleMsaHelpers (fun s _ mem _ => (0, mem, s)) (fun f => some f)
    (fun s => some s)

end MsaParserExamples

section ClustalSpec

/-- A line that separates two blocks of a Clustal file in the words of the claim: a line
shorter than 4 characters (a blank line among them) or a line that starts with white
space. -/
def clustal_is_separator (line : List Char) : Bool :=
  decide (strlen_int line < 4) || isspace (line.headD (Char.ofNat 0))

/-- A sequence line `name segment` of a Clustal file in the words of the claim: a line
that is neither a separator nor a line starting with `#` and has two fields; the value is
the pair of the two fields. -/
def clustal_seq_line (line : List Char) : Option (List Char × List Char) :=
  if clustal_is_separator line = true then none
  else if line.headD (Char.ofNat 0) = '#' then none
  else if (sscanf_s_s line).1 = 2 then some ((sscanf_s_s line).2.1, (sscanf_s_s line).2.2)
  else none

/-- The run of sequence lines collected so far as a block, when it is not empty. -/
def clustal_flush (cur : List (List Char × List Char)) :
    List (List (List Char × List Char)) :=
  match cur with
  | [] => []
  | _ :: _ => [cur]

/-- The run of sequence lines collected so far, extended by a line when it is a sequence
line. -/
def clustal_extend (cur : List (List Char × List Char)) (line : List Char) :
    List (List Char × List Char) :=
  cur ++ (clustal_seq_line line).toList

/-- The blocks of a Clustal file in the words of the claim: the maximal runs of sequence
lines between separator lines, each as the list of its pairs `(name, segment)`; lines
starting with `#` are ignored.  The second argument is the run collected so far. -/
def clustal_blocks :
    List (List Char) → List (List Char × List Char) → List (List (List Char × List Char))
  | [], cur => clustal_flush cur
  | line :: rest, cur =>
    if clustal_is_separator line = true then clustal_flush cur ++ clustal_blocks rest []
    else clustal_blocks rest (clustal_extend cur line)

/-- The conversion of a segment in `parse_clustal_alignment` (file_formats_msa.c,
lines 570-576): every `.` is replaced by `-` and the result is passed to
`vrna_seq_toupper`. -/
def clustal_conv (H : MsaHelpers) (seg : List Char) : List Char :=
  H.seq_toupper (seg.map (fun c => if c = '.' then '-' else c))

/-- The aligned sequence `k` in the words of the claim: the concatenation, in block
order, of the converted `k`-th segments of the blocks. -/
def clustal_concat (H : MsaHelpers) (blocks : List (List (List Char))) (k : Nat) : List Char :=
  (blocks.map (fun b => clustal_conv H (b.getD k []))).flatten

/-- The aligned sequence `k` after the complete blocks `done` and the first lines `cp` of
the next block: the concatenation of the converted segments of the complete blocks,
followed by the converted segment of line `k` of the next block when that line is among
the lines read. -/
def clustal_progress (H : MsaHelpers) (done : List (List (List Char)))
    (cp : List (List Char × List Char)) (k : Nat) : List Char :=
  clustal_concat H done k ++
    (if k < cp.length then clustal_conv H (cp.getD k ([], [])).2 else [])

end ClustalSpec

section DimerProbsRescaled

variable {α : Type} [LinearOrderedField α]

/-- The walk of `lp2` in one iteration of the loop of `vrna_pf_dimer_probs`, for the
entry `e` of `prAB` (part_func_co.c, lines 276-291): the monomer probability `pp` that is
found (`0` when there is no hit), the position of `lp2` and the `offset` after the
iteration. -/
def dimer_probs_walk (prB : List (vrna_ep_t α)) (Alength : Int) (e : vrna_ep_t α)
    (lp2 : List (vrna_ep_t α)) (offset : Int) : α × List (vrna_ep_t α) × Int :=
  let lp2a := skip_i offset e.i lp2
  let lp2b := if offset + (ep_deref lp2a).i = e.i then skip_j offset e.j lp2a else lp2a
  let lp2c := if (ep_deref lp2b).j = 0 then prB else lp2b
  let offset1 := if (ep_deref lp2b).j = 0 then Alength else offset
  let hit : Bool :=
    decide (offset1 + (ep_deref lp2c).i = e.i ∧ offset1 + (ep_deref lp2c).j = e.j)
  (if hit then (ep_deref lp2c).p else 0, if hit then lp2c.tail else lp2c, offset1)

/-- The rescaled values `(lp1->p - (1 - pAB) * pp) / pAB` that the loop of
`vrna_pf_dimer_probs` computes at line 293, in order, one for each entry of `prAB`
before the terminating one, for the current positions `lp1`, `lp2` and the current
`offset`. -/
def dimer_probs_rescaled (pAB : α) (prB : List (vrna_ep_t α)) (Alength : Int) :
    List (vrna_ep_t α) → List (vrna_ep_t α) → Int → List α
  | [], _, _ => []
  | e :: rest, lp2, offset =>
    if e.j > 0 then
      (e.p - (1 - pAB) * (dimer_probs_walk prB Alength e lp2 offset).1) / pAB ::
        dimer_probs_rescaled pAB prB Alength rest
          (dimer_probs_walk prB Alength e lp2 offset).2.1
          (dimer_probs_walk prB Alength e lp2 offset).2.2
    else []

end DimerProbsRescaled

section ForwardStores

variable {α : Type} [LinearOrderedField α] {Ael Aml : Type}

end ForwardStores

/-! ## Theorems -/

section NewtonTheorems

variable {α : Type} [LinearOrderedField α]

theorem newton_det_eq_comment (KAB KAA KBB cA cB : α) :
    newton_det KAB KAA KBB cA cB = newton_det_comment KAB KAA KBB cA cB := by
  unfold newton_det newton_det_comment
  ring

theorem newton_det_ge_one {KAB KAA KBB cA cB : α} (hAB : 0 ≤ KAB) (hAA : 0 ≤ KAA)
    (hBB : 0 ≤ KBB) (hA : 0 ≤ cA) (hB : 0 ≤ cB) : 1 ≤ newton_det KAB KAA KBB cA cB := by
  unfold newton_det
  have h1 : 0 ≤ 16 * KAA * KBB * cA * cB := by positivity
  have h2 : 0 ≤ KAB * (cA + cB) := by positivity
  have h3 : 0 ≤ 4 * KAA * cA := by positivity
  have h4 : 0 ≤ 4 * KBB * cB := by positivity
  have h5 : 0 ≤ 4 * KAB * (KBB * cB * cB + KAA * cA * cA) := by positivity
  linarith

theorem newton_xn_mul_det (KAB KAA KBB concA concB cA cB : α)
    (hdet : newton_det KAB KAA KBB cA cB ≠ 0) :
    newton_xn KAB KAA KBB concA concB cA cB * newton_det KAB KAA KBB cA cB =
      newton_f2 KAB KBB concB cA cB * (KAB * cA) -
        newton_f1 KAB KAA concA cA cB * (4 * KBB * cB + KAB * cA + 1) := by
  unfold newton_xn
  rw [div_mul_cancel₀ _ hdet]
  unfold newton_f1 newton_f2
  ring

theorem newton_yn_mul_det (KAB KAA KBB concA concB cA cB : α)
    (hdet : newton_det KAB KAA KBB cA cB ≠ 0) :
    newton_yn KAB KAA KBB concA concB cA cB * newton_det KAB KAA KBB cA cB =
      newton_f1 KAB KAA concA cA cB * (KAB * cB) -
        newton_f2 KAB KBB concB cA cB * (4 * KAA * cA + KAB * cB + 1) := by
  unfold newton_yn
  rw [div_mul_cancel₀ _ hdet]
  unfold newton_f1 newton_f2
  ring

/-- When `det` is not zero, the code's step solves the linearised system
`J * (xn, yn) = -(f1, f2)`. -/
theorem newton_step_solves (KAB KAA KBB concA concB cA cB : α)
    (hdet : newton_det KAB KAA KBB cA cB ≠ 0) :
    (4 * KAA * cA + KAB * cB + 1) * newton_xn KAB KAA KBB concA concB cA cB +
        (KAB * cA) * newton_yn KAB KAA KBB concA concB cA cB =
          -newton_f1 KAB KAA concA cA cB ∧
      (KAB * cB) * newton_xn KAB KAA KBB concA concB cA cB +
        (4 * KBB * cB + KAB * cA + 1) * newton_yn KAB KAA KBB concA concB cA cB =
          -newton_f2 KAB KBB concB cA cB := by
  have hx := newton_xn_mul_det KAB KAA KBB concA concB cA cB hdet
  have hy := newton_yn_mul_det KAB KAA KBB concA concB cA cB hdet
  have hd := newton_det_eq_comment KAB KAA KBB cA cB
  unfold newton_det_comment at hd
  set X := newton_xn KAB KAA KBB concA concB cA cB
  set Y := newton_yn KAB KAA KBB concA concB cA cB
  set D := newton_det KAB KAA KBB cA cB
  set F1 := newton_f1 KAB KAA concA cA cB
  set F2 := newton_f2 KAB KBB concB cA cB
  constructor
  · apply mul_right_cancel₀ hdet
    calc ((4 * KAA * cA + KAB * cB + 1) * X + KAB * cA * Y) * D
        = (4 * KAA * cA + KAB * cB + 1) * (X * D) + KAB * cA * (Y * D) := by ring
      _ = -F1 * ((4 * KAA * cA + KAB * cB + 1) * (4 * KBB * cB + KAB * cA + 1) -
            KAB * cB * (KAB * cA)) := by rw [hx, hy]; ring
      _ = -F1 * D := by rw [hd]
  · apply mul_right_cancel₀ hdet
    calc (KAB * cB * X + (4 * KBB * cB + KAB * cA + 1) * Y) * D
        = KAB * cB * (X * D) + (4 * KBB * cB + KAB * cA + 1) * (Y * D) := by ring
      _ = -F2 * ((4 * KAA * cA + KAB * cB + 1) * (4 * KBB * cB + KAB * cA + 1) -
            KAB * cB * (KAB * cA)) := by rw [hx, hy]; ring
      _ = -F2 * D := by rw [hd]

/-- C5: for non-negative equilibrium constants and a non-negative iterate, the step
`(xn, yn)` that `Newton_Conc` computes at `(cA, cB)` is `(0, 0)` exactly when the two
mass-balance equations hold at `(cA, cB)`; hence the vector built from such a fixed
point (in particular the one `Newton_Conc` returns when its last iterate is a fixed
point) satisfies `Ac + 2*AAc + ABc = concA` and `Bc + 2*BBc + ABc = concB`. -/
theorem C5_newton_fixed_point_iff_mass_balance (KAB KAA KBB concA concB cA cB : α)
    (hAB : 0 ≤ KAB) (hAA : 0 ≤ KAA) (hBB : 0 ≤ KBB) (hA : 0 ≤ cA) (hB : 0 ≤ cB) :
    ((newton_xn KAB KAA KBB concA concB cA cB = 0 ∧
        newton_yn KAB KAA KBB concA concB cA cB = 0) ↔
      (cA + 2 * KAA * cA ^ 2 + KAB * cA * cB = concA ∧
        cB + 2 * KBB * cB ^ 2 + KAB * cA * cB = concB)) ∧
    ((newton_xn KAB KAA KBB concA concB cA cB = 0 ∧
        newton_yn KAB KAA KBB concA concB cA cB = 0) →
      (mkConcVec KAB KAA KBB cA cB).v3 + 2 * (mkConcVec KAB KAA KBB cA cB).v1 +
          (mkConcVec KAB KAA KBB cA cB).v0 = concA ∧
        (mkConcVec KAB KAA KBB cA cB).v4 + 2 * (mkConcVec KAB KAA KBB cA cB).v2 +
          (mkConcVec KAB KAA KBB cA cB).v0 = concB) ∧
    (cA = (Newton_run KAB KAA KBB concA concB).cA →
      cB = (Newton_run KAB KAA KBB concA concB).cB →
      newton_xn KAB KAA KBB concA concB cA cB = 0 →
      newton_yn KAB KAA KBB concA concB cA cB = 0 →
      (Newton_Conc KAB KAA KBB concA concB).v3 + 2 * (Newton_Conc KAB KAA KBB concA concB).v1 +
          (Newton_Conc KAB KAA KBB concA concB).v0 = concA ∧
        (Newton_Conc KAB KAA KBB concA concB).v4 + 2 * (Newton_Conc KAB KAA KBB concA concB).v2 +
          (Newton_Conc KAB KAA KBB concA concB).v0 = concB) := by
  have hdet1 := newton_det_ge_one hAB hAA hBB hA hB
  have hdet : newton_det KAB KAA KBB cA cB ≠ 0 := by
    intro h0
    rw [h0] at hdet1
    exact absurd hdet1 (by norm_num)
  have hiff : (newton_xn KAB KAA KBB concA concB cA cB = 0 ∧
        newton_yn KAB KAA KBB concA concB cA cB = 0) ↔
      (cA + 2 * KAA * cA ^ 2 + KAB * cA * cB = concA ∧
        cB + 2 * KBB * cB ^ 2 + KAB * cA * cB = concB) := by
    constructor
    · rintro ⟨hx, hy⟩
      obtain ⟨h1, h2⟩ := newton_step_solves KAB KAA KBB concA concB cA cB hdet
      rw [hx, hy] at h1 h2
      unfold newton_f1 at h1
      unfold newton_f2 at h2
      constructor
      · linarith
      · linarith
    · rintro ⟨h1, h2⟩
      have hf1 : newton_f1 KAB KAA concA cA cB = 0 := by unfold newton_f1; linarith
      have hf2 : newton_f2 KAB KBB concB cA cB = 0 := by unfold newton_f2; linarith
      have hx := newton_xn_mul_det KAB KAA KBB concA concB cA cB hdet
      have hy := newton_yn_mul_det KAB KAA KBB concA concB cA cB hdet
      rw [hf1, hf2] at hx hy
      simp only [zero_mul, sub_zero] at hx hy
      exact ⟨(mul_eq_zero.mp hx).resolve_right hdet, (mul_eq_zero.mp hy).resolve_right hdet⟩
  have hvec : (newton_xn KAB KAA KBB concA concB cA cB = 0 ∧
        newton_yn KAB KAA KBB concA concB cA cB = 0) →
      (mkConcVec KAB KAA KBB cA cB).v3 + 2 * (mkConcVec KAB KAA KBB cA cB).v1 +
          (mkConcVec KAB KAA KBB cA cB).v0 = concA ∧
        (mkConcVec KAB KAA KBB cA cB).v4 + 2 * (mkConcVec KAB KAA KBB cA cB).v2 +
          (mkConcVec KAB KAA KBB cA cB).v0 = concB := by
    intro hstep
    obtain ⟨h1, h2⟩ := hiff.mp hstep
    simp only [mkConcVec]
    constructor
    · rw [← h1]; ring
    · rw [← h2]; ring
  refine ⟨hiff, hvec, ?_⟩
  intro hcA hcB hx hy
  have hv := hvec ⟨hx, hy⟩
  unfold Newton_Conc
  simp only []
  rw [← hcA, ← hcB]
  exact hv

/-- C5 witness: with `KAB = 1`, `KAA = KBB = 0` and totals `(2, 2)` the point `(1, 1)`
satisfies the mass balance, so the step computed there is `(0, 0)`. -/
theorem C5_newton_fixed_point_witness :
    (0 : ℚ) ≤ 1 ∧ (0 : ℚ) ≤ 0 ∧
      newton_xn (1 : ℚ) 0 0 2 2 1 1 = 0 ∧ newton_yn (1 : ℚ) 0 0 2 2 1 1 = 0 :=
  ⟨by norm_num, le_refl 0,
    (C5_newton_fixed_point_iff_mass_balance (1 : ℚ) 0 0 2 2 1 1 (by norm_num) (le_refl 0)
      (le_refl 0) (by norm_num) (by norm_num)).1.mpr ⟨by norm_num, by norm_num⟩⟩

/-- C6: in every iteration of `Newton_Conc` the value `det` is the Jacobian determinant
of `(f1, f2)`; whenever `det` is not zero the computed step `(xn, yn)` is the solution
of `J * (xn, yn) = -(f1, f2)` (it solves the system, and every solution equals it); and
the simplified expressions of the code equal the un-simplified formulas kept in its
comments. -/
theorem C6_newton_step_is_exact (KAB KAA KBB concA concB cA cB : α) :
    newton_det KAB KAA KBB cA cB =
        (4 * KAA * cA + KAB * cB + 1) * (4 * KBB * cB + KAB * cA + 1) -
          (KAB * cB) * (KAB * cA) ∧
    newton_det KAB KAA KBB cA cB = newton_det_comment KAB KAA KBB cA cB ∧
    newton_xn KAB KAA KBB concA concB cA cB = newton_xn_comment KAB KAA KBB concA concB cA cB ∧
    newton_yn KAB KAA KBB concA concB cA cB = newton_yn_comment KAB KAA KBB concA concB cA cB ∧
    (newton_det KAB KAA KBB cA cB ≠ 0 →
      (4 * KAA * cA + KAB * cB + 1) * newton_xn KAB KAA KBB concA concB cA cB +
          (KAB * cA) * newton_yn KAB KAA KBB concA concB cA cB =
            -(2 * KAA * cA ^ 2 + KAB * cA * cB + cA - concA) ∧
        (KAB * cB) * newton_xn KAB KAA KBB concA concB cA cB +
          (4 * KBB * cB + KAB * cA + 1) * newton_yn KAB KAA KBB concA concB cA cB =
            -(2 * KBB * cB ^ 2 + KAB * cA * cB + cB - concB) ∧
        ∀ x y : α,
          (4 * KAA * cA + KAB * cB + 1) * x + (KAB * cA) * y =
              -(2 * KAA * cA ^ 2 + KAB * cA * cB + cA - concA) →
          (KAB * cB) * x + (4 * KBB * cB + KAB * cA + 1) * y =
              -(2 * KBB * cB ^ 2 + KAB * cA * cB + cB - concB) →
          x = newton_xn KAB KAA KBB concA concB cA cB ∧
            y = newton_yn KAB KAA KBB concA concB cA cB) := by
  refine ⟨?_, newton_det_eq_comment KAB KAA KBB cA cB, ?_, ?_, ?_⟩
  · unfold newton_det
    ring
  · unfold newton_xn newton_xn_comment
    rw [newton_det_eq_comment]
    congr 1
    ring
  · unfold newton_yn newton_yn_comment
    rw [newton_det_eq_comment]
    congr 1
    ring
  · intro hdet
    have h := newton_step_solves KAB KAA KBB concA concB cA cB hdet
    unfold newton_f1 newton_f2 at h
    refine ⟨h.1, h.2, ?_⟩
    intro x y h1 h2
    have hx := newton_xn_mul_det KAB KAA KBB concA concB cA cB hdet
    have hy := newton_yn_mul_det KAB KAA KBB concA concB cA cB hdet
    have hd := newton_det_eq_comment KAB KAA KBB cA cB
    unfold newton_det_comment at hd
    unfold newton_f1 newton_f2 at hx hy
    constructor
    · apply mul_right_cancel₀ hdet
      rw [hx, hd]
      linear_combination (4 * KBB * cB + KAB * cA + 1) * h1 - (KAB * cA) * h2
    · apply mul_right_cancel₀ hdet
      rw [hy, hd]
      linear_combination (4 * KAA * cA + KAB * cB + 1) * h2 - (KAB * cB) * h1

/-- C6 witness: at `KAB = 1`, `KAA = KBB = 0`, totals `(1, 1)` and iterate `(1, 1)` the
determinant is `3`, not zero, and the step solves the linearised system. -/
theorem C6_newton_step_witness :
    newton_det (1 : ℚ) 0 0 1 1 ≠ 0 ∧
      (4 * 0 * 1 + 1 * 1 + 1) * newton_xn (1 : ℚ) 0 0 1 1 1 1 +
          (1 * 1) * newton_yn (1 : ℚ) 0 0 1 1 1 1 =
        -(2 * 0 * 1 ^ 2 + 1 * 1 * 1 + 1 - 1) :=
  ⟨by norm_num [newton_det],
    ((C6_newton_step_is_exact (1 : ℚ) 0 0 1 1 1 1).2.2.2.2
      (by norm_num [newton_det])).1⟩

end NewtonTheorems

section IndexTheorems

theorem two_mul_iindx (n i : Int) (hi : i ≤ n) :
    2 * (iindx n i - n - 1) = (n + 1 - i) * (n - i) := by
  unfold iindx
  have hnn : 0 ≤ (n + 1 - i) * (n - i) := by
    apply mul_nonneg <;> omega
  rw [Int.tdiv_eq_ediv hnn (by norm_num)]
  have hev : Even ((n + 1 - i) * (n - i)) := by
    have h := Int.even_mul_succ_self (n - i)
    have e : (n + 1 - i) * (n - i) = (n - i) * (n - i + 1) := by ring
    rw [e]
    exact h
  have h2 := Int.two_mul_ediv_two_of_even hev
  linarith

/-- Row `i` of the packing starts strictly above every later row. -/
theorem pack_lt_of_row_lt (n i j i' j' : Int) (hij : i ≤ j) (hj : j ≤ n)
    (hj' : j' ≤ n) (hlt : i < i') (hij' : i' ≤ j') :
    pack n i' j' < pack n i j := by
  have h1 := two_mul_iindx n i (by omega)
  have h2 := two_mul_iindx n i' (by omega)
  have hp : 0 ≤ (i' - i - 1) * (n - i + (n - i') + 2) := by
    apply mul_nonneg <;> omega
  unfold pack
  nlinarith

theorem pack_injective (n i j i' j' : Int) (_ : 1 ≤ i) (hij : i ≤ j) (hj : j ≤ n)
    (_ : 1 ≤ i') (hij' : i' ≤ j') (hj' : j' ≤ n) (h : pack n i j = pack n i' j') :
    i = i' ∧ j = j' := by
  rcases lt_trichotomy i i' with hlt | heq | hgt
  · have := pack_lt_of_row_lt n i j i' j' hij hj hj' hlt hij'
    omega
  · subst heq
    unfold pack at h
    exact ⟨rfl, by omega⟩
  · have := pack_lt_of_row_lt n i' j' i j hij' hj' hj hgt hij
    omega

/-- C9: for every `n ≥ 1`, with `iindx[i] = ((n+1-i)(n-i))/2 + n + 1`, the offset
`iindx[i] - j` is injective on the pairs `1 ≤ i ≤ j ≤ n` and lies in
`[1, n(n+1)/2]`, hence inside a buffer of length `n(n+1)/2 + n + 1`. -/
theorem C9_pack_injective_and_bounded (n : Int) (hn : 1 ≤ n) :
    (∀ i j : Int, 1 ≤ i → i ≤ j → j ≤ n →
      1 ≤ iindx n i - j ∧ iindx n i - j ≤ n * (n + 1) / 2 ∧
        0 ≤ iindx n i - j ∧ iindx n i - j < n * (n + 1) / 2 + n + 1) ∧
    (∀ i j i' j' : Int, 1 ≤ i → i ≤ j → j ≤ n → 1 ≤ i' → i' ≤ j' → j' ≤ n →
      iindx n i - j = iindx n i' - j' → i = i' ∧ j = j') := by
  constructor
  · intro i j hi hij hj
    have h1 := two_mul_iindx n i (by omega)
    have hev : Even (n * (n + 1)) := Int.even_mul_succ_self n
    have h2 := Int.two_mul_ediv_two_of_even hev
    have hlow : 0 ≤ (n + 1 - i) * (n - i) := by
      apply mul_nonneg <;> omega
    have hup : 0 ≤ (i - 1) * (n - i + n) := by
      apply mul_nonneg <;> omega
    have hA : 1 ≤ iindx n i - j := by nlinarith
    have hB : iindx n i - j ≤ n * (n + 1) / 2 := by nlinarith
    refine ⟨hA, hB, by omega, by omega⟩
  · intro i j i' j' hi hij hj hi' hij' hj' h
    exact pack_injective n i j i' j' hi hij hj hi' hij' hj' h

/-- C9 witness: for `n = 4` the cell `(2, 3)` has offset `5`, inside `[1, 10]`. -/
theorem C9_pack_witness :
    (1 : Int) ≤ 4 ∧ 1 ≤ iindx 4 2 - 3 ∧ iindx 4 2 - 3 ≤ 4 * (4 + 1) / 2 :=
  ⟨by decide,
    ((C9_pack_injective_and_bounded 4 (by decide)).1 2 3 (by decide) (by decide)
      (by decide)).1,
    ((C9_pack_injective_and_bounded 4 (by decide)).1 2 3 (by decide) (by decide)
      (by decide)).2.1⟩

end IndexTheorems

section DimerProbsTheorems

/-- C7 (evaluation at a failing input): with `pAB = 1/2`, `Alength = 6`,
`prA = (1,5,1/4), (2,4,1/2)`, empty `prB` and `prAB = (1,7,1/2), (2,4,3/4)`, all sorted
and zero-terminated, the code leaves `3/2` in the entry `(2, 4)` of `prAB`, while
`max(0, (p - (1 - pAB) * pmon(2,4)) / pAB)` is `1`: the inner loop over `j` has run
past the entry `(2, 4)` of `prA` while handling `(1, 7)`. -/
theorem C7_dimer_probs_misses_monomer_entry :
    vrna_pf_dimer_probs Real.exp (-Real.log 2) 0 0
        [⟨1, 7, 1 / 2⟩, ⟨2, 4, 3 / 4⟩, ⟨0, 0, 0⟩]
        [⟨1, 5, 1 / 4⟩, ⟨2, 4, 1 / 2⟩, ⟨0, 0, 0⟩] [⟨0, 0, 0⟩] 6 1000 =
      ([⟨1, 7, 1⟩, ⟨2, 4, 3 / 2⟩, ⟨0, 0, 0⟩], 0) ∧
    rescale_spec (1 / 2 : ℝ) [⟨1, 5, 1 / 4⟩, ⟨2, 4, 1 / 2⟩, ⟨0, 0, 0⟩] [⟨0, 0, 0⟩] 6
        ⟨2, 4, 3 / 4⟩ = 1 := by
  constructor
  · have hexp : Real.exp (-Real.log 2) = 1 / 2 := by
      rw [Real.exp_neg, Real.exp_log (by norm_num)]
      norm_num
    simp only [vrna_pf_dimer_probs]
    norm_num [hexp, dimer_probs_loop, skip_i, skip_j, ep_deref]
  · norm_num [rescale_spec, pmon_spec, List.find?]

end DimerProbsTheorems

section ConcentrationsTheorems

variable {α : Type} [LinearOrderedField α]

/-- The loop writes one entry per pair up to the first `(0, 0)` pair. -/
theorem dimer_conc_loop_spec (KAB KAA KBB : α) :
    ∀ (m : Nat) (s : List α) (k0 cap : Nat),
      2 * m + 1 < s.length →
      s.getD (2 * m) 0 = 0 → s.getD (2 * m + 1) 0 = 0 →
      (∀ k, k < m → s.getD (2 * k) 0 ≠ 0 ∨ s.getD (2 * k + 1) 0 ≠ 0) →
      (dimer_conc_loop KAB KAA KBB s k0 cap).1.length = m ∧
        ∀ k, k < m → (dimer_conc_loop KAB KAA KBB s k0 cap).1[k]? =
          some (conc_entry KAB KAA KBB (s.getD (2 * k) 0) (s.getD (2 * k + 1) 0)) := by
  intro m
  induction m with
  | zero =>
    intro s k0 cap hlen h0 h1 _
    match s, hlen with
    | a :: b :: rest, _ =>
      simp only [List.getD_cons_zero, Nat.mul_zero, Nat.zero_add, List.getD_cons_succ] at h0 h1
      subst h0
      subst h1
      simp [dimer_conc_loop]
  | succ m ih =>
    intro s k0 cap hlen h0 h1 hne
    match s, hlen with
    | a :: b :: rest, hlen =>
      have hab : a ≠ 0 ∨ b ≠ 0 := by
        have := hne 0 (Nat.succ_pos m)
        simpa using this
      have e0 : 2 * (m + 1) = (2 * m) + 1 + 1 := by ring
      have e1 : 2 * (m + 1) + 1 = (2 * m + 1) + 1 + 1 := by ring
      rw [e0] at h0
      rw [e1] at h1
      simp only [List.getD_cons_succ] at h0 h1
      have hlen' : 2 * m + 1 < rest.length := by
        simp only [List.length_cons] at hlen
        omega
      have hne' : ∀ k, k < m → rest.getD (2 * k) 0 ≠ 0 ∨ rest.getD (2 * k + 1) 0 ≠ 0 := by
        intro k hk
        have := hne (k + 1) (Nat.succ_lt_succ hk)
        have e2 : 2 * (k + 1) = (2 * k) + 1 + 1 := by ring
        have e3 : 2 * (k + 1) + 1 = (2 * k + 1) + 1 + 1 := by ring
        rw [e3, e2] at this
        simpa only [List.getD_cons_succ] using this
      obtain ⟨ihlen, ihget⟩ := ih rest (k0 + 1)
        (if (2 * k0 + 2) / 2 % 20 = 0 then (2 * k0 + 2) / 2 + 20 else cap) hlen' h0 h1 hne'
      have hstep : (dimer_conc_loop KAB KAA KBB (a :: b :: rest) k0 cap).1 =
          conc_entry KAB KAA KBB a b ::
            (dimer_conc_loop KAB KAA KBB rest (k0 + 1)
              (if (2 * k0 + 2) / 2 % 20 = 0 then (2 * k0 + 2) / 2 + 20 else cap)).1 := by
        rw [dimer_conc_loop]
        simp only [if_pos hab]
      rw [hstep]
      refine ⟨by rw [List.length_cons, ihlen], ?_⟩
      intro k hk
      cases k with
      | zero => simp
      | succ k =>
        have e2 : 2 * (k + 1) = (2 * k) + 1 + 1 := by ring
        have e3 : 2 * (k + 1) + 1 = (2 * k + 1) + 1 + 1 := by ring
        rw [e3, e2]
        simp only [List.getD_cons_succ, List.getElem?_cons_succ]
        exact ihget k (Nat.lt_of_succ_lt_succ hk)

/-- A start pair whose first component is `0`: the first step is `xn = 0`, the quotient
`xn / cA` is `0 / 0`, `EPS` is NaN and the test `EPS > TOL` fails, so the loop of
`Newton_Conc` is left after one iteration with `cA = 0` and `cB = concB + yn`. -/
theorem Newton_run_zero_first (KAB KAA KBB b : α) (hd : newton_det KAB KAA KBB 0 b ≠ 0) :
    Newton_run KAB KAA KBB 0 b =
      ⟨0, b + newton_yn KAB KAA KBB 0 b 0 b, 1, false, false⟩ := by
  have hx : newton_xn KAB KAA KBB 0 b 0 b = 0 := by
    simp [newton_xn]
  have he : newton_EPS_gt_TOL (0 : α) (newton_yn KAB KAA KBB 0 b 0 b) 0 b = false := by
    unfold newton_EPS_gt_TOL
    rw [if_pos (Or.inl ⟨rfl, rfl⟩)]
  unfold Newton_run
  rw [Newton_loop]
  simp only [hx, add_zero, zero_add, if_neg hd, he]
  rw [if_neg (by norm_num)]
  rw [if_neg (by decide)]

/-- C8: for a `startconc` list whose first pair equal to `(0, 0)` is pair number `m`
(pairs before it may have one zero component), `vrna_pf_dimer_concentrations` writes
exactly the entries `0 .. m-1`; entry `k` has `Ac_start = startconc[2k]`,
`Bc_start = startconc[2k+1]`, and, when no iteration of `Newton_Conc` for that pair has
a zero `det`, `(ABc, AAc, BBc, Ac, Bc)` is the vector
`(cA*cB*KAB, cA^2*KAA, cB^2*KBB, cA, cB)` that `Newton_Conc` returns for that pair, with
`KAB = exp((FEA+FEB-FcAB)/kT)`, `KAA = exp((2*FEA-FcAA)/kT)`, `KBB = exp((2*FEB-FcBB)/kT)`
and `kT = exp_params->kT / 1000`, `(cA, cB)` being the last iterate of the loop. -/
theorem C8_dimer_concentrations_entries (exp : α → α) (FcAB FcAA FcBB FEA FEB kT : α)
    (startconc : List α) (m : Nat)
    (hlen : 2 * m + 1 < startconc.length)
    (hend : startconc.getD (2 * m) 0 = 0 ∧ startconc.getD (2 * m + 1) 0 = 0)
    (hbefore : ∀ k, k < m → startconc.getD (2 * k) 0 ≠ 0 ∨ startconc.getD (2 * k + 1) 0 ≠ 0) :
    (vrna_pf_dimer_concentrations exp FcAB FcAA FcBB FEA FEB startconc kT).1.length = m ∧
    ∀ k, k < m →
      ∃ e, (vrna_pf_dimer_concentrations exp FcAB FcAA FcBB FEA FEB startconc kT).1[k]? =
          some e ∧
        e.Ac_start = startconc.getD (2 * k) 0 ∧
        e.Bc_start = startconc.getD (2 * k + 1) 0 ∧
        ((Newton_run (exp ((FEA + FEB - FcAB) / (kT / 1000)))
            (exp ((2 * FEA - FcAA) / (kT / 1000))) (exp ((2 * FEB - FcBB) / (kT / 1000)))
            (startconc.getD (2 * k) 0) (startconc.getD (2 * k + 1) 0)).det_zero = false →
          e.ABc = (Newton_Conc (exp ((FEA + FEB - FcAB) / (kT / 1000)))
            (exp ((2 * FEA - FcAA) / (kT / 1000))) (exp ((2 * FEB - FcBB) / (kT / 1000)))
            (startconc.getD (2 * k) 0) (startconc.getD (2 * k + 1) 0)).v0 ∧
          e.AAc = (Newton_Conc (exp ((FEA + FEB - FcAB) / (kT / 1000)))
            (exp ((2 * FEA - FcAA) / (kT / 1000))) (exp ((2 * FEB - FcBB) / (kT / 1000)))
            (startconc.getD (2 * k) 0) (startconc.getD (2 * k + 1) 0)).v1 ∧
          e.BBc = (Newton_Conc (exp ((FEA + FEB - FcAB) / (kT / 1000)))
            (exp ((2 * FEA - FcAA) / (kT / 1000))) (exp ((2 * FEB - FcBB) / (kT / 1000)))
            (startconc.getD (2 * k) 0) (startconc.getD (2 * k + 1) 0)).v2 ∧
          e.Ac = (Newton_Conc (exp ((FEA + FEB - FcAB) / (kT / 1000)))
            (exp ((2 * FEA - FcAA) / (kT / 1000))) (exp ((2 * FEB - FcBB) / (kT / 1000)))
            (startconc.getD (2 * k) 0) (startconc.getD (2 * k + 1) 0)).v3 ∧
          e.Bc = (Newton_Conc (exp ((FEA + FEB - FcAB) / (kT / 1000)))
            (exp ((2 * FEA - FcAA) / (kT / 1000))) (exp ((2 * FEB - FcBB) / (kT / 1000)))
            (startconc.getD (2 * k) 0) (startconc.getD (2 * k + 1) 0)).v4 ∧
          e.Ac = (Newton_run (exp ((FEA + FEB - FcAB) / (kT / 1000)))
            (exp ((2 * FEA - FcAA) / (kT / 1000))) (exp ((2 * FEB - FcBB) / (kT / 1000)))
            (startconc.getD (2 * k) 0) (startconc.getD (2 * k + 1) 0)).cA ∧
          e.Bc = (Newton_run (exp ((FEA + FEB - FcAB) / (kT / 1000)))
            (exp ((2 * FEA - FcAA) / (kT / 1000))) (exp ((2 * FEB - FcBB) / (kT / 1000)))
            (startconc.getD (2 * k) 0) (startconc.getD (2 * k + 1) 0)).cB ∧
          e.ABc = e.Ac * e.Bc * exp ((FEA + FEB - FcAB) / (kT / 1000)) ∧
          e.AAc = e.Ac ^ 2 * exp ((2 * FEA - FcAA) / (kT / 1000)) ∧
          e.BBc = e.Bc ^ 2 * exp ((2 * FEB - FcBB) / (kT / 1000))) := by
  obtain ⟨hl, hg⟩ := dimer_conc_loop_spec (exp ((FEA + FEB - FcAB) / (kT / 1000)))
    (exp ((2 * FEA - FcAA) / (kT / 1000))) (exp ((2 * FEB - FcBB) / (kT / 1000)))
    m startconc 0 20 hlen hend.1 hend.2 hbefore
  unfold vrna_pf_dimer_concentrations
  refine ⟨hl, ?_⟩
  intro k hk
  refine ⟨_, hg k hk, rfl, rfl, ?_⟩
  intro _
  refine ⟨rfl, rfl, rfl, rfl, rfl, rfl, rfl, ?_, ?_, ?_⟩
  · simp only [conc_entry, Newton_Conc, mkConcVec]
  · simp only [conc_entry, Newton_Conc, mkConcVec]
    ring
  · simp only [conc_entry, Newton_Conc, mkConcVec]
    ring

/-- C8 witness: equilibrium constants `KAB = KAA = 0`, `KBB = 1/4` and the list
`0, 1, 0, 0`, whose first `(0, 0)` pair is number 1.  The pair `(0, 1)` does not end the
list; one entry is written; its run of `Newton_Conc` has no zero `det` and is left after
one iteration (the quotient `xn / cA` is `0 / 0`), so that `Ac = 0`, `Bc = 3/4` and
`BBc = (3/4)^2 * (1/4)`. -/
theorem C8_dimer_concentrations_witness :
    (vrna_pf_dimer_concentrations (fun x : ℚ => x) 0 0 (-1 / 4) 0 0 [0, 1, 0, 0] 1000).1.length
      = 1 ∧
    Newton_run (0 : ℚ) 0 (1 / 4) 0 1 = ⟨0, 3 / 4, 1, false, false⟩ ∧
    (vrna_pf_dimer_concentrations (fun x : ℚ => x) 0 0 (-1 / 4) 0 0 [0, 1, 0, 0] 1000).1 =
      [{ Ac_start := 0, Bc_start := 1, ABc := 0, AAc := 0, BBc := 9 / 64, Ac := 0,
         Bc := 3 / 4 }] := by
  have hrun : Newton_run (0 : ℚ) 0 (1 / 4) 0 1 = ⟨0, 3 / 4, 1, false, false⟩ := by
    rw [Newton_run_zero_first (0 : ℚ) 0 (1 / 4) 1 (by norm_num [newton_det])]
    norm_num [newton_yn, newton_det]
  have h := C8_dimer_concentrations_entries (fun x : ℚ => x) 0 0 (-1 / 4) 0 0 1000
    [0, 1, 0, 0] 1 (by decide) ⟨by simp, by simp⟩
    (by
      intro k hk
      interval_cases k
      right
      simp)
  refine ⟨h.1, hrun, ?_⟩
  have hK : ((2 : ℚ) * 0 - -1 / 4) / (1000 / 1000) = 1 / 4 := by norm_num
  simp only [vrna_pf_dimer_concentrations, dimer_conc_loop, conc_entry, Newton_Conc,
    mkConcVec]
  norm_num [hrun]

end ConcentrationsTheorems

section ForwardTheorems

variable {α : Type} {Ael Aml : Type}

theorem mem_upto (lo hi x : Int) : x ∈ upto lo hi ↔ lo ≤ x ∧ x ≤ hi := by
  unfold upto
  simp only [List.mem_map, List.mem_range]
  constructor
  · rintro ⟨k, hk, rfl⟩
    omega
  · rintro ⟨h1, h2⟩
    refine ⟨(x - lo).toNat, ?_, ?_⟩ <;> omega

theorem mem_downto (hi lo x : Int) : x ∈ downto hi lo ↔ lo ≤ x ∧ x ≤ hi := by
  unfold downto
  rw [List.mem_reverse]
  exact mem_upto lo hi x

theorem SameFrame.refl (vc : vrna_fold_compound_t α) : SameFrame vc vc :=
  ⟨rfl, rfl, rfl, rfl, rfl, rfl, rfl⟩

theorem SameFrame.trans {a b c : vrna_fold_compound_t α} (h1 : SameFrame a b)
    (h2 : SameFrame b c) : SameFrame a c :=
  ⟨h2.1.trans h1.1, h2.2.1.trans h1.2.1, h2.2.2.1.trans h1.2.2.1,
    h2.2.2.2.1.trans h1.2.2.2.1, h2.2.2.2.2.1.trans h1.2.2.2.2.1,
    h2.2.2.2.2.2.1.trans h1.2.2.2.2.2.1, h2.2.2.2.2.2.2.trans h1.2.2.2.2.2.2⟩

theorem set_qm1_frame (vc : vrna_fold_compound_t α) (k : Int) (v : α) :
    SameFrame vc (set_qm1 vc k v) ∧
      (set_qm1 vc k v).exp_matrices.qb = vc.exp_matrices.qb := by
  unfold set_qm1
  split
  · exact ⟨⟨rfl, rfl, rfl, rfl, rfl, rfl, rfl⟩, rfl⟩
  · exact ⟨⟨rfl, rfl, rfl, rfl, rfl, rfl, rfl⟩, rfl⟩

/-- What one cell of `pf_co` does to `qb` and to the read-only parts. -/
theorem pf_co_cell_ok [LinearOrderedField α] (O : Externals α Ael Aml) (j i : Int) (st st1 : PfCoState α Ael Aml)
    (h : pf_co_cell O j st i = Except.ok st1) :
    SameFrame st.vc st1.vc ∧
      st1.vc.exp_matrices.qb =
        Function.update st.vc.exp_matrices.qb (st.vc.iindx i - j) (pf_co_qbt1 O st i j) := by
  unfold pf_co_cell at h
  simp only [] at h
  split at h
  · cases h
  · injection h with h
    subst h
    simp only []
    set vc1 := set_qb st.vc (st.vc.iindx i - j) (pf_co_qbt1 O st i j) with hvc1
    set vc2 := set_qm vc1 (st.vc.iindx i - j) (O.exp_E_ml_fast vc1 i j st.aux_mx_ml).1 with hvc2
    have h3 := set_qm1_frame vc2 (vc2.jindx j + i)
      (O.aux_qqm (O.exp_E_ml_fast vc1 i j st.aux_mx_ml).2 i)
    have f1 : SameFrame st.vc vc1 := ⟨rfl, rfl, rfl, rfl, rfl, rfl, rfl⟩
    have f2 : SameFrame vc1 vc2 := ⟨rfl, rfl, rfl, rfl, rfl, rfl, rfl⟩
    refine ⟨?_, ?_⟩
    · have f4 : SameFrame (set_qm1 vc2 (vc2.jindx j + i)
          (O.aux_qqm (O.exp_E_ml_fast vc1 i j st.aux_mx_ml).2 i))
          (set_q (set_qm1 vc2 (vc2.jindx j + i)
            (O.aux_qqm (O.exp_E_ml_fast vc1 i j st.aux_mx_ml).2 i)) (st.vc.iindx i - j)
            (O.exp_E_ext_fast (set_qm1 vc2 (vc2.jindx j + i)
              (O.aux_qqm (O.exp_E_ml_fast vc1 i j st.aux_mx_ml).2 i)) i j st.aux_mx_el).1) :=
        ⟨rfl, rfl, rfl, rfl, rfl, rfl, rfl⟩
      exact (f1.trans f2).trans (h3.1.trans f4)
    · show (set_qm1 vc2 _ _).exp_matrices.qb = _
      rw [h3.2]
      rfl

theorem pf_co_cells_frame [LinearOrderedField α] (O : Externals α Ael Aml) (j : Int) :
    ∀ (L : List Int) (st st1 : PfCoState α Ael Aml),
      pf_co_cells O j L st = Except.ok st1 → SameFrame st.vc st1.vc := by
  intro L
  induction L with
  | nil =>
    intro st st1 h
    simp only [pf_co_cells] at h
    injection h with h
    subst h
    exact SameFrame.refl _
  | cons i is ih =>
    intro st st1 h
    simp only [pf_co_cells] at h
    split at h
    · next st2 hc =>
      exact (pf_co_cell_ok O j i st st2 hc).1.trans (ih st2 st1 h)
    · cases h

/-- Column `j`: a cell `(a, b)` of the triangle whose hard-constraint byte is `0`, or
which does not lie in the part of the column still to be computed, has `qb = 0` after
the inner loop if it had `qb = 0` before or is computed by it. -/
theorem pf_co_cells_qb_zero [LinearOrderedField α] (O : Externals α Ael Aml) (j a b n : Int)
    (ha : 1 ≤ a) (hab : a ≤ b) (hb : b ≤ n) (hj : j ≤ n) :
    ∀ (L : List Int) (st st1 : PfCoState α Ael Aml),
      (∀ i, st.vc.iindx i = iindx n i) →
      (∀ i ∈ L, 1 ≤ i ∧ i ≤ j) →
      (st.vc.hc.matrix (st.vc.jindx b + a) = 0 ∨ ¬(b = j ∧ a ∈ L)) →
      (¬(b = j ∧ a ∈ L) → st.vc.exp_matrices.qb (iindx n a - b) = 0) →
      pf_co_cells O j L st = Except.ok st1 →
      st1.vc.exp_matrices.qb (iindx n a - b) = 0 := by
  intro L
  induction L with
  | nil =>
    intro st st1 _ _ _ hz h
    simp only [pf_co_cells] at h
    injection h with h
    subst h
    exact hz (by simp)
  | cons i is ih =>
    intro st st1 hidx hL hor hz h
    simp only [pf_co_cells] at h
    split at h
    · next st2 hc =>
      obtain ⟨hf, hqb⟩ := pf_co_cell_ok O j i st st2 hc
      have hidx2 : ∀ k, st2.vc.iindx k = iindx n k := by
        intro k
        rw [hf.2.1]
        exact hidx k
      have hL2 : ∀ k ∈ is, 1 ≤ k ∧ k ≤ j := fun k hk => hL k (List.mem_cons_of_mem _ hk)
      have hi := hL i (List.mem_cons_self _ _)
      by_cases hcell : b = j ∧ a = i
      · obtain ⟨hbj, hai⟩ := hcell
        have hhc : st.vc.hc.matrix (st.vc.jindx b + a) = 0 := by
          rcases hor with h0 | h0
          · exact h0
          · exact absurd ⟨hbj, by rw [hai]; exact List.mem_cons_self _ _⟩ h0
        have hz2 : st2.vc.exp_matrices.qb (iindx n a - b) = 0 := by
          rw [hqb, hidx i, hai, hbj, Function.update_same]
          unfold pf_co_qbt1
          rw [← hbj, ← hai, if_neg (by simpa using hhc)]
        apply ih st2 st1 hidx2 hL2 _ (fun _ => hz2) h
        left
        rw [hf.2.2.2.1, hf.2.2.1]
        exact hhc
      · have hne : iindx n a - b ≠ st.vc.iindx i - j := by
          intro heq
          rw [hidx i] at heq
          have := pack_injective n a b i j ha hab hb hi.1 hi.2 hj heq
          exact hcell ⟨this.2, this.1⟩
        have hsame : st2.vc.exp_matrices.qb (iindx n a - b) =
            st.vc.exp_matrices.qb (iindx n a - b) := by
          rw [hqb, Function.update_noteq hne]
        apply ih st2 st1 hidx2 hL2 _ _ h
        · rcases hor with h0 | h0
          · left
            rw [hf.2.2.2.1, hf.2.2.1]
            exact h0
          · right
            intro hmem
            exact h0 ⟨hmem.1, List.mem_cons_of_mem _ hmem.2⟩
        · intro hnot
          rw [hsame]
          apply hz
          rintro ⟨hbj, hmem⟩
          rcases List.mem_cons.mp hmem with h1 | h1
          · exact hcell ⟨hbj, h1⟩
          · exact hnot ⟨hbj, h1⟩
    · cases h

end ForwardTheorems

section ForwardTheorems2

variable {α : Type} {Ael Aml : Type}

theorem pf_co_column_ok [LinearOrderedField α] (O : Externals α Ael Aml) (turn j : Int)
    (st st1 : PfCoState α Ael Aml) (h : pf_co_column O turn st j = Except.ok st1) :
    ∃ st2, pf_co_cells O j (downto (j - turn - 1) 1) st = Except.ok st2 ∧
      st1.vc = st2.vc := by
  unfold pf_co_column at h
  split at h
  · next st2 hc =>
    injection h with h
    subst h
    exact ⟨st2, hc, rfl⟩
  · cases h

theorem pf_co_columns_frame [LinearOrderedField α] (O : Externals α Ael Aml) (turn : Int) :
    ∀ (J : List Int) (st st1 : PfCoState α Ael Aml),
      pf_co_columns O turn J st = Except.ok st1 → SameFrame st.vc st1.vc := by
  intro J
  induction J with
  | nil =>
    intro st st1 h
    simp only [pf_co_columns] at h
    injection h with h
    subst h
    exact SameFrame.refl _
  | cons j js ih =>
    intro st st1 h
    simp only [pf_co_columns] at h
    split at h
    · next st2 hc =>
      obtain ⟨st3, h3, e3⟩ := pf_co_column_ok O turn j st st2 hc
      have f := pf_co_cells_frame O j _ st st3 h3
      rw [← e3] at f
      exact f.trans (ih st2 st1 h)
    · cases h

/-- The outer loop (with `turn = 0`): a cell `(a, b)` of the triangle whose
hard-constraint byte is `0`, or which lies in none of the columns still to be computed,
has `qb = 0` at the end if it had `qb = 0` before or is computed by the loop. -/
theorem pf_co_columns_qb_zero [LinearOrderedField α] (O : Externals α Ael Aml)
    (a b n : Int) (ha : 1 ≤ a) (hab : a ≤ b) (hb : b ≤ n) :
    ∀ (J : List Int) (st st1 : PfCoState α Ael Aml),
      (∀ i, st.vc.iindx i = iindx n i) →
      (∀ j ∈ J, j ≤ n) →
      (st.vc.hc.matrix (st.vc.jindx b + a) = 0 ∨ ¬(b ∈ J ∧ a < b)) →
      (¬(b ∈ J ∧ a < b) → st.vc.exp_matrices.qb (iindx n a - b) = 0) →
      pf_co_columns O 0 J st = Except.ok st1 →
      st1.vc.exp_matrices.qb (iindx n a - b) = 0 := by
  intro J
  induction J with
  | nil =>
    intro st st1 _ _ _ hz h
    simp only [pf_co_columns] at h
    injection h with h
    subst h
    exact hz (by simp)
  | cons j js ih =>
    intro st st1 hidx hJ hor hz h
    simp only [pf_co_columns] at h
    split at h
    · next st2 hc =>
      obtain ⟨st3, h3, e3⟩ := pf_co_column_ok O 0 j st st2 hc
      have hf := pf_co_cells_frame O j _ st st3 h3
      have hjn : j ≤ n := hJ j (List.mem_cons_self _ _)
      have hL : ∀ i ∈ downto (j - 0 - 1) 1, 1 ≤ i ∧ i ≤ j := by
        intro i hi
        rw [mem_downto] at hi
        omega
      have hidx2 : ∀ k, st2.vc.iindx k = iindx n k := by
        intro k
        rw [e3, hf.2.1]
        exact hidx k
      have hJ2 : ∀ k ∈ js, k ≤ n := fun k hk => hJ k (List.mem_cons_of_mem _ hk)
      have hhc2 : st2.vc.hc.matrix (st2.vc.jindx b + a) =
          st.vc.hc.matrix (st.vc.jindx b + a) := by
        rw [e3, hf.2.2.2.1, hf.2.2.1]
      apply ih st2 st1 hidx2 hJ2 _ _ h
      · rcases hor with h0 | h0
        · left
          rw [hhc2]
          exact h0
        · right
          intro hmem
          exact h0 ⟨List.mem_cons_of_mem _ hmem.1, hmem.2⟩
      · intro hnot
        rw [e3]
        by_cases hcol : b = j ∧ a < b
        · have hhc : st.vc.hc.matrix (st.vc.jindx b + a) = 0 := by
            rcases hor with h0 | h0
            · exact h0
            · exact absurd ⟨by rw [hcol.1]; exact List.mem_cons_self _ _, hcol.2⟩ h0
          apply pf_co_cells_qb_zero O j a b n ha hab hb hjn _ st st3 hidx hL (Or.inl hhc) _ h3
          intro hno
          exfalso
          apply hno
          refine ⟨hcol.1, ?_⟩
          rw [mem_downto]
          omega
        · have hnot2 : ¬(b ∈ j :: js ∧ a < b) := by
            rintro ⟨hmem, hlt⟩
            rcases List.mem_cons.mp hmem with h1 | h1
            · exact hcol ⟨h1, hlt⟩
            · exact hnot ⟨h1, hlt⟩
          have hno : ¬(b = j ∧ a ∈ downto (j - 0 - 1) 1) := by
            rintro ⟨hbj, hmem⟩
            rw [mem_downto] at hmem
            apply hcol
            constructor
            · exact hbj
            · omega
          exact pf_co_cells_qb_zero O j a b n ha hab hb hjn _ st st3 hidx hL (Or.inr hno)
            (fun _ => hz hnot2) h3
    · cases h

theorem pf_co_init_row_frame [LinearOrderedField α] (d : Int) :
    ∀ (L : List Int) (vc : vrna_fold_compound_t α),
      SameFrame vc (pf_co_init_row d L vc) := by
  intro L
  induction L with
  | nil =>
    intro vc
    exact SameFrame.refl _
  | cons i is ih =>
    intro vc
    simp only [pf_co_init_row]
    have f1 : SameFrame vc (set_qb vc (vc.iindx i - (i + d)) 0) := ⟨rfl, rfl, rfl, rfl, rfl, rfl, rfl⟩
    exact f1.trans (ih _)

/-- The initialisation loop only writes zeros: an offset that holds `0` or is written
holds `0` afterwards. -/
theorem pf_co_init_row_zero [LinearOrderedField α] (d off : Int) :
    ∀ (L : List Int) (vc : vrna_fold_compound_t α),
      (vc.exp_matrices.qb off = 0 ∨ ∃ i ∈ L, vc.iindx i - (i + d) = off) →
      (pf_co_init_row d L vc).exp_matrices.qb off = 0 := by
  intro L
  induction L with
  | nil =>
    intro vc h
    rcases h with h | ⟨i, hi, _⟩
    · exact h
    · cases hi
  | cons i is ih =>
    intro vc h
    simp only [pf_co_init_row]
    apply ih
    by_cases he : vc.iindx i - (i + d) = off
    · left
      simp only [set_qb]
      rw [he, Function.update_same]
    · rcases h with h | ⟨k, hk, hk2⟩
      · left
        simp only [set_qb]
        rw [Function.update_noteq (Ne.symm he)]
        exact h
      · rcases List.mem_cons.mp hk with h1 | h1
        · rw [h1] at hk2
          exact absurd hk2 he
        · right
          exact ⟨k, h1, hk2⟩

/-- If every exterior value stays below `max_real`, the forward pass returns. -/
theorem pf_co_ok_of_bounded [LinearOrderedField α] (O : Externals α Ael Aml)
    (hb : ∀ vc i j aux, (O.exp_E_ext_fast vc i j aux).1 < O.max_real)
    (vc : vrna_fold_compound_t α) : ∃ st1, pf_co O vc = Except.ok st1 := by
  have hcell : ∀ j st i, ∃ st1, pf_co_cell O j st i = Except.ok st1 := by
    intro j st i
    unfold pf_co_cell
    simp only []
    rw [if_neg (not_le.mpr (hb _ _ _ _))]
    exact ⟨_, rfl⟩
  have hcells : ∀ j (L : List Int) st, ∃ st1, pf_co_cells O j L st = Except.ok st1 := by
    intro j L
    induction L with
    | nil => intro st; exact ⟨st, rfl⟩
    | cons i is ih =>
      intro st
      obtain ⟨st2, h2⟩ := hcell j st i
      obtain ⟨st3, h3⟩ := ih st2
      refine ⟨st3, ?_⟩
      simp only [pf_co_cells, h2]
      exact h3
  have hcol : ∀ turn st j, ∃ st1, pf_co_column O turn st j = Except.ok st1 := by
    intro turn st j
    obtain ⟨st2, h2⟩ := hcells j (downto (j - turn - 1) 1) st
    unfold pf_co_column
    rw [h2]
    exact ⟨_, rfl⟩
  have hcols : ∀ turn (J : List Int) st, ∃ st1, pf_co_columns O turn J st = Except.ok st1 := by
    intro turn J
    induction J with
    | nil => intro st; exact ⟨st, rfl⟩
    | cons j js ih =>
      intro st
      obtain ⟨st2, h2⟩ := hcol turn st j
      obtain ⟨st3, h3⟩ := ih st2
      refine ⟨st3, ?_⟩
      simp only [pf_co_columns, h2]
      exact h3
  unfold pf_co
  exact hcols _ _ _

end ForwardTheorems2

section ForwardTheorems3

variable {α : Type} {Ael Aml : Type}

/-- C10: after the forward pass `pf_co` (when it returns), `qb[i,j] = 0` for every pair
`1 ≤ i < j ≤ n` whose hard-constraint byte is `0`, and `qb[i,i] = 0` for every
`1 ≤ i ≤ n`, whatever the energy functions return.  The table `iindx` is the packing
of `iindx`. -/
theorem C10_qb_zero_where_forbidden [LinearOrderedField α] (O : Externals α Ael Aml)
    (vc : vrna_fold_compound_t α) (st1 : PfCoState α Ael Aml)
    (hidx : ∀ i, vc.iindx i = iindx vc.length i)
    (hrun : pf_co O vc = Except.ok st1) :
    (∀ i j : Int, 1 ≤ i → i < j → j ≤ vc.length → vc.hc.matrix (vc.jindx j + i) = 0 →
      st1.vc.exp_matrices.qb (st1.vc.iindx i - j) = 0) ∧
    (∀ i : Int, 1 ≤ i → i ≤ vc.length →
      st1.vc.exp_matrices.qb (st1.vc.iindx i - i) = 0) := by
  unfold pf_co at hrun
  simp only [] at hrun
  have hup : upto 0 0 = [0] := by decide
  rw [hup] at hrun
  simp only [pf_co_init] at hrun
  set vc1 := pf_co_init_row 0 (upto 1 (vc.length - 0)) vc with hvc1
  have hf1 : SameFrame vc vc1 := pf_co_init_row_frame 0 _ vc
  have hf2 := pf_co_columns_frame O 0 _ _ st1 hrun
  simp only [] at hf2
  have hidx1 : ∀ i, vc1.iindx i = iindx vc.length i := by
    intro i
    rw [hf1.2.1]
    exact hidx i
  have hidx2 : ∀ i, st1.vc.iindx i = iindx vc.length i := by
    intro i
    rw [hf2.2.1]
    exact hidx1 i
  have hJ : ∀ j ∈ upto (0 + 2) vc.length, j ≤ vc.length := by
    intro j hj
    rw [mem_upto] at hj
    exact hj.2
  constructor
  · intro i j hi hij hj hhc
    rw [hidx2 i]
    apply pf_co_columns_qb_zero O i j vc.length hi (le_of_lt hij) hj _ _ st1 hidx1 hJ _ _ hrun
    · left
      show vc1.hc.matrix (vc1.jindx j + i) = 0
      rw [hf1.2.2.2.1, hf1.2.2.1]
      exact hhc
    · intro hno
      exfalso
      apply hno
      refine ⟨?_, hij⟩
      rw [mem_upto]
      omega
  · intro i hi hin
    rw [hidx2 i]
    apply pf_co_columns_qb_zero O i i vc.length hi (le_refl i) hin _ _ st1 hidx1 hJ _ _ hrun
    · right
      rintro ⟨_, hlt⟩
      exact lt_irrefl i hlt
    · intro _
      show vc1.exp_matrices.qb (iindx vc.length i - i) = 0
      apply pf_co_init_row_zero
      right
      refine ⟨i, ?_, ?_⟩
      · rw [mem_upto]
        omega
      · rw [hidx i]
        ring

/-- C10 witness: on a sequence of length 3 whose only forbidden pair is `(1, 3)` the
forward pass returns, and `qb[1,3] = 0`. -/
theorem C10_qb_zero_witness :
    ∃ st1, pf_co (exampleExternals ℚ id id)
        (exampleFoldCompound ℚ ['G', 'C', 'G'] (-1) 'F' (fun k => if k = 4 then 0 else 63)) =
          Except.ok st1 ∧
      st1.vc.exp_matrices.qb (st1.vc.iindx 1 - 3) = 0 := by
  obtain ⟨st1, h⟩ := pf_co_ok_of_bounded (exampleExternals ℚ id id)
    (by intro _ _ _ _; norm_num [exampleExternals])
    (exampleFoldCompound ℚ ['G', 'C', 'G'] (-1) 'F' (fun k => if k = 4 then 0 else 63))
  exact ⟨st1, h,
    (C10_qb_zero_where_forbidden (exampleExternals ℚ id id)
      (exampleFoldCompound ℚ ['G', 'C', 'G'] (-1) 'F' (fun k => if k = 4 then 0 else 63)) st1
      (fun _ => rfl) h).1 1 3 (by decide) (by decide) (by decide) (by decide)⟩

end ForwardTheorems3

section DimerTheorems

variable {α : Type} {Ael Aml : Type}

/-- The forward pass writes only the matrices. -/
theorem pf_co_frame [LinearOrderedField α] (O : Externals α Ael Aml)
    (vc : vrna_fold_compound_t α) (st : PfCoState α Ael Aml)
    (h : pf_co O vc = Except.ok st) : SameFrame vc st.vc := by
  unfold pf_co at h
  simp only [] at h
  have hup : upto 0 0 = [0] := by decide
  rw [hup] at h
  simp only [pf_co_init] at h
  have hf1 : SameFrame vc (pf_co_init_row 0 (upto 1 (vc.length - 0)) vc) :=
    pf_co_init_row_frame 0 _ vc
  exact hf1.trans (pf_co_columns_frame O 0 _ _ st h)

/-- When preparation succeeds and the forward pass returns, `vrna_pf_dimer` returns the
summary of the matrices left by the forward pass. -/
theorem vrna_pf_dimer_X [LinearOrderedField α] (O : Externals α Ael Aml) (C : Constants)
    (vc vc0 : vrna_fold_compound_t α) (structure_buf : Option (List Char))
    (st : PfCoState α Ael Aml)
    (hprep : O.fold_compound_prepare vc = (true, vc0))
    (hrun : pf_co O vc0 = Except.ok st) :
    ∃ r, vrna_pf_dimer O C vc structure_buf = Except.ok r ∧
      r.X = dimer_summary O.log st.vc := by
  unfold vrna_pf_dimer
  rw [hprep]
  simp only [hrun]
  split
  · exact ⟨_, rfl, rfl⟩
  · exact ⟨_, rfl, rfl⟩

/-- C1: when `cp > 0` (preparation succeeded, the forward pass returned), with
`QA = q[1,cp-1]`, `QB = q[cp,n]`, `QAB = (q[1,n] - QA*QB) * expDuplexInit` halved under
the symmetry correction, and `QToT = QA*QB + QAB`, `vrna_pf_dimer` returns
`FAB = -kT*(ln QToT + n*ln pf_scale)`, `F0AB = -kT*(ln q[1,n] + n*ln pf_scale)`,
`FA = -kT*(ln QA + (cp-1)*ln pf_scale)`, `FB = -kT*(ln QB + (n-cp+1)*ln pf_scale)`, and
`FcAB = -kT*(ln QAB + n*ln pf_scale)` if `QAB > 1e-17` and `999` otherwise, where `kT` is
`exp_params->kT / 1000`. -/
theorem C1_dimer_free_energies [LinearOrderedField α] (O : Externals α Ael Aml)
    (C : Constants) (vc vc0 : vrna_fold_compound_t α) (structure_buf : Option (List Char))
    (st : PfCoState α Ael Aml)
    (hprep : O.fold_compound_prepare vc = (true, vc0))
    (hrun : pf_co O vc0 = Except.ok st)
    (hcp : st.vc.cutpoint > 0) :
    ∃ r, vrna_pf_dimer O C vc structure_buf = Except.ok r ∧
      (let n := st.vc.length
       let cp := st.vc.cutpoint
       let q := fun i j : Int => st.vc.exp_matrices.q (st.vc.iindx i - j)
       let kT := st.vc.exp_params.kT / 1000
       let pf_scale := st.vc.exp_params.pf_scale
       let QA := q 1 (cp - 1)
       let QB := q cp n
       let QABraw := (q 1 n - QA * QB) * st.vc.exp_params.expDuplexInit
       let QAB := if dimer_symmetric st.vc = true then QABraw / 2 else QABraw
       let QToT := QA * QB + QAB
       r.X.FAB = -kT * (O.log QToT + (n : α) * O.log pf_scale) ∧
       r.X.F0AB = -kT * (O.log (q 1 n) + (n : α) * O.log pf_scale) ∧
       r.X.FA = -kT * (O.log QA + ((cp - 1 : Int) : α) * O.log pf_scale) ∧
       r.X.FB = -kT * (O.log QB + ((n - cp + 1 : Int) : α) * O.log pf_scale) ∧
       r.X.FcAB =
         if QAB > 1 / 10 ^ 17 then -kT * (O.log QAB + (n : α) * O.log pf_scale) else 999) := by
  obtain ⟨r, hr, hX⟩ := vrna_pf_dimer_X O C vc vc0 structure_buf st hprep hrun
  refine ⟨r, hr, ?_⟩
  rw [hX]
  unfold dimer_summary
  simp only [if_pos hcp, dimer_QAB, dimer_QAB_raw]
  exact ⟨trivial, trivial, trivial, trivial, trivial⟩

/-- C1 witness: two strands `GCGC` and `GCGC` with cut point `5`; preparation succeeds
and the forward pass returns, so the five values are as stated, `F0AB` among them. -/
theorem C1_dimer_free_energies_witness :
    ∃ st r,
      pf_co (exampleExternals ℝ Real.log Real.exp)
          (exampleFoldCompound ℝ ['G', 'C', 'G', 'C', 'G', 'C', 'G', 'C'] 5 'F' (fun _ => 63)) =
        Except.ok st ∧
      st.vc.cutpoint > 0 ∧
      vrna_pf_dimer (exampleExternals ℝ Real.log Real.exp) exampleConstants
          (exampleFoldCompound ℝ ['G', 'C', 'G', 'C', 'G', 'C', 'G', 'C'] 5 'F' (fun _ => 63))
          none = Except.ok r ∧
      r.X.F0AB = -(st.vc.exp_params.kT / 1000) *
        (Real.log (st.vc.exp_matrices.q (st.vc.iindx 1 - st.vc.length)) +
          (st.vc.length : ℝ) * Real.log st.vc.exp_params.pf_scale) := by
  obtain ⟨st, h⟩ := pf_co_ok_of_bounded (exampleExternals ℝ Real.log Real.exp)
    (by intro _ _ _ _; norm_num [exampleExternals])
    (exampleFoldCompound ℝ ['G', 'C', 'G', 'C', 'G', 'C', 'G', 'C'] 5 'F' (fun _ => 63))
  have hcp : st.vc.cutpoint > 0 := by
    rw [(pf_co_frame _ _ st h).2.2.2.2.1]
    show (5 : Int) > 0
    decide
  obtain ⟨r, hr, hX⟩ := C1_dimer_free_energies (exampleExternals ℝ Real.log Real.exp)
    exampleConstants
    (exampleFoldCompound ℝ ['G', 'C', 'G', 'C', 'G', 'C', 'G', 'C'] 5 'F' (fun _ => 63))
    (exampleFoldCompound ℝ ['G', 'C', 'G', 'C', 'G', 'C', 'G', 'C'] 5 'F' (fun _ => 63))
    none st rfl h hcp
  exact ⟨st, r, h, hcp, hr, hX.2.1⟩

/-- C2: when the cut point is not positive and the fold compound prepares successfully
(and the forward pass returns), `vrna_pf_dimer` returns `FA = FB = FAB = F0AB`, all
equal to the ensemble free energy `free_energy`, and `FcAB = 0`. -/
theorem C2_single_strand_energies [LinearOrderedField α] (O : Externals α Ael Aml)
    (C : Constants) (vc vc0 : vrna_fold_compound_t α) (structure_buf : Option (List Char))
    (st : PfCoState α Ael Aml)
    (hprep : O.fold_compound_prepare vc = (true, vc0))
    (hrun : pf_co O vc0 = Except.ok st)
    (hcp : st.vc.cutpoint ≤ 0) :
    ∃ r, vrna_pf_dimer O C vc structure_buf = Except.ok r ∧
      r.X.FA = dimer_free_energy O.log st.vc ∧
      r.X.FB = dimer_free_energy O.log st.vc ∧
      r.X.FAB = dimer_free_energy O.log st.vc ∧
      r.X.F0AB = dimer_free_energy O.log st.vc ∧
      r.X.FcAB = 0 := by
  obtain ⟨r, hr, hX⟩ := vrna_pf_dimer_X O C vc vc0 structure_buf st hprep hrun
  refine ⟨r, hr, ?_⟩
  rw [hX]
  unfold dimer_summary
  simp only [if_neg (not_lt.mpr hcp)]
  exact ⟨trivial, trivial, trivial, trivial, trivial⟩

/-- C2 witness: the single strand `GC` with cut point `0`. -/
theorem C2_single_strand_witness :
    ∃ st r,
      pf_co (exampleExternals ℝ Real.log Real.exp)
          (exampleFoldCompound ℝ ['G', 'C'] 0 'F' (fun _ => 63)) = Except.ok st ∧
      vrna_pf_dimer (exampleExternals ℝ Real.log Real.exp) exampleConstants
          (exampleFoldCompound ℝ ['G', 'C'] 0 'F' (fun _ => 63)) none = Except.ok r ∧
      r.X.FA = r.X.FB ∧ r.X.FB = r.X.FAB ∧ r.X.FAB = r.X.F0AB ∧ r.X.FcAB = 0 := by
  obtain ⟨st, h⟩ := pf_co_ok_of_bounded (exampleExternals ℝ Real.log Real.exp)
    (by intro _ _ _ _; norm_num [exampleExternals])
    (exampleFoldCompound ℝ ['G', 'C'] 0 'F' (fun _ => 63))
  have hcp : st.vc.cutpoint ≤ 0 := by
    rw [(pf_co_frame _ _ st h).2.2.2.2.1]
    show (0 : Int) ≤ 0
    decide
  obtain ⟨r, hr, h1, h2, h3, h4, h5⟩ := C2_single_strand_energies
    (exampleExternals ℝ Real.log Real.exp) exampleConstants
    (exampleFoldCompound ℝ ['G', 'C'] 0 'F' (fun _ => 63))
    (exampleFoldCompound ℝ ['G', 'C'] 0 'F' (fun _ => 63)) none st rfl h hcp
  exact ⟨st, r, h, hr, by rw [h1, h2], by rw [h2, h3], by rw [h3, h4], h5⟩

end DimerTheorems

section DimerTheorems2

variable {α : Type} {Ael Aml : Type}

/-- C3 (as amended): with a cut point that is not positive, the free energy `F` that
`vrna_pf_dimer` returns in `FA`, `FB`, `FAB` and `F0AB` equals
`-kT*(ln Q + n*ln pf_scale)` where `Q` is the boundary cell `qb[1,n]` for backtrack
type `'C'`, `qm[1,n]` for backtrack type `'M'`, and `q[1,n]` for every other backtrack
type. -/
theorem C3_free_energy_by_backtrack_type [LinearOrderedField α] (O : Externals α Ael Aml)
    (C : Constants) (vc vc0 : vrna_fold_compound_t α) (structure_buf : Option (List Char))
    (st : PfCoState α Ael Aml)
    (hprep : O.fold_compound_prepare vc = (true, vc0))
    (hrun : pf_co O vc0 = Except.ok st)
    (hcp : st.vc.cutpoint ≤ 0) :
    ∃ r, vrna_pf_dimer O C vc structure_buf = Except.ok r ∧
      (let n := st.vc.length
       let kT := st.vc.exp_params.kT / 1000
       let pf_scale := st.vc.exp_params.pf_scale
       let bt := st.vc.exp_params.model_details.backtrack_type
       let Q :=
         if bt = 'C' then st.vc.exp_matrices.qb (st.vc.iindx 1 - n)
         else if bt = 'M' then st.vc.exp_matrices.qm (st.vc.iindx 1 - n)
         else st.vc.exp_matrices.q (st.vc.iindx 1 - n)
       let F := -kT * (O.log Q + (n : α) * O.log pf_scale)
       r.X.FA = F ∧ r.X.FB = F ∧ r.X.FAB = F ∧ r.X.F0AB = F ∧
       (bt ≠ 'C' → bt ≠ 'M' →
         F = -kT * (O.log (st.vc.exp_matrices.q (st.vc.iindx 1 - n)) +
           (n : α) * O.log pf_scale))) := by
  obtain ⟨r, hr, h1, h2, h3, h4, _⟩ :=
    C2_single_strand_energies O C vc vc0 structure_buf st hprep hrun hcp
  refine ⟨r, hr, ?_⟩
  have hF : dimer_free_energy O.log st.vc =
      -(st.vc.exp_params.kT / 1000) *
        (O.log (if st.vc.exp_params.model_details.backtrack_type = 'C' then
              st.vc.exp_matrices.qb (st.vc.iindx 1 - st.vc.length)
            else if st.vc.exp_params.model_details.backtrack_type = 'M' then
              st.vc.exp_matrices.qm (st.vc.iindx 1 - st.vc.length)
            else st.vc.exp_matrices.q (st.vc.iindx 1 - st.vc.length)) +
          (st.vc.length : α) * O.log st.vc.exp_params.pf_scale) := by
    unfold dimer_free_energy dimer_Q
    simp only []
    ring
  intro n kT pf_scale bt Q F
  refine ⟨h1.trans hF, h2.trans hF, h3.trans hF, h4.trans hF, ?_⟩
  intro hC hM
  show -kT * (O.log Q + (n : α) * O.log pf_scale) = _
  have hQ : Q = st.vc.exp_matrices.q (st.vc.iindx 1 - n) := by
    show (if bt = 'C' then _ else if bt = 'M' then _ else _) = _
    rw [if_neg hC, if_neg hM]
  rw [hQ]

/-- C3 witness: the single strand `GC` with cut point `0` and backtrack type `'F'`. -/
theorem C3_free_energy_witness :
    ∃ st r,
      pf_co (exampleExternals ℝ Real.log Real.exp)
          (exampleFoldCompound ℝ ['G', 'C'] 0 'F' (fun _ => 63)) = Except.ok st ∧
      vrna_pf_dimer (exampleExternals ℝ Real.log Real.exp) exampleConstants
          (exampleFoldCompound ℝ ['G', 'C'] 0 'F' (fun _ => 63)) none = Except.ok r ∧
      r.X.FA = -(st.vc.exp_params.kT / 1000) *
        (Real.log (if st.vc.exp_params.model_details.backtrack_type = 'C' then
              st.vc.exp_matrices.qb (st.vc.iindx 1 - st.vc.length)
            else if st.vc.exp_params.model_details.backtrack_type = 'M' then
              st.vc.exp_matrices.qm (st.vc.iindx 1 - st.vc.length)
            else st.vc.exp_matrices.q (st.vc.iindx 1 - st.vc.length)) +
          (st.vc.length : ℝ) * Real.log st.vc.exp_params.pf_scale) := by
  obtain ⟨st, h⟩ := pf_co_ok_of_bounded (exampleExternals ℝ Real.log Real.exp)
    (by intro _ _ _ _; norm_num [exampleExternals])
    (exampleFoldCompound ℝ ['G', 'C'] 0 'F' (fun _ => 63))
  have hcp : st.vc.cutpoint ≤ 0 := by
    rw [(pf_co_frame _ _ st h).2.2.2.2.1]
    show (0 : Int) ≤ 0
    decide
  obtain ⟨r, hr, hX⟩ := C3_free_energy_by_backtrack_type
    (exampleExternals ℝ Real.log Real.exp) exampleConstants
    (exampleFoldCompound ℝ ['G', 'C'] 0 'F' (fun _ => 63))
    (exampleFoldCompound ℝ ['G', 'C'] 0 'F' (fun _ => 63)) none st rfl h hcp
  exact ⟨st, r, h, hr, hX.1⟩

/-- C3 (counterexample to the claim as stated): for the single strand `GC` with cut
point `0` and backtrack type `'C'`, with hairpin weight `1` and exterior value `2`, the
forward pass leaves `qb[1,2] = 1` and `q[1,2] = 2`; `vrna_pf_dimer` returns `FA = 0`,
computed from `qb[1,2]`, while `-kT*(ln q[1,2] + 2*ln pf_scale)` is `-ln 2`. -/
theorem C3_backtrack_type_C_counterexample :
    ∃ st r,
      pf_co (exampleExternals ℝ Real.log Real.exp)
          (exampleFoldCompound ℝ ['G', 'C'] 0 'C' (fun _ => 63)) = Except.ok st ∧
      vrna_pf_dimer (exampleExternals ℝ Real.log Real.exp) exampleConstants
          (exampleFoldCompound ℝ ['G', 'C'] 0 'C' (fun _ => 63)) none = Except.ok r ∧
      st.vc.cutpoint = 0 ∧
      st.vc.exp_matrices.q (st.vc.iindx 1 - st.vc.length) = 2 ∧
      st.vc.exp_matrices.qb (st.vc.iindx 1 - st.vc.length) = 1 ∧
      r.X.FA = 0 ∧
      r.X.FA ≠ -(st.vc.exp_params.kT / 1000) *
        (Real.log (st.vc.exp_matrices.q (st.vc.iindx 1 - st.vc.length)) +
          (st.vc.length : ℝ) * Real.log st.vc.exp_params.pf_scale) := by
  obtain ⟨st, h⟩ := pf_co_ok_of_bounded (exampleExternals ℝ Real.log Real.exp)
    (by intro _ _ _ _; norm_num [exampleExternals])
    (exampleFoldCompound ℝ ['G', 'C'] 0 'C' (fun _ => 63))
  obtain ⟨r, hr, hX⟩ := vrna_pf_dimer_X (exampleExternals ℝ Real.log Real.exp)
    exampleConstants (exampleFoldCompound ℝ ['G', 'C'] 0 'C' (fun _ => 63))
    (exampleFoldCompound ℝ ['G', 'C'] 0 'C' (fun _ => 63)) none st rfl h
  refine ⟨st, r, h, hr, ?_⟩
  rw [hX]
  have hu1 : upto 0 0 = [0] := by decide
  have hu2 : upto (0 + 2) 2 = [2] := by decide
  have hu3 : downto (2 - 0 - 1) 1 = [1] := by decide
  have hu4 : upto 1 (2 - 0) = [1, 2] := by decide
  have hl : (exampleFoldCompound ℝ ['G', 'C'] 0 'C' (fun _ => 63)).length = 2 := rfl
  unfold pf_co at h
  simp only [hl, hu1, hu2, pf_co_columns, pf_co_column, hu3, pf_co_cells, pf_co_init, hu4,
    pf_co_init_row] at h
  unfold pf_co_cell at h
  simp only [] at h
  rw [if_neg (by norm_num [exampleExternals])] at h
  simp only [Except.ok.injEq] at h
  subst h
  have hlog : Real.log 2 ≠ 0 := ne_of_gt (Real.log_pos (by norm_num))
  simp [set_q, set_qm1, set_qm, set_qb, exampleExternals, exampleFoldCompound, pf_co_qbt1,
    iindx, dimer_summary, dimer_free_energy, dimer_Q, hlog, Ne.symm hlog]

end DimerTheorems2

section SymmetryTheorems

variable {α : Type}

theorem char_eq_of_toNat_eq (a b : Char) (h : a.toNat = b.toNat) : a = b := by
  have ha := Char.ofNat_toNat a
  have hb := Char.ofNat_toNat b
  rw [h] at ha
  rw [← ha, hb]

/-- On strings without an embedded NUL, `strncmp` returns `0` exactly when the first
`k` characters (or the whole strings, when shorter) agree. -/
theorem strncmp_eq_zero_iff :
    ∀ (k : Nat) (a b : List Char), (∀ c ∈ a, c.toNat ≠ 0) → (∀ c ∈ b, c.toNat ≠ 0) →
      (strncmp a b k = 0 ↔ a.take k = b.take k) := by
  intro k
  induction k with
  | zero =>
    intro a b _ _
    simp [strncmp]
  | succ k ih =>
    intro a b ha hb
    cases a with
    | nil =>
      cases b with
      | nil => simp [strncmp]
      | cons y ys =>
        have hy := hb y (List.mem_cons_self _ _)
        simp only [strncmp, List.take_nil, List.take_succ_cons]
        constructor
        · intro h
          omega
        · intro h
          cases h
    | cons x xs =>
      have hx := ha x (List.mem_cons_self _ _)
      cases b with
      | nil =>
        simp only [strncmp, List.take_nil, List.take_succ_cons]
        constructor
        · intro h
          omega
        · intro h
          cases h
      | cons y ys =>
        have hxs : ∀ c ∈ xs, c.toNat ≠ 0 := fun c hc => ha c (List.mem_cons_of_mem _ hc)
        have hys : ∀ c ∈ ys, c.toNat ≠ 0 := fun c hc => hb c (List.mem_cons_of_mem _ hc)
        simp only [strncmp, List.take_succ_cons]
        by_cases hxy : x = y
        · subst hxy
          rw [if_pos rfl, if_neg hx]
          rw [ih xs ys hxs hys]
          simp
        · rw [if_neg hxy]
          constructor
          · intro h
            exfalso
            apply hxy
            apply char_eq_of_toNat_eq
            omega
          · intro h
            injection h with h1 _
            exact absurd h1 hxy

/-- The test of the symmetry correction: it succeeds exactly when `n = 2*(cp-1)` and
strand A equals strand B. -/
theorem dimer_symmetric_iff [LinearOrderedField α] (vc : vrna_fold_compound_t α)
    (hcp : vc.cutpoint > 0) (hlen : (vc.sequence.length : Int) = vc.length)
    (hnul : ∀ c ∈ vc.sequence, c.toNat ≠ 0) :
    dimer_symmetric vc = true ↔
      (vc.length = 2 * (vc.cutpoint - 1) ∧
        vc.sequence.take (vc.cutpoint - 1).toNat = vc.sequence.drop (vc.cutpoint - 1).toNat) := by
  unfold dimer_symmetric
  rw [Bool.and_eq_true, decide_eq_true_eq, decide_eq_true_eq]
  have hdrop : ∀ c ∈ vc.sequence.drop (vc.cutpoint - 1).toNat, c.toNat ≠ 0 :=
    fun c hc => hnul c (List.mem_of_mem_drop hc)
  rw [strncmp_eq_zero_iff _ _ _ hnul hdrop]
  constructor
  · rintro ⟨h1, h2⟩
    refine ⟨by omega, ?_⟩
    rw [h2]
    apply List.take_of_length_le
    rw [List.length_drop]
    omega
  · rintro ⟨h1, h2⟩
    refine ⟨by omega, ?_⟩
    rw [h2]
    symm
    apply List.take_of_length_le
    rw [List.length_drop]
    omega

/-- C4: when `cp > 0` (and `sequence` is the C string of the `n` bases), `QAB` is
divided by 2 exactly when `n = 2*(cp-1)` and strand A (positions `1..cp-1`) equals
strand B (positions `cp..n`) character for character; in that case the raw value
`(q[1,n] - q[1,cp-1]*q[cp,n]) * expDuplexInit` is twice the `QAB` used for `FAB` and
`FcAB`, and in every other case `QAB` is the raw value. -/
theorem C4_symmetry_correction [LinearOrderedField α] (log : α → α)
    (vc : vrna_fold_compound_t α)
    (hcp : vc.cutpoint > 0) (hlen : (vc.sequence.length : Int) = vc.length)
    (hnul : ∀ c ∈ vc.sequence, c.toNat ≠ 0) :
    (dimer_QAB vc = dimer_QAB_raw vc / 2 ∧ dimer_QAB_raw vc = 2 * dimer_QAB vc ∧
        vc.length = 2 * (vc.cutpoint - 1) ∧
        vc.sequence.take (vc.cutpoint - 1).toNat = vc.sequence.drop (vc.cutpoint - 1).toNat ∨
      dimer_QAB vc = dimer_QAB_raw vc ∧
        ¬(vc.length = 2 * (vc.cutpoint - 1) ∧
          vc.sequence.take (vc.cutpoint - 1).toNat =
            vc.sequence.drop (vc.cutpoint - 1).toNat)) ∧
    dimer_QAB_raw vc =
      (vc.exp_matrices.q (vc.iindx 1 - vc.length) -
          vc.exp_matrices.q (vc.iindx 1 - (vc.cutpoint - 1)) *
            vc.exp_matrices.q (vc.iindx vc.cutpoint - vc.length)) *
        vc.exp_params.expDuplexInit ∧
    (dimer_summary log vc).FAB =
      -(vc.exp_params.kT / 1000) *
        (log (vc.exp_matrices.q (vc.iindx 1 - (vc.cutpoint - 1)) *
              vc.exp_matrices.q (vc.iindx vc.cutpoint - vc.length) + dimer_QAB vc) +
          (vc.length : α) * log vc.exp_params.pf_scale) ∧
    (dimer_summary log vc).FcAB =
      if dimer_QAB vc > 1 / 10 ^ 17 then
        -(vc.exp_params.kT / 1000) *
          (log (dimer_QAB vc) + (vc.length : α) * log vc.exp_params.pf_scale)
      else 999 := by
  have hiff := dimer_symmetric_iff vc hcp hlen hnul
  refine ⟨?_, rfl, ?_, ?_⟩
  · by_cases hs : dimer_symmetric vc = true
    · left
      obtain ⟨h1, h2⟩ := hiff.mp hs
      have hq : dimer_QAB vc = dimer_QAB_raw vc / 2 := by
        unfold dimer_QAB
        rw [if_pos hs]
      refine ⟨hq, ?_, h1, h2⟩
      rw [hq]
      ring
    · right
      refine ⟨?_, fun h => hs (hiff.mpr h)⟩
      unfold dimer_QAB
      rw [if_neg hs]
  · unfold dimer_summary
    simp only [if_pos hcp]
  · unfold dimer_summary
    simp only [if_pos hcp]

/-- C4 witness: for the strands `GCGC` and `GCGC` with `cp = 5` the correction is made
(`QAB` is half the raw value); for `GGGG` and `CCCC` with `cp = 5` it is not. -/
theorem C4_symmetry_correction_witness :
    dimer_QAB (exampleFoldCompound ℚ ['G', 'C', 'G', 'C', 'G', 'C', 'G', 'C'] 5 'F'
        (fun _ => 63)) =
      dimer_QAB_raw (exampleFoldCompound ℚ ['G', 'C', 'G', 'C', 'G', 'C', 'G', 'C'] 5 'F'
        (fun _ => 63)) / 2 ∧
    dimer_QAB (exampleFoldCompound ℚ ['G', 'G', 'G', 'G', 'C', 'C', 'C', 'C'] 5 'F'
        (fun _ => 63)) =
      dimer_QAB_raw (exampleFoldCompound ℚ ['G', 'G', 'G', 'G', 'C', 'C', 'C', 'C'] 5 'F'
        (fun _ => 63)) := by
  constructor
  · rcases (C4_symmetry_correction id
      (exampleFoldCompound ℚ ['G', 'C', 'G', 'C', 'G', 'C', 'G', 'C'] 5 'F' (fun _ => 63))
      (by decide) rfl (by decide)).1 with h | h
    · exact h.1
    · exact absurd ⟨by decide, by decide⟩ h.2
  · rcases (C4_symmetry_correction id
      (exampleFoldCompound ℚ ['G', 'G', 'G', 'G', 'C', 'C', 'C', 'C'] 5 'F' (fun _ => 63))
      (by decide) rfl (by decide)).1 with h | h
    · exact absurd h.2.2.2 (by decide)
    · exact h.1

end SymmetryTheorems

section NewtonTheorems2

variable {α : Type} [LinearOrderedField α]

/-- For non-negative constants and a non-negative iterate, the step of `Newton_Conc` is
zero exactly when both residuals vanish. -/
theorem newton_step_zero_iff (KAB KAA KBB concA concB cA cB : α)
    (hAB : 0 ≤ KAB) (hAA : 0 ≤ KAA) (hBB : 0 ≤ KBB) (hA : 0 ≤ cA) (hB : 0 ≤ cB) :
    (newton_xn KAB KAA KBB concA concB cA cB = 0 ∧
        newton_yn KAB KAA KBB concA concB cA cB = 0) ↔
      (newton_f1 KAB KAA concA cA cB = 0 ∧ newton_f2 KAB KBB concB cA cB = 0) := by
  have hdet1 := newton_det_ge_one hAB hAA hBB hA hB
  have hdet : newton_det KAB KAA KBB cA cB ≠ 0 := by
    intro h0
    rw [h0] at hdet1
    exact absurd hdet1 (by norm_num)
  constructor
  · rintro ⟨hx, hy⟩
    obtain ⟨h1, h2⟩ := newton_step_solves KAB KAA KBB concA concB cA cB hdet
    rw [hx, hy] at h1 h2
    constructor
    · linarith
    · linarith
  · rintro ⟨hf1, hf2⟩
    have hx := newton_xn_mul_det KAB KAA KBB concA concB cA cB hdet
    have hy := newton_yn_mul_det KAB KAA KBB concA concB cA cB hdet
    rw [hf1, hf2] at hx hy
    simp only [zero_mul, sub_zero] at hx hy
    exact ⟨(mul_eq_zero.mp hx).resolve_right hdet, (mul_eq_zero.mp hy).resolve_right hdet⟩

/-- The loop of `Newton_Conc` runs its body at least once and at most 10001 times, and
the warning is issued exactly when the body has run 10001 times. -/
theorem Newton_loop_count (KAB KAA KBB concA concB : α) :
    ∀ (fuel i : Nat) (cA cB : α), fuel + i = 10001 → 1 ≤ fuel →
      i + 1 ≤ (Newton_loop KAB KAA KBB concA concB fuel i cA cB).i ∧
      (Newton_loop KAB KAA KBB concA concB fuel i cA cB).i ≤ 10001 ∧
      ((Newton_loop KAB KAA KBB concA concB fuel i cA cB).warned = true ↔
        (Newton_loop KAB KAA KBB concA concB fuel i cA cB).i = 10001) := by
  intro fuel
  induction fuel with
  | zero => intro i _ _ _ h; omega
  | succ f ih =>
    intro i cA cB h1 _
    rw [Newton_loop]
    by_cases hd : newton_det KAB KAA KBB cA cB = 0
    · simp only [if_pos hd]
      refine ⟨le_refl _, by omega, ?_⟩
      rw [decide_eq_true_eq]
      omega
    · simp only [if_neg hd]
      by_cases hi : i + 1 > 10000
      · simp only [if_pos hi]
        refine ⟨le_refl _, by omega, ?_⟩
        constructor
        · intro _
          omega
        · intro _
          trivial
      · simp only [if_neg hi]
        split
        · have hf : 1 ≤ f := by omega
          have ih' := ih (i + 1) (cA + newton_xn KAB KAA KBB concA concB cA cB)
            (cB + newton_yn KAB KAA KBB concA concB cA cB) (by omega) hf
          exact ⟨by omega, ih'.2.1, ih'.2.2⟩
        · refine ⟨le_refl _, ?_, ?_⟩
          · show i + 1 ≤ 10001
            omega
          · constructor
            · intro h
              cases h
            · intro h
              have h' : i + 1 = 10001 := h
              omega

/-- With `KAA = 1`, `KAB = KBB = 0` and total concentrations `(-1/6, 1)` the iterates of
`Newton_Conc` alternate between `cA = -1/6` and `cA = -1/3`, so the loop only ends through
its counter. -/
theorem newton_two_cycle : ∀ fuel i : Nat, fuel + i = 10001 → 1 ≤ fuel →
    ((Newton_loop (0 : ℚ) 1 0 (-1 / 6) 1 fuel i (-1 / 6) 1).i = 10001 ∧
      (Newton_loop (0 : ℚ) 1 0 (-1 / 6) 1 fuel i (-1 / 6) 1).warned = true) ∧
    ((Newton_loop (0 : ℚ) 1 0 (-1 / 6) 1 fuel i (-1 / 3) 1).i = 10001 ∧
      (Newton_loop (0 : ℚ) 1 0 (-1 / 6) 1 fuel i (-1 / 3) 1).warned = true) := by
  intro fuel
  induction fuel with
  | zero => intro i _ h; omega
  | succ f ih =>
    intro i h1 _
    have hx1 : newton_xn (0 : ℚ) 1 0 (-1 / 6) 1 (-1 / 6) 1 = -1 / 6 := by
      norm_num [newton_xn, newton_det]
    have hy1 : newton_yn (0 : ℚ) 1 0 (-1 / 6) 1 (-1 / 6) 1 = 0 := by
      norm_num [newton_yn, newton_det]
    have hx2 : newton_xn (0 : ℚ) 1 0 (-1 / 6) 1 (-1 / 3) 1 = 1 / 6 := by
      norm_num [newton_xn, newton_det]
    have hy2 : newton_yn (0 : ℚ) 1 0 (-1 / 6) 1 (-1 / 3) 1 = 0 := by
      norm_num [newton_yn, newton_det]
    have hd1 : ¬ newton_det (0 : ℚ) 1 0 (-1 / 6) 1 = 0 := by
      norm_num [newton_det]
    have hd2 : ¬ newton_det (0 : ℚ) 1 0 (-1 / 3) 1 = 0 := by
      norm_num [newton_det]
    have he1 : newton_EPS_gt_TOL (-1 / 6 : ℚ) 0 (-1 / 6) 1 = true := by
      norm_num [newton_EPS_gt_TOL, abs_div]
    have he2 : newton_EPS_gt_TOL (1 / 6 : ℚ) 0 (-1 / 3) 1 = true := by
      norm_num [newton_EPS_gt_TOL, abs_div]
    by_cases hi : i + 1 > 10000
    · have hi1 : i + 1 = 10001 := by omega
      constructor
      · rw [Newton_loop]
        simp only [if_neg hd1, if_pos hi]
        exact ⟨hi1, trivial⟩
      · rw [Newton_loop]
        simp only [if_neg hd2, if_pos hi]
        exact ⟨hi1, trivial⟩
    · have hf : 1 ≤ f := by omega
      have ih' := ih (i + 1) (by omega) hf
      constructor
      · rw [Newton_loop]
        simp only [if_neg hd1, if_neg hi, hx1, hy1, he1, if_true]
        have e : (-1 / 6 : ℚ) + -1 / 6 = -1 / 3 := by norm_num
        have e2 : (1 : ℚ) + 0 = 1 := by norm_num
        rw [e, e2]
        exact ih'.2
      · rw [Newton_loop]
        simp only [if_neg hd2, if_neg hi, hx2, hy2, he2, if_true]
        have e : (-1 / 3 : ℚ) + 1 / 6 = -1 / 6 := by norm_num
        have e2 : (1 : ℚ) + 0 = 1 := by norm_num
        rw [e, e2]
        exact ih'.1

/-- C17 (amended): for all inputs, the loop of `Newton_Conc` runs its body at least once
and at most 10001 times; the non-convergence warning is issued exactly when the body has
run 10001 times; and the vector returned is built from the last iterate. -/
theorem C17_newton_at_most_10001_iterations (KAB KAA KBB concA concB : α) :
    1 ≤ (Newton_run KAB KAA KBB concA concB).i ∧
    (Newton_run KAB KAA KBB concA concB).i ≤ 10001 ∧
    ((Newton_run KAB KAA KBB concA concB).warned = true ↔
      (Newton_run KAB KAA KBB concA concB).i = 10001) ∧
    Newton_Conc KAB KAA KBB concA concB =
      mkConcVec KAB KAA KBB (Newton_run KAB KAA KBB concA concB).cA
        (Newton_run KAB KAA KBB concA concB).cB := by
  have h := Newton_loop_count KAB KAA KBB concA concB 10001 0 concA concB (by norm_num)
    (by norm_num)
  exact ⟨h.1, h.2.1, h.2.2, rfl⟩

/-- C17 counterexample to the claim as stated: for `KAA = 1`, `KAB = KBB = 0` and total
concentrations `(-1/6, 1)` the loop of `Newton_Conc` runs its body 10001 times, one more
than 10 000, before it warns and returns the vector built from the last iterate. -/
theorem C17_newton_runs_10001_times :
    (Newton_run (0 : ℚ) 1 0 (-1 / 6) 1).i = 10001 ∧
    (Newton_run (0 : ℚ) 1 0 (-1 / 6) 1).warned = true ∧
    Newton_Conc (0 : ℚ) 1 0 (-1 / 6) 1 =
      mkConcVec 0 1 0 (Newton_run (0 : ℚ) 1 0 (-1 / 6) 1).cA
        (Newton_run (0 : ℚ) 1 0 (-1 / 6) 1).cB := by
  have h := (newton_two_cycle 10001 0 (by norm_num) (by norm_num)).1
  exact ⟨h.1, h.2, rfl⟩

/-- C19: for `concA > 0` and `concB > 0`, `Newton_Conc` with `KAB = KAA = KBB = 0` stops
after its first iteration (without warning) and returns
`(AB, AA, BB, A, B) = (0, 0, 0, concA, concB)`. -/
theorem C19_newton_unreactive (concA concB : α) (hA : 0 < concA) (hB : 0 < concB) :
    (Newton_run 0 0 0 concA concB).i = 1 ∧
    (Newton_run 0 0 0 concA concB).warned = false ∧
    Newton_Conc 0 0 0 concA concB =
      { v0 := 0, v1 := 0, v2 := 0, v3 := concA, v4 := concB } := by
  have hx : newton_xn 0 0 0 concA concB concA concB = 0 := by
    simp [newton_xn, newton_det]
  have hy : newton_yn 0 0 0 concA concB concA concB = 0 := by
    simp [newton_yn, newton_det]
  have hA0 : concA ≠ 0 := ne_of_gt hA
  have hB0 : concB ≠ 0 := ne_of_gt hB
  have hd : ¬ newton_det 0 0 0 concA concB = 0 := by
    simp [newton_det]
  have he : newton_EPS_gt_TOL (0 : α) 0 concA concB = false := by
    unfold newton_EPS_gt_TOL
    rw [if_neg (by
      rintro (⟨h, _⟩ | ⟨h, _⟩)
      · exact hA0 h
      · exact hB0 h)]
    rw [if_neg (by
      rintro (h | h)
      · exact hA0 h
      · exact hB0 h)]
    rw [zero_div, zero_div, abs_zero, add_zero, decide_eq_false_iff_not]
    intro h
    have h2 : (0 : α) < 1 / 10 ^ 6 := by positivity
    exact absurd h (not_lt.mpr (le_of_lt h2))
  have hrun : Newton_run 0 0 0 concA concB = ⟨concA, concB, 1, false, false⟩ := by
    unfold Newton_run
    rw [Newton_loop]
    simp only [hx, hy, add_zero, zero_add, if_neg hd, he]
    rw [if_neg (by norm_num)]
    rw [if_neg (by decide)]
  refine ⟨by rw [hrun], by rw [hrun], ?_⟩
  unfold Newton_Conc
  simp only [hrun, mkConcVec, mul_zero]

/-- C19 witness: total concentrations `(3, 2)`. -/
theorem C19_newton_unreactive_witness :
    (0 : ℚ) < 3 ∧ (0 : ℚ) < 2 ∧
      Newton_Conc (0 : ℚ) 0 0 3 2 = { v0 := 0, v1 := 0, v2 := 0, v3 := 3, v4 := 2 } :=
  ⟨by norm_num, by norm_num, (C19_newton_unreactive (3 : ℚ) 2 (by norm_num) (by norm_num)).2.2⟩

/-- C20: with `KAA = KBB = 0`, `KAB = 1` and total concentrations `(1, 1)`, the point
`cA = cB = (sqrt 5 - 1) / 2` is a fixed point of the update of `Newton_Conc` (the step
computed there is `(0, 0)`), it is the only fixed point with `cA ≥ 0` and `cB ≥ 0`, and
the AB concentration built for it is `cA * cB`. -/
theorem C20_newton_golden_fixed_point :
    newton_xn (1 : ℝ) 0 0 1 1 ((Real.sqrt 5 - 1) / 2) ((Real.sqrt 5 - 1) / 2) = 0 ∧
    newton_yn (1 : ℝ) 0 0 1 1 ((Real.sqrt 5 - 1) / 2) ((Real.sqrt 5 - 1) / 2) = 0 ∧
    (∀ cA cB : ℝ, 0 ≤ cA → 0 ≤ cB →
      newton_xn (1 : ℝ) 0 0 1 1 cA cB = 0 → newton_yn (1 : ℝ) 0 0 1 1 cA cB = 0 →
      cA = (Real.sqrt 5 - 1) / 2 ∧ cB = (Real.sqrt 5 - 1) / 2) ∧
    (mkConcVec (1 : ℝ) 0 0 ((Real.sqrt 5 - 1) / 2) ((Real.sqrt 5 - 1) / 2)).v0 =
      (Real.sqrt 5 - 1) / 2 * ((Real.sqrt 5 - 1) / 2) ∧
    (mkConcVec (1 : ℝ) 0 0 ((Real.sqrt 5 - 1) / 2) ((Real.sqrt 5 - 1) / 2)).v3 =
      (Real.sqrt 5 - 1) / 2 ∧
    (mkConcVec (1 : ℝ) 0 0 ((Real.sqrt 5 - 1) / 2) ((Real.sqrt 5 - 1) / 2)).v4 =
      (Real.sqrt 5 - 1) / 2 := by
  have h5 : Real.sqrt 5 * Real.sqrt 5 = 5 := Real.mul_self_sqrt (by norm_num)
  have h5pos : (2 : ℝ) < Real.sqrt 5 := by
    rw [show (2 : ℝ) = Real.sqrt 4 by
      rw [show (4 : ℝ) = 2 ^ 2 by norm_num, Real.sqrt_sq (by norm_num)]]
    exact Real.sqrt_lt_sqrt (by norm_num) (by norm_num)
  have hphi : (0 : ℝ) ≤ (Real.sqrt 5 - 1) / 2 := by linarith
  have hfix := (newton_step_zero_iff (1 : ℝ) 0 0 1 1 ((Real.sqrt 5 - 1) / 2)
    ((Real.sqrt 5 - 1) / 2) (by norm_num) (le_refl 0) (le_refl 0) hphi hphi).mpr
    ⟨by unfold newton_f1; nlinarith, by unfold newton_f2; nlinarith⟩
  refine ⟨hfix.1, hfix.2, ?_, ?_, rfl, rfl⟩
  · intro cA cB hA hB hx hy
    obtain ⟨h1, h2⟩ := (newton_step_zero_iff (1 : ℝ) 0 0 1 1 cA cB (by norm_num) (le_refl 0)
      (le_refl 0) hA hB).mp ⟨hx, hy⟩
    unfold newton_f1 at h1
    unfold newton_f2 at h2
    have hAB : cA = cB := by linarith
    subst hAB
    have hq : (cA - (Real.sqrt 5 - 1) / 2) * (cA + (Real.sqrt 5 + 1) / 2) = 0 := by
      nlinarith
    have hpos : cA + (Real.sqrt 5 + 1) / 2 ≠ 0 := by
      have : 0 < cA + (Real.sqrt 5 + 1) / 2 := by linarith
      exact ne_of_gt this
    have := (mul_eq_zero.mp hq).resolve_right hpos
    have hc : cA = (Real.sqrt 5 - 1) / 2 := by linarith
    exact ⟨hc, hc⟩
  · simp only [mkConcVec, mul_one]

/-- C20 witness: the uniqueness statement applied at the fixed point itself. -/
theorem C20_newton_golden_witness :
    (0 : ℝ) ≤ (Real.sqrt 5 - 1) / 2 ∧
      newton_xn (1 : ℝ) 0 0 1 1 ((Real.sqrt 5 - 1) / 2) ((Real.sqrt 5 - 1) / 2) = 0 ∧
      (Real.sqrt 5 - 1) / 2 = (Real.sqrt 5 - 1) / 2 := by
  have h5pos : (2 : ℝ) < Real.sqrt 5 := by
    rw [show (2 : ℝ) = Real.sqrt 4 by
      rw [show (4 : ℝ) = 2 ^ 2 by norm_num, Real.sqrt_sq (by norm_num)]]
    exact Real.sqrt_lt_sqrt (by norm_num) (by norm_num)
  have hphi : (0 : ℝ) ≤ (Real.sqrt 5 - 1) / 2 := by linarith
  exact ⟨hphi, C20_newton_golden_fixed_point.1,
    (C20_newton_golden_fixed_point.2.2.1 _ _ hphi hphi C20_newton_golden_fixed_point.1
      C20_newton_golden_fixed_point.2.1).1⟩

end NewtonTheorems2

section PrepareTheorems

variable {α : Type} {Ael Aml : Type}

/-- C18: if preparing the fold compound fails, `vrna_pf_dimer` returns a result with
`FA = FB = FAB = F0AB = FcAB = 0` and runs neither the forward nor the outside
recursion: the fold compound is the one left by the failed preparation (no table of it
is modified), the caller's structure buffer is untouched and no diagnostic of the two
passes is issued. -/
theorem C18_prepare_failure [LinearOrderedField α] (O : Externals α Ael Aml) (C : Constants)
    (vc vc0 : vrna_fold_compound_t α) (structure_buf : Option (List Char))
    (hprep : O.fold_compound_prepare vc = (false, vc0)) :
    ∃ r, vrna_pf_dimer O C vc structure_buf = Except.ok r ∧
      r.X.FA = 0 ∧ r.X.FB = 0 ∧ r.X.FAB = 0 ∧ r.X.F0AB = 0 ∧ r.X.FcAB = 0 ∧
      r.vc = vc0 ∧ r.vc.exp_matrices = vc0.exp_matrices ∧
      r.structure_buf = structure_buf ∧ r.prepared = false ∧
      r.pf_warnings = [] ∧ r.bppm_ov = 0 ∧ r.bppm_warnings = [] := by
  unfold vrna_pf_dimer
  rw [hprep]
  exact ⟨_, rfl, rfl, rfl, rfl, rfl, rfl, rfl, rfl, rfl, rfl, rfl, rfl, rfl⟩

/-- C18 witness: a fold compound whose preparation fails. -/
theorem C18_prepare_failure_witness :
    ∃ r, vrna_pf_dimer (exampleExternalsUnprepared ℚ id id) exampleConstants
        (exampleFoldCompound ℚ ['G', 'C'] 0 'F' (fun _ => 63)) none = Except.ok r ∧
      r.X.FA = 0 ∧ r.vc.exp_matrices.qb 2 = 0 := by
  obtain ⟨r, hr, h1, _, _, _, _, h6, _⟩ := C18_prepare_failure
    (exampleExternalsUnprepared ℚ id id) exampleConstants
    (exampleFoldCompound ℚ ['G', 'C'] 0 'F' (fun _ => 63))
    (exampleFoldCompound ℚ ['G', 'C'] 0 'F' (fun _ => 63)) none rfl
  refine ⟨r, hr, h1, ?_⟩
  rw [h6]
  rfl

end PrepareTheorems

section OverflowTheorems

variable {α : Type} {Ael Aml : Type}

/-- The running maximum `Qmax` after a list of computed cells. -/
theorem pf_co_warned_append [LinearOrderedField α] (max_real : α) :
    ∀ (T1 T2 : List (Int × Int × α)) (Q : α),
      pf_co_warned max_real Q (T1 ++ T2) =
        pf_co_warned max_real Q T1 ++
          pf_co_warned max_real (T1.foldl (fun m c => if c.2.2 > m then c.2.2 else m) Q) T2 := by
  intro T1
  induction T1 with
  | nil => intro T2 Q; rfl
  | cons c cs ih =>
    intro T2 Q
    simp only [List.cons_append, pf_co_warned, List.foldl_cons]
    by_cases h1 : c.2.2 > Q
    · simp only [if_pos h1]
      by_cases h2 : c.2.2 > max_real / 10
      · simp only [if_pos h2]
        exact congrArg (fun t => c :: t) (ih T2 c.2.2)
      · simp only [if_neg h2]
        exact ih T2 c.2.2
    · simp only [if_neg h1]
      exact ih T2 Q

/-- The shape of one cell of `pf_co`: the exterior value `temp` is stored into `q[ij]`,
`Qmax` and the warnings are updated from it, and the error is raised exactly when
`temp ≥ max_real`. -/
theorem pf_co_cell_form [LinearOrderedField α] (O : Externals α Ael Aml) (j i : Int)
    (st : PfCoState α Ael Aml) :
    ∃ (temp : α) (st1 : PfCoState α Ael Aml),
      (∃ vc3, temp = (O.exp_E_ext_fast vc3 i j st.aux_mx_el).1) ∧
      st1.vc.exp_matrices.q (st.vc.iindx i - j) = temp ∧
      st1.Qmax = (if temp > st.Qmax then temp else st.Qmax) ∧
      st1.warnings =
        (if temp > st.Qmax ∧ temp > O.max_real / 10 then st.warnings ++ [(i, j, temp)]
          else st.warnings) ∧
      pf_co_cell O j st i =
        if temp ≥ O.max_real then Except.error { i := i, j := j, state := st1 }
        else Except.ok st1 := by
  unfold pf_co_cell
  refine ⟨_, _, ⟨_, rfl⟩, ?_, ?_, ?_, rfl⟩
  · simp only [set_q, Function.update_same]
  · rfl
  · rfl

/-- One cell of `pf_co`: either it returns and the exterior value it stored is below
`max_real`, or it raises the error naming the cell and the value is at least `max_real`;
in both cases `Qmax` and the warnings are updated from the stored value. -/
theorem pf_co_cell_cases [LinearOrderedField α] (O : Externals α Ael Aml) (j i : Int)
    (st : PfCoState α Ael Aml) :
    ((∃ st1, pf_co_cell O j st i = Except.ok st1 ∧
        (pf_co_after (pf_co_cell O j st i)).vc.exp_matrices.q (st.vc.iindx i - j) <
          O.max_real) ∨
      (∃ e, pf_co_cell O j st i = Except.error e ∧ e.i = i ∧ e.j = j ∧
        (pf_co_after (pf_co_cell O j st i)).vc.exp_matrices.q (st.vc.iindx i - j) ≥
          O.max_real)) ∧
    (pf_co_after (pf_co_cell O j st i)).Qmax =
      (if (pf_co_after (pf_co_cell O j st i)).vc.exp_matrices.q (st.vc.iindx i - j) > st.Qmax
        then (pf_co_after (pf_co_cell O j st i)).vc.exp_matrices.q (st.vc.iindx i - j)
        else st.Qmax) ∧
    (pf_co_after (pf_co_cell O j st i)).warnings =
      st.warnings ++ pf_co_warned O.max_real st.Qmax
        [(i, j, (pf_co_after (pf_co_cell O j st i)).vc.exp_matrices.q (st.vc.iindx i - j))] := by
  obtain ⟨temp, st1, _, hq, hQ, hW, hform⟩ := pf_co_cell_form O j i st
  have hafter : pf_co_after (pf_co_cell O j st i) = st1 := by
    rw [hform]
    split <;> rfl
  rw [hafter, hq]
  have hwarn : st1.warnings =
      st.warnings ++ pf_co_warned O.max_real st.Qmax [(i, j, temp)] := by
    rw [hW]
    simp only [pf_co_warned]
    by_cases h1 : temp > st.Qmax
    · by_cases h2 : temp > O.max_real / 10
      · simp only [h1, h2, and_self, if_true]
      · simp only [h1, h2, and_false, if_false, if_true, List.append_nil]
    · simp only [h1, false_and, if_false, List.append_nil]
  refine ⟨?_, hQ, hwarn⟩
  by_cases hge : temp ≥ O.max_real
  · right
    rw [hform, if_pos hge]
    exact ⟨_, rfl, rfl, rfl, hge⟩
  · left
    rw [hform, if_neg hge]
    exact ⟨_, rfl, not_le.mp hge⟩

/-- The inner loop of `pf_co` and its list of computed cells. -/
theorem pf_co_cells_trace_spec [LinearOrderedField α] (O : Externals α Ael Aml) (j : Int) :
    ∀ (L : List Int) (st : PfCoState α Ael Aml),
      ((∃ st1, pf_co_cells O j L st = Except.ok st1 ∧
          ∀ c ∈ pf_co_cells_trace O j L st, c.2.2 < O.max_real) ∨
        (∃ e pre v, pf_co_cells O j L st = Except.error e ∧
          pf_co_cells_trace O j L st = pre ++ [(e.i, e.j, v)] ∧ v ≥ O.max_real ∧
          ∀ c ∈ pre, c.2.2 < O.max_real)) ∧
      (pf_co_after (pf_co_cells O j L st)).Qmax =
        (pf_co_cells_trace O j L st).foldl (fun m c => if c.2.2 > m then c.2.2 else m)
          st.Qmax ∧
      (pf_co_after (pf_co_cells O j L st)).warnings =
        st.warnings ++ pf_co_warned O.max_real st.Qmax (pf_co_cells_trace O j L st) := by
  intro L
  induction L with
  | nil =>
    intro st
    simp only [pf_co_cells, pf_co_cells_trace, pf_co_after, pf_co_warned, List.foldl_nil,
      List.append_nil, and_self, and_true]
    left
    exact ⟨st, rfl, fun c hc => absurd hc (List.not_mem_nil c)⟩
  | cons i is ih =>
    intro st
    obtain ⟨hcase, hQ, hW⟩ := pf_co_cell_cases O j i st
    rcases hcase with ⟨st1, hok, hv⟩ | ⟨e, herr, hei, hej, hv⟩
    · obtain ⟨ihcase, ihQ, ihW⟩ := ih st1
      have hcells : pf_co_cells O j (i :: is) st = pf_co_cells O j is st1 := by
        simp only [pf_co_cells, hok]
      have htrace : pf_co_cells_trace O j (i :: is) st =
          (i, j, (pf_co_after (pf_co_cell O j st i)).vc.exp_matrices.q (st.vc.iindx i - j)) ::
            pf_co_cells_trace O j is st1 := by
        simp only [pf_co_cells_trace, hok]
      have hafter : pf_co_after (pf_co_cell O j st i) = st1 := by
        rw [hok]
        rfl
      rw [hcells, htrace]
      rw [hafter] at hQ hW hv
      refine ⟨?_, ?_, ?_⟩
      · rcases ihcase with ⟨st2, h2, hall⟩ | ⟨e, pre, v, h2, htr, hge, hall⟩
        · left
          refine ⟨st2, h2, ?_⟩
          intro c hc
          rcases List.mem_cons.mp hc with h | h
          · rw [h, hafter]
            exact hv
          · exact hall c h
        · right
          refine ⟨e, (i, j, st1.vc.exp_matrices.q (st.vc.iindx i - j)) :: pre, v, h2, ?_, hge, ?_⟩
          · rw [hafter, htr]
            rfl
          · intro c hc
            rcases List.mem_cons.mp hc with h | h
            · rw [h]
              exact hv
            · exact hall c h
      · rw [ihQ, List.foldl_cons, hafter, hQ]
      · rw [ihW, hW, hafter, List.append_assoc]
        congr 1
        have := pf_co_warned_append O.max_real
          [(i, j, st1.vc.exp_matrices.q (st.vc.iindx i - j))] (pf_co_cells_trace O j is st1)
          st.Qmax
        simp only [List.singleton_append, List.foldl_cons, List.foldl_nil] at this
        rw [this, hQ]
    · have hcells : pf_co_cells O j (i :: is) st = Except.error e := by
        simp only [pf_co_cells, herr]
      have htrace : pf_co_cells_trace O j (i :: is) st =
          [(i, j, (pf_co_after (pf_co_cell O j st i)).vc.exp_matrices.q (st.vc.iindx i - j))] := by
        simp only [pf_co_cells_trace, herr]
      have hafter : pf_co_after (pf_co_cell O j st i) = e.state := by
        rw [herr]
        rfl
      rw [hcells, htrace]
      refine ⟨?_, ?_, ?_⟩
      · right
        refine ⟨e, [], _, rfl, ?_, hv, fun c hc => absurd hc (List.not_mem_nil c)⟩
        rw [hei, hej]
        rfl
      · show e.state.Qmax = _
        rw [← hafter, hQ]
        rfl
      · show e.state.warnings = _
        rw [← hafter, hW]

/-- The main loop of `pf_co` and its list of computed cells. -/
theorem pf_co_columns_trace_spec [LinearOrderedField α] (O : Externals α Ael Aml)
    (turn : Int) :
    ∀ (J : List Int) (st : PfCoState α Ael Aml),
      ((∃ st1, pf_co_columns O turn J st = Except.ok st1 ∧
          ∀ c ∈ pf_co_columns_trace O turn J st, c.2.2 < O.max_real) ∨
        (∃ e pre v, pf_co_columns O turn J st = Except.error e ∧
          pf_co_columns_trace O turn J st = pre ++ [(e.i, e.j, v)] ∧ v ≥ O.max_real ∧
          ∀ c ∈ pre, c.2.2 < O.max_real)) ∧
      (pf_co_after (pf_co_columns O turn J st)).Qmax =
        (pf_co_columns_trace O turn J st).foldl (fun m c => if c.2.2 > m then c.2.2 else m)
          st.Qmax ∧
      (pf_co_after (pf_co_columns O turn J st)).warnings =
        st.warnings ++ pf_co_warned O.max_real st.Qmax (pf_co_columns_trace O turn J st) := by
  intro J
  induction J with
  | nil =>
    intro st
    simp only [pf_co_columns, pf_co_columns_trace, pf_co_after, pf_co_warned, List.foldl_nil,
      List.append_nil, and_self, and_true]
    left
    exact ⟨st, rfl, fun c hc => absurd hc (List.not_mem_nil c)⟩
  | cons j js ih =>
    intro st
    obtain ⟨hcase, hQ, hW⟩ := pf_co_cells_trace_spec O j (downto (j - turn - 1) 1) st
    rcases hcase with ⟨st1, hok, hall⟩ | ⟨e, pre, v, herr, htr, hge, hall⟩
    · have hcol : pf_co_column O turn st j =
          Except.ok { st1 with
            aux_mx_el := O.exp_E_ext_fast_rotate st1.vc st1.aux_mx_el
            aux_mx_ml := O.exp_E_ml_fast_rotate st1.vc st1.aux_mx_ml } := by
        simp only [pf_co_column, hok]
      obtain ⟨ihcase, ihQ, ihW⟩ := ih { st1 with
        aux_mx_el := O.exp_E_ext_fast_rotate st1.vc st1.aux_mx_el
        aux_mx_ml := O.exp_E_ml_fast_rotate st1.vc st1.aux_mx_ml }
      have hcols : pf_co_columns O turn (j :: js) st =
          pf_co_columns O turn js { st1 with
            aux_mx_el := O.exp_E_ext_fast_rotate st1.vc st1.aux_mx_el
            aux_mx_ml := O.exp_E_ml_fast_rotate st1.vc st1.aux_mx_ml } := by
        simp only [pf_co_columns, hcol]
      have htrace : pf_co_columns_trace O turn (j :: js) st =
          pf_co_cells_trace O j (downto (j - turn - 1) 1) st ++
            pf_co_columns_trace O turn js { st1 with
              aux_mx_el := O.exp_E_ext_fast_rotate st1.vc st1.aux_mx_el
              aux_mx_ml := O.exp_E_ml_fast_rotate st1.vc st1.aux_mx_ml } := by
        simp only [pf_co_columns_trace, hcol]
      have hafter : pf_co_after (pf_co_cells O j (downto (j - turn - 1) 1) st) = st1 := by
        rw [hok]
        rfl
      rw [hafter] at hQ hW
      rw [hcols, htrace]
      refine ⟨?_, ?_, ?_⟩
      · rcases ihcase with ⟨st2, h2, hall2⟩ | ⟨e, pre, v, h2, htr2, hge2, hall2⟩
        · left
          refine ⟨st2, h2, ?_⟩
          intro c hc
          rcases List.mem_append.mp hc with h | h
          · exact hall c h
          · exact hall2 c h
        · right
          refine ⟨e, pf_co_cells_trace O j (downto (j - turn - 1) 1) st ++ pre, v, h2, ?_,
            hge2, ?_⟩
          · rw [htr2, List.append_assoc]
          · intro c hc
            rcases List.mem_append.mp hc with h | h
            · exact hall c h
            · exact hall2 c h
      · rw [ihQ, List.foldl_append]
        show List.foldl _ st1.Qmax _ = _
        rw [hQ]
      · rw [ihW, pf_co_warned_append, ← List.append_assoc]
        show (st1.warnings ++ pf_co_warned O.max_real st1.Qmax _) = _
        rw [hW, hQ]
    · have hcol : pf_co_column O turn st j = Except.error e := by
        simp only [pf_co_column, herr]
      have hcols : pf_co_columns O turn (j :: js) st = Except.error e := by
        simp only [pf_co_columns, hcol]
      have htrace : pf_co_columns_trace O turn (j :: js) st =
          pf_co_cells_trace O j (downto (j - turn - 1) 1) st := by
        simp only [pf_co_columns_trace, hcol, List.append_nil]
      have hafter : pf_co_after (pf_co_cells O j (downto (j - turn - 1) 1) st) = e.state := by
        rw [herr]
        rfl
      rw [hafter] at hQ hW
      rw [hcols, htrace]
      refine ⟨?_, hQ, hW⟩
      right
      exact ⟨e, pre, v, rfl, htr, hge, hall⟩

theorem pf_co_eq_columns [LinearOrderedField α] (O : Externals α Ael Aml)
    (vc : vrna_fold_compound_t α) :
    pf_co O vc = pf_co_columns O 0 (upto (0 + 2) vc.length) (pf_co_start O vc) := rfl

/-- In a run of `pf_co` that returns, every computed exterior value is below
`max_real`. -/
theorem pf_co_trace_lt_of_ok [LinearOrderedField α] (O : Externals α Ael Aml)
    (vc : vrna_fold_compound_t α) (st : PfCoState α Ael Aml)
    (h : pf_co O vc = Except.ok st) : ∀ c ∈ pf_co_trace O vc, c.2.2 < O.max_real := by
  have hspec := (pf_co_columns_trace_spec O 0 (upto (0 + 2) vc.length) (pf_co_start O vc)).1
  rw [← pf_co_eq_columns] at hspec
  rcases hspec with ⟨st1, _, hall⟩ | ⟨e1, _, _, herr, _, _, _⟩
  · exact hall
  · rw [h] at herr
    cases herr

/-- C15: the forward pass `pf_co` aborts with the overflow error if and only if some
exterior value `q[i,j]` it computes is `≥ max_real`; the diagnostic names the first such
`(i, j)` in the order of computation, which is the last cell computed; and a run in
which every computed `q[i,j]` is below `max_real` does not abort. -/
theorem C15_overflow_abort [LinearOrderedField α] (O : Externals α Ael Aml)
    (vc : vrna_fold_compound_t α) :
    ((∃ e, pf_co O vc = Except.error e) ↔ ∃ c ∈ pf_co_trace O vc, c.2.2 ≥ O.max_real) ∧
    (∀ e, pf_co O vc = Except.error e →
      ∃ pre v, pf_co_trace O vc = pre ++ [(e.i, e.j, v)] ∧ v ≥ O.max_real ∧
        ∀ c ∈ pre, c.2.2 < O.max_real) ∧
    ((∀ c ∈ pf_co_trace O vc, c.2.2 < O.max_real) → ∃ st, pf_co O vc = Except.ok st) := by
  have hspec := (pf_co_columns_trace_spec O 0 (upto (0 + 2) vc.length) (pf_co_start O vc)).1
  rw [← pf_co_eq_columns] at hspec
  have htr : pf_co_columns_trace O 0 (upto (0 + 2) vc.length) (pf_co_start O vc) =
      pf_co_trace O vc := rfl
  rw [htr] at hspec
  refine ⟨?_, ?_, ?_⟩
  · constructor
    · rintro ⟨e, he⟩
      rcases hspec with ⟨st1, hok, _⟩ | ⟨e1, pre, v, _, htr1, hge, _⟩
      · rw [he] at hok
        cases hok
      · exact ⟨(e1.i, e1.j, v), by rw [htr1]; simp, hge⟩
    · rintro ⟨c, hc, hge⟩
      rcases hspec with ⟨st1, _, hall⟩ | ⟨e1, _, _, herr, _, _, _⟩
      · exact absurd hge (not_le.mpr (hall c hc))
      · exact ⟨e1, herr⟩
  · intro e he
    rcases hspec with ⟨st1, hok, _⟩ | ⟨e1, pre, v, herr, htr1, hge, hall⟩
    · rw [he] at hok
      cases hok
    · rw [he] at herr
      injection herr with herr
      subst herr
      exact ⟨pre, v, htr1, hge, hall⟩
  · intro hall
    rcases hspec with ⟨st1, hok, _⟩ | ⟨e1, pre, v, _, htr1, hge, _⟩
    · exact ⟨st1, hok⟩
    · have hmem : (e1.i, e1.j, v) ∈ pf_co_trace O vc := by rw [htr1]; simp
      exact absurd hge (not_le.mpr (hall _ hmem))

/-- C15 witness: a run in which every exterior value is `2`, below `max_real = 1000`. -/
theorem C15_overflow_abort_witness :
    (∀ c ∈ pf_co_trace (exampleExternals ℚ id id)
        (exampleFoldCompound ℚ ['G', 'C', 'G'] (-1) 'F' (fun _ => 63)),
      c.2.2 < (exampleExternals ℚ id id).max_real) ∧
    ∃ st, pf_co (exampleExternals ℚ id id)
        (exampleFoldCompound ℚ ['G', 'C', 'G'] (-1) 'F' (fun _ => 63)) = Except.ok st := by
  obtain ⟨st, hst⟩ := pf_co_ok_of_bounded (exampleExternals ℚ id id)
    (by intro _ _ _ _; norm_num [exampleExternals])
    (exampleFoldCompound ℚ ['G', 'C', 'G'] (-1) 'F' (fun _ => 63))
  have hall := pf_co_trace_lt_of_ok (exampleExternals ℚ id id) _ st hst
  exact ⟨hall, (C15_overflow_abort (exampleExternals ℚ id id)
    (exampleFoldCompound ℚ ['G', 'C', 'G'] (-1) 'F' (fun _ => 63))).2.2 hall⟩

/-- C16 (as amended): in one run of the forward pass `pf_co`, the "close to overflow"
warning is emitted for exactly those computed cells whose exterior value exceeds both
`max_real / 10` and every exterior value computed before it (a new running maximum);
the warnings of the run, in order, are these cells, whether the run returns or aborts. -/
theorem C16_warning_per_new_maximum [LinearOrderedField α] (O : Externals α Ael Aml)
    (vc : vrna_fold_compound_t α) :
    (pf_co_after (pf_co O vc)).warnings = pf_co_warned O.max_real 0 (pf_co_trace O vc) ∧
    (∀ st, pf_co O vc = Except.ok st →
      st.warnings = pf_co_warned O.max_real 0 (pf_co_trace O vc)) ∧
    (∀ e, pf_co O vc = Except.error e →
      e.state.warnings = pf_co_warned O.max_real 0 (pf_co_trace O vc)) := by
  have hspec := (pf_co_columns_trace_spec O 0 (upto (0 + 2) vc.length) (pf_co_start O vc)).2.2
  rw [← pf_co_eq_columns] at hspec
  have htr : pf_co_columns_trace O 0 (upto (0 + 2) vc.length) (pf_co_start O vc) =
      pf_co_trace O vc := rfl
  rw [htr] at hspec
  have h0 : (pf_co_after (pf_co O vc)).warnings =
      pf_co_warned O.max_real 0 (pf_co_trace O vc) := by
    rw [hspec]
    rfl
  refine ⟨h0, ?_, ?_⟩
  · intro st hst
    rw [hst] at h0
    exact h0
  · intro e he
    rw [he] at h0
    exact h0

/-- C16 witness: a run that returns; its warnings are those of its computed cells. -/
theorem C16_warning_witness :
    ∃ st, pf_co (exampleExternals ℚ id id)
        (exampleFoldCompound ℚ ['G', 'C', 'G'] (-1) 'F' (fun _ => 63)) = Except.ok st ∧
      st.warnings = pf_co_warned (exampleExternals ℚ id id).max_real 0
        (pf_co_trace (exampleExternals ℚ id id)
          (exampleFoldCompound ℚ ['G', 'C', 'G'] (-1) 'F' (fun _ => 63))) := by
  obtain ⟨st, hst⟩ := pf_co_ok_of_bounded (exampleExternals ℚ id id)
    (by intro _ _ _ _; norm_num [exampleExternals])
    (exampleFoldCompound ℚ ['G', 'C', 'G'] (-1) 'F' (fun _ => 63))
  exact ⟨st, hst, (C16_warning_per_new_maximum (exampleExternals ℚ id id)
    (exampleFoldCompound ℚ ['G', 'C', 'G'] (-1) 'F' (fun _ => 63))).2.1 st hst⟩

/-- C16 (counterexample to the claim as stated): on a sequence of length 3 whose three
cells get the exterior values `219`, `228`, `229` (each a new maximum above
`max_real / 10 = 100`, all below `max_real = 1000`), the run returns and the warning
has been emitted three times. -/
theorem C16_three_warnings_counterexample :
    ∃ st, pf_co (exampleExternalsRising ℚ id id)
        (exampleFoldCompound ℚ ['G', 'C', 'G'] (-1) 'F' (fun _ => 63)) = Except.ok st ∧
      st.warnings = [(1, 2, 219), (2, 3, 228), (1, 3, 229)] ∧ st.warnings.length = 3 := by
  have hl : (exampleFoldCompound ℚ ['G', 'C', 'G'] (-1) 'F' (fun _ => 63)).length = 3 := rfl
  have hu2 : upto (0 + 2) 3 = [2, 3] := by decide
  have hu3 : downto (2 - 0 - 1) 1 = [1] := by decide
  have hu4 : downto (3 - 0 - 1) 1 = [2, 1] := by decide
  have hcell : ∀ (j i : Int) (st : PfCoState ℚ Unit Unit),
      (((200 + 10 * j - i : Int) : ℚ)) < 1000 →
      ∃ st1, pf_co_cell (exampleExternalsRising ℚ id id) j st i = Except.ok st1 ∧
        st1.Qmax = (if (((200 + 10 * j - i : Int) : ℚ)) > st.Qmax
          then (((200 + 10 * j - i : Int) : ℚ)) else st.Qmax) ∧
        st1.warnings = (if (((200 + 10 * j - i : Int) : ℚ)) > st.Qmax ∧
            (((200 + 10 * j - i : Int) : ℚ)) > 1000 / 10
          then st.warnings ++ [(i, j, (((200 + 10 * j - i : Int) : ℚ)))] else st.warnings) := by
    intro j i st hlt
    obtain ⟨temp, st1, ⟨vc3, ht⟩, _, hQ, hW, hform⟩ :=
      pf_co_cell_form (exampleExternalsRising ℚ id id) j i st
    have ht2 : temp = (((200 + 10 * j - i : Int) : ℚ)) := ht
    have hm : (exampleExternalsRising ℚ id id).max_real = 1000 := rfl
    rw [hm] at hform hW
    rw [ht2] at hform hQ hW
    rw [if_neg (not_le.mpr hlt)] at hform
    exact ⟨st1, hform, hQ, hW⟩
  obtain ⟨st1, h1, hQ1, hW1⟩ := hcell 2 1 (pf_co_start (exampleExternalsRising ℚ id id)
    (exampleFoldCompound ℚ ['G', 'C', 'G'] (-1) 'F' (fun _ => 63))) (by norm_num)
  obtain ⟨st2, h2, hQ2, hW2⟩ := hcell 3 2 { st1 with
    aux_mx_el := (exampleExternalsRising ℚ id id).exp_E_ext_fast_rotate st1.vc st1.aux_mx_el
    aux_mx_ml := (exampleExternalsRising ℚ id id).exp_E_ml_fast_rotate st1.vc st1.aux_mx_ml }
    (by norm_num)
  obtain ⟨st3, h3, hQ3, hW3⟩ := hcell 3 1 st2 (by norm_num)
  have hs0Q : (pf_co_start (exampleExternalsRising ℚ id id)
      (exampleFoldCompound ℚ ['G', 'C', 'G'] (-1) 'F' (fun _ => 63))).Qmax = 0 := rfl
  have hs0W : (pf_co_start (exampleExternalsRising ℚ id id)
      (exampleFoldCompound ℚ ['G', 'C', 'G'] (-1) 'F' (fun _ => 63))).warnings = [] := rfl
  rw [hs0Q, hs0W] at hW1
  rw [hs0Q] at hQ1
  simp only [] at hQ2 hW2
  norm_num at hQ1 hW1
  rw [hQ1, hW1] at hW2
  rw [hQ1] at hQ2
  norm_num at hQ2 hW2
  rw [hQ2, hW2] at hW3
  norm_num at hW3
  refine ⟨{ st3 with
    aux_mx_el := (exampleExternalsRising ℚ id id).exp_E_ext_fast_rotate st3.vc st3.aux_mx_el
    aux_mx_ml := (exampleExternalsRising ℚ id id).exp_E_ml_fast_rotate st3.vc st3.aux_mx_ml },
    ?_, ?_, ?_⟩
  · rw [pf_co_eq_columns, hl, hu2]
    have hc2 : pf_co_column (exampleExternalsRising ℚ id id) 0
        (pf_co_start (exampleExternalsRising ℚ id id)
          (exampleFoldCompound ℚ ['G', 'C', 'G'] (-1) 'F' (fun _ => 63))) 2 =
        Except.ok { st1 with
          aux_mx_el := (exampleExternalsRising ℚ id id).exp_E_ext_fast_rotate st1.vc st1.aux_mx_el
          aux_mx_ml :=
            (exampleExternalsRising ℚ id id).exp_E_ml_fast_rotate st1.vc st1.aux_mx_ml } := by
      unfold pf_co_column
      rw [hu3]
      simp only [pf_co_cells, h1]
    have hc3 : pf_co_column (exampleExternalsRising ℚ id id) 0
        { st1 with
          aux_mx_el := (exampleExternalsRising ℚ id id).exp_E_ext_fast_rotate st1.vc st1.aux_mx_el
          aux_mx_ml :=
            (exampleExternalsRising ℚ id id).exp_E_ml_fast_rotate st1.vc st1.aux_mx_ml } 3 =
        Except.ok { st3 with
          aux_mx_el := (exampleExternalsRising ℚ id id).exp_E_ext_fast_rotate st3.vc st3.aux_mx_el
          aux_mx_ml :=
            (exampleExternalsRising ℚ id id).exp_E_ml_fast_rotate st3.vc st3.aux_mx_ml } := by
      unfold pf_co_column
      rw [hu4]
      simp only [pf_co_cells, h2, h3]
    simp only [pf_co_columns, hc2, hc3]
  · show st3.warnings = _
    rw [hW3]
  · show st3.warnings.length = 3
    rw [hW3]
    rfl

end OverflowTheorems

section FoldTheorems

variable {α : Type} {Ael Aml : Type}

/-- A property that holds before a fold and is kept by every step holds after it. -/
theorem foldl_inv {β γ : Type} (P : β → Prop) (f : β → γ → β) :
    ∀ (l : List γ) (b : β), P b → (∀ b x, x ∈ l → P b → P (f b x)) → P (l.foldl f b) := by
  intro l
  induction l with
  | nil =>
    intro b hb _
    exact hb
  | cons a l ih =>
    intro b hb hf
    rw [List.foldl_cons]
    apply ih
    · exact hf b a (List.mem_cons_self _ _) hb
    · intro b1 x hx hb1
      exact hf b1 x (List.mem_cons_of_mem _ hx) hb1

/-- An observation that no step of a fold changes is the same after the fold. -/
theorem foldl_never {β γ δ : Type} (f : β → γ → β) (v : β → δ) (l : List γ) (b : β)
    (h : ∀ g ∈ l, ∀ b, v (f b g) = v b) : v (l.foldl f b) = v b := by
  apply foldl_inv (fun b1 => v b1 = v b) f l b rfl
  intro b1 x hx hb1
  rw [h x hx b1]
  exact hb1

/-- An observation that exactly one step of a fold over a list without repetition
changes, by `u`, is changed by `u` once by the fold. -/
theorem foldl_once {β γ δ : Type} (f : β → γ → β) (v : β → δ) (a : γ) (u : δ → δ) :
    ∀ (l : List γ) (b : β), l.Nodup → a ∈ l →
      (∀ g ∈ l, g ≠ a → ∀ b, v (f b g) = v b) → (∀ b, v (f b a) = u (v b)) →
      v (l.foldl f b) = u (v b) := by
  intro l
  induction l with
  | nil =>
    intro b _ ha _ _
    cases ha
  | cons g l ih =>
    intro b hnd ha hother hat
    rw [List.foldl_cons]
    rw [List.nodup_cons] at hnd
    by_cases hg : g = a
    · subst hg
      rw [foldl_never f v l (f b g), hat b]
      intro g1 hg1 b1
      apply hother g1 (List.mem_cons_of_mem _ hg1)
      intro he
      rw [he] at hg1
      exact hnd.1 hg1
    · have ha1 : a ∈ l := by
        rcases List.mem_cons.mp ha with h1 | h1
        · exact absurd h1.symm hg
        · exact h1
      rw [ih (f b g) hnd.2 ha1 (fun g1 hg1 => hother g1 (List.mem_cons_of_mem _ hg1)) hat]
      rw [hother g (List.mem_cons_self _ _) hg b]

theorem upto_nodup (lo hi : Int) : (upto lo hi).Nodup := by
  unfold upto
  apply List.Nodup.map _ (List.nodup_range _)
  intro a b h
  simp only at h
  omega

theorem downto_nodup (hi lo : Int) : (downto hi lo).Nodup := by
  unfold downto
  rw [List.nodup_reverse]
  exact upto_nodup lo hi

end FoldTheorems

section OutsideInitTheorems

variable {α : Type} {Ael Aml : Type}

/-- The loop that fills `q1k` and `qln` writes `q1k[k]` and `qln[k]` for the listed `k`
from `q`, and nothing else. -/
theorem bppm_init_loop [LinearOrderedField α] (a : Int → Int) (n : Int) :
    ∀ (l : List Int) (m : vrna_mx_pf_t α),
      let r := l.foldl (fun (m : vrna_mx_pf_t α) (k : Int) =>
        { m with
          q1k := Function.update m.q1k k (m.q (a 1 - k))
          qln := Function.update m.qln k (m.q (a k - n)) }) m
      r.q = m.q ∧ r.qb = m.qb ∧ r.qm = m.qm ∧ r.qm1 = m.qm1 ∧ r.probs = m.probs ∧
        r.scale = m.scale ∧ r.expMLbase = m.expMLbase ∧
        (∀ k, r.q1k k = if k ∈ l then m.q (a 1 - k) else m.q1k k) ∧
        (∀ k, r.qln k = if k ∈ l then m.q (a k - n) else m.qln k) := by
  intro l
  induction l with
  | nil =>
    intro m
    simp
  | cons g l ih =>
    intro m
    simp only [List.foldl_cons]
    obtain ⟨h1, h2, h3, h4, h5, h6, h7, h8, h9⟩ := ih
      { m with
        q1k := Function.update m.q1k g (m.q (a 1 - g))
        qln := Function.update m.qln g (m.q (a g - n)) }
    refine ⟨h1, h2, h3, h4, h5, h6, h7, ?_, ?_⟩
    · intro k
      rw [h8 k]
      by_cases hk : k ∈ l
      · rw [if_pos hk, if_pos (List.mem_cons_of_mem _ hk)]
      · rw [if_neg hk]
        by_cases hg : k = g
        · subst hg
          rw [if_pos (List.mem_cons_self _ _)]
          simp
        · have : k ∉ g :: l := by
            intro hm
            rcases List.mem_cons.mp hm with h | h
            · exact hg h
            · exact hk h
          rw [if_neg this]
          simp [Function.update_noteq hg]
    · intro k
      rw [h9 k]
      by_cases hk : k ∈ l
      · rw [if_pos hk, if_pos (List.mem_cons_of_mem _ hk)]
      · rw [if_neg hk]
        by_cases hg : k = g
        · subst hg
          rw [if_pos (List.mem_cons_self _ _)]
          simp
        · have : k ∉ g :: l := by
            intro hm
            rcases List.mem_cons.mp hm with h | h
            · exact hg h
            · exact hk h
          rw [if_neg this]
          simp [Function.update_noteq hg]

/-- The initialisation of `q1k` and `qln` leaves the other matrices as they are. -/
theorem bppm_init_frame [LinearOrderedField α] (vc : vrna_fold_compound_t α) :
    (bppm_init_q1k_qln vc).exp_matrices.q = vc.exp_matrices.q ∧
      (bppm_init_q1k_qln vc).exp_matrices.qb = vc.exp_matrices.qb ∧
      (bppm_init_q1k_qln vc).exp_matrices.qm = vc.exp_matrices.qm ∧
      (bppm_init_q1k_qln vc).exp_matrices.probs = vc.exp_matrices.probs ∧
      (bppm_init_q1k_qln vc).exp_matrices.scale = vc.exp_matrices.scale ∧
      (bppm_init_q1k_qln vc).exp_matrices.expMLbase = vc.exp_matrices.expMLbase := by
  obtain ⟨h1, h2, h3, _, h5, h6, h7, _, _⟩ :=
    bppm_init_loop vc.iindx vc.length (upto 1 vc.length) vc.exp_matrices
  exact ⟨h1, h2, h3, h5, h6, h7⟩

/-- The values of `q1k` and `qln` after their initialisation. -/
theorem bppm_init_spec [LinearOrderedField α] (vc : vrna_fold_compound_t α) :
    (bppm_init_q1k_qln vc).exp_matrices.q1k 0 = 1 ∧
      (bppm_init_q1k_qln vc).exp_matrices.qln (vc.length + 1) = 1 ∧
      ∀ k : Int, 1 ≤ k → k ≤ vc.length →
        (bppm_init_q1k_qln vc).exp_matrices.q1k k = vc.exp_matrices.q (vc.iindx 1 - k) ∧
          (bppm_init_q1k_qln vc).exp_matrices.qln k =
            vc.exp_matrices.q (vc.iindx k - vc.length) := by
  obtain ⟨_, _, _, _, _, _, _, h8, h9⟩ :=
    bppm_init_loop vc.iindx vc.length (upto 1 vc.length) vc.exp_matrices
  refine ⟨?_, ?_, ?_⟩
  · simp only [bppm_init_q1k_qln, Function.update_same]
  · simp only [bppm_init_q1k_qln, Function.update_same]
  · intro k hk1 hkn
    have hmem : k ∈ upto 1 vc.length := by
      rw [mem_upto]
      exact ⟨hk1, hkn⟩
    have h8k := h8 k
    have h9k := h9 k
    rw [if_pos hmem] at h8k h9k
    have hk0 : k ≠ 0 := by omega
    have hkn1 : k ≠ vc.length + 1 := by omega
    constructor
    · simp only [bppm_init_q1k_qln, Function.update_noteq hk0]
      exact h8k
    · simp only [bppm_init_q1k_qln, Function.update_noteq hkn1]
      exact h9k

end OutsideInitTheorems

section OutsideStep1Theorems

variable {α : Type} {Ael Aml : Type}

/-- One pair of step 1 leaves every other cell as it is. -/
theorem bppm_ext_pair_other [LinearOrderedField α] (O : Externals α Ael Aml) (C : Constants)
    (vc : vrna_fold_compound_t α) (S1 : Int → Int) (i : Int) (probs : Int → α) (j x : Int)
    (hx : x ≠ vc.iindx i - j) : bppm_ext_pair O C vc S1 i probs j x = probs x := by
  unfold bppm_ext_pair
  split
  · rw [Function.update_noteq hx]
  · rw [Function.update_noteq hx]

/-- The value that one pair of step 1 stores into its own cell. -/
theorem bppm_ext_pair_same [LinearOrderedField α] (O : Externals α Ael Aml) (C : Constants)
    (vc : vrna_fold_compound_t α) (S1 : Int → Int) (i : Int) (probs : Int → α) (j : Int) :
    bppm_ext_pair O C vc S1 i probs j (vc.iindx i - j) =
      if hc_allows (vc.hc.matrix (vc.jindx j + i)) C.CONTEXT_EXT_LOOP = true ∧
          vc.exp_matrices.qb (vc.iindx i - j) > 0 then
        vc.exp_matrices.q1k (i - 1) * vc.exp_matrices.qln (j + 1) /
              vc.exp_matrices.q1k vc.length *
            O.exp_E_ExtLoop (ptype_or_7 (vc.ptype (vc.jindx j + i)))
              (if i > 1 ∧ vc.strand_number i = vc.strand_number (i - 1) then S1 (i - 1) else -1)
              (if j < vc.length ∧ vc.strand_number (j + 1) = vc.strand_number j then S1 (j + 1)
                else -1)
              vc.exp_params *
          sc_exp_f vc.sc 1 vc.length i j C.DECOMP_EXT_STEM_OUTSIDE
      else 0 := by
  unfold bppm_ext_pair
  split
  · rw [Function.update_same]
  · rw [Function.update_same]

/-- Row `g` of step 1 leaves the cells of the other rows of the triangle as they are. -/
theorem bppm_ext_row_other [LinearOrderedField α] (O : Externals α Ael Aml) (C : Constants)
    (vc : vrna_fold_compound_t α) (S1 : Int → Int)
    (hidx : ∀ i, vc.iindx i = iindx vc.length i) (g i j : Int) (hg : 1 ≤ g)
    (hi : 1 ≤ i) (hij : i ≤ j) (hj : j ≤ vc.length) (hne : g ≠ i) (b : Int → α) :
    bppm_ext_row O C vc S1 0 b g (vc.iindx i - j) = b (vc.iindx i - j) := by
  unfold bppm_ext_row
  have hoff : ∀ j1 : Int, g ≤ j1 → j1 ≤ vc.length → vc.iindx i - j ≠ vc.iindx g - j1 := by
    intro j1 h1 h2 he
    rw [hidx i, hidx g] at he
    exact hne (pack_injective vc.length i j g j1 hi hij hj hg h1 h2 he).1.symm
  refine (foldl_never (bppm_ext_pair O C vc S1 g) (fun p => p (vc.iindx i - j)) _ _ ?_).trans ?_
  · intro j1 hj1 b1
    rw [mem_upto] at hj1
    exact bppm_ext_pair_other O C vc S1 g b1 j1 _ (hoff j1 (by omega) hj1.2)
  · refine foldl_never (fun p j => Function.update p (vc.iindx g - j) 0)
      (fun p => p (vc.iindx i - j)) _ _ ?_
    intro j1 hj1 b1
    rw [mem_upto] at hj1
    have hj1n : j1 ≤ vc.length := le_trans hj1.2 (min_le_right _ _)
    exact Function.update_noteq (hoff j1 hj1.1 hj1n) _ _

/-- Row `i` of step 1 stores into the cell `(i, j)` of its row `0` when `j = i`, and the
exterior value or `0` when `i < j`. -/
theorem bppm_ext_row_same [LinearOrderedField α] (O : Externals α Ael Aml) (C : Constants)
    (vc : vrna_fold_compound_t α) (S1 : Int → Int) (i j : Int)
    (hij : i ≤ j) (hj : j ≤ vc.length) (b : Int → α) :
    bppm_ext_row O C vc S1 0 b i (vc.iindx i - j) =
      if i < j then bppm_ext_pair O C vc S1 i b j (vc.iindx i - j) else 0 := by
  unfold bppm_ext_row
  by_cases hlt : i < j
  · rw [if_pos hlt]
    have hmem : j ∈ upto (i + 0 + 1) vc.length := by
      rw [mem_upto]
      omega
    refine (foldl_once (bppm_ext_pair O C vc S1 i) (fun p => p (vc.iindx i - j)) j
      (fun _ => bppm_ext_pair O C vc S1 i b j (vc.iindx i - j)) _ _ (upto_nodup _ _) hmem
      ?_ ?_)
    · intro j1 _ hj1 b1
      apply bppm_ext_pair_other
      omega
    · intro b1
      show bppm_ext_pair O C vc S1 i b1 j (vc.iindx i - j) =
        bppm_ext_pair O C vc S1 i b j (vc.iindx i - j)
      rw [bppm_ext_pair_same, bppm_ext_pair_same]
  · rw [if_neg hlt]
    have hji : j = i := by omega
    subst hji
    refine (foldl_never (bppm_ext_pair O C vc S1 j) (fun p => p (vc.iindx j - j)) _ _ ?_).trans ?_
    · intro j1 hj1 b1
      rw [mem_upto] at hj1
      apply bppm_ext_pair_other
      omega
    · have hmem : j ∈ upto j (min (j + 0) vc.length) := by
        rw [mem_upto]
        refine ⟨le_refl _, le_min (by omega) hj⟩
      refine (foldl_once (fun p j1 => Function.update p (vc.iindx j - j1) 0)
        (fun p => p (vc.iindx j - j)) j (fun _ => 0) _ _ (upto_nodup _ _) hmem ?_ ?_)
      · intro j1 _ hj1 b1
        apply Function.update_noteq
        omega
      · intro b1
        show Function.update b1 (vc.iindx j - j) 0 (vc.iindx j - j) = 0
        rw [Function.update_same]

/-- The content of every cell of the triangle after step 1 of `pf_co_bppm`. -/
theorem bppm_step1_cell [LinearOrderedField α] (O : Externals α Ael Aml) (C : Constants)
    (vc : vrna_fold_compound_t α) (S1 : Int → Int)
    (hidx : ∀ i, vc.iindx i = iindx vc.length i) (i j : Int)
    (hi : 1 ≤ i) (hij : i ≤ j) (hj : j ≤ vc.length) :
    bppm_step1 O C vc S1 0 (vc.iindx i - j) =
      if i < j ∧ hc_allows (vc.hc.matrix (vc.jindx j + i)) C.CONTEXT_EXT_LOOP = true ∧
          vc.exp_matrices.qb (vc.iindx i - j) > 0 then
        vc.exp_matrices.q1k (i - 1) * vc.exp_matrices.qln (j + 1) /
              vc.exp_matrices.q1k vc.length *
            O.exp_E_ExtLoop (ptype_or_7 (vc.ptype (vc.jindx j + i)))
              (if i > 1 ∧ vc.strand_number i = vc.strand_number (i - 1) then S1 (i - 1) else -1)
              (if j < vc.length ∧ vc.strand_number (j + 1) = vc.strand_number j then S1 (j + 1)
                else -1)
              vc.exp_params *
          sc_exp_f vc.sc 1 vc.length i j C.DECOMP_EXT_STEM_OUTSIDE
      else 0 := by
  unfold bppm_step1
  have hmem : i ∈ upto 1 vc.length := by
    rw [mem_upto]
    omega
  have h := foldl_once (bppm_ext_row O C vc S1 0) (fun p => p (vc.iindx i - j)) i
    (fun _ => if i < j then bppm_ext_pair O C vc S1 i (fun _ => 0) j (vc.iindx i - j) else 0)
    (upto 1 vc.length) vc.exp_matrices.probs (upto_nodup _ _) hmem
    (by
      intro g hg hne b1
      rw [mem_upto] at hg
      exact bppm_ext_row_other O C vc S1 hidx g i j hg.1 hi hij hj hne b1)
    (by
      intro b1
      show bppm_ext_row O C vc S1 0 b1 i (vc.iindx i - j) =
        if i < j then bppm_ext_pair O C vc S1 i (fun _ => 0) j (vc.iindx i - j) else 0
      rw [bppm_ext_row_same O C vc S1 i j hij hj b1]
      by_cases hlt : i < j
      · rw [if_pos hlt, if_pos hlt, bppm_ext_pair_same, bppm_ext_pair_same]
      · rw [if_neg hlt, if_neg hlt])
  simp only [] at h
  rw [h]
  by_cases hlt : i < j
  · rw [if_pos hlt, bppm_ext_pair_same]
    by_cases hc : hc_allows (vc.hc.matrix (vc.jindx j + i)) C.CONTEXT_EXT_LOOP = true ∧
        vc.exp_matrices.qb (vc.iindx i - j) > 0
    · have h3 : i < j ∧ hc_allows (vc.hc.matrix (vc.jindx j + i)) C.CONTEXT_EXT_LOOP = true ∧
          vc.exp_matrices.qb (vc.iindx i - j) > 0 := ⟨hlt, hc⟩
      rw [if_pos hc, if_pos h3]
    · have h3 : ¬(i < j ∧ hc_allows (vc.hc.matrix (vc.jindx j + i)) C.CONTEXT_EXT_LOOP = true ∧
          vc.exp_matrices.qb (vc.iindx i - j) > 0) := fun h4 => hc h4.2
      rw [if_neg hc, if_neg h3]
  · have h3 : ¬(i < j ∧ hc_allows (vc.hc.matrix (vc.jindx j + i)) C.CONTEXT_EXT_LOOP = true ∧
        vc.exp_matrices.qb (vc.iindx i - j) > 0) := fun h4 => hlt h4.1
    rw [if_neg hlt, if_neg h3]

end OutsideStep1Theorems

section OutsideStep1Claims

variable {α : Type} {Ael Aml : Type}

/-- C12 (amended): after the initialisation of `q1k` and `qln` and step 1 of `pf_co_bppm`,
without soft constraints, `q1k[0] = qln[n+1] = 1`, `q1k[k] = q[1,k]` and `qln[k] = q[k,n]`
for `1 ≤ k ≤ n`; every pair `i < j` whose hard-constraint byte has the exterior-loop bit
and whose `qb[i,j]` is positive has
`probs[i,j] = q1k[i-1] * qln[j+1] / q1k[n] * expExtLoop(type, s5, s3)`, with `type` the
pair type (7 when 0), `s5 = S1[i-1]` if `i > 1` and `i - 1` is on the strand of `i`, else
`-1`, and `s3 = S1[j+1]` if `j < n` and `j + 1` is on the strand of `j`, else `-1`; every
other cell with `i ≤ j` is `0`.  The table `iindx` is the packing of `iindx`. -/
theorem C12_exterior_initialisation [LinearOrderedField α] (O : Externals α Ael Aml)
    (C : Constants) (vc : vrna_fold_compound_t α) (S1 : Int → Int)
    (hidx : ∀ i, vc.iindx i = iindx vc.length i) (hsc : vc.sc = none) :
    let n := vc.length
    let sn := vc.strand_number
    let m := (bppm_init_q1k_qln vc).exp_matrices
    let probs := bppm_step1 O C (bppm_init_q1k_qln vc) S1 0
    m.q1k 0 = 1 ∧ m.qln (n + 1) = 1 ∧
      (∀ k : Int, 1 ≤ k → k ≤ n →
        m.q1k k = vc.exp_matrices.q (iindx n 1 - k) ∧
          m.qln k = vc.exp_matrices.q (iindx n k - n)) ∧
      (∀ i j : Int, 1 ≤ i → i < j → j ≤ n →
        hc_allows (vc.hc.matrix (vc.jindx j + i)) C.CONTEXT_EXT_LOOP = true →
        0 < vc.exp_matrices.qb (iindx n i - j) →
        probs (iindx n i - j) =
          m.q1k (i - 1) * m.qln (j + 1) / m.q1k n *
            O.exp_E_ExtLoop (ptype_or_7 (vc.ptype (vc.jindx j + i)))
              (if 1 < i ∧ sn i = sn (i - 1) then S1 (i - 1) else -1)
              (if j < n ∧ sn (j + 1) = sn j then S1 (j + 1) else -1) vc.exp_params) ∧
      (∀ i j : Int, 1 ≤ i → i ≤ j → j ≤ n →
        ¬(i < j ∧ hc_allows (vc.hc.matrix (vc.jindx j + i)) C.CONTEXT_EXT_LOOP = true ∧
            0 < vc.exp_matrices.qb (iindx n i - j)) →
        probs (iindx n i - j) = 0) := by
  intro n sn m probs
  have hspec := bppm_init_spec vc
  have hframe := bppm_init_frame vc
  have hidx1 : ∀ i, (bppm_init_q1k_qln vc).iindx i = iindx (bppm_init_q1k_qln vc).length i :=
    hidx
  have hcell := bppm_step1_cell O C (bppm_init_q1k_qln vc) S1 hidx1
  have hsc1 : (bppm_init_q1k_qln vc).sc = none := hsc
  refine ⟨hspec.1, hspec.2.1, ?_, ?_, ?_⟩
  · intro k hk1 hkn
    have h := hspec.2.2 k hk1 hkn
    rw [hidx 1, hidx k] at h
    exact h
  · intro i j hi hij hj hhc hqb
    have h := hcell i j hi (le_of_lt hij) hj
    rw [hidx1 i] at h
    have hcond : i < j ∧
        hc_allows ((bppm_init_q1k_qln vc).hc.matrix ((bppm_init_q1k_qln vc).jindx j + i))
          C.CONTEXT_EXT_LOOP = true ∧
        (bppm_init_q1k_qln vc).exp_matrices.qb (iindx (bppm_init_q1k_qln vc).length i - j) > 0 := by
      refine ⟨hij, hhc, ?_⟩
      rw [hframe.2.1]
      exact hqb
    rw [if_pos hcond, hsc1] at h
    simp only [sc_exp_f, mul_one] at h
    exact h
  · intro i j hi hij hj hno
    have h := hcell i j hi hij hj
    rw [hidx1 i] at h
    have hcond : ¬(i < j ∧
        hc_allows ((bppm_init_q1k_qln vc).hc.matrix ((bppm_init_q1k_qln vc).jindx j + i))
          C.CONTEXT_EXT_LOOP = true ∧
        (bppm_init_q1k_qln vc).exp_matrices.qb (iindx (bppm_init_q1k_qln vc).length i - j) > 0) := by
      rintro ⟨h1, h2, h3⟩
      rw [hframe.2.1] at h3
      exact hno ⟨h1, h2, h3⟩
    rw [if_neg hcond] at h
    exact h

/-- C12 witness: for two nucleotides with `q = 1` and `qb = 1` everywhere and every pair
allowed, step 1 stores `1 * 1 / 1 * 1 = 1` into `probs[1,2]`. -/
theorem C12_exterior_initialisation_witness :
    bppm_step1 (exampleExternals ℚ id id) exampleConstants
        (bppm_init_q1k_qln (exampleOutsideCompound ℚ ['G', 'C'] (-1) (fun _ => 1)))
        (fun _ => 1) 0 (iindx 2 1 - 2) = 1 := by
  obtain ⟨h1, h2, h3, h4, _⟩ := C12_exterior_initialisation (exampleExternals ℚ id id)
    exampleConstants (exampleOutsideCompound ℚ ['G', 'C'] (-1) (fun _ => 1)) (fun _ => 1)
    (fun _ => rfl) rfl
  have hn : (exampleOutsideCompound ℚ ['G', 'C'] (-1) (fun _ => 1)).length = 2 := rfl
  rw [hn] at h2 h3 h4
  have h := h4 1 2 (by decide) (by decide) (by decide) (by decide)
    (by norm_num [exampleOutsideCompound])
  have h5 := (h3 2 (by decide) (by decide)).1
  have e1 : (1 : Int) - 1 = 0 := by decide
  rw [e1, h1, h5, h2] at h
  rw [h]
  norm_num [exampleOutsideCompound, exampleExternals]

/-- C12 counterexample to the claim as stated: for two nucleotides with `q = 1` and
`qb = 0` everywhere, the pair `(1, 2)` is allowed as an exterior-loop stem closure and the
expression of the claim has the value `1`, yet step 1 stores `0` into `probs[1,2]`. -/
theorem C12_allowed_pair_with_zero_qb_counterexample :
    hc_allows ((exampleOutsideCompound ℚ ['G', 'C'] (-1) (fun _ => 0)).hc.matrix
        ((exampleOutsideCompound ℚ ['G', 'C'] (-1) (fun _ => 0)).jindx 2 + 1))
        exampleConstants.CONTEXT_EXT_LOOP = true ∧
      bppm_step1 (exampleExternals ℚ id id) exampleConstants
        (bppm_init_q1k_qln (exampleOutsideCompound ℚ ['G', 'C'] (-1) (fun _ => 0)))
        (fun _ => 1) 0 (iindx 2 1 - 2) = 0 ∧
      (bppm_init_q1k_qln (exampleOutsideCompound ℚ ['G', 'C'] (-1)
            (fun _ => 0))).exp_matrices.q1k (1 - 1) *
          (bppm_init_q1k_qln (exampleOutsideCompound ℚ ['G', 'C'] (-1)
            (fun _ => 0))).exp_matrices.qln (2 + 1) /
          (bppm_init_q1k_qln (exampleOutsideCompound ℚ ['G', 'C'] (-1)
            (fun _ => 0))).exp_matrices.q1k 2 *
        (exampleExternals ℚ id id).exp_E_ExtLoop
          (ptype_or_7 ((exampleOutsideCompound ℚ ['G', 'C'] (-1) (fun _ => 0)).ptype
            ((exampleOutsideCompound ℚ ['G', 'C'] (-1) (fun _ => 0)).jindx 2 + 1)))
          (-1) (-1) (exampleOutsideCompound ℚ ['G', 'C'] (-1) (fun _ => 0)).exp_params = 1 := by
  have hn : (exampleOutsideCompound ℚ ['G', 'C'] (-1) (fun _ => 0)).length = 2 := rfl
  have hspec := bppm_init_spec (exampleOutsideCompound ℚ ['G', 'C'] (-1) (fun _ => 0))
  rw [hn] at hspec
  refine ⟨by decide, ?_, ?_⟩
  · have h := bppm_step1_cell (exampleExternals ℚ id id) exampleConstants
      (bppm_init_q1k_qln (exampleOutsideCompound ℚ ['G', 'C'] (-1) (fun _ => 0)))
      (fun _ => 1) (fun _ => rfl) 1 2 (by decide) (by decide) (by decide)
    have hq : ¬((1 : Int) < 2 ∧
        hc_allows ((bppm_init_q1k_qln (exampleOutsideCompound ℚ ['G', 'C'] (-1)
            (fun _ => 0))).hc.matrix
          ((bppm_init_q1k_qln (exampleOutsideCompound ℚ ['G', 'C'] (-1)
            (fun _ => 0))).jindx 2 + 1)) exampleConstants.CONTEXT_EXT_LOOP = true ∧
        (bppm_init_q1k_qln (exampleOutsideCompound ℚ ['G', 'C'] (-1)
            (fun _ => 0))).exp_matrices.qb
          ((bppm_init_q1k_qln (exampleOutsideCompound ℚ ['G', 'C'] (-1)
            (fun _ => 0))).iindx 1 - 2) > 0) := by
      rintro ⟨_, _, h3⟩
      rw [(bppm_init_frame _).2.1] at h3
      norm_num [exampleOutsideCompound] at h3
    rw [if_neg hq] at h
    exact h
  · have e1 : (1 : Int) - 1 = 0 := by decide
    rw [e1, hspec.1, hspec.2.1, (hspec.2.2 2 (by decide) (by decide)).1]
    norm_num [exampleOutsideCompound, exampleExternals]

end OutsideStep1Claims

section OutsideSweepTheorems

variable {α : Type} {Ael Aml : Type}

/-- The final multiplication multiplies the cell `(i, j)`, `i < j`, by `qb[i,j]` once. -/
theorem bppm_final_cell [LinearOrderedField α] (vc : vrna_fold_compound_t α)
    (hidx : ∀ i, vc.iindx i = iindx vc.length i) (probs : Int → α) (i j : Int)
    (hi : 1 ≤ i) (hij : i < j) (hj : j ≤ vc.length) :
    bppm_final vc 0 probs (vc.iindx i - j) =
      probs (vc.iindx i - j) * vc.exp_matrices.qb (vc.iindx i - j) := by
  unfold bppm_final
  have hmem : i ∈ upto 1 vc.length := by
    rw [mem_upto]
    omega
  refine foldl_once
    (fun p i1 => (upto (i1 + 0 + 1) vc.length).foldl
      (fun p1 j1 => Function.update p1 (vc.iindx i1 - j1)
        (p1 (vc.iindx i1 - j1) * vc.exp_matrices.qb (vc.iindx i1 - j1))) p)
    (fun p => p (vc.iindx i - j)) i (fun v => v * vc.exp_matrices.qb (vc.iindx i - j))
    (upto 1 vc.length) probs (upto_nodup _ _) hmem ?_ ?_
  · intro g hg hne b
    rw [mem_upto] at hg
    refine foldl_never
      (fun p1 j1 => Function.update p1 (vc.iindx g - j1)
        (p1 (vc.iindx g - j1) * vc.exp_matrices.qb (vc.iindx g - j1)))
      (fun p => p (vc.iindx i - j)) _ b ?_
    intro j1 hj1 b1
    rw [mem_upto] at hj1
    apply Function.update_noteq
    intro he
    rw [hidx i, hidx g] at he
    exact hne (pack_injective vc.length i j g j1 hi (le_of_lt hij) hj hg.1 (by omega) hj1.2
      he).1.symm
  · intro b
    have hmemj : j ∈ upto (i + 0 + 1) vc.length := by
      rw [mem_upto]
      omega
    refine foldl_once
      (fun p1 j1 => Function.update p1 (vc.iindx i - j1)
        (p1 (vc.iindx i - j1) * vc.exp_matrices.qb (vc.iindx i - j1)))
      (fun p => p (vc.iindx i - j)) j (fun v => v * vc.exp_matrices.qb (vc.iindx i - j))
      _ b (upto_nodup _ _) hmemj ?_ ?_
    · intro j1 _ hne b1
      apply Function.update_noteq
      omega
    · intro b1
      show Function.update b1 (vc.iindx i - j) _ (vc.iindx i - j) = _
      rw [Function.update_same]

/-- The final multiplication leaves every offset that is not a cell `(i, j)` with
`1 ≤ i < j ≤ n` as it is. -/
theorem bppm_final_other [LinearOrderedField α] (vc : vrna_fold_compound_t α)
    (probs : Int → α) (x : Int)
    (hx : ∀ i j : Int, 1 ≤ i → i < j → j ≤ vc.length → x ≠ vc.iindx i - j) :
    bppm_final vc 0 probs x = probs x := by
  unfold bppm_final
  refine foldl_never
    (fun p i1 => (upto (i1 + 0 + 1) vc.length).foldl
      (fun p1 j1 => Function.update p1 (vc.iindx i1 - j1)
        (p1 (vc.iindx i1 - j1) * vc.exp_matrices.qb (vc.iindx i1 - j1))) p)
    (fun p => p x) _ probs ?_
  intro g hg b
  rw [mem_upto] at hg
  refine foldl_never
    (fun p1 j1 => Function.update p1 (vc.iindx g - j1)
      (p1 (vc.iindx g - j1) * vc.exp_matrices.qb (vc.iindx g - j1)))
    (fun p => p x) _ b ?_
  intro j1 hj1 b1
  rw [mem_upto] at hj1
  exact Function.update_noteq (hx g j1 hg.1 (by omega) hj1.2) _ _

/-- One enclosing pair of the interior-loop step writes only the cell `(k, l)`. -/
theorem bppm_int_ij_other [LinearOrderedField α] (O : Externals α Ael Aml) (C : Constants)
    (vc : vrna_fold_compound_t α) (S1 : Int → Int) (l k type_2 i : Int) (probs : Int → α)
    (j x : Int) (hx : x ≠ vc.iindx k - l) :
    bppm_int_ij O C vc S1 l k type_2 i probs j x = probs x := by
  unfold bppm_int_ij
  split_ifs
  · exact Function.update_noteq hx _ _
  · rfl
  · rfl
  · rfl

/-- The interior-loop step for the pair `(k, l)` writes only the cell `(k, l)`. -/
theorem bppm_int_k_other [LinearOrderedField α] (O : Externals α Ael Aml) (C : Constants)
    (vc : vrna_fold_compound_t α) (S1 : Int → Int) (l : Int) (probs : Int → α)
    (k x : Int) (hx : x ≠ vc.iindx k - l) :
    bppm_int_k O C vc S1 l probs k x = probs x := by
  unfold bppm_int_k
  split_ifs
  · rfl
  · refine foldl_never _ (fun p => p x) _ probs ?_
    intro i _ b
    show (if vc.hc.up_int (i + 1) < k - i - 1 then b else _) x = b x
    split_ifs
    · rfl
    · refine foldl_never _ (fun p => p x) _ b ?_
      intro j _ b1
      exact bppm_int_ij_other O C vc S1 l k _ i b1 j x hx
  · rfl

/-- The multiloop step for the pair `(k, l)` writes only the cell `(k, l)` of `probs`. -/
theorem bppm_ml_k_other [LinearOrderedField α] (O : Externals α Ael Aml) (C : Constants)
    (vc : vrna_fold_compound_t α) (S1 : Int → Int) (l : Int) (st : BppmState α)
    (k x : Int) (hx : x ≠ vc.iindx k - l) :
    (bppm_ml_k O C vc S1 l st k).probs x = st.probs x := by
  simp only [bppm_ml_k]
  split_ifs
  all_goals first
    | rfl
    | exact Function.update_noteq hx _ _

/-- The multiloop step for one `l` writes only cells `(k, l)` with `2 ≤ k < l`. -/
theorem bppm_ml_l_other [LinearOrderedField α] (O : Externals α Ael Aml) (C : Constants)
    (vc : vrna_fold_compound_t α) (S1 : Int → Int) (l : Int) (st : BppmState α) (x : Int)
    (hx : ∀ k : Int, 1 ≤ k → k < l → x ≠ vc.iindx k - l) :
    (bppm_ml_l O C vc S1 0 l st).probs x = st.probs x := by
  simp only [bppm_ml_l]
  split_ifs
  · refine (foldl_never (bppm_ml_k O C vc S1 l) (fun s => s.probs x) _ _ ?_).trans rfl
    intro k hk b
    rw [mem_upto] at hk
    exact bppm_ml_k_other O C vc S1 l b k x (hx k (by omega) (by omega))
  · rfl

/-- The dimer-crossing step for one `l` writes only cells `(k, l)` with `1 ≤ k < l`. -/
theorem bppm_dimer_l_other [LinearOrderedField α] (O : Externals α Ael Aml)
    (vc : vrna_fold_compound_t α) (S1 : Int → Int) (l : Int) (st : BppmState α) (x : Int)
    (hx : ∀ k : Int, 1 ≤ k → k < l → x ≠ vc.iindx k - l) :
    (bppm_dimer_l O vc S1 l st).probs x = st.probs x := by
  have hR : ∀ (Q : Int → α) (cp : Int), 1 ≤ cp →
      ((downto (l - 1) cp).foldl (bppm_Qrout_add O vc S1 l Q) st.probs) x = st.probs x := by
    intro Q cp hcp
    refine foldl_never _ (fun p => p x) _ st.probs ?_
    intro k hk b
    rw [mem_downto] at hk
    show bppm_Qrout_add O vc S1 l Q b k x = b x
    simp only [bppm_Qrout_add]
    split_ifs
    all_goals first
      | rfl
      | exact Function.update_noteq (hx k (by omega) (by omega)) _ _
  have hL : ((upto 1 (l - 1)).foldl (bppm_Qlout_add O vc S1 l st.Qlout) st.probs) x =
      st.probs x := by
    refine foldl_never _ (fun p => p x) _ st.probs ?_
    intro k hk b
    rw [mem_upto] at hk
    show bppm_Qlout_add O vc S1 l st.Qlout b k x = b x
    simp only [bppm_Qlout_add]
    split_ifs
    all_goals first
      | rfl
      | exact Function.update_noteq (hx k (by omega) (by omega)) _ _
  simp only [bppm_dimer_l]
  by_cases h1 : vc.cutpoint ≤ 0
  · rw [if_pos h1]
  · rw [if_neg h1]
    split_ifs
    all_goals first
      | rfl
      | exact hR _ _ (by omega)
      | exact hL

/-- One iteration `l` of the outer sweep writes only cells `(k, l)` with `1 ≤ k < l`. -/
theorem bppm_l_other [LinearOrderedField α] (O : Externals α Ael Aml) (C : Constants)
    (vc : vrna_fold_compound_t α) (S1 : Int → Int) (l : Int) (st : BppmState α) (x : Int)
    (hx : ∀ k : Int, 1 ≤ k → k < l → x ≠ vc.iindx k - l) :
    (bppm_l O C vc S1 0 st l).probs x = st.probs x := by
  unfold bppm_l
  rw [bppm_dimer_l_other O vc S1 l _ x hx, bppm_ml_l_other O C vc S1 l _ x hx]
  show ((upto 1 (l - 0 - 1)).foldl (bppm_int_k O C vc S1 l) st.probs) x = st.probs x
  refine foldl_never _ (fun p => p x) _ st.probs ?_
  intro k hk b
  rw [mem_upto] at hk
  exact bppm_int_k_other O C vc S1 l b k x (hx k (by omega) (by omega))

/-- The outer sweep leaves every offset that is not a cell `(k, l)` with
`1 ≤ k < l ≤ n` as step 1 left it. -/
theorem bppm_sweep_other [LinearOrderedField α] (O : Externals α Ael Aml) (C : Constants)
    (vc : vrna_fold_compound_t α) (S1 : Int → Int) (x : Int)
    (hx : ∀ k l : Int, 1 ≤ k → k < l → l ≤ vc.length → x ≠ vc.iindx k - l) :
    (bppm_sweep O C vc S1 0).probs x = bppm_step1 O C vc S1 0 x := by
  unfold bppm_sweep
  refine (foldl_never (bppm_l O C vc S1 0) (fun s => s.probs x) _ _ ?_).trans rfl
  intro l hl b
  rw [mem_downto] at hl
  exact bppm_l_other O C vc S1 l b x (fun k h1 h2 => hx k l h1 h2 hl.2)

/-- With both encodings present, `pf_co_bppm` leaves in `probs` the result of the final
multiplication applied to the array of the outer sweep, and does not write `qb`. -/
theorem pf_co_bppm_probs [LinearOrderedField α] (O : Externals α Ael Aml) (C : Constants)
    (vc : vrna_fold_compound_t α) (S1 : Int → Int) (sb : Option (List Char))
    (hS : vc.sequence_encoding2 = true) (hS1 : vc.sequence_encoding = some S1) :
    (pf_co_bppm O C vc sb).vc.exp_matrices.probs =
        bppm_final (bppm_init_q1k_qln vc) 0 (bppm_sweep O C (bppm_init_q1k_qln vc) S1 0).probs ∧
      (pf_co_bppm O C vc sb).vc.exp_matrices.qb = vc.exp_matrices.qb := by
  unfold pf_co_bppm
  simp only [hS, hS1]
  exact ⟨trivial, (bppm_init_frame vc).2.1⟩

/-- The diagonal and the cells above it after `pf_co_bppm`, for a fold compound with
both encodings and the packing `iindx`. -/
theorem pf_co_bppm_cells [LinearOrderedField α] (O : Externals α Ael Aml) (C : Constants)
    (vc : vrna_fold_compound_t α) (S1 : Int → Int) (sb : Option (List Char))
    (hidx : ∀ i, vc.iindx i = iindx vc.length i)
    (hS : vc.sequence_encoding2 = true) (hS1 : vc.sequence_encoding = some S1) :
    (∀ i : Int, 1 ≤ i → i ≤ vc.length →
      (pf_co_bppm O C vc sb).vc.exp_matrices.probs (iindx vc.length i - i) = 0) ∧
    (∀ i j : Int, 1 ≤ i → i < j → j ≤ vc.length →
      (pf_co_bppm O C vc sb).vc.exp_matrices.probs (iindx vc.length i - j) =
        (bppm_sweep O C (bppm_init_q1k_qln vc) S1 0).probs (iindx vc.length i - j) *
          vc.exp_matrices.qb (iindx vc.length i - j)) := by
  have hp := (pf_co_bppm_probs O C vc S1 sb hS hS1).1
  have hidx1 : ∀ i, (bppm_init_q1k_qln vc).iindx i = iindx (bppm_init_q1k_qln vc).length i :=
    hidx
  have hlen : (bppm_init_q1k_qln vc).length = vc.length := rfl
  constructor
  · intro i hi hin
    have hdiag : ∀ k l : Int, 1 ≤ k → k < l → l ≤ (bppm_init_q1k_qln vc).length →
        iindx vc.length i - i ≠ (bppm_init_q1k_qln vc).iindx k - l := by
      intro k l hk hkl hl he
      rw [hidx1 k, hlen] at he
      have := pack_injective vc.length i i k l hi (le_refl _) hin hk (le_of_lt hkl) hl he
      omega
    rw [hp, bppm_final_other _ _ _ hdiag, bppm_sweep_other O C _ S1 _ hdiag]
    have h := bppm_step1_cell O C (bppm_init_q1k_qln vc) S1 hidx1 i i hi (le_refl _) hin
    rw [hidx1 i, hlen] at h
    rw [h, if_neg]
    rintro ⟨h1, _⟩
    exact lt_irrefl _ h1
  · intro i j hi hij hj
    have h := bppm_final_cell (bppm_init_q1k_qln vc) hidx1
      (bppm_sweep O C (bppm_init_q1k_qln vc) S1 0).probs i j hi hij hj
    rw [hidx1 i, hlen, (bppm_init_frame vc).2.1] at h
    rw [hp]
    exact h

end OutsideSweepTheorems

section OutsideFinalClaims

variable {α : Type} {Ael Aml : Type}

/-- C11: at the end of `pf_co_bppm` (both encodings present, `iindx` the packing of
`iindx`), `probs[i,i] = 0` for every `1 ≤ i ≤ n`, and for every `1 ≤ i < j ≤ n` the final
`probs[i,j]` is the value that the exterior initialisation and the outer sweep left in
the cell, multiplied by `qb[i,j]` once. -/
theorem C11_final_multiplication [LinearOrderedField α] (O : Externals α Ael Aml)
    (C : Constants) (vc : vrna_fold_compound_t α) (S1 : Int → Int) (sb : Option (List Char))
    (hidx : ∀ i, vc.iindx i = iindx vc.length i)
    (hS : vc.sequence_encoding2 = true) (hS1 : vc.sequence_encoding = some S1) :
    (∀ i : Int, 1 ≤ i → i ≤ vc.length →
      (pf_co_bppm O C vc sb).vc.exp_matrices.probs (iindx vc.length i - i) = 0) ∧
    (∀ i j : Int, 1 ≤ i → i < j → j ≤ vc.length →
      (pf_co_bppm O C vc sb).vc.exp_matrices.probs (iindx vc.length i - j) =
        (bppm_sweep O C (bppm_init_q1k_qln vc) S1 0).probs (iindx vc.length i - j) *
          vc.exp_matrices.qb (iindx vc.length i - j)) :=
  pf_co_bppm_cells O C vc S1 sb hidx hS hS1

/-- C11 witness: for two nucleotides with `q = 1` and `qb = 1` everywhere, `probs[1,1]`
and `probs[2,2]` are `0` at the end, and `probs[1,2]` is the value left by the sweep
times `qb[1,2] = 1`. -/
theorem C11_final_multiplication_witness :
    (pf_co_bppm (exampleExternals ℚ id id) exampleConstants
        (exampleOutsideCompound ℚ ['G', 'C'] (-1) (fun _ => 1)) none).vc.exp_matrices.probs
        (iindx 2 1 - 1) = 0 ∧
      (pf_co_bppm (exampleExternals ℚ id id) exampleConstants
        (exampleOutsideCompound ℚ ['G', 'C'] (-1) (fun _ => 1)) none).vc.exp_matrices.probs
        (iindx 2 2 - 2) = 0 ∧
      (pf_co_bppm (exampleExternals ℚ id id) exampleConstants
        (exampleOutsideCompound ℚ ['G', 'C'] (-1) (fun _ => 1)) none).vc.exp_matrices.probs
        (iindx 2 1 - 2) =
        (bppm_sweep (exampleExternals ℚ id id) exampleConstants
          (bppm_init_q1k_qln (exampleOutsideCompound ℚ ['G', 'C'] (-1) (fun _ => 1)))
          (fun _ => 1) 0).probs (iindx 2 1 - 2) * 1 := by
  obtain ⟨h1, h2⟩ := C11_final_multiplication (exampleExternals ℚ id id) exampleConstants
    (exampleOutsideCompound ℚ ['G', 'C'] (-1) (fun _ => 1)) (fun _ => 1) none
    (fun _ => rfl) rfl rfl
  have hn : (exampleOutsideCompound ℚ ['G', 'C'] (-1) (fun _ => 1)).length = 2 := rfl
  rw [hn] at h1 h2
  exact ⟨h1 1 (by decide) (by decide), h1 2 (by decide) (by decide),
    h2 1 2 (by decide) (by decide) (by decide)⟩

/-- One cell of `pf_co` leaves the two encodings of the sequence as they are. -/
theorem pf_co_cell_enc [LinearOrderedField α] (O : Externals α Ael Aml) (j i : Int)
    (st st1 : PfCoState α Ael Aml) (h : pf_co_cell O j st i = Except.ok st1) :
    st1.vc.sequence_encoding2 = st.vc.sequence_encoding2 ∧
      st1.vc.sequence_encoding = st.vc.sequence_encoding := by
  have h3 : ∀ (vc : vrna_fold_compound_t α) (k : Int) (v : α),
      (set_qm1 vc k v).sequence_encoding2 = vc.sequence_encoding2 ∧
        (set_qm1 vc k v).sequence_encoding = vc.sequence_encoding := by
    intro vc k v
    unfold set_qm1
    split
    · exact ⟨rfl, rfl⟩
    · exact ⟨rfl, rfl⟩
  unfold pf_co_cell at h
  simp only [] at h
  split at h
  · cases h
  · injection h with h
    subst h
    exact h3 _ _ _

theorem pf_co_cells_enc [LinearOrderedField α] (O : Externals α Ael Aml) (j : Int) :
    ∀ (L : List Int) (st st1 : PfCoState α Ael Aml),
      pf_co_cells O j L st = Except.ok st1 →
      st1.vc.sequence_encoding2 = st.vc.sequence_encoding2 ∧
        st1.vc.sequence_encoding = st.vc.sequence_encoding := by
  intro L
  induction L with
  | nil =>
    intro st st1 h
    simp only [pf_co_cells] at h
    injection h with h
    subst h
    exact ⟨rfl, rfl⟩
  | cons i is ih =>
    intro st st1 h
    simp only [pf_co_cells] at h
    split at h
    · next st2 hc =>
      have h1 := pf_co_cell_enc O j i st st2 hc
      have h2 := ih st2 st1 h
      exact ⟨h2.1.trans h1.1, h2.2.trans h1.2⟩
    · cases h

theorem pf_co_columns_enc [LinearOrderedField α] (O : Externals α Ael Aml) (turn : Int) :
    ∀ (J : List Int) (st st1 : PfCoState α Ael Aml),
      pf_co_columns O turn J st = Except.ok st1 →
      st1.vc.sequence_encoding2 = st.vc.sequence_encoding2 ∧
        st1.vc.sequence_encoding = st.vc.sequence_encoding := by
  intro J
  induction J with
  | nil =>
    intro st st1 h
    simp only [pf_co_columns] at h
    injection h with h
    subst h
    exact ⟨rfl, rfl⟩
  | cons j js ih =>
    intro st st1 h
    simp only [pf_co_columns] at h
    split at h
    · next st2 hc =>
      obtain ⟨st3, h3, e3⟩ := pf_co_column_ok O turn j st st2 hc
      have h1 := pf_co_cells_enc O j _ st st3 h3
      rw [← e3] at h1
      have h2 := ih st2 st1 h
      exact ⟨h2.1.trans h1.1, h2.2.trans h1.2⟩
    · cases h

theorem pf_co_init_row_enc [LinearOrderedField α] (d : Int) :
    ∀ (L : List Int) (vc : vrna_fold_compound_t α),
      (pf_co_init_row d L vc).sequence_encoding2 = vc.sequence_encoding2 ∧
        (pf_co_init_row d L vc).sequence_encoding = vc.sequence_encoding := by
  intro L
  induction L with
  | nil =>
    intro vc
    exact ⟨rfl, rfl⟩
  | cons i is ih =>
    intro vc
    simp only [pf_co_init_row]
    exact ih _

/-- The forward pass leaves the two encodings of the sequence as they are. -/
theorem pf_co_enc [LinearOrderedField α] (O : Externals α Ael Aml)
    (vc : vrna_fold_compound_t α) (st : PfCoState α Ael Aml)
    (h : pf_co O vc = Except.ok st) :
    st.vc.sequence_encoding2 = vc.sequence_encoding2 ∧
      st.vc.sequence_encoding = vc.sequence_encoding := by
  unfold pf_co at h
  simp only [] at h
  have hup : upto 0 0 = [0] := by decide
  rw [hup] at h
  simp only [pf_co_init] at h
  have h1 := pf_co_init_row_enc 0 (upto 1 (vc.length - 0)) vc
  have h2 := pf_co_columns_enc O 0 _ _ st h
  exact ⟨h2.1.trans h1.1, h2.2.trans h1.2⟩

/-- When every hard-constraint byte is `0`, the forward pass leaves `qb = 0` in every
cell of the triangle. -/
theorem pf_co_qb_zero_all [LinearOrderedField α] (O : Externals α Ael Aml)
    (vc : vrna_fold_compound_t α) (st1 : PfCoState α Ael Aml)
    (hidx : ∀ i, vc.iindx i = iindx vc.length i) (hhc : ∀ k, vc.hc.matrix k = 0)
    (hrun : pf_co O vc = Except.ok st1) (i j : Int) (hi : 1 ≤ i) (hij : i ≤ j)
    (hj : j ≤ vc.length) :
    st1.vc.exp_matrices.qb (iindx vc.length i - j) = 0 := by
  unfold pf_co at hrun
  simp only [] at hrun
  have hup : upto 0 0 = [0] := by decide
  rw [hup] at hrun
  simp only [pf_co_init] at hrun
  have hf1 : SameFrame vc (pf_co_init_row 0 (upto 1 (vc.length - 0)) vc) :=
    pf_co_init_row_frame 0 _ vc
  have hidx1 : ∀ i, (pf_co_init_row 0 (upto 1 (vc.length - 0)) vc).iindx i =
      iindx vc.length i := by
    intro i
    rw [hf1.2.1]
    exact hidx i
  have hJ : ∀ j ∈ upto (0 + 2) vc.length, j ≤ vc.length := by
    intro j hj
    rw [mem_upto] at hj
    exact hj.2
  apply pf_co_columns_qb_zero O i j vc.length hi hij hj _ _ st1 hidx1 hJ _ _ hrun
  · left
    rw [hf1.2.2.2.1]
    exact hhc _
  · intro hno
    apply pf_co_init_row_zero
    right
    have hji : j = i := by
      by_contra hne
      apply hno
      refine ⟨?_, by omega⟩
      rw [mem_upto]
      omega
    subst hji
    refine ⟨j, ?_, ?_⟩
    · rw [mem_upto]
      omega
    · rw [hidx j]
      ring

/-- C13: if every hard-constraint byte is `0`, then after the forward pass `pf_co` (when
it returns) and the outside pass `pf_co_bppm`, `qb[i,j] = 0` and `probs[i,j] = 0` for all
`1 ≤ i ≤ j ≤ n`.  The fold compound has both encodings and `iindx` is the packing of
`iindx`. -/
theorem C13_no_allowed_pair [LinearOrderedField α] (O : Externals α Ael Aml) (C : Constants)
    (vc : vrna_fold_compound_t α) (S1 : Int → Int) (st : PfCoState α Ael Aml)
    (sb : Option (List Char))
    (hidx : ∀ i, vc.iindx i = iindx vc.length i)
    (hS : vc.sequence_encoding2 = true) (hS1 : vc.sequence_encoding = some S1)
    (hhc : ∀ k, vc.hc.matrix k = 0) (hrun : pf_co O vc = Except.ok st) :
    ∀ i j : Int, 1 ≤ i → i ≤ j → j ≤ vc.length →
      (pf_co_bppm O C st.vc sb).vc.exp_matrices.qb (iindx vc.length i - j) = 0 ∧
        (pf_co_bppm O C st.vc sb).vc.exp_matrices.probs (iindx vc.length i - j) = 0 := by
  intro i j hi hij hj
  have hf := pf_co_frame O vc st hrun
  have henc := pf_co_enc O vc st hrun
  have hS' : st.vc.sequence_encoding2 = true := henc.1.trans hS
  have hS1' : st.vc.sequence_encoding = some S1 := henc.2.trans hS1
  have hlen : st.vc.length = vc.length := hf.1
  have hidx' : ∀ i, st.vc.iindx i = iindx st.vc.length i := by
    intro k
    rw [hf.2.1, hlen]
    exact hidx k
  have hqb := pf_co_qb_zero_all O vc st hidx hhc hrun i j hi hij hj
  have hcells := pf_co_bppm_cells O C st.vc S1 sb hidx' hS' hS1'
  rw [hlen] at hcells
  constructor
  · rw [(pf_co_bppm_probs O C st.vc S1 sb hS' hS1').2]
    exact hqb
  · rcases lt_or_eq_of_le hij with hlt | heq
    · rw [hcells.2 i j hi hlt hj, hqb, mul_zero]
    · subst heq
      exact hcells.1 i hi hj

/-- C13 witness: on a sequence of length 3 with every hard-constraint byte `0` the
forward pass returns, and after the outside pass `qb[1,3] = 0` and `probs[1,3] = 0`. -/
theorem C13_no_allowed_pair_witness :
    ∃ st, pf_co (exampleExternals ℚ id id)
        (exampleFoldCompound ℚ ['G', 'C', 'G'] (-1) 'F' (fun _ => 0)) = Except.ok st ∧
      (pf_co_bppm (exampleExternals ℚ id id) exampleConstants st.vc none).vc.exp_matrices.qb
          (iindx 3 1 - 3) = 0 ∧
      (pf_co_bppm (exampleExternals ℚ id id) exampleConstants st.vc none).vc.exp_matrices.probs
          (iindx 3 1 - 3) = 0 := by
  obtain ⟨st, h⟩ := pf_co_ok_of_bounded (exampleExternals ℚ id id)
    (by intro _ _ _ _; norm_num [exampleExternals])
    (exampleFoldCompound ℚ ['G', 'C', 'G'] (-1) 'F' (fun _ => 0))
  exact ⟨st, h,
    C13_no_allowed_pair (exampleExternals ℚ id id) exampleConstants
      (exampleFoldCompound ℚ ['G', 'C', 'G'] (-1) 'F' (fun _ => 0)) (fun _ => 1) st none
      (fun _ => rfl) rfl rfl (fun _ => rfl) h 1 3 (by decide) (by decide) (by decide)⟩

end OutsideFinalClaims

section OutsideNonnegTheorems

variable {α : Type} {Ael Aml : Type}

theorem TriNonneg_update [LinearOrderedField α] (vc : vrna_fold_compound_t α)
    (p : Int → α) (x : Int) (v : α) (hp : TriNonneg vc p) (hv : 0 ≤ v) :
    TriNonneg vc (Function.update p x v) := by
  intro i j hi hij hj
  by_cases he : vc.iindx i - j = x
  · rw [he, Function.update_same]
    exact hv
  · rw [Function.update_noteq he]
    exact hp i j hi hij hj

theorem nonneg_update [LinearOrderedField α] (p : Int → α) (x : Int) (v : α)
    (hp : ∀ y, 0 ≤ p y) (hv : 0 ≤ v) : ∀ y, 0 ≤ Function.update p x v y := by
  intro y
  by_cases he : y = x
  · rw [he, Function.update_same]
    exact hv
  · rw [Function.update_noteq he]
    exact hp y

/-- Without soft constraints every soft-constraint factor is `1`. -/
theorem sc_none_factors [LinearOrderedField α] :
    (∀ a b c d e : Int, sc_exp_f (none : Option (vrna_sc_t α)) a b c d e = 1) ∧
      (∀ i u : Int, sc_exp_energy_up (none : Option (vrna_sc_t α)) i u = 1) ∧
      (∀ ij : Int, sc_exp_energy_bp (none : Option (vrna_sc_t α)) ij = 1) ∧
      (∀ i j k l : Int, sc_exp_energy_stack (none : Option (vrna_sc_t α)) i j k l = 1) :=
  ⟨fun _ _ _ _ _ => rfl, fun _ _ => rfl, fun _ => rfl, fun _ _ _ _ => rfl⟩

/-- The interior-loop step keeps the triangle of `probs` non-negative. -/
theorem bppm_int_ij_nn [LinearOrderedField α] (O : Externals α Ael Aml) (C : Constants)
    (vc : vrna_fold_compound_t α) (S1 : Int → Int) (H : NonnegInputs O vc)
    (l k type_2 i : Int) (probs : Int → α) (j : Int)
    (hk : 1 ≤ k) (hkl : k ≤ l) (hl : l ≤ vc.length) (hp : TriNonneg vc probs) :
    TriNonneg vc (bppm_int_ij O C vc S1 l k type_2 i probs j) := by
  obtain ⟨_, _, _, hscale, _, _, _, hInt, _, _, hsc⟩ := H
  simp only [bppm_int_ij]
  split_ifs with h1 h2 h3
  · apply TriNonneg_update _ _ _ _ hp
    apply add_nonneg (hp k l hk hkl hl)
    rw [hsc]
    simp only [sc_none_factors.1, sc_none_factors.2.1, sc_none_factors.2.2.1,
      sc_none_factors.2.2.2, mul_one]
    exact mul_nonneg (mul_nonneg (le_of_lt h3) (hscale _)) (hInt _ _ _ _ _ _ _ _ _)
  · exact hp
  · exact hp
  · exact hp

theorem bppm_int_k_nn [LinearOrderedField α] (O : Externals α Ael Aml) (C : Constants)
    (vc : vrna_fold_compound_t α) (S1 : Int → Int) (H : NonnegInputs O vc)
    (l : Int) (probs : Int → α) (k : Int)
    (hk : 1 ≤ k) (hkl : k ≤ l) (hl : l ≤ vc.length) (hp : TriNonneg vc probs) :
    TriNonneg vc (bppm_int_k O C vc S1 l probs k) := by
  simp only [bppm_int_k]
  by_cases h1 : vc.exp_matrices.qb (vc.iindx k - l) = 0
  · rw [if_pos h1]
    exact hp
  · rw [if_neg h1]
    by_cases h2 : hc_allows (vc.hc.matrix (vc.jindx l + k)) C.CONTEXT_INT_LOOP_ENC = true
    · rw [if_pos h2]
      refine foldl_inv (TriNonneg vc) _ _ _ hp ?_
      intro b i _ hb
      beta_reduce
      split_ifs
      · exact hb
      · refine foldl_inv (TriNonneg vc) _ _ _ hb ?_
        intro b1 j _ hb1
        exact bppm_int_ij_nn O C vc S1 H l k _ i b1 j hk hkl hl hb1
    · rw [if_neg h2]
      exact hp

theorem bppm_prmt1_nn [LinearOrderedField α] (O : Externals α Ael Aml) (C : Constants)
    (vc : vrna_fold_compound_t α) (S1 : Int → Int) (H : NonnegInputs O vc)
    (l k : Int) (probs : Int → α) (hk : 2 ≤ k) (hkl : k ≤ l) (hl : l < vc.length)
    (hp : TriNonneg vc probs) : 0 ≤ bppm_prmt1 O C vc S1 l probs k := by
  obtain ⟨_, _, _, _, _, hcl, _, _, hML, _, hsc⟩ := H
  simp only [bppm_prmt1]
  split_ifs
  · rw [hsc]
    simp only [sc_none_factors.2.2.1, mul_one]
    exact mul_nonneg (mul_nonneg (hp (k - 1) (l + 1) (by omega) (by omega) (by omega)) hcl)
      (hML _ _ _ _)
  · exact le_refl 0

theorem bppm_prmt_nn [LinearOrderedField α] (O : Externals α Ael Aml) (C : Constants)
    (vc : vrna_fold_compound_t α) (S1 : Int → Int) (H : NonnegInputs O vc)
    (l k : Int) (probs : Int → α) (hk : 2 ≤ k) (hkl : k ≤ l)
    (hp : TriNonneg vc probs) : 0 ≤ bppm_prmt O C vc S1 l probs k := by
  obtain ⟨_, _, hqm, _, _, hcl, _, _, hML, _, hsc⟩ := H
  simp only [bppm_prmt]
  refine mul_nonneg ?_ hcl
  split_ifs
  · refine foldl_inv (fun a : α => 0 ≤ a) _ _ _ (le_refl 0) ?_
    intro acc j hj hacc
    rw [mem_upto] at hj
    beta_reduce
    split_ifs
    · apply add_nonneg hacc
      rw [hsc]
      simp only [sc_none_factors.2.2.1, mul_one]
      exact mul_nonneg (mul_nonneg (hp (k - 1) j (by omega) (by omega) hj.2) (hML _ _ _ _))
        (hqm _)
    · exact hacc
  · exact le_refl 0

theorem bppm_ml_temp_nn [LinearOrderedField α] (O : Externals α Ael Aml)
    (vc : vrna_fold_compound_t α) (S1 : Int → Int) (H : NonnegInputs O vc)
    (l k : Int) (prm_MLb : α) (prml : Int → α) (h1 : 0 ≤ prm_MLb) (h2 : ∀ x, 0 ≤ prml x) :
    0 ≤ bppm_ml_temp O vc S1 l k prm_MLb prml := by
  obtain ⟨_, _, hqm, hscale, _, _, _, _, hML, _, _⟩ := H
  simp only [bppm_ml_temp]
  refine mul_nonneg ?_ (mul_nonneg (hML _ _ _ _) (hscale _))
  refine foldl_inv (fun a : α => 0 ≤ a) _ _ _ h1 ?_
  intro acc i1 _ hacc
  beta_reduce
  split_ifs
  · exact add_nonneg hacc (mul_nonneg (h2 _) (hqm _))
  · exact hacc

/-- The fields of the state after the multiloop step for the pair `(k, l)`. -/
theorem bppm_ml_k_fields [LinearOrderedField α] (O : Externals α Ael Aml) (C : Constants)
    (vc : vrna_fold_compound_t α) (S1 : Int → Int) (l : Int) (st : BppmState α) (k : Int) :
    (bppm_ml_k O C vc S1 l st k).prm_l =
        Function.update st.prm_l (k - 1)
          (if vc.hc.up_ml (l + 1) ≠ 0 then
            st.prm_l1 (k - 1) * vc.exp_matrices.expMLbase 1 *
                sc_exp_energy_up vc.sc (l + 1) 1 + bppm_prmt1 O C vc S1 l st.probs k
          else bppm_prmt1 O C vc S1 l st.probs k) ∧
      (bppm_ml_k O C vc S1 l st k).prm_l1 = st.prm_l1 ∧
      (bppm_ml_k O C vc S1 l st k).prml =
        Function.update (Function.update st.prml (k - 1) (bppm_prmt O C vc S1 l st.probs k))
          (k - 1)
          (bppm_prmt O C vc S1 l st.probs k +
            (if vc.hc.up_ml (l + 1) ≠ 0 then
              st.prm_l1 (k - 1) * vc.exp_matrices.expMLbase 1 *
                  sc_exp_energy_up vc.sc (l + 1) 1 + bppm_prmt1 O C vc S1 l st.probs k
            else bppm_prmt1 O C vc S1 l st.probs k)) ∧
      (bppm_ml_k O C vc S1 l st k).Qrout = st.Qrout ∧
      (bppm_ml_k O C vc S1 l st k).Qlout = st.Qlout ∧
      (bppm_ml_k O C vc S1 l st k).prm_MLb =
        (if vc.hc.up_ml (k - 1) ≠ 0 then
          st.prm_MLb * vc.exp_matrices.expMLbase 1 * sc_exp_energy_up vc.sc (k - 1) 1 +
            bppm_prmt O C vc S1 l st.probs k
        else bppm_prmt O C vc S1 l st.probs k) ∧
      ((bppm_ml_k O C vc S1 l st k).probs = st.probs ∨
        (bppm_ml_k O C vc S1 l st k).probs =
          Function.update st.probs (vc.iindx k - l) O.FLT_MAX ∨
        (bppm_ml_k O C vc S1 l st k).probs =
          Function.update st.probs (vc.iindx k - l)
            (st.probs (vc.iindx k - l) +
              bppm_ml_temp O vc S1 l k (bppm_ml_k O C vc S1 l st k).prm_MLb
                (bppm_ml_k O C vc S1 l st k).prml)) := by
  simp only [bppm_ml_k, Function.update_same]
  split_ifs
  all_goals refine ⟨rfl, rfl, rfl, rfl, rfl, rfl, ?_⟩
  all_goals first
    | exact Or.inl rfl
    | exact Or.inr (Or.inl rfl)
    | exact Or.inr (Or.inr rfl)

end OutsideNonnegTheorems

section OutsideNonnegTheorems2

variable {α : Type} {Ael Aml : Type}

/-- The multiloop step for the pair `(k, l)` keeps the local state non-negative. -/
theorem bppm_ml_k_nn [LinearOrderedField α] (O : Externals α Ael Aml) (C : Constants)
    (vc : vrna_fold_compound_t α) (S1 : Int → Int) (H : NonnegInputs O vc)
    (l : Int) (st : BppmState α) (k : Int) (hk : 2 ≤ k) (hkl : k < l) (hl : l < vc.length)
    (hst : BppmNonneg vc st) : BppmNonneg vc (bppm_ml_k O C vc S1 l st k) := by
  obtain ⟨hp, hprm_l, hprm_l1, hprml, hQr, hQl, hMLb0⟩ := hst
  have h1 := bppm_prmt1_nn O C vc S1 H l k st.probs hk (le_of_lt hkl) hl hp
  have h2 := bppm_prmt_nn O C vc S1 H l k st.probs hk (le_of_lt hkl) hp
  have hsc : vc.sc = none := H.2.2.2.2.2.2.2.2.2.2
  have hMLbase : ∀ x, 0 ≤ vc.exp_matrices.expMLbase x := H.2.2.2.2.1
  have hFLT : 0 ≤ O.FLT_MAX := H.2.2.2.2.2.2.2.2.2.1
  have hup : ∀ i u : Int, sc_exp_energy_up vc.sc i u = 1 := by
    intro i u
    rw [hsc]
    rfl
  obtain ⟨f1, f2, f3, f4, f5, f6, f7⟩ := bppm_ml_k_fields O C vc S1 l st k
  have h3 : 0 ≤ (if vc.hc.up_ml (l + 1) ≠ 0 then
      st.prm_l1 (k - 1) * vc.exp_matrices.expMLbase 1 * sc_exp_energy_up vc.sc (l + 1) 1 +
        bppm_prmt1 O C vc S1 l st.probs k
      else bppm_prmt1 O C vc S1 l st.probs k) := by
    split_ifs
    · rw [hup, mul_one]
      exact add_nonneg (mul_nonneg (hprm_l1 _) (hMLbase _)) h1
    · exact h1
  have h4 : 0 ≤ (bppm_ml_k O C vc S1 l st k).prm_MLb := by
    rw [f6]
    split_ifs
    · rw [hup, mul_one]
      exact add_nonneg (mul_nonneg hMLb0 (hMLbase _)) h2
    · exact h2
  have h5 : ∀ x, 0 ≤ (bppm_ml_k O C vc S1 l st k).prml x := by
    rw [f3]
    exact nonneg_update _ _ _ (nonneg_update _ _ _ hprml h2) (add_nonneg h2 h3)
  refine ⟨?_, ?_, ?_, h5, ?_, ?_, h4⟩
  · rcases f7 with e | e | e
    · rw [e]
      exact hp
    · rw [e]
      exact TriNonneg_update vc _ _ _ hp hFLT
    · rw [e]
      exact TriNonneg_update vc _ _ _ hp
        (add_nonneg (hp k l (by omega) (le_of_lt hkl) (le_of_lt hl))
          (bppm_ml_temp_nn O vc S1 H l k _ _ h4 h5))
  · rw [f1]
    exact nonneg_update _ _ _ hprm_l h3
  · rw [f2]
    exact hprm_l1
  · rw [f4]
    exact hQr
  · rw [f5]
    exact hQl

/-- The multiloop step for one `l` keeps the local state non-negative. -/
theorem bppm_ml_l_nn [LinearOrderedField α] (O : Externals α Ael Aml) (C : Constants)
    (vc : vrna_fold_compound_t α) (S1 : Int → Int) (H : NonnegInputs O vc)
    (l : Int) (st : BppmState α) (hst : BppmNonneg vc st) :
    BppmNonneg vc (bppm_ml_l O C vc S1 0 l st) := by
  obtain ⟨hp, hprm_l, hprm_l1, hprml, hQr, hQl, _⟩ := hst
  have h0 : BppmNonneg vc { st with prm_MLb := 0 } :=
    ⟨hp, hprm_l, hprm_l1, hprml, hQr, hQl, le_refl 0⟩
  simp only [bppm_ml_l]
  by_cases hc : l < vc.length ∧ vc.strand_number (l + 1) = vc.strand_number l
  · rw [if_pos hc]
    have h1 : BppmNonneg vc
        ((upto 2 (l - 0 - 1)).foldl (bppm_ml_k O C vc S1 l) { st with prm_MLb := 0 }) := by
      refine foldl_inv (BppmNonneg vc) _ _ _ h0 ?_
      intro b k hk hb
      rw [mem_upto] at hk
      exact bppm_ml_k_nn O C vc S1 H l b k hk.1 (by omega) hc.1 hb
    obtain ⟨a1, a2, a3, a4, a5, a6, a7⟩ := h1
    exact ⟨a1, a3, a2, a4, a5, a6, a7⟩
  · rw [if_neg hc]
    refine ⟨hp, hprm_l1, ?_, hprml, hQr, hQl, le_refl 0⟩
    refine foldl_inv (fun a : Int → α => ∀ x, 0 ≤ a x) _ _ _ hprm_l ?_
    intro b i _ hb
    exact nonneg_update _ _ _ hb (le_refl 0)

theorem bppm_Qrout_kt_nn [LinearOrderedField α] (O : Externals α Ael Aml)
    (vc : vrna_fold_compound_t α) (S1 : Int → Int) (H : NonnegInputs O vc)
    (l : Int) (probs : Int → α) (t : Int) (Q : Int → α) (k : Int)
    (hk : 1 ≤ k) (hkt : k ≤ t) (ht : t ≤ vc.length) (hp : TriNonneg vc probs)
    (hQ : ∀ x, 0 ≤ Q x) : ∀ x, 0 ≤ bppm_Qrout_kt O vc S1 l probs t Q k x := by
  obtain ⟨hq, _, _, hscale, _, _, hExt, _, _, _, _⟩ := H
  simp only [bppm_Qrout_kt]
  apply nonneg_update _ _ _ hQ
  apply add_nonneg (hQ _)
  have h0 : ∀ s3 : Int, 0 ≤ probs (vc.iindx k - t) *
      O.exp_E_ExtLoop
        (ptype_or_7 (vc.exp_params.model_details.rtype (vc.ptype (vc.jindx t + k))))
        (S1 (t - 1)) s3 vc.exp_params * vc.exp_matrices.scale 2 := fun s3 =>
    mul_nonneg (mul_nonneg (hp k t hk hkt ht) (hExt _ _ _ _)) (hscale 2)
  split_ifs
  all_goals first
    | exact h0 _
    | exact mul_nonneg (h0 _) (hq _)
    | exact mul_nonneg (mul_nonneg (h0 _) (hq _)) (hq _)

theorem bppm_Qrout_add_nn [LinearOrderedField α] (O : Externals α Ael Aml)
    (vc : vrna_fold_compound_t α) (S1 : Int → Int) (H : NonnegInputs O vc)
    (l : Int) (Q : Int → α) (probs : Int → α) (k : Int)
    (hk : 1 ≤ k) (hkl : k ≤ l) (hl : l ≤ vc.length) (hp : TriNonneg vc probs)
    (hQ : ∀ x, 0 ≤ Q x) : TriNonneg vc (bppm_Qrout_add O vc S1 l Q probs k) := by
  obtain ⟨hq, _, _, _, _, _, hExt, _, _, _, _⟩ := H
  simp only [bppm_Qrout_add]
  by_cases h1 : vc.exp_matrices.qb (vc.iindx k - l) ≠ 0
  · rw [if_pos h1]
    apply TriNonneg_update _ _ _ _ hp
    apply add_nonneg (hp k l hk hkl hl)
    split_ifs
    all_goals first
      | exact mul_nonneg (hQ _) (hExt _ _ _ _)
      | exact mul_nonneg (mul_nonneg (hQ _) (hExt _ _ _ _)) (hq _)
  · rw [if_neg h1]
    exact hp

theorem bppm_Qlout_tsk_nn [LinearOrderedField α] (O : Externals α Ael Aml)
    (vc : vrna_fold_compound_t α) (S1 : Int → Int) (H : NonnegInputs O vc)
    (probs : Int → α) (t s : Int) (Q : Int → α) (k : Int)
    (hs : 1 ≤ s) (hsk : s ≤ k) (hk : k ≤ vc.length) (hp : TriNonneg vc probs)
    (hQ : ∀ x, 0 ≤ Q x) : ∀ x, 0 ≤ bppm_Qlout_tsk O vc S1 probs t s Q k x := by
  obtain ⟨hq, _, _, hscale, _, _, hExt, _, _, _, _⟩ := H
  simp only [bppm_Qlout_tsk]
  by_cases h1 : vc.exp_matrices.qb (vc.iindx s - k) ≠ 0
  · rw [if_pos h1]
    apply nonneg_update _ _ _ hQ
    apply add_nonneg (hQ _)
    have h0 : ∀ s5 : Int, 0 ≤ probs (vc.iindx s - k) *
        O.exp_E_ExtLoop
          (ptype_or_7 (vc.exp_params.model_details.rtype (vc.ptype (vc.jindx k + s))))
          s5 (S1 (s + 1)) vc.exp_params * vc.exp_matrices.scale 2 := fun s5 =>
      mul_nonneg (mul_nonneg (hp s k hs hsk hk) (hExt _ _ _ _)) (hscale 2)
    split_ifs
    all_goals first
      | exact h0 _
      | exact mul_nonneg (h0 _) (hq _)
      | exact mul_nonneg (mul_nonneg (h0 _) (hq _)) (hq _)
  · rw [if_neg h1]
    exact hQ

theorem bppm_Qlout_add_nn [LinearOrderedField α] (O : Externals α Ael Aml)
    (vc : vrna_fold_compound_t α) (S1 : Int → Int) (H : NonnegInputs O vc)
    (l : Int) (Q : Int → α) (probs : Int → α) (k : Int)
    (hk : 1 ≤ k) (hkl : k ≤ l) (hl : l ≤ vc.length) (hp : TriNonneg vc probs)
    (hQ : ∀ x, 0 ≤ Q x) : TriNonneg vc (bppm_Qlout_add O vc S1 l Q probs k) := by
  obtain ⟨hq, _, _, _, _, _, hExt, _, _, _, _⟩ := H
  simp only [bppm_Qlout_add]
  by_cases h1 : vc.exp_matrices.qb (vc.iindx k - l) ≠ 0
  · rw [if_pos h1]
    apply TriNonneg_update _ _ _ _ hp
    apply add_nonneg (hp k l hk hkl hl)
    split_ifs
    all_goals first
      | exact mul_nonneg (hQ _) (hExt _ _ _ _)
      | exact mul_nonneg (mul_nonneg (hQ _) (hExt _ _ _ _)) (hq _)
  · rw [if_neg h1]
    exact hp

/-- The dimer-crossing step for one `l` keeps the local state non-negative. -/
theorem bppm_dimer_l_nn [LinearOrderedField α] (O : Externals α Ael Aml)
    (vc : vrna_fold_compound_t α) (S1 : Int → Int) (H : NonnegInputs O vc)
    (l : Int) (st : BppmState α) (hl : l ≤ vc.length) (hst : BppmNonneg vc st) :
    BppmNonneg vc (bppm_dimer_l O vc S1 l st) := by
  obtain ⟨hp, hprm_l, hprm_l1, hprml, hQr, hQl, hMLb0⟩ := hst
  simp only [bppm_dimer_l]
  by_cases h1 : vc.cutpoint ≤ 0
  · rw [if_pos h1]
    exact ⟨hp, hprm_l, hprm_l1, hprml, hQr, hQl, hMLb0⟩
  rw [if_neg h1]
  by_cases h2 : l = vc.length ∨ l ≤ 2
  · rw [if_pos h2]
    exact ⟨hp, hprm_l, hprm_l1, hprml, hQr, hQl, hMLb0⟩
  rw [if_neg h2]
  by_cases h3 : l > vc.cutpoint
  · rw [if_pos h3]
    have hQ1 : ∀ x, 0 ≤ (if l < vc.length then
        (downto vc.length (l + 1)).foldl
          (fun Q t => (upto 1 (vc.cutpoint - 1)).foldl
            (bppm_Qrout_kt O vc S1 l st.probs t) Q) st.Qrout
        else st.Qrout) x := by
      split_ifs
      · refine foldl_inv (fun a : Int → α => ∀ x, 0 ≤ a x) _ _ _ hQr ?_
        intro Q t ht hQ
        rw [mem_downto] at ht
        refine foldl_inv (fun a : Int → α => ∀ x, 0 ≤ a x) _ _ _ hQ ?_
        intro Q1 k hk hQ1
        rw [mem_upto] at hk
        exact bppm_Qrout_kt_nn O vc S1 H l st.probs t Q1 k hk.1 (by omega) ht.2 hp hQ1
      · exact hQr
    refine ⟨?_, hprm_l, hprm_l1, hprml, hQ1, hQl, hMLb0⟩
    refine foldl_inv (TriNonneg vc) _ _ _ hp ?_
    intro b k hk hb
    rw [mem_downto] at hk
    exact bppm_Qrout_add_nn O vc S1 H l _ b k (by omega) (by omega) hl hb hQ1
  rw [if_neg h3]
  by_cases h4 : l = vc.cutpoint
  · rw [if_pos h4]
    refine ⟨hp, hprm_l, hprm_l1, hprml, hQr, ?_, hMLb0⟩
    refine foldl_inv (fun a : Int → α => ∀ x, 0 ≤ a x) _ _ _ hQl ?_
    intro Q t ht hQ
    rw [mem_upto] at ht
    refine foldl_inv (fun a : Int → α => ∀ x, 0 ≤ a x) _ _ _ hQ ?_
    intro Q1 s hs hQ1
    rw [mem_upto] at hs
    refine foldl_inv (fun a : Int → α => ∀ x, 0 ≤ a x) _ _ _ hQ1 ?_
    intro Q2 k hk hQ2
    rw [mem_upto] at hk
    exact bppm_Qlout_tsk_nn O vc S1 H st.probs t s Q2 k hs.1 (by omega) hk.2 hp hQ2
  rw [if_neg h4]
  by_cases h5 : l < vc.cutpoint
  · rw [if_pos h5]
    refine ⟨?_, hprm_l, hprm_l1, hprml, hQr, hQl, hMLb0⟩
    refine foldl_inv (TriNonneg vc) _ _ _ hp ?_
    intro b k hk hb
    rw [mem_upto] at hk
    exact bppm_Qlout_add_nn O vc S1 H l _ b k hk.1 (by omega) hl hb hQl
  · rw [if_neg h5]
    exact ⟨hp, hprm_l, hprm_l1, hprml, hQr, hQl, hMLb0⟩

/-- One iteration `l` of the outer sweep keeps the local state non-negative. -/
theorem bppm_l_nn [LinearOrderedField α] (O : Externals α Ael Aml) (C : Constants)
    (vc : vrna_fold_compound_t α) (S1 : Int → Int) (H : NonnegInputs O vc)
    (l : Int) (st : BppmState α) (hl : l ≤ vc.length) (hst : BppmNonneg vc st) :
    BppmNonneg vc (bppm_l O C vc S1 0 st l) := by
  unfold bppm_l
  apply bppm_dimer_l_nn O vc S1 H l _ hl
  apply bppm_ml_l_nn O C vc S1 H l
  obtain ⟨hp, hprm_l, hprm_l1, hprml, hQr, hQl, hMLb0⟩ := hst
  refine ⟨?_, hprm_l, hprm_l1, hprml, hQr, hQl, hMLb0⟩
  refine foldl_inv (TriNonneg vc) _ _ _ hp ?_
  intro b k hk hb
  rw [mem_upto] at hk
  exact bppm_int_k_nn O C vc S1 H l b k hk.1 (by omega) hl hb

/-- Step 1 leaves the triangle of `probs` non-negative when the entries of `q1k` and `qln`
that it reads are non-negative. -/
theorem bppm_step1_nn [LinearOrderedField α] (O : Externals α Ael Aml) (C : Constants)
    (vc : vrna_fold_compound_t α) (S1 : Int → Int) (H : NonnegInputs O vc)
    (hidx : ∀ i, vc.iindx i = iindx vc.length i)
    (h1k : ∀ k : Int, 0 ≤ k → k ≤ vc.length → 0 ≤ vc.exp_matrices.q1k k)
    (hln : ∀ k : Int, 1 ≤ k → k ≤ vc.length + 1 → 0 ≤ vc.exp_matrices.qln k) :
    TriNonneg vc (bppm_step1 O C vc S1 0) := by
  obtain ⟨_, _, _, _, _, _, hExt, _, _, _, hsc⟩ := H
  intro i j hi hij hj
  rw [bppm_step1_cell O C vc S1 hidx i j hi hij hj]
  split_ifs
  · rw [hsc, sc_none_factors.1, mul_one]
    exact mul_nonneg
      (div_nonneg (mul_nonneg (h1k _ (by omega) (by omega)) (hln _ (by omega) (by omega)))
        (h1k _ (by omega) (le_refl _)))
      (hExt _ _ _ _)
  all_goals first
    | exact le_refl 0
    | (rw [hsc, sc_none_factors.1, mul_one]
       exact mul_nonneg
        (div_nonneg (mul_nonneg (h1k _ (by omega) (by omega)) (hln _ (by omega) (by omega)))
          (h1k _ (by omega) (le_refl _)))
        (hExt _ _ _ _))

/-- The outer sweep ends in a non-negative local state. -/
theorem bppm_sweep_nn [LinearOrderedField α] (O : Externals α Ael Aml) (C : Constants)
    (vc : vrna_fold_compound_t α) (S1 : Int → Int) (H : NonnegInputs O vc)
    (hidx : ∀ i, vc.iindx i = iindx vc.length i)
    (h1k : ∀ k : Int, 0 ≤ k → k ≤ vc.length → 0 ≤ vc.exp_matrices.q1k k)
    (hln : ∀ k : Int, 1 ≤ k → k ≤ vc.length + 1 → 0 ≤ vc.exp_matrices.qln k) :
    BppmNonneg vc (bppm_sweep O C vc S1 0) := by
  unfold bppm_sweep
  refine foldl_inv (BppmNonneg vc) _ _ _ ?_ ?_
  · exact ⟨bppm_step1_nn O C vc S1 H hidx h1k hln, fun _ => le_refl 0, fun _ => le_refl 0,
      fun _ => le_refl 0, fun _ => le_refl 0, fun _ => le_refl 0, le_refl 0⟩
  · intro b l hl hb
    rw [mem_downto] at hl
    exact bppm_l_nn O C vc S1 H l b hl.2 hb

end OutsideNonnegTheorems2

section OutsideNonnegClaims

variable {α : Type} {Ael Aml : Type}

/-- C14: if every entry of `q`, `qb`, `qm`, `scale` and `expMLbase`, the factor
`expMLclosing` and every value returned by the energy functions are non-negative,
`q[1,n] > 0` and there are no soft constraints, then every entry `probs[i,j]` with
`1 ≤ i ≤ j ≤ n` produced by `pf_co_bppm` is `≥ 0`.  The fold compound has both encodings,
`iindx` is the packing of `iindx`, and the constant `FLT_MAX` stored on overflow is
non-negative. -/
theorem C14_probs_nonneg [LinearOrderedField α] (O : Externals α Ael Aml) (C : Constants)
    (vc : vrna_fold_compound_t α) (S1 : Int → Int) (sb : Option (List Char))
    (hidx : ∀ i, vc.iindx i = iindx vc.length i)
    (hS : vc.sequence_encoding2 = true) (hS1 : vc.sequence_encoding = some S1)
    (hq : ∀ x, 0 ≤ vc.exp_matrices.q x) (hqb : ∀ x, 0 ≤ vc.exp_matrices.qb x)
    (hqm : ∀ x, 0 ≤ vc.exp_matrices.qm x) (hscale : ∀ x, 0 ≤ vc.exp_matrices.scale x)
    (hMLbase : ∀ x, 0 ≤ vc.exp_matrices.expMLbase x)
    (hcl : 0 ≤ vc.exp_params.expMLclosing)
    (hExt : ∀ t a b P, 0 ≤ O.exp_E_ExtLoop t a b P)
    (hInt : ∀ u1 u2 t t2 a b c d P, 0 ≤ O.exp_E_IntLoop u1 u2 t t2 a b c d P)
    (hML : ∀ t a b P, 0 ≤ O.exp_E_MLstem t a b P) (hFLT : 0 ≤ O.FLT_MAX)
    (hq1n : 0 < vc.exp_matrices.q (iindx vc.length 1 - vc.length)) (hsc : vc.sc = none) :
    ∀ i j : Int, 1 ≤ i → i ≤ j → j ≤ vc.length →
      0 ≤ (pf_co_bppm O C vc sb).vc.exp_matrices.probs (iindx vc.length i - j) := by
  intro i j hi hij hj
  have hfr := bppm_init_frame vc
  have hspec := bppm_init_spec vc
  have H1 : NonnegInputs O (bppm_init_q1k_qln vc) := by
    refine ⟨?_, ?_, ?_, ?_, ?_, hcl, hExt, hInt, hML, hFLT, hsc⟩
    · rw [hfr.1]
      exact hq
    · rw [hfr.2.1]
      exact hqb
    · rw [hfr.2.2.1]
      exact hqm
    · rw [hfr.2.2.2.2.1]
      exact hscale
    · rw [hfr.2.2.2.2.2]
      exact hMLbase
  have hidx1 : ∀ i, (bppm_init_q1k_qln vc).iindx i = iindx (bppm_init_q1k_qln vc).length i :=
    hidx
  have h1k : ∀ k : Int, 0 ≤ k → k ≤ (bppm_init_q1k_qln vc).length →
      0 ≤ (bppm_init_q1k_qln vc).exp_matrices.q1k k := by
    intro k hk0 hkn
    rcases eq_or_lt_of_le hk0 with h0 | h0
    · rw [← h0, hspec.1]
      exact zero_le_one
    · rw [(hspec.2.2 k (by omega) hkn).1]
      by_cases hkl : k = vc.length
      · rw [hkl, hidx 1]
        exact le_of_lt hq1n
      · exact hq _
  have hln : ∀ k : Int, 1 ≤ k → k ≤ (bppm_init_q1k_qln vc).length + 1 →
      0 ≤ (bppm_init_q1k_qln vc).exp_matrices.qln k := by
    intro k hk1 hkn
    have hlen : (bppm_init_q1k_qln vc).length = vc.length := rfl
    rw [hlen] at hkn
    rcases eq_or_lt_of_le hkn with h0 | h0
    · rw [h0, hspec.2.1]
      exact zero_le_one
    · rw [(hspec.2.2 k hk1 (by omega)).2]
      exact hq _
  have hsw := (bppm_sweep_nn O C (bppm_init_q1k_qln vc) S1 H1 hidx1 h1k hln).1
  obtain ⟨hd, ho⟩ := pf_co_bppm_cells O C vc S1 sb hidx hS hS1
  rcases lt_or_eq_of_le hij with hlt | heq
  · rw [ho i j hi hlt hj]
    have h := hsw i j hi hij hj
    rw [hidx1 i] at h
    exact mul_nonneg h (hqb _)
  · subst heq
    rw [hd i hi hj]

/-- C14 witness: for three nucleotides with `q = 1`, `qb = 1`, `qm = 0`, `scale = 1` and
`expMLbase = 1` everywhere and all energy values `1`, `probs[1,3] ≥ 0` after
`pf_co_bppm`. -/
theorem C14_probs_nonneg_witness :
    0 ≤ (pf_co_bppm (exampleExternals ℚ id id) exampleConstants
      (exampleOutsideCompound ℚ ['G', 'C', 'G'] (-1) (fun _ => 1)) none).vc.exp_matrices.probs
        (iindx 3 1 - 3) :=
  C14_probs_nonneg (exampleExternals ℚ id id) exampleConstants
    (exampleOutsideCompound ℚ ['G', 'C', 'G'] (-1) (fun _ => 1)) (fun _ => 1) none
    (fun _ => rfl) rfl rfl
    (fun _ => by norm_num [exampleOutsideCompound])
    (fun _ => by norm_num [exampleOutsideCompound])
    (fun _ => by norm_num [exampleOutsideCompound])
    (fun _ => by norm_num [exampleOutsideCompound])
    (fun _ => by norm_num [exampleOutsideCompound])
    (by norm_num [exampleOutsideCompound, exampleFoldCompound])
    (fun _ _ _ _ => by norm_num [exampleExternals])
    (fun _ _ _ _ _ _ _ _ _ => by norm_num [exampleExternals])
    (fun _ _ _ _ => by norm_num [exampleExternals])
    (by norm_num [exampleExternals])
    (by norm_num [exampleOutsideCompound])
    rfl 1 3 (by decide) (by decide) (by decide)

end OutsideNonnegClaims

section DimerProbsTheorems2

variable {α : Type} [LinearOrderedField α]

/-- One iteration of the loop of `vrna_pf_dimer_probs` on an entry with `j > 0`: for the
monomer probability `pp` found by the walk, the entry gets `(p - (1 - pAB) * pp) / pAB`,
or `0` and a warning when that is negative, and the loop goes on with the rest. -/
theorem dimer_probs_loop_cons (pAB : α) (prB : List (vrna_ep_t α)) (Alength : Int)
    (e : vrna_ep_t α) (rest lp2 : List (vrna_ep_t α)) (offset : Int) (hj : e.j > 0) :
    ∃ (pp : α) (lp2d : List (vrna_ep_t α)) (offset1 : Int),
      dimer_probs_loop pAB prB Alength (e :: rest) lp2 offset =
        if (e.p - (1 - pAB) * pp) / pAB < 0 then
          ({ e with p := 0 } :: (dimer_probs_loop pAB prB Alength rest lp2d offset1).1,
            (dimer_probs_loop pAB prB Alength rest lp2d offset1).2 + 1)
        else
          ({ e with p := (e.p - (1 - pAB) * pp) / pAB } ::
              (dimer_probs_loop pAB prB Alength rest lp2d offset1).1,
            (dimer_probs_loop pAB prB Alength rest lp2d offset1).2) := by
  rw [dimer_probs_loop, if_pos hj]
  exact ⟨_, _, _, rfl⟩

/-- C21 (amended): if `FAB = FA + FB` (so `pAB = 1 - exp 0 = 0`), `vrna_pf_dimer_probs`
leaves `prAB` exactly as it is and issues no warning: the rescaling loop is guarded by
`pAB > 0` and does not run. -/
theorem C21_zero_pAB_leaves_prAB (exp : α → α) (FAB FA FB : α)
    (prAB prA prB : List (vrna_ep_t α)) (Alength : Int) (kT : α)
    (hexp : exp 0 = 1) (hF : FAB = FA + FB) :
    vrna_pf_dimer_probs exp FAB FA FB prAB prA prB Alength kT = (prAB, 0) := by
  have h0 : FAB - FA - FB = 0 := by
    rw [hF]
    ring
  simp only [vrna_pf_dimer_probs, h0, mul_zero, hexp, sub_self]
  rw [if_neg (lt_irrefl 0)]

/-- C21 witness: with the real exponential and `FAB = FA = FB = 0`, a monomer baseline
`prAB` is returned unchanged. -/
theorem C21_zero_pAB_witness :
    vrna_pf_dimer_probs Real.exp 0 0 0
        [⟨1, 5, 1 / 4⟩, ⟨7, 9, 1 / 2⟩, ⟨0, 0, 0⟩]
        [⟨1, 5, 1 / 4⟩, ⟨0, 0, 0⟩] [⟨1, 3, 1 / 2⟩, ⟨0, 0, 0⟩] 6 1000 =
      ([⟨1, 5, 1 / 4⟩, ⟨7, 9, 1 / 2⟩, ⟨0, 0, 0⟩], 0) :=
  C21_zero_pAB_leaves_prAB Real.exp 0 0 0 _ _ _ 6 1000 Real.exp_zero (by norm_num)

/-- C21 counterexample to the claim as stated: with `FAB = FA + FB` (here all `0`) and
`prAB` the monomer baseline made of the entry `(1, 5, 1/4)` of `prA` and of the entry
`(1, 3, 1/2)` of `prB` shifted by `Alength = 6`, the entries of `prAB` keep the
probabilities `1/4` and `1/2` after `vrna_pf_dimer_probs`; they are not `0`. -/
theorem C21_monomer_baseline_counterexample :
    (vrna_pf_dimer_probs Real.exp (0 + 0) 0 0
        [⟨1, 5, 1 / 4⟩, ⟨7, 9, 1 / 2⟩, ⟨0, 0, 0⟩]
        [⟨1, 5, 1 / 4⟩, ⟨0, 0, 0⟩] [⟨1, 3, 1 / 2⟩, ⟨0, 0, 0⟩] 6 1000).1 =
      [⟨1, 5, 1 / 4⟩, ⟨7, 9, 1 / 2⟩, ⟨0, 0, 0⟩] ∧
    (1 / 4 : ℝ) ≠ 0 ∧ (1 / 2 : ℝ) ≠ 0 := by
  refine ⟨?_, by norm_num, by norm_num⟩
  simp only [vrna_pf_dimer_probs]
  norm_num

end DimerProbsTheorems2

section DimerProbsTheorems4

variable {α : Type} [LinearOrderedField α]

/-- One iteration of the loop of `vrna_pf_dimer_probs` on an entry with `j > 0`: with
the monomer probability found by the walk, the entry gets the rescaled value
`(p - (1 - pAB) * pp) / pAB`, or `0` and a warning when that value is negative, and the
loop goes on with the rest from where the walk has arrived. -/
theorem dimer_probs_loop_step (pAB : α) (prB : List (vrna_ep_t α)) (Alength : Int)
    (e : vrna_ep_t α) (rest lp2 : List (vrna_ep_t α)) (offset : Int) (hj : e.j > 0) :
    dimer_probs_loop pAB prB Alength (e :: rest) lp2 offset =
      if (e.p - (1 - pAB) * (dimer_probs_walk prB Alength e lp2 offset).1) / pAB < 0 then
        ({ e with p := 0 } ::
            (dimer_probs_loop pAB prB Alength rest
              (dimer_probs_walk prB Alength e lp2 offset).2.1
              (dimer_probs_walk prB Alength e lp2 offset).2.2).1,
          (dimer_probs_loop pAB prB Alength rest
              (dimer_probs_walk prB Alength e lp2 offset).2.1
              (dimer_probs_walk prB Alength e lp2 offset).2.2).2 + 1)
      else
        ({ e with p := (e.p - (1 - pAB) * (dimer_probs_walk prB Alength e lp2 offset).1) /
              pAB } ::
            (dimer_probs_loop pAB prB Alength rest
              (dimer_probs_walk prB Alength e lp2 offset).2.1
              (dimer_probs_walk prB Alength e lp2 offset).2.2).1,
          (dimer_probs_loop pAB prB Alength rest
              (dimer_probs_walk prB Alength e lp2 offset).2.1
              (dimer_probs_walk prB Alength e lp2 offset).2.2).2) := by
  rw [dimer_probs_loop, if_pos hj]
  rfl

/-- What the loop of `vrna_pf_dimer_probs` does to the array: every entry before the
first entry with `j ≤ 0` gets its rescaled value, replaced by `0` when it is negative;
the entries from the first one with `j ≤ 0` on are left as they are; one warning is
counted for each negative rescaled value. -/
theorem dimer_probs_loop_rescaled (pAB : α) (prB : List (vrna_ep_t α)) (Alength : Int) :
    ∀ (prAB lp2 : List (vrna_ep_t α)) (offset : Int),
      (dimer_probs_rescaled pAB prB Alength prAB lp2 offset).length =
        (prAB.takeWhile (fun e => decide (e.j > 0))).length ∧
      (dimer_probs_loop pAB prB Alength prAB lp2 offset).1 =
        List.zipWith (fun e v => { e with p := if v < 0 then 0 else v })
            (prAB.takeWhile (fun e => decide (e.j > 0)))
            (dimer_probs_rescaled pAB prB Alength prAB lp2 offset) ++
          prAB.dropWhile (fun e => decide (e.j > 0)) ∧
      (dimer_probs_loop pAB prB Alength prAB lp2 offset).2 =
        ((dimer_probs_rescaled pAB prB Alength prAB lp2 offset).filter
          (fun v => decide (v < 0))).length := by
  intro prAB
  induction prAB with
  | nil =>
    intro lp2 offset
    refine ⟨rfl, ?_, ?_⟩
    · rw [dimer_probs_loop]
      rfl
    · rw [dimer_probs_loop]
      rfl
  | cons e rest ih =>
    intro lp2 offset
    by_cases hj : e.j > 0
    · obtain ⟨hlen, h1, h2⟩ := ih (dimer_probs_walk prB Alength e lp2 offset).2.1
        (dimer_probs_walk prB Alength e lp2 offset).2.2
      have htw : (e :: rest).takeWhile (fun e => decide (e.j > 0)) =
          e :: rest.takeWhile (fun e => decide (e.j > 0)) := by
        simp [List.takeWhile, hj]
      have hdw : (e :: rest).dropWhile (fun e => decide (e.j > 0)) =
          rest.dropWhile (fun e => decide (e.j > 0)) := by
        simp [List.dropWhile, hj]
      have hres : dimer_probs_rescaled pAB prB Alength (e :: rest) lp2 offset =
          (e.p - (1 - pAB) * (dimer_probs_walk prB Alength e lp2 offset).1) / pAB ::
            dimer_probs_rescaled pAB prB Alength rest
              (dimer_probs_walk prB Alength e lp2 offset).2.1
              (dimer_probs_walk prB Alength e lp2 offset).2.2 := by
        rw [dimer_probs_rescaled, if_pos hj]
      rw [dimer_probs_loop_step pAB prB Alength e rest lp2 offset hj, hres, htw, hdw]
      refine ⟨?_, ?_, ?_⟩
      · rw [List.length_cons, List.length_cons, hlen]
      · rw [List.zipWith_cons_cons, List.cons_append, ← h1]
        by_cases hneg :
            (e.p - (1 - pAB) * (dimer_probs_walk prB Alength e lp2 offset).1) / pAB < 0
        · rw [if_pos hneg, if_pos hneg]
        · rw [if_neg hneg, if_neg hneg]
      · by_cases hneg :
            (e.p - (1 - pAB) * (dimer_probs_walk prB Alength e lp2 offset).1) / pAB < 0
        · rw [if_pos hneg, List.filter_cons_of_pos (by simpa using hneg), List.length_cons,
            ← h2]
        · rw [if_neg hneg, List.filter_cons_of_neg (by simpa using hneg), ← h2]
    · have hres : dimer_probs_rescaled pAB prB Alength (e :: rest) lp2 offset = [] := by
        rw [dimer_probs_rescaled, if_neg hj]
      rw [dimer_probs_loop, if_neg hj, hres]
      refine ⟨?_, ?_, ?_⟩
      · simp [List.takeWhile, hj]
      · simp [List.takeWhile, List.dropWhile, hj]
      · rfl

/-- C22: after `vrna_pf_dimer_probs` with `pAB > 0`, every entry of `prAB` before the
terminating entry (the first with `j ≤ 0`) holds `0` when the rescaled value
`v = (p - (1 - pAB) * pp) / pAB` that line 293 computes for it (`pp` the monomer
probability that the walk through `prA` and `prB` finds) is below `0`, and `v` itself
when `v ≥ 0`; so its probability is `≥ 0`; the fields `i`, `j` and the entries from the
terminating one on are unchanged; and the number of "numeric instability" warnings is the
number of entries with `v < 0`. -/
theorem C22_clamped_at_zero (exp : α → α) (FAB FA FB : α)
    (prAB prA prB : List (vrna_ep_t α)) (Alength : Int) (kT pAB : α)
    (hdef : pAB = 1 - exp ((1 / (kT / 1000)) * (FAB - FA - FB))) (hp : 0 < pAB) :
    (dimer_probs_rescaled pAB prB Alength prAB prA 0).length =
      (prAB.takeWhile (fun e => decide (e.j > 0))).length ∧
    (vrna_pf_dimer_probs exp FAB FA FB prAB prA prB Alength kT).1 =
      List.zipWith (fun e v => { e with p := if v < 0 then 0 else v })
          (prAB.takeWhile (fun e => decide (e.j > 0)))
          (dimer_probs_rescaled pAB prB Alength prAB prA 0) ++
        prAB.dropWhile (fun e => decide (e.j > 0)) ∧
    (vrna_pf_dimer_probs exp FAB FA FB prAB prA prB Alength kT).2 =
      ((dimer_probs_rescaled pAB prB Alength prAB prA 0).filter
        (fun v => decide (v < 0))).length ∧
    ∀ e ∈ (vrna_pf_dimer_probs exp FAB FA FB prAB prA prB Alength kT).1.take
        (prAB.takeWhile (fun e => decide (e.j > 0))).length, 0 ≤ e.p := by
  obtain ⟨hlen, h1, h2⟩ := dimer_probs_loop_rescaled pAB prB Alength prAB prA 0
  have hrun : vrna_pf_dimer_probs exp FAB FA FB prAB prA prB Alength kT =
      dimer_probs_loop pAB prB Alength prAB prA 0 := by
    simp only [vrna_pf_dimer_probs]
    rw [← hdef, if_pos hp]
  refine ⟨hlen, ?_, ?_, ?_⟩
  · rw [hrun]
    exact h1
  · rw [hrun]
    exact h2
  · intro e he
    rw [hrun, h1, List.take_left'] at he
    · obtain ⟨k, hk, hek⟩ := List.getElem_of_mem he
      rw [List.getElem_zipWith] at hek
      rw [← hek]
      show 0 ≤ (if _ < 0 then (0 : α) else _)
      split_ifs with hneg
      · exact le_refl 0
      · exact not_lt.mp hneg
    · rw [List.length_zipWith, hlen, min_self]

/-- C22 witness: with `pAB = 1/2`, the rescaled values of the entries `(1, 5, 1/8)`,
whose monomer probability is `1/2`, and `(2, 4, 3/4)`, with no monomer entry, are `-1/4`
and `3/2`: the first entry is set to `0` with one warning, the second keeps `3/2`. -/
theorem C22_clamped_at_zero_witness :
    dimer_probs_rescaled (1 / 2 : ℝ) [⟨0, 0, 0⟩] 6
        [⟨1, 5, 1 / 8⟩, ⟨2, 4, 3 / 4⟩, ⟨0, 0, 0⟩] [⟨1, 5, 1 / 2⟩, ⟨0, 0, 0⟩] 0 =
      [-1 / 4, 3 / 2] ∧
    vrna_pf_dimer_probs Real.exp (-Real.log 2) 0 0
        [⟨1, 5, 1 / 8⟩, ⟨2, 4, 3 / 4⟩, ⟨0, 0, 0⟩]
        [⟨1, 5, 1 / 2⟩, ⟨0, 0, 0⟩] [⟨0, 0, 0⟩] 6 1000 =
      ([⟨1, 5, 0⟩, ⟨2, 4, 3 / 2⟩, ⟨0, 0, 0⟩], 1) ∧
    ∀ e ∈ (vrna_pf_dimer_probs Real.exp (-Real.log 2) 0 0
        [⟨1, 5, 1 / 8⟩, ⟨2, 4, 3 / 4⟩, ⟨0, 0, 0⟩]
        [⟨1, 5, 1 / 2⟩, ⟨0, 0, 0⟩] [⟨0, 0, 0⟩] 6 1000).1.take 2, 0 ≤ e.p := by
  have hexp : Real.exp (-Real.log 2) = 1 / 2 := by
    rw [Real.exp_neg, Real.exp_log (by norm_num)]
    norm_num
  have hdef : (1 / 2 : ℝ) = 1 - Real.exp ((1 / (1000 / 1000)) * (-Real.log 2 - 0 - 0)) := by
    norm_num [hexp]
  obtain ⟨_, h2, h3, h4⟩ := C22_clamped_at_zero Real.exp (-Real.log 2) 0 0
    [⟨1, 5, 1 / 8⟩, ⟨2, 4, 3 / 4⟩, ⟨0, 0, 0⟩]
    [⟨1, 5, 1 / 2⟩, ⟨0, 0, 0⟩] [⟨0, 0, 0⟩] 6 1000 (1 / 2) hdef (by norm_num)
  have hres : dimer_probs_rescaled (1 / 2 : ℝ) [⟨0, 0, 0⟩] 6
      [⟨1, 5, 1 / 8⟩, ⟨2, 4, 3 / 4⟩, ⟨0, 0, 0⟩] [⟨1, 5, 1 / 2⟩, ⟨0, 0, 0⟩] 0 =
      [-1 / 4, 3 / 2] := by
    norm_num [dimer_probs_rescaled, dimer_probs_walk, skip_i, skip_j, ep_deref]
  have hl : (List.takeWhile (fun e : vrna_ep_t ℝ => decide (e.j > 0))
      [⟨1, 5, 1 / 8⟩, ⟨2, 4, 3 / 4⟩, ⟨0, 0, 0⟩]) = [⟨1, 5, 1 / 8⟩, ⟨2, 4, 3 / 4⟩] := by
    simp [List.takeWhile]
  have hd : (List.dropWhile (fun e : vrna_ep_t ℝ => decide (e.j > 0))
      [⟨1, 5, 1 / 8⟩, ⟨2, 4, 3 / 4⟩, ⟨0, 0, 0⟩]) = [⟨0, 0, 0⟩] := by
    simp [List.dropWhile]
  refine ⟨hres, ?_, ?_⟩
  · apply Prod.ext
    · rw [h2, hres, hl, hd]
      norm_num
    · rw [h3, hres]
      norm_num
  · intro e he
    apply h4 e
    rw [hl]
    exact he

end DimerProbsTheorems4

section OrderTheorems

variable {α : Type} {Ael Aml : Type}

/-- The cells of the trace of one column are an initial part of the cells of the inner
loop, and all of them when the inner loop is not left by the overflow error. -/
theorem pf_co_cells_trace_cells [LinearOrderedField α] (O : Externals α Ael Aml) (j : Int) :
    ∀ (L : List Int) (st : PfCoState α Ael Aml),
      (∃ t, (pf_co_cells_trace O j L st).map (fun c => (c.1, c.2.1)) ++ t =
          L.map (fun i => (i, j))) ∧
      (∀ st1, pf_co_cells O j L st = Except.ok st1 →
        (pf_co_cells_trace O j L st).map (fun c => (c.1, c.2.1)) = L.map (fun i => (i, j))) := by
  intro L
  induction L with
  | nil =>
    intro st
    exact ⟨⟨[], rfl⟩, fun _ _ => rfl⟩
  | cons i is ih =>
    intro st
    cases hc : pf_co_cell O j st i with
    | ok st1 =>
      obtain ⟨⟨t, ht⟩, heq⟩ := ih st1
      constructor
      · refine ⟨t, ?_⟩
        simp only [pf_co_cells_trace, hc, List.map_cons, List.cons_append, ht]
      · intro st2 h2
        simp only [pf_co_cells, hc] at h2
        simp only [pf_co_cells_trace, hc, List.map_cons, heq st2 h2]
    | error e =>
      constructor
      · refine ⟨is.map (fun i => (i, j)), ?_⟩
        simp only [pf_co_cells_trace, hc, List.map_cons, List.map_nil, List.cons_append,
          List.nil_append]
      · intro st2 h2
        simp only [pf_co_cells, hc] at h2
        cases h2

/-- The cells of the trace of the outer loop are an initial part of the cells of the two
nested loops, and all of them when the loop is not left by the overflow error. -/
theorem pf_co_columns_trace_cells [LinearOrderedField α] (O : Externals α Ael Aml)
    (turn : Int) :
    ∀ (J : List Int) (st : PfCoState α Ael Aml),
      (∃ t, (pf_co_columns_trace O turn J st).map (fun c => (c.1, c.2.1)) ++ t =
          J.flatMap (fun j => (downto (j - turn - 1) 1).map (fun i => (i, j)))) ∧
      (∀ st1, pf_co_columns O turn J st = Except.ok st1 →
        (pf_co_columns_trace O turn J st).map (fun c => (c.1, c.2.1)) =
          J.flatMap (fun j => (downto (j - turn - 1) 1).map (fun i => (i, j)))) := by
  intro J
  induction J with
  | nil =>
    intro st
    exact ⟨⟨[], rfl⟩, fun _ _ => rfl⟩
  | cons j js ih =>
    intro st
    obtain ⟨⟨t1, ht1⟩, heq1⟩ := pf_co_cells_trace_cells O j (downto (j - turn - 1) 1) st
    cases hc : pf_co_cells O j (downto (j - turn - 1) 1) st with
    | ok st2 =>
      have hcol : pf_co_column O turn st j = Except.ok
          { st2 with
            aux_mx_el := O.exp_E_ext_fast_rotate st2.vc st2.aux_mx_el
            aux_mx_ml := O.exp_E_ml_fast_rotate st2.vc st2.aux_mx_ml } := by
        unfold pf_co_column
        rw [hc]
      obtain ⟨⟨t, ht⟩, heq⟩ := ih
        { st2 with
          aux_mx_el := O.exp_E_ext_fast_rotate st2.vc st2.aux_mx_el
          aux_mx_ml := O.exp_E_ml_fast_rotate st2.vc st2.aux_mx_ml }
      constructor
      · refine ⟨t, ?_⟩
        simp only [pf_co_columns_trace, hcol, List.map_append, List.flatMap_cons,
          List.append_assoc, ht, heq1 st2 hc]
      · intro st3 h3
        simp only [pf_co_columns, hcol] at h3
        simp only [pf_co_columns_trace, hcol, List.map_append, List.flatMap_cons,
          heq st3 h3, heq1 st2 hc]
    | error e =>
      have hcol : pf_co_column O turn st j = Except.error e := by
        unfold pf_co_column
        rw [hc]
      constructor
      · refine ⟨t1 ++ js.flatMap (fun j => (downto (j - turn - 1) 1).map (fun i => (i, j))), ?_⟩
        simp only [pf_co_columns_trace, hcol, List.map_append, List.flatMap_cons,
          List.append_nil, List.map_nil]
        rw [← List.append_assoc, ht1]
      · intro st3 h3
        simp only [pf_co_columns, hcol] at h3
        cases h3

/-- The cells of a run of `pf_co` in the order of computation: an initial part of the
column-by-column order, and all of it when the run returns. -/
theorem pf_co_trace_cells [LinearOrderedField α] (O : Externals α Ael Aml)
    (vc : vrna_fold_compound_t α) :
    (∃ t, (pf_co_trace O vc).map (fun c => (c.1, c.2.1)) ++ t = pf_co_order vc.length) ∧
    (∀ st, pf_co O vc = Except.ok st →
      (pf_co_trace O vc).map (fun c => (c.1, c.2.1)) = pf_co_order vc.length) := by
  have h := pf_co_columns_trace_cells O 0 (upto (0 + 2) vc.length) (pf_co_start O vc)
  rw [← pf_co_eq_columns] at h
  exact h

/-- C26 (amended): the forward recursion `pf_co` computes the cells column by column,
`j = 2, ..., n`, and in a column from `i = j - 1` down to `i = 1` (increasing span inside
the column): the cells computed by a run that returns are, in order, those of
`pf_co_order n`, and those of a run that aborts are an initial part of that list. -/
theorem C26_column_order [LinearOrderedField α] (O : Externals α Ael Aml)
    (vc : vrna_fold_compound_t α) :
    (∃ t, (pf_co_trace O vc).map (fun c => (c.1, c.2.1)) ++ t = pf_co_order vc.length) ∧
    (∀ st, pf_co O vc = Except.ok st →
      (pf_co_trace O vc).map (fun c => (c.1, c.2.1)) = pf_co_order vc.length) ∧
    (∀ i j : Int, (i, j) ∈ pf_co_order vc.length ↔ 1 ≤ i ∧ i < j ∧ j ≤ vc.length) :=
  ⟨(pf_co_trace_cells O vc).1, (pf_co_trace_cells O vc).2, by
    intro i j
    unfold pf_co_order
    simp only [List.mem_flatMap, List.mem_map, mem_upto, mem_downto, Prod.mk.injEq]
    constructor
    · rintro ⟨j1, hj1, i1, hi1, rfl, rfl⟩
      omega
    · rintro ⟨h1, h2, h3⟩
      exact ⟨j, by omega, i, by omega, rfl, rfl⟩⟩

/-- C26 witness: on a sequence of length 3 the run returns and its cells are computed in
the order `(1,2), (2,3), (1,3)`. -/
theorem C26_column_order_witness :
    ∃ st, pf_co (exampleExternals ℚ id id)
        (exampleFoldCompound ℚ ['G', 'C', 'G'] (-1) 'F' (fun _ => 63)) = Except.ok st ∧
      (pf_co_trace (exampleExternals ℚ id id)
        (exampleFoldCompound ℚ ['G', 'C', 'G'] (-1) 'F' (fun _ => 63))).map
          (fun c => (c.1, c.2.1)) = [(1, 2), (2, 3), (1, 3)] := by
  obtain ⟨st, h⟩ := pf_co_ok_of_bounded (exampleExternals ℚ id id)
    (by intro _ _ _ _; norm_num [exampleExternals])
    (exampleFoldCompound ℚ ['G', 'C', 'G'] (-1) 'F' (fun _ => 63))
  refine ⟨st, h, ?_⟩
  rw [(C26_column_order (exampleExternals ℚ id id)
    (exampleFoldCompound ℚ ['G', 'C', 'G'] (-1) 'F' (fun _ => 63))).2.1 st h]
  decide

/-- C26 counterexample to the claim as stated: on a sequence of length 4 the run returns
and its cells are computed in the order `(1,2), (2,3), (1,3), (3,4), (2,4), (1,4)`: the
cell `(1, 3)` of span 2 is computed before the cell `(3, 4)` of span 1. -/
theorem C26_span_order_counterexample :
    ∃ st, pf_co (exampleExternals ℚ id id)
        (exampleFoldCompound ℚ ['G', 'C', 'G', 'C'] (-1) 'F' (fun _ => 63)) = Except.ok st ∧
      (pf_co_trace (exampleExternals ℚ id id)
        (exampleFoldCompound ℚ ['G', 'C', 'G', 'C'] (-1) 'F' (fun _ => 63))).map
          (fun c => (c.1, c.2.1)) = [(1, 2), (2, 3), (1, 3), (3, 4), (2, 4), (1, 4)] ∧
      (3 : Int) - 1 = 2 ∧ (4 : Int) - 3 = 1 := by
  obtain ⟨st, h⟩ := pf_co_ok_of_bounded (exampleExternals ℚ id id)
    (by intro _ _ _ _; norm_num [exampleExternals])
    (exampleFoldCompound ℚ ['G', 'C', 'G', 'C'] (-1) 'F' (fun _ => 63))
  refine ⟨st, h, ?_, by decide, by decide⟩
  rw [(pf_co_trace_cells (exampleExternals ℚ id id)
    (exampleFoldCompound ℚ ['G', 'C', 'G', 'C'] (-1) 'F' (fun _ => 63))).2 st h]
  decide

end OrderTheorems

section WrapperTheorems

theorem upto_length (lo hi : Int) : (upto lo hi).length = (hi + 1 - lo).toNat := by
  unfold upto
  simp

theorem upto_getElem? (lo hi : Int) (k : Nat) :
    (upto lo hi)[k]? = if k < (hi + 1 - lo).toNat then some (lo + (k : Int)) else none := by
  unfold upto
  rw [List.getElem?_map]
  by_cases h : k < (hi + 1 - lo).toNat
  · rw [List.getElem?_range h, if_pos h]
    rfl
  · rw [if_neg h, List.getElem?_eq_none (by simpa using h)]
    rfl

/-- The buffer of `wrap_co_pf_fold` after its two loops, for `1 ≤ cut_point ≤ L + 1`. -/
theorem wrap_co_pf_fold_buf (sequence : List Char) (cut_point : Int)
    (h1 : 1 ≤ cut_point) (x : Int) :
    ((upto (max 0 (cut_point - 1)) ((sequence.length : Int) - 1)).foldl
      (fun s i => Function.update s (i + 1) (cstr_get sequence i))
      (Function.update
        ((upto 0 (cut_point - 1 - 1)).foldl
          (fun s i => Function.update s i (cstr_get sequence i)) (fun _ => Char.ofNat 0))
        (max 0 (cut_point - 1)) '&')) x =
      if 0 ≤ x ∧ x < cut_point - 1 then cstr_get sequence x
      else if x = cut_point - 1 then '&'
      else if cut_point ≤ x ∧ x ≤ sequence.length then cstr_get sequence (x - 1)
      else Char.ofNat 0 := by
  have hmax : max 0 (cut_point - 1) = cut_point - 1 := max_eq_right (by omega)
  rw [hmax]
  have hseq1 : ∀ y : Int, ((upto 0 (cut_point - 1 - 1)).foldl
      (fun s i => Function.update s i (cstr_get sequence i)) (fun _ => Char.ofNat 0)) y =
      if 0 ≤ y ∧ y < cut_point - 1 then cstr_get sequence y else Char.ofNat 0 := by
    intro y
    by_cases hy : 0 ≤ y ∧ y < cut_point - 1
    · rw [if_pos hy]
      refine foldl_once (fun (s : Int → Char) (i : Int) => Function.update s i (cstr_get sequence i))
        (fun s => s y) y (fun _ => cstr_get sequence y) _ _ (upto_nodup _ _)
        (by rw [mem_upto]; omega) ?_ ?_
      · intro g _ hg b
        exact Function.update_noteq (Ne.symm hg) _ _
      · intro b
        exact Function.update_same _ _ _
    · rw [if_neg hy]
      refine foldl_never (fun (s : Int → Char) (i : Int) => Function.update s i (cstr_get sequence i))
        (fun s => s y) _ _ ?_
      intro g hg b
      rw [mem_upto] at hg
      apply Function.update_noteq
      omega
  by_cases hx : cut_point ≤ x ∧ x ≤ sequence.length
  · rw [if_neg (by omega), if_neg (by omega), if_pos hx]
    refine foldl_once
      (fun (s : Int → Char) (i : Int) => Function.update s (i + 1) (cstr_get sequence i))
      (fun s => s x) (x - 1) (fun _ => cstr_get sequence (x - 1))
      (upto (cut_point - 1) ((sequence.length : Int) - 1)) _ (upto_nodup _ _)
      (by rw [mem_upto]; omega) ?_ ?_
    · intro g _ hg b
      apply Function.update_noteq
      omega
    · intro b
      show Function.update b (x - 1 + 1) (cstr_get sequence (x - 1)) x = _
      rw [sub_add_cancel, Function.update_same]
  · rw [if_neg hx]
    refine (foldl_never
      (fun (s : Int → Char) (i : Int) => Function.update s (i + 1) (cstr_get sequence i))
      (fun s => s x) (upto (cut_point - 1) ((sequence.length : Int) - 1)) _ ?_).trans ?_
    · intro g hg b
      rw [mem_upto] at hg
      apply Function.update_noteq
      omega
    · by_cases hxc : x = cut_point - 1
      · rw [if_neg (by omega), if_pos hxc, hxc, Function.update_same]
      · rw [Function.update_noteq hxc, hseq1 x]
        by_cases hy : 0 ≤ x ∧ x < cut_point - 1
        · rw [if_pos hy, if_pos hy]
        · rw [if_neg hy, if_neg hy, if_neg hxc]

/-- Reading a C string at an index inside it. -/
theorem cstr_get_lt (s : List Char) (k : Nat) (hk : k < s.length) :
    cstr_get s (k : Int) = s[k] := by
  unfold cstr_get
  rw [if_pos (by omega), Int.toNat_ofNat, List.getD_eq_getElem _ _ hk]

/-- The string built by `wrap_co_pf_fold` for `1 ≤ cut_point ≤ L + 1`: the first
`cut_point - 1` characters of the sequence, `&`, and the rest of the sequence. -/
theorem wrap_co_pf_fold_seq_eq (sequence : List Char) (cut_point : Int)
    (hnul : ∀ c ∈ sequence, c ≠ Char.ofNat 0)
    (h1 : 1 ≤ cut_point) (h2 : cut_point ≤ sequence.length + 1) :
    wrap_co_pf_fold_seq sequence cut_point =
      sequence.take (cut_point - 1).toNat ++ '&' :: sequence.drop (cut_point - 1).toNat := by
  have hbuf := wrap_co_pf_fold_buf sequence cut_point h1
  have hlist : (upto 0 ((sequence.length : Int) + 2 - 1)).map
      ((upto (max 0 (cut_point - 1)) ((sequence.length : Int) - 1)).foldl
        (fun s i => Function.update s (i + 1) (cstr_get sequence i))
        (Function.update
          ((upto 0 (cut_point - 1 - 1)).foldl
            (fun s i => Function.update s i (cstr_get sequence i)) (fun _ => Char.ofNat 0))
          (max 0 (cut_point - 1)) '&')) =
      (sequence.take (cut_point - 1).toNat ++ '&' :: sequence.drop (cut_point - 1).toNat) ++
        [Char.ofNat 0] := by
    obtain ⟨m, hm⟩ := Int.eq_ofNat_of_zero_le (show 0 ≤ cut_point - 1 by omega)
    have hmL : m ≤ sequence.length := by omega
    have htoNat : (cut_point - 1).toNat = m := by
      rw [hm]
      exact Int.toNat_ofNat m
    rw [htoNat]
    apply List.ext_getElem?
    intro k
    rw [List.getElem?_map, upto_getElem?]
    have hlen : ((sequence.length : Int) + 2 - 1 + 1 - 0).toNat = sequence.length + 2 := by
      omega
    rw [hlen]
    have htake : (sequence.take m).length = m := by
      rw [List.length_take]
      omega
    by_cases hk : k < sequence.length + 2
    · rw [if_pos hk, Option.map_some', zero_add, hbuf (k : Int)]
      rcases lt_trichotomy k m with hlt | heq | hgt
      · rw [if_pos (by omega), cstr_get_lt sequence k (by omega), List.append_assoc,
          List.getElem?_append_left (by omega), List.getElem?_take_of_lt hlt,
          List.getElem?_eq_getElem (by omega)]
      · rw [if_neg (by omega), if_pos (by omega), List.append_assoc,
          List.getElem?_append_right (by omega), htake, heq, Nat.sub_self, List.cons_append,
          List.getElem?_cons_zero]
      · rw [if_neg (by omega), if_neg (by omega), List.append_assoc,
          List.getElem?_append_right (by omega), htake]
        obtain ⟨d, hd⟩ : ∃ d, k = m + 1 + d := ⟨k - m - 1, by omega⟩
        have hkm : k - m = d + 1 := by omega
        rw [hkm, List.cons_append, List.getElem?_cons_succ]
        by_cases hkL : k ≤ sequence.length
        · rw [if_pos (by omega)]
          have hk1 : ((k : Int) - 1) = ((k - 1 : Nat) : Int) := by omega
          rw [hk1, cstr_get_lt sequence (k - 1) (by omega),
            List.getElem?_append_left (by rw [List.length_drop]; omega),
            List.getElem?_drop, List.getElem?_eq_getElem (by omega)]
          congr 2
          omega
        · rw [if_neg (by omega), List.getElem?_append_right (by rw [List.length_drop]; omega),
            List.length_drop]
          have hz : d - (sequence.length - m) = 0 := by omega
          rw [hz]
          rfl
    · rw [if_neg hk, Option.map_none', List.getElem?_eq_none]
      rw [List.length_append, List.length_append, List.length_cons, htake, List.length_drop,
        List.length_singleton]
      omega
  unfold wrap_co_pf_fold_seq
  simp only []
  rw [if_pos (by omega)]
  unfold cstr_of_buf
  rw [hlist, List.takeWhile_append_of_pos]
  · simp
  · intro c hc
    rw [List.mem_append] at hc
    rcases hc with hc | hc
    · simpa using hnul c (List.mem_of_mem_take hc)
    · rcases List.mem_cons.mp hc with hc | hc
      · rw [hc]
        decide
      · simpa using hnul c (List.mem_of_mem_drop hc)

end WrapperTheorems

section WrapperClaims

/-- C25: for a sequence of length `L` (a C string, so without NUL) and a global
`cut_point` with `1 ≤ cut_point ≤ L + 1`, the string that `wrap_co_pf_fold` builds has
length `L + 1`, has `&` at 0-based index `cut_point - 1`, gives back the sequence when
that character is deleted, and continues after the `&` with the sequence from its 1-based
position `cut_point` on; for `cut_point = -1` the string is a copy of the sequence. -/
theorem C25_cut_point_string (sequence : List Char) (cut_point : Int)
    (hnul : ∀ c ∈ sequence, c ≠ Char.ofNat 0)
    (h1 : 1 ≤ cut_point) (h2 : cut_point ≤ sequence.length + 1) :
    (wrap_co_pf_fold_seq sequence cut_point).length = sequence.length + 1 ∧
    (wrap_co_pf_fold_seq sequence cut_point)[(cut_point - 1).toNat]? = some '&' ∧
    (wrap_co_pf_fold_seq sequence cut_point).eraseIdx (cut_point - 1).toNat = sequence ∧
    (wrap_co_pf_fold_seq sequence cut_point).drop cut_point.toNat =
      sequence.drop (cut_point - 1).toNat ∧
    wrap_co_pf_fold_seq sequence (-1) = sequence := by
  have heq := wrap_co_pf_fold_seq_eq sequence cut_point hnul h1 h2
  obtain ⟨m, hm⟩ := Int.eq_ofNat_of_zero_le (show 0 ≤ cut_point - 1 by omega)
  have hmL : m ≤ sequence.length := by omega
  have htoNat : (cut_point - 1).toNat = m := by
    rw [hm]
    exact Int.toNat_ofNat m
  have htoNat2 : cut_point.toNat = m + 1 := by omega
  have htake : (sequence.take m).length = m := by
    rw [List.length_take]
    omega
  rw [heq, htoNat, htoNat2]
  refine ⟨?_, ?_, ?_, ?_, rfl⟩
  · rw [List.length_append, List.length_cons, htake, List.length_drop]
    omega
  · rw [List.getElem?_append_right (by omega), htake, Nat.sub_self, List.getElem?_cons_zero]
  · rw [List.eraseIdx_append_of_length_le (by omega), htake, Nat.sub_self,
      List.eraseIdx_cons_zero, List.take_append_drop]
  · have h1m : m + 1 - m = 1 := by omega
    rw [List.drop_append_eq_append_drop, htake, List.drop_eq_nil_of_le (by omega), h1m]
    rfl

/-- C25 witness: for the sequence `GCGC` and `cut_point = 3` the string is `GC&GC`. -/
theorem C25_cut_point_string_witness :
    wrap_co_pf_fold_seq ['G', 'C', 'G', 'C'] 3 = ['G', 'C', '&', 'G', 'C'] ∧
    (wrap_co_pf_fold_seq ['G', 'C', 'G', 'C'] 3).eraseIdx 2 = ['G', 'C', 'G', 'C'] := by
  have h := C25_cut_point_string ['G', 'C', 'G', 'C'] 3 (by decide) (by decide) (by decide)
  exact ⟨by decide, h.2.2.1⟩

end WrapperClaims

section MsaTheorems

/-- On strings without an embedded NUL, `strcmp` returns `0` exactly when the strings
are equal. -/
theorem strcmp_eq_zero_iff :
    ∀ (a b : List Char), (∀ c ∈ a, c.toNat ≠ 0) → (∀ c ∈ b, c.toNat ≠ 0) →
      (strcmp a b = 0 ↔ a = b) := by
  intro a
  induction a with
  | nil =>
    intro b _ hb
    cases b with
    | nil => simp [strcmp]
    | cons y ys =>
      have hy := hb y (List.mem_cons_self _ _)
      simp only [strcmp]
      constructor
      · intro h
        omega
      · intro h
        cases h
  | cons x xs ih =>
    intro b ha hb
    have hx := ha x (List.mem_cons_self _ _)
    cases b with
    | nil =>
      simp only [strcmp]
      constructor
      · intro h
        omega
      · intro h
        cases h
    | cons y ys =>
      have hxs : ∀ c ∈ xs, c.toNat ≠ 0 := fun c hc => ha c (List.mem_cons_of_mem _ hc)
      have hys : ∀ c ∈ ys, c.toNat ≠ 0 := fun c hc => hb c (List.mem_cons_of_mem _ hc)
      simp only [strcmp]
      by_cases hxy : x = y
      · subst hxy
        rw [if_pos rfl, if_neg hx, ih ys hxs hys]
        simp
      · rw [if_neg hxy]
        constructor
        · intro h
          exfalso
          apply hxy
          apply char_eq_of_toNat_eq
          omega
        · intro h
          injection h with h1 _
          exact absurd h1 hxy

/-- A fold whose steps either clear a flag (when `D` holds of the element) or keep it
ends with the flag `0` when `D` holds of some element, and with the flag where it was
otherwise. -/
theorem foldl_flag {σ γ : Type} (get : σ → Int) (f : σ → γ → σ) (D : γ → Prop) :
    ∀ (L : List γ) (s0 : σ),
      (∀ s x, x ∈ L → (D x → get (f s x) = 0) ∧ (¬D x → get (f s x) = get s)) →
      ((∃ x ∈ L, D x) → get (L.foldl f s0) = 0) ∧
        ((∀ x ∈ L, ¬D x) → get (L.foldl f s0) = get s0) := by
  intro L
  induction L with
  | nil =>
    intro s0 _
    constructor
    · rintro ⟨x, hx, _⟩
      cases hx
    · intro _
      rfl
  | cons a L ih =>
    intro s0 hf
    rw [List.foldl_cons]
    have ih1 := ih (f s0 a) (fun s x hx => hf s x (List.mem_cons_of_mem _ hx))
    have ha := hf s0 a (List.mem_cons_self _ _)
    constructor
    · rintro ⟨x, hx, hDx⟩
      by_cases hL : ∃ y ∈ L, D y
      · exact ih1.1 hL
      · have hall : ∀ y ∈ L, ¬D y := fun y hy hDy => hL ⟨y, hy, hDy⟩
        rw [ih1.2 hall]
        rcases List.mem_cons.mp hx with h | h
        · rw [h] at hDx
          exact ha.1 hDx
        · exact absurd hDx (hall x h)
    · intro hall
      rw [ih1.2 (fun x hx => hall x (List.mem_cons_of_mem _ hx))]
      exact ha.2 (hall a (List.mem_cons_self _ _))

/-- The loop that compares lengths: the flag ends at `0` when some listed length differs
from the first one, and where it was otherwise. -/
theorem foldl_flag_lengths (len : Int → Int) (L : List Int) (s0 : Int × List MsaWarning) :
    ((∃ i ∈ L, len i ≠ len 0) →
      (L.foldl
        (fun (s : Int × List MsaWarning) i =>
          if len i ≠ len 0 then (0, s.2 ++ [MsaWarning.lengths_differ]) else s) s0).1 = 0) ∧
    ((∀ i ∈ L, ¬len i ≠ len 0) →
      (L.foldl
        (fun (s : Int × List MsaWarning) i =>
          if len i ≠ len 0 then (0, s.2 ++ [MsaWarning.lengths_differ]) else s) s0).1 =
        s0.1) := by
  apply foldl_flag (fun s : Int × List MsaWarning => s.1) _ (fun i => len i ≠ len 0)
  intro s1 j _
  constructor
  · intro h
    have h1 : len j ≠ len 0 := h
    show (if len j ≠ len 0 then ((0 : Int), s1.2 ++ [MsaWarning.lengths_differ]) else s1).1 = 0
    rw [if_pos h1]
  · intro h
    have h1 : ¬len j ≠ len 0 := h
    show (if len j ≠ len 0 then ((0 : Int), s1.2 ++ [MsaWarning.lengths_differ]) else s1).1 =
      s1.1
    rw [if_neg h1]

/-- A length below `2^31` is not changed by the conversion to `int`. -/
theorem strlen_int_eq (s : List Char) (h : s.length < 2 ^ 31) :
    strlen_int s = (s.length : Int) := by
  unfold strlen_int
  have h1 : ((s.length : Int)) < 2 ^ 31 := by exact_mod_cast h
  omega

/-- C23: for `seq_num ≥ 1`, names without NUL and aligned sequences shorter than `2^31`
characters, `check_alignment` returns `1` if and only if the `seq_num` names are pairwise
distinct and every aligned sequence has the length of the first one; otherwise it
returns `0`. -/
theorem C23_check_alignment (names aln : Int → List Char) (seq_num : Int)
    (hn : 1 ≤ seq_num)
    (hnul : ∀ i : Int, 0 ≤ i → i < seq_num → ∀ c ∈ names i, c.toNat ≠ 0)
    (hlen : ∀ i : Int, 0 ≤ i → i < seq_num → (aln i).length < 2 ^ 31) :
    ((check_alignment names aln seq_num).1 = 1 ↔
      (∀ i j : Int, 0 ≤ i → i < j → j < seq_num → names i ≠ names j) ∧
        (∀ i : Int, 0 ≤ i → i < seq_num → (aln i).length = (aln 0).length)) ∧
    ((check_alignment names aln seq_num).1 = 1 ∨ (check_alignment names aln seq_num).1 = 0) := by
  have hinner : ∀ (i : Int) (s : Int × List MsaWarning),
      ((∃ j ∈ upto (i + 1) (seq_num - 1), strcmp (names i) (names j) = 0) →
        ((upto (i + 1) (seq_num - 1)).foldl
          (fun (s1 : Int × List MsaWarning) j =>
            if strcmp (names i) (names j) = 0 then (0, s1.2 ++ [MsaWarning.ids_not_unique])
            else s1) s).1 = 0) ∧
      ((∀ j ∈ upto (i + 1) (seq_num - 1), ¬strcmp (names i) (names j) = 0) →
        ((upto (i + 1) (seq_num - 1)).foldl
          (fun (s1 : Int × List MsaWarning) j =>
            if strcmp (names i) (names j) = 0 then (0, s1.2 ++ [MsaWarning.ids_not_unique])
            else s1) s).1 = s.1) := by
    intro i s
    apply foldl_flag (fun s : Int × List MsaWarning => s.1) _
      (fun j => strcmp (names i) (names j) = 0)
    intro s1 j _
    constructor
    · intro h
      simp only [if_pos h]
    · intro h
      simp only [if_neg h]
  have houter := foldl_flag (fun s : Int × List MsaWarning => s.1)
    (fun s i => (upto (i + 1) (seq_num - 1)).foldl
      (fun (s1 : Int × List MsaWarning) j =>
        if strcmp (names i) (names j) = 0 then (0, s1.2 ++ [MsaWarning.ids_not_unique])
        else s1) s)
    (fun i => ∃ j ∈ upto (i + 1) (seq_num - 1), strcmp (names i) (names j) = 0)
    (upto 0 (seq_num - 1)) ((1 : Int), ([] : List MsaWarning))
    (by
      intro s i _
      constructor
      · intro h
        exact (hinner i s).1 h
      · intro h
        exact (hinner i s).2 (fun j hj hc => h ⟨j, hj, hc⟩))
  have hlens := foldl_flag_lengths (fun i => strlen_int (aln i)) (upto 1 (seq_num - 1))
    ((upto 0 (seq_num - 1)).foldl
      (fun s i => (upto (i + 1) (seq_num - 1)).foldl
        (fun (s1 : Int × List MsaWarning) j =>
          if strcmp (names i) (names j) = 0 then (0, s1.2 ++ [MsaWarning.ids_not_unique])
          else s1) s)
      ((1 : Int), ([] : List MsaWarning)))
  beta_reduce at hlens
  have hrun : (check_alignment names aln seq_num).1 =
      ((upto 1 (seq_num - 1)).foldl
        (fun (s : Int × List MsaWarning) i =>
          if strlen_int (aln i) ≠ strlen_int (aln 0) then
            (0, s.2 ++ [MsaWarning.lengths_differ])
          else s)
        ((upto 0 (seq_num - 1)).foldl
          (fun s i => (upto (i + 1) (seq_num - 1)).foldl
            (fun (s1 : Int × List MsaWarning) j =>
              if strcmp (names i) (names j) = 0 then
                (0, s1.2 ++ [MsaWarning.ids_not_unique])
              else s1) s)
          ((1 : Int), ([] : List MsaWarning)))).1 := rfl
  rw [hrun]
  have hnames : (∀ i ∈ upto 0 (seq_num - 1),
        ¬∃ j ∈ upto (i + 1) (seq_num - 1), strcmp (names i) (names j) = 0) ↔
      ∀ i j : Int, 0 ≤ i → i < j → j < seq_num → names i ≠ names j := by
    constructor
    · intro h i j hi hij hj he
      apply h i (by rw [mem_upto]; omega)
      refine ⟨j, by rw [mem_upto]; omega, ?_⟩
      rw [strcmp_eq_zero_iff _ _ (hnul i hi (by omega)) (hnul j (by omega) hj)]
      exact he
    · rintro h i hi ⟨j, hj, hc⟩
      rw [mem_upto] at hi hj
      rw [strcmp_eq_zero_iff _ _ (hnul i (by omega) (by omega))
        (hnul j (by omega) (by omega))] at hc
      exact h i j (by omega) (by omega) (by omega) hc
  have hl0 := strlen_int_eq (aln 0) (hlen 0 (le_refl 0) (by omega))
  have hlengths : (∀ i ∈ upto 1 (seq_num - 1), ¬strlen_int (aln i) ≠ strlen_int (aln 0)) ↔
      ∀ i : Int, 0 ≤ i → i < seq_num → (aln i).length = (aln 0).length := by
    constructor
    · intro h i hi hin
      rcases eq_or_lt_of_le hi with h0 | h0
      · rw [← h0]
      · have h1 := h i (by rw [mem_upto]; omega)
        rw [not_not, strlen_int_eq (aln i) (hlen i hi hin), hl0] at h1
        exact_mod_cast h1
    · intro h i hi
      rw [mem_upto] at hi
      rw [not_not, strlen_int_eq (aln i) (hlen i (by omega) (by omega)), hl0,
        h i (by omega) (by omega)]
  by_cases hA : ∀ i ∈ upto 0 (seq_num - 1),
      ¬∃ j ∈ upto (i + 1) (seq_num - 1), strcmp (names i) (names j) = 0
  · by_cases hB : ∀ i ∈ upto 1 (seq_num - 1), ¬strlen_int (aln i) ≠ strlen_int (aln 0)
    · have hval := (hlens.2 hB).trans (houter.2 hA)
      simp only [] at hval
      rw [hval]
      exact ⟨⟨fun _ => ⟨hnames.mp hA, hlengths.mp hB⟩, fun _ => rfl⟩, Or.inl rfl⟩
    · have hB1 : ∃ i ∈ upto 1 (seq_num - 1), strlen_int (aln i) ≠ strlen_int (aln 0) := by
        by_contra hno
        exact hB (fun i hi hc => hno ⟨i, hi, hc⟩)
      have hval := hlens.1 hB1
      simp only [] at hval
      rw [hval]
      refine ⟨⟨fun h => absurd h (by decide), fun h => absurd (hlengths.mpr h.2) hB⟩,
        Or.inr rfl⟩
  · have hA1 : ∃ i ∈ upto 0 (seq_num - 1),
        ∃ j ∈ upto (i + 1) (seq_num - 1), strcmp (names i) (names j) = 0 := by
      by_contra hno
      exact hA (fun i hi hc => hno ⟨i, hi, hc⟩)
    have hs1 := houter.1 hA1
    simp only [] at hs1
    by_cases hB : ∀ i ∈ upto 1 (seq_num - 1), ¬strlen_int (aln i) ≠ strlen_int (aln 0)
    · have hval := (hlens.2 hB).trans hs1
      simp only [] at hval
      rw [hval]
      refine ⟨⟨fun h => absurd h (by decide), fun h => absurd (hnames.mpr h.1) hA⟩,
        Or.inr rfl⟩
    · have hB1 : ∃ i ∈ upto 1 (seq_num - 1), strlen_int (aln i) ≠ strlen_int (aln 0) := by
        by_contra hno
        exact hB (fun i hi hc => hno ⟨i, hi, hc⟩)
      have hval := hlens.1 hB1
      simp only [] at hval
      rw [hval]
      refine ⟨⟨fun h => absurd h (by decide), fun h => absurd (hnames.mpr h.1) hA⟩,
        Or.inr rfl⟩

end MsaTheorems

section MsaClaims

variable {Stream Filename : Type}

/-- C23 witness: two sequences of length 1 with the names `a` and `b` pass the check. -/
theorem C23_check_alignment_witness :
    (check_alignment (fun i => if i = 0 then ['a'] else ['b']) (fun _ => ['G']) 2).1 = 1 := by
  have h := (C23_check_alignment (fun i => if i = 0 then ['a'] else ['b']) (fun _ => ['G']) 2
    (by decide)
    (by
      intro i _ _ c hc
      beta_reduce at hc
      by_cases hi : i = 0
      · rw [if_pos hi] at hc
        rw [List.mem_singleton.mp hc]
        decide
      · rw [if_neg hi] at hc
        rw [List.mem_singleton.mp hc]
        decide)
    (by
      intro i _ _
      show (1 : Nat) < 2 ^ 31
      norm_num)).1
  rw [h]
  constructor
  · intro i j hi hij hj
    have hi0 : i = 0 := by omega
    have hj1 : ¬j = 0 := by omega
    rw [if_pos hi0, if_neg hj1]
    decide
  · intro i _ _
    rfl

/-- The common end of the two reading functions: a positive count that fails the check
without `NOCHECK` gives `0` and the freed record; with `NOCHECK` count and record are
kept. -/
theorem msa_checked_spec (K : MsaConstants) (args : MsaArgs) (options : Nat) (seq_num : Int)
    (mem : MsaRecord) (w : List MsaWarning) :
    (0 < seq_num → msa_option_set options K.NOCHECK = false →
      (check_alignment (msa_names mem) (msa_aln mem) seq_num).1 = 0 →
      (msa_checked K args options seq_num mem w).1 = 0 ∧
        (msa_checked K args options seq_num mem w).2.1 = free_msa_record args mem) ∧
    (msa_option_set options K.NOCHECK = true →
      (msa_checked K args options seq_num mem w).1 = seq_num ∧
        (msa_checked K args options seq_num mem w).2.1 = mem) := by
  constructor
  · intro h1 h2 h3
    have hc : seq_num > 0 ∧ msa_option_set options K.NOCHECK = false := ⟨h1, h2⟩
    simp only [msa_checked]
    rw [if_pos hc, if_pos h3]
    exact ⟨rfl, rfl⟩
  · intro h
    have hc : ¬(seq_num > 0 ∧ msa_option_set options K.NOCHECK = false) := by
      rintro ⟨_, h2⟩
      rw [h] at h2
      cases h2
    simp only [msa_checked]
    rw [if_neg hc]
    exact ⟨rfl, rfl⟩

/-- With the four pointers given, `free_msa_record` leaves all four objects `NULL`. -/
theorem free_msa_record_all (mem : MsaRecord) :
    free_msa_record ⟨true, true, true, true⟩ mem = ⟨none, none, none, none⟩ := by
  unfold free_msa_record
  cases hn : mem.names <;> cases ha : mem.aln <;> simp

/-- C24: with the four pointers given, when the alignment parsed (count `> 0`) fails
`check_alignment` and `VRNA_FILE_FORMAT_MSA_NOCHECK` is not set,
`vrna_file_msa_read_record` and `vrna_file_msa_read` return `0` and leave `*names`,
`*aln`, `*id` and `*structure` all `NULL`; when `NOCHECK` is set they return the count
and the data of the format reader as they are.  For `vrna_file_msa_read` the count and
data are those left by its loop over the known formats, and some reader has run
(`r ≠ -1`). -/
theorem C24_sanity_check (K : MsaConstants) (P : MsaExternals Stream Filename)
    (mem : MsaRecord) (options : Nat) :
    (∀ (s : Stream) (i : Nat) (rest : List Nat), msa_select K options = i :: rest →
      (0 < (P.parse i s ⟨true, true, true, true⟩
            (msa_reset ⟨true, true, true, true⟩ mem) 0).1 →
        msa_option_set options K.NOCHECK = false →
        (check_alignment
          (msa_names (P.parse i s ⟨true, true, true, true⟩
            (msa_reset ⟨true, true, true, true⟩ mem) 0).2.1)
          (msa_aln (P.parse i s ⟨true, true, true, true⟩
            (msa_reset ⟨true, true, true, true⟩ mem) 0).2.1)
          (P.parse i s ⟨true, true, true, true⟩
            (msa_reset ⟨true, true, true, true⟩ mem) 0).1).1 = 0 →
        (vrna_file_msa_read_record K P (some s) ⟨true, true, true, true⟩ mem options).1 = 0 ∧
          (vrna_file_msa_read_record K P (some s) ⟨true, true, true, true⟩ mem options).2.1 =
            ⟨none, none, none, none⟩) ∧
      (msa_option_set options K.NOCHECK = true →
        (vrna_file_msa_read_record K P (some s) ⟨true, true, true, true⟩ mem options).1 =
            (P.parse i s ⟨true, true, true, true⟩
              (msa_reset ⟨true, true, true, true⟩ mem) 0).1 ∧
          (vrna_file_msa_read_record K P (some s) ⟨true, true, true, true⟩ mem options).2.1 =
            (P.parse i s ⟨true, true, true, true⟩
              (msa_reset ⟨true, true, true, true⟩ mem) 0).2.1)) ∧
    (∀ (filename : Filename) (fp : Stream) (t : Int × MsaRecord × Stream × List MsaWarning),
      P.fopen filename = some fp →
      t = msa_try_formats K P (if options = 0 then K.FORMAT_DEFAULT else options)
        ⟨true, true, true, true⟩ [0, 1, 2] (-1) (msa_reset ⟨true, true, true, true⟩ mem) fp [] →
      t.1 ≠ -1 →
      (0 < t.1 →
        msa_option_set (if options = 0 then K.FORMAT_DEFAULT else options) K.NOCHECK = false →
        (check_alignment (msa_names t.2.1) (msa_aln t.2.1) t.1).1 = 0 →
        (vrna_file_msa_read K P filename ⟨true, true, true, true⟩ mem options).1 = 0 ∧
          (vrna_file_msa_read K P filename ⟨true, true, true, true⟩ mem options).2.1 =
            ⟨none, none, none, none⟩) ∧
      (msa_option_set (if options = 0 then K.FORMAT_DEFAULT else options) K.NOCHECK = true →
        (vrna_file_msa_read K P filename ⟨true, true, true, true⟩ mem options).1 = t.1 ∧
          (vrna_file_msa_read K P filename ⟨true, true, true, true⟩ mem options).2.1 =
            t.2.1)) := by
  constructor
  · intro s i rest hsel
    have hrun : vrna_file_msa_read_record K P (some s) ⟨true, true, true, true⟩ mem options =
        msa_checked K ⟨true, true, true, true⟩ options
          (P.parse i s ⟨true, true, true, true⟩ (msa_reset ⟨true, true, true, true⟩ mem) 0).1
          (P.parse i s ⟨true, true, true, true⟩
            (msa_reset ⟨true, true, true, true⟩ mem) 0).2.1
          (if rest ≠ [] then [MsaWarning.several_formats] else []) := by
      simp only [vrna_file_msa_read_record, hsel, and_self, if_true]
    rw [hrun]
    have hspec := msa_checked_spec K ⟨true, true, true, true⟩ options
      (P.parse i s ⟨true, true, true, true⟩ (msa_reset ⟨true, true, true, true⟩ mem) 0).1
      (P.parse i s ⟨true, true, true, true⟩ (msa_reset ⟨true, true, true, true⟩ mem) 0).2.1
      (if rest ≠ [] then [MsaWarning.several_formats] else [])
    rw [free_msa_record_all] at hspec
    exact hspec
  · intro filename fp t hopen ht hr
    have hrun : vrna_file_msa_read K P filename ⟨true, true, true, true⟩ mem options =
        msa_checked K ⟨true, true, true, true⟩
          (if options = 0 then K.FORMAT_DEFAULT else options) t.1 t.2.1 t.2.2.2 := by
      simp only [vrna_file_msa_read, hopen, and_self, if_true]
      rw [← ht, if_neg hr]
    rw [hrun]
    have hspec := msa_checked_spec K ⟨true, true, true, true⟩
      (if options = 0 then K.FORMAT_DEFAULT else options) t.1 t.2.1 t.2.2.2
    rw [free_msa_record_all] at hspec
    exact hspec

/-- C24 witness: the example reader hands back two sequences with the same name; read
as Clustal without `NOCHECK`, `vrna_file_msa_read_record` returns `0` and no data. -/
theorem C24_sanity_check_witness :
    vrna_file_msa_read_record exampleMsaConstants exampleMsaExternals (some ())
        ⟨true, true, true, true⟩ ⟨none, none, none, none⟩ 1 =
      (0, ⟨none, none, none, none⟩,
        [MsaWarning.ids_not_unique, MsaWarning.sanity_check_failed]) ∧
    (vrna_file_msa_read_record exampleMsaConstants exampleMsaExternals (some ())
        ⟨true, true, true, true⟩ ⟨none, none, none, none⟩ 1).1 = 0 := by
  have h := ((C24_sanity_check exampleMsaConstants exampleMsaExternals
    ⟨none, none, none, none⟩ 1).1 () 1 [] (by decide)).1 (by decide) (by decide) (by decide)
  exact ⟨by decide, h.1⟩

end MsaClaims

section NewtonTheorems3

variable {α : Type} [LinearOrderedField α]

/-- C36: for non-negative `KAB`, `KAA`, `KBB` and non-negative current values `cA`, `cB`,
the denominator `det` computed in the body of the loop of `Newton_Conc` is at least `1`,
so it is not zero, and the two quotients `xn` and `yn` are the values whose product with
`det` is the respective numerator. -/
theorem C36_newton_det_ge_one (KAB KAA KBB concA concB cA cB : α)
    (hAB : 0 ≤ KAB) (hAA : 0 ≤ KAA) (hBB : 0 ≤ KBB) (hA : 0 ≤ cA) (hB : 0 ≤ cB) :
    1 ≤ newton_det KAB KAA KBB cA cB ∧ newton_det KAB KAA KBB cA cB ≠ 0 ∧
    newton_xn KAB KAA KBB concA concB cA cB * newton_det KAB KAA KBB cA cB =
      (2 * KBB * cB * cB + cB - concB) * (KAB * cA) - KAB * cA * cB * (4 * KBB * cB + 1) -
        (2 * KAA * cA * cA + cA - concA) * (4 * KBB * cB + KAB * cA + 1) ∧
    newton_yn KAB KAA KBB concA concB cA cB * newton_det KAB KAA KBB cA cB =
      (2 * KAA * cA * cA + cA - concA) * (KAB * cB) - KAB * cA * cB * (4 * KAA * cA + 1) -
        (2 * KBB * cB * cB + cB - concB) * (4 * KAA * cA + KAB * cB + 1) := by
  have h1 := newton_det_ge_one hAB hAA hBB hA hB
  have h0 : newton_det KAB KAA KBB cA cB ≠ 0 := by
    intro h
    rw [h] at h1
    exact absurd h1 (by norm_num)
  refine ⟨h1, h0, ?_, ?_⟩
  · unfold newton_xn
    rw [div_mul_cancel₀ _ h0]
  · unfold newton_yn
    rw [div_mul_cancel₀ _ h0]

/-- C36 witness: for `KAB = 2`, `KAA = 1`, `KBB = 0`, `cA = 1`, `cB = 1/2` the
denominator is at least `1`. -/
theorem C36_newton_det_witness :
    1 ≤ newton_det (2 : ℚ) 1 0 1 (1 / 2) ∧ newton_det (2 : ℚ) 1 0 1 (1 / 2) ≠ 0 :=
  ⟨(C36_newton_det_ge_one (2 : ℚ) 1 0 1 1 1 (1 / 2) (by norm_num) (by norm_num)
      (by norm_num) (by norm_num) (by norm_num)).1,
    (C36_newton_det_ge_one (2 : ℚ) 1 0 1 1 1 (1 / 2) (by norm_num) (by norm_num)
      (by norm_num) (by norm_num) (by norm_num)).2.1⟩

end NewtonTheorems3

section DimerProbsTheorems3

variable {α : Type} [LinearOrderedField α]

/-- The loop of `vrna_pf_dimer_probs` writes the field `p` only: the pairs `(i, j)` of
the array, in order, are those it started with. -/
theorem dimer_probs_loop_ij (pAB : α) (prB : List (vrna_ep_t α)) (Alength : Int) :
    ∀ (prAB lp2 : List (vrna_ep_t α)) (offset : Int),
      (dimer_probs_loop pAB prB Alength prAB lp2 offset).1.map (fun e => (e.i, e.j)) =
        prAB.map (fun e => (e.i, e.j)) := by
  intro prAB
  induction prAB with
  | nil =>
    intro lp2 offset
    rfl
  | cons e rest ih =>
    intro lp2 offset
    by_cases hj : e.j > 0
    · obtain ⟨pp, lp2d, offset1, hstep⟩ :=
        dimer_probs_loop_cons pAB prB Alength e rest lp2 offset hj
      rw [hstep]
      by_cases hneg : (e.p - (1 - pAB) * pp) / pAB < 0
      · rw [if_pos hneg, List.map_cons, List.map_cons, ih lp2d offset1]
      · rw [if_neg hneg, List.map_cons, List.map_cons, ih lp2d offset1]
    · rw [dimer_probs_loop, if_neg hj]

/-- C39: `vrna_pf_dimer_probs` changes neither the fields `i`, `j` of an entry of `prAB`
nor the number of entries; the arrays `prA` and `prB` are only read (they are arguments
of the model and not part of its result); and `prAB` is returned as it was, without a
warning, when `pAB = 1 - exp((FAB - FA - FB) / kT) ≤ 0`, which for an exponential with
`exp x ≥ 1` for `x ≥ 0` and `kT > 0` is the case when `FAB ≥ FA + FB`. -/
theorem C39_dimer_probs_frame (exp : α → α) (FAB FA FB : α)
    (prAB prA prB : List (vrna_ep_t α)) (Alength : Int) (kT : α) :
    (vrna_pf_dimer_probs exp FAB FA FB prAB prA prB Alength kT).1.map (fun e => (e.i, e.j)) =
      prAB.map (fun e => (e.i, e.j)) ∧
    (vrna_pf_dimer_probs exp FAB FA FB prAB prA prB Alength kT).1.length = prAB.length ∧
    (1 - exp ((1 / (kT / 1000)) * (FAB - FA - FB)) ≤ 0 →
      vrna_pf_dimer_probs exp FAB FA FB prAB prA prB Alength kT = (prAB, 0)) ∧
    ((∀ x : α, 0 ≤ x → 1 ≤ exp x) → 0 < kT → FA + FB ≤ FAB →
      vrna_pf_dimer_probs exp FAB FA FB prAB prA prB Alength kT = (prAB, 0)) := by
  have hij : (vrna_pf_dimer_probs exp FAB FA FB prAB prA prB Alength kT).1.map
      (fun e => (e.i, e.j)) = prAB.map (fun e => (e.i, e.j)) := by
    simp only [vrna_pf_dimer_probs]
    by_cases hp : 1 - exp ((1 / (kT / 1000)) * (FAB - FA - FB)) > 0
    · rw [if_pos hp]
      exact dimer_probs_loop_ij _ prB Alength prAB prA 0
    · rw [if_neg hp]
  have hle : 1 - exp ((1 / (kT / 1000)) * (FAB - FA - FB)) ≤ 0 →
      vrna_pf_dimer_probs exp FAB FA FB prAB prA prB Alength kT = (prAB, 0) := by
    intro h
    simp only [vrna_pf_dimer_probs]
    rw [if_neg (not_lt.mpr h)]
  refine ⟨hij, ?_, hle, ?_⟩
  · have h := congrArg List.length hij
    rw [List.length_map, List.length_map] at h
    exact h
  · intro hexp hkT hF
    apply hle
    have h1 : 0 ≤ (1 / (kT / 1000)) * (FAB - FA - FB) := by
      apply mul_nonneg
      · positivity
      · linarith
    have h2 := hexp _ h1
    linarith

/-- C39 witness: with the real exponential, `kT = 1000` and `FAB = 1 ≥ FA + FB = 0` the
array `prAB` is returned as it was. -/
theorem C39_dimer_probs_frame_witness :
    vrna_pf_dimer_probs Real.exp 1 0 0
        [⟨1, 5, 1 / 4⟩, ⟨7, 9, 1 / 2⟩, ⟨0, 0, 0⟩]
        [⟨1, 5, 1 / 4⟩, ⟨0, 0, 0⟩] [⟨1, 3, 1 / 2⟩, ⟨0, 0, 0⟩] 6 1000 =
      ([⟨1, 5, 1 / 4⟩, ⟨7, 9, 1 / 2⟩, ⟨0, 0, 0⟩], 0) :=
  (C39_dimer_probs_frame Real.exp 1 0 0 _ _ _ 6 1000).2.2.2
    (fun x hx => Real.one_le_exp hx) (by norm_num) (by norm_num)

end DimerProbsTheorems3

section DimerQuotientTheorems

variable {α : Type} {Ael Aml : Type}

/-- An exponential that turns sums into products and inverts `log` on the positive
numbers has `exp 0 = 1`. -/
theorem exp_zero_of_log [LinearOrderedField α] (exp log : α → α)
    (hadd : ∀ a b : α, exp (a + b) = exp a * exp b)
    (hlog : ∀ x : α, 0 < x → exp (log x) = x) : exp 0 = 1 := by
  have h1 := hadd (log 1) 0
  rw [add_zero, hlog 1 one_pos, one_mul] at h1
  exact h1.symm

/-- For such an exponential, `exp (log a - log b - log c) = a / (b * c)` for positive
`a`, `b`, `c`. -/
theorem exp_log_quot [LinearOrderedField α] (exp log : α → α)
    (hadd : ∀ a b : α, exp (a + b) = exp a * exp b)
    (hlog : ∀ x : α, 0 < x → exp (log x) = x) {a b c : α} (ha : 0 < a) (hb : 0 < b)
    (hc : 0 < c) : exp (log a - log b - log c) = a / (b * c) := by
  have h0 := exp_zero_of_log exp log hadd hlog
  have h1 : exp (log a - log b - log c) * (b * c) = a := by
    rw [← hlog b hb, ← hlog c hc, ← hadd, ← hadd, hlog b hb, hlog c hc]
    have : log a - log b - log c + (log b + log c) = log a := by ring
    rw [this, hlog a ha]
  rw [eq_div_iff (ne_of_gt (mul_pos hb hc))]
  exact h1

/-- The forward pass writes `q` only with exterior values: when those are positive and
`q` was positive everywhere at the start, `q` is positive everywhere at the end. -/
theorem pf_co_cell_q_pos [LinearOrderedField α] (O : Externals α Ael Aml)
    (hext : ∀ vc i j a, 0 < (O.exp_E_ext_fast vc i j a).1) (j i : Int)
    (st st1 : PfCoState α Ael Aml) (h : pf_co_cell O j st i = Except.ok st1)
    (hq : ∀ k, 0 < st.vc.exp_matrices.q k) : ∀ k, 0 < st1.vc.exp_matrices.q k := by
  unfold pf_co_cell at h
  simp only [] at h
  split at h
  · cases h
  · injection h with h
    subst h
    intro k
    simp only [set_q]
    by_cases hk : k = st.vc.iindx i - j
    · rw [hk, Function.update_same]
      exact hext _ _ _ _
    · rw [Function.update_noteq hk]
      have h1 : ∀ (vc : vrna_fold_compound_t α) (x : Int) (v : α),
          (set_qm1 vc x v).exp_matrices.q = vc.exp_matrices.q := by
        intro vc x v
        unfold set_qm1
        split <;> rfl
      rw [h1]
      exact hq k

theorem pf_co_cells_q_pos [LinearOrderedField α] (O : Externals α Ael Aml)
    (hext : ∀ vc i j a, 0 < (O.exp_E_ext_fast vc i j a).1) (j : Int) :
    ∀ (L : List Int) (st st1 : PfCoState α Ael Aml),
      pf_co_cells O j L st = Except.ok st1 → (∀ k, 0 < st.vc.exp_matrices.q k) →
      ∀ k, 0 < st1.vc.exp_matrices.q k := by
  intro L
  induction L with
  | nil =>
    intro st st1 h hq
    simp only [pf_co_cells] at h
    injection h with h
    subst h
    exact hq
  | cons i is ih =>
    intro st st1 h hq
    simp only [pf_co_cells] at h
    split at h
    · next st2 hc =>
      exact ih st2 st1 h (pf_co_cell_q_pos O hext j i st st2 hc hq)
    · cases h

theorem pf_co_columns_q_pos [LinearOrderedField α] (O : Externals α Ael Aml)
    (hext : ∀ vc i j a, 0 < (O.exp_E_ext_fast vc i j a).1) (turn : Int) :
    ∀ (J : List Int) (st st1 : PfCoState α Ael Aml),
      pf_co_columns O turn J st = Except.ok st1 → (∀ k, 0 < st.vc.exp_matrices.q k) →
      ∀ k, 0 < st1.vc.exp_matrices.q k := by
  intro J
  induction J with
  | nil =>
    intro st st1 h hq
    simp only [pf_co_columns] at h
    injection h with h
    subst h
    exact hq
  | cons j js ih =>
    intro st st1 h hq
    simp only [pf_co_columns] at h
    split at h
    · next st2 hc =>
      obtain ⟨st3, h3, e3⟩ := pf_co_column_ok O turn j st st2 hc
      have f := pf_co_cells_q_pos O hext j _ st st3 h3 hq
      rw [← e3] at f
      exact ih st2 st1 h f
    · cases h

theorem pf_co_init_row_q [LinearOrderedField α] (d : Int) :
    ∀ (L : List Int) (vc : vrna_fold_compound_t α),
      (pf_co_init_row d L vc).exp_matrices.q = vc.exp_matrices.q := by
  intro L
  induction L with
  | nil =>
    intro vc
    rfl
  | cons i is ih =>
    intro vc
    simp only [pf_co_init_row]
    rw [ih]
    rfl

theorem pf_co_q_pos [LinearOrderedField α] (O : Externals α Ael Aml)
    (hext : ∀ vc i j a, 0 < (O.exp_E_ext_fast vc i j a).1)
    (vc : vrna_fold_compound_t α) (st : PfCoState α Ael Aml)
    (h : pf_co O vc = Except.ok st) (hq : ∀ k, 0 < vc.exp_matrices.q k) :
    ∀ k, 0 < st.vc.exp_matrices.q k := by
  unfold pf_co at h
  simp only [] at h
  have hup : upto 0 0 = [0] := by decide
  rw [hup] at h
  simp only [pf_co_init] at h
  refine pf_co_columns_q_pos O hext 0 _ _ st h ?_
  intro k
  show 0 < (pf_co_init_row 0 (upto 1 (vc.length - 0)) vc).exp_matrices.q k
  rw [pf_co_init_row_q]
  exact hq k

/-- The common part of the two quotient claims: the arguments of the exponentials. -/
theorem dimer_summary_differences [LinearOrderedField α] (log : α → α)
    (vc : vrna_fold_compound_t α) (hcp : vc.cutpoint > 0) (hkT : vc.exp_params.kT ≠ 0) :
    (1 / (vc.exp_params.kT / 1000)) *
        ((dimer_summary log vc).FAB - (dimer_summary log vc).FA - (dimer_summary log vc).FB) =
      -(log (vc.exp_matrices.q (vc.iindx 1 - (vc.cutpoint - 1)) *
            vc.exp_matrices.q (vc.iindx vc.cutpoint - vc.length) + dimer_QAB vc) -
          log (vc.exp_matrices.q (vc.iindx 1 - (vc.cutpoint - 1))) -
          log (vc.exp_matrices.q (vc.iindx vc.cutpoint - vc.length))) ∧
    (dimer_QAB vc > 1 / 10 ^ 17 →
      ((dimer_summary log vc).FA + (dimer_summary log vc).FB - (dimer_summary log vc).FcAB) /
          (vc.exp_params.kT / 1000) =
        log (dimer_QAB vc) - log (vc.exp_matrices.q (vc.iindx 1 - (vc.cutpoint - 1))) -
          log (vc.exp_matrices.q (vc.iindx vc.cutpoint - vc.length))) := by
  constructor
  · unfold dimer_summary
    simp only [if_pos hcp]
    push_cast
    field_simp
    ring
  · intro hQ
    unfold dimer_summary
    simp only [if_pos hcp, if_pos hQ]
    push_cast
    field_simp
    ring

/-- C34: when `cp > 0` (preparation succeeded, the forward pass returned), `kT > 0`, and
`q[1,cp-1]`, `q[cp,n]` and `QToT = q[1,cp-1]*q[cp,n] + QAB` are positive, the value
`pAB = 1 - exp((1/mykT) * (FAB - FA - FB))` that `vrna_pf_dimer_probs` computes from
the `FAB`, `FA`, `FB` returned by `vrna_pf_dimer` is `QAB / QToT`, which is
`1 - q[1,cp-1]*q[cp,n] / QToT`; `pf_scale` does not occur in it.  The exponential and
the logarithm are those of the collaborators, with `exp (a + b) = exp a * exp b` and
`exp (log x) = x` for `x > 0`. -/
theorem C34_pAB_is_quotient [LinearOrderedField α] (O : Externals α Ael Aml)
    (C : Constants) (vc vc0 : vrna_fold_compound_t α) (structure_buf : Option (List Char))
    (st : PfCoState α Ael Aml)
    (prAB prA prB : List (vrna_ep_t α)) (Alength : Int)
    (hprep : O.fold_compound_prepare vc = (true, vc0))
    (hrun : pf_co O vc0 = Except.ok st)
    (hcp : st.vc.cutpoint > 0)
    (hadd : ∀ a b : α, O.exp (a + b) = O.exp a * O.exp b)
    (hlog : ∀ x : α, 0 < x → O.exp (O.log x) = x)
    (hkT : 0 < st.vc.exp_params.kT)
    (hQA : 0 < st.vc.exp_matrices.q (st.vc.iindx 1 - (st.vc.cutpoint - 1)))
    (hQB : 0 < st.vc.exp_matrices.q (st.vc.iindx st.vc.cutpoint - st.vc.length))
    (hQT : 0 < st.vc.exp_matrices.q (st.vc.iindx 1 - (st.vc.cutpoint - 1)) *
      st.vc.exp_matrices.q (st.vc.iindx st.vc.cutpoint - st.vc.length) + dimer_QAB st.vc) :
    ∃ r, vrna_pf_dimer O C vc structure_buf = Except.ok r ∧
      (let QA := st.vc.exp_matrices.q (st.vc.iindx 1 - (st.vc.cutpoint - 1))
       let QB := st.vc.exp_matrices.q (st.vc.iindx st.vc.cutpoint - st.vc.length)
       let QAB := dimer_QAB st.vc
       let QToT := QA * QB + QAB
       let pAB := dimer_probs_pAB O.exp r.X.FAB r.X.FA r.X.FB st.vc.exp_params.kT
       pAB = QAB / QToT ∧ pAB = 1 - QA * QB / QToT ∧
       vrna_pf_dimer_probs O.exp r.X.FAB r.X.FA r.X.FB prAB prA prB Alength
           st.vc.exp_params.kT =
         if pAB > 0 then dimer_probs_loop pAB prB Alength prAB prA 0 else (prAB, 0)) := by
  obtain ⟨r, hr, hX⟩ := vrna_pf_dimer_X O C vc vc0 structure_buf st hprep hrun
  refine ⟨r, hr, ?_⟩
  have hd := (dimer_summary_differences O.log st.vc hcp (ne_of_gt hkT)).1
  have h0 := exp_zero_of_log O.exp O.log hadd hlog
  have hq := exp_log_quot O.exp O.log hadd hlog hQT hQA hQB
  have hp : dimer_probs_pAB O.exp r.X.FAB r.X.FA r.X.FB st.vc.exp_params.kT =
      1 - st.vc.exp_matrices.q (st.vc.iindx 1 - (st.vc.cutpoint - 1)) *
        st.vc.exp_matrices.q (st.vc.iindx st.vc.cutpoint - st.vc.length) /
        (st.vc.exp_matrices.q (st.vc.iindx 1 - (st.vc.cutpoint - 1)) *
          st.vc.exp_matrices.q (st.vc.iindx st.vc.cutpoint - st.vc.length) +
            dimer_QAB st.vc) := by
    simp only [dimer_probs_pAB]
    rw [hX, hd]
    have hinv : ∀ x : α, O.exp (-x) * O.exp x = 1 := by
      intro x
      rw [← hadd, neg_add_cancel, h0]
    have h2 := hinv (O.log (st.vc.exp_matrices.q (st.vc.iindx 1 - (st.vc.cutpoint - 1)) *
        st.vc.exp_matrices.q (st.vc.iindx st.vc.cutpoint - st.vc.length) + dimer_QAB st.vc) -
      O.log (st.vc.exp_matrices.q (st.vc.iindx 1 - (st.vc.cutpoint - 1))) -
      O.log (st.vc.exp_matrices.q (st.vc.iindx st.vc.cutpoint - st.vc.length)))
    rw [hq] at h2
    have hne : st.vc.exp_matrices.q (st.vc.iindx 1 - (st.vc.cutpoint - 1)) *
        st.vc.exp_matrices.q (st.vc.iindx st.vc.cutpoint - st.vc.length) ≠ 0 :=
      ne_of_gt (mul_pos hQA hQB)
    have h3 := eq_div_of_mul_eq (div_ne_zero (ne_of_gt hQT) hne) h2
    rw [h3, one_div_div]
  refine ⟨?_, hp, rfl⟩
  rw [hp]
  field_simp

/-- C34 witness: two strands `GC` and `GC` with cut point `3`, real exponential and
logarithm, `q = 1` before the forward pass: the value `pAB` is `QAB / QToT`. -/
theorem C34_pAB_is_quotient_witness :
    ∃ st r,
      pf_co (exampleExternals ℝ Real.log Real.exp)
          (exampleOutsideCompound ℝ ['G', 'C', 'G', 'C'] 3 (fun _ => 0)) = Except.ok st ∧
      vrna_pf_dimer (exampleExternals ℝ Real.log Real.exp) exampleConstants
          (exampleOutsideCompound ℝ ['G', 'C', 'G', 'C'] 3 (fun _ => 0)) none = Except.ok r ∧
      dimer_probs_pAB Real.exp r.X.FAB r.X.FA r.X.FB st.vc.exp_params.kT =
        dimer_QAB st.vc /
          (st.vc.exp_matrices.q (st.vc.iindx 1 - (st.vc.cutpoint - 1)) *
            st.vc.exp_matrices.q (st.vc.iindx st.vc.cutpoint - st.vc.length) +
              dimer_QAB st.vc) := by
  obtain ⟨st, h⟩ := pf_co_ok_of_bounded (exampleExternals ℝ Real.log Real.exp)
    (by intro _ _ _ _; norm_num [exampleExternals])
    (exampleOutsideCompound ℝ ['G', 'C', 'G', 'C'] 3 (fun _ => 0))
  have hf := pf_co_frame _ _ st h
  have hpos := pf_co_q_pos (exampleExternals ℝ Real.log Real.exp)
    (by intro _ _ _ _; norm_num [exampleExternals]) _ st h
    (by intro k; norm_num [exampleOutsideCompound])
  have hcp : st.vc.cutpoint > 0 := by
    rw [hf.2.2.2.2.1]
    show (3 : Int) > 0
    decide
  have hkT : 0 < st.vc.exp_params.kT := by
    rw [hf.2.2.2.2.2.2]
    norm_num [exampleOutsideCompound, exampleFoldCompound]
  have hQT : 0 < st.vc.exp_matrices.q (st.vc.iindx 1 - (st.vc.cutpoint - 1)) *
      st.vc.exp_matrices.q (st.vc.iindx st.vc.cutpoint - st.vc.length) + dimer_QAB st.vc := by
    have h1 := hpos (st.vc.iindx 1 - (st.vc.cutpoint - 1))
    have h2 := hpos (st.vc.iindx st.vc.cutpoint - st.vc.length)
    have h3 := hpos (st.vc.iindx 1 - st.vc.length)
    have h4 := mul_pos h1 h2
    have hD : st.vc.exp_params.expDuplexInit = 1 := by
      rw [hf.2.2.2.2.2.2]
      rfl
    unfold dimer_QAB dimer_QAB_raw
    simp only [hD, mul_one]
    split_ifs <;> linarith
  obtain ⟨r, hr, hX⟩ := C34_pAB_is_quotient (exampleExternals ℝ Real.log Real.exp)
    exampleConstants
    (exampleOutsideCompound ℝ ['G', 'C', 'G', 'C'] 3 (fun _ => 0))
    (exampleOutsideCompound ℝ ['G', 'C', 'G', 'C'] 3 (fun _ => 0))
    none st [] [] [] 2 rfl h hcp (fun a b => Real.exp_add a b)
    (fun x hx => Real.exp_log hx) hkT (hpos _) (hpos _) hQT
  exact ⟨st, r, h, hr, hX.1⟩

/-- C35: when `cp > 0` (preparation succeeded, the forward pass returned), `kT > 0`,
`q[1,cp-1] > 0`, `q[cp,n] > 0` and `QAB > 1e-17`, the constant
`KAB = exp((FEA + FEB - FcAB) / kT)` that `vrna_pf_dimer_concentrations` computes from
the `FA`, `FB`, `FcAB` returned by `vrna_pf_dimer` is `QAB / (q[1,cp-1] * q[cp,n])`;
`pf_scale` does not occur in it.  The exponential and the logarithm are those of the
collaborators, with `exp (a + b) = exp a * exp b` and `exp (log x) = x` for `x > 0`. -/
theorem C35_KAB_is_quotient [LinearOrderedField α] (O : Externals α Ael Aml)
    (C : Constants) (vc vc0 : vrna_fold_compound_t α) (structure_buf : Option (List Char))
    (st : PfCoState α Ael Aml) (FcAA FcBB : α) (startconc : List α)
    (hprep : O.fold_compound_prepare vc = (true, vc0))
    (hrun : pf_co O vc0 = Except.ok st)
    (hcp : st.vc.cutpoint > 0)
    (hadd : ∀ a b : α, O.exp (a + b) = O.exp a * O.exp b)
    (hlog : ∀ x : α, 0 < x → O.exp (O.log x) = x)
    (hkT : 0 < st.vc.exp_params.kT)
    (hQA : 0 < st.vc.exp_matrices.q (st.vc.iindx 1 - (st.vc.cutpoint - 1)))
    (hQB : 0 < st.vc.exp_matrices.q (st.vc.iindx st.vc.cutpoint - st.vc.length))
    (hQAB : dimer_QAB st.vc > 1 / 10 ^ 17) :
    ∃ r, vrna_pf_dimer O C vc structure_buf = Except.ok r ∧
      (let QA := st.vc.exp_matrices.q (st.vc.iindx 1 - (st.vc.cutpoint - 1))
       let QB := st.vc.exp_matrices.q (st.vc.iindx st.vc.cutpoint - st.vc.length)
       let KAB := dimer_conc_KAB O.exp r.X.FcAB r.X.FA r.X.FB st.vc.exp_params.kT
       KAB = dimer_QAB st.vc / (QA * QB) ∧
       ∃ KAA KBB : α,
         vrna_pf_dimer_concentrations O.exp r.X.FcAB FcAA FcBB r.X.FA r.X.FB startconc
             st.vc.exp_params.kT =
           dimer_conc_loop KAB KAA KBB startconc 0 20) := by
  obtain ⟨r, hr, hX⟩ := vrna_pf_dimer_X O C vc vc0 structure_buf st hprep hrun
  refine ⟨r, hr, ?_⟩
  have hd := (dimer_summary_differences O.log st.vc hcp (ne_of_gt hkT)).2 hQAB
  have hpos : (0 : α) < dimer_QAB st.vc := lt_trans (by positivity) hQAB
  have hq := exp_log_quot O.exp O.log hadd hlog hpos hQA hQB
  refine ⟨?_, _, _, rfl⟩
  simp only [dimer_conc_KAB]
  rw [hX, hd, hq]

/-- The forward pass on the two strands `G` and `C` (cut point `2`) with `q = 1` before
the pass and the exterior value `2` of the example collaborators. -/
theorem pf_co_two_eval (st : PfCoState ℝ Unit Unit)
    (h : pf_co (exampleExternals ℝ Real.log Real.exp)
        (exampleOutsideCompound ℝ ['G', 'C'] 2 (fun _ => 0)) = Except.ok st) :
    st.vc.exp_matrices.q (st.vc.iindx 1 - 2) = 2 ∧
      st.vc.exp_matrices.q (st.vc.iindx 1 - 1) = 1 ∧
      st.vc.exp_matrices.q (st.vc.iindx 2 - 2) = 1 := by
  have hf := pf_co_frame _ _ st h
  have hup : upto 0 0 = [0] := by decide
  have hup2 : upto (0 + 2) 2 = [2] := by decide
  have hup1 : upto 1 (2 - 0) = [1, 2] := by decide
  have hd : downto (2 - 0 - 1) 1 = [1] := by decide
  have hlen : (exampleOutsideCompound ℝ ['G', 'C'] 2 (fun _ => 0)).length = 2 := rfl
  have hi1 : (exampleOutsideCompound ℝ ['G', 'C'] 2 (fun _ => 0)).iindx 1 = 4 := by decide
  have hi2 : (exampleOutsideCompound ℝ ['G', 'C'] 2 (fun _ => 0)).iindx 2 = 3 := by decide
  rw [hf.2.1, hi1, hi2]
  unfold pf_co at h
  simp only [hlen, hup, hup2, hup1, pf_co_init, pf_co_init_row, pf_co_columns, pf_co_column,
    hd, pf_co_cells, pf_co_cell] at h
  norm_num [exampleExternals] at h
  rw [← h]
  simp [set_q, set_qm1, set_qm, set_qb, exampleOutsideCompound, exampleFoldCompound, iindx,
    Function.update]

/-- C35 witness: the two strands `G` and `C` with cut point `2`, real exponential and
logarithm, `q = 1` before the forward pass: `q[1,2] = 2`, `QAB = 1` and `KAB = 1`. -/
theorem C35_KAB_is_quotient_witness :
    ∃ st r,
      pf_co (exampleExternals ℝ Real.log Real.exp)
          (exampleOutsideCompound ℝ ['G', 'C'] 2 (fun _ => 0)) = Except.ok st ∧
      vrna_pf_dimer (exampleExternals ℝ Real.log Real.exp) exampleConstants
          (exampleOutsideCompound ℝ ['G', 'C'] 2 (fun _ => 0)) none = Except.ok r ∧
      dimer_QAB st.vc = 1 ∧
      dimer_conc_KAB Real.exp r.X.FcAB r.X.FA r.X.FB st.vc.exp_params.kT = 1 := by
  obtain ⟨st, h⟩ := pf_co_ok_of_bounded (exampleExternals ℝ Real.log Real.exp)
    (by intro _ _ _ _; norm_num [exampleExternals])
    (exampleOutsideCompound ℝ ['G', 'C'] 2 (fun _ => 0))
  have hf := pf_co_frame _ _ st h
  obtain ⟨e12, e11, e22⟩ := pf_co_two_eval st h
  have hcpv : st.vc.cutpoint = 2 := by
    rw [hf.2.2.2.2.1]
    rfl
  have hn : st.vc.length = 2 := by
    rw [hf.1]
    rfl
  have hcp : st.vc.cutpoint > 0 := by
    rw [hcpv]
    decide
  have hkT : 0 < st.vc.exp_params.kT := by
    rw [hf.2.2.2.2.2.2]
    norm_num [exampleOutsideCompound, exampleFoldCompound]
  have hD : st.vc.exp_params.expDuplexInit = 1 := by
    rw [hf.2.2.2.2.2.2]
    rfl
  have hsym : dimer_symmetric st.vc = false := by
    unfold dimer_symmetric
    rw [hf.2.2.2.2.1, hf.2.2.2.2.2.1, hf.1]
    decide
  have hA : st.vc.exp_matrices.q (st.vc.iindx 1 - (st.vc.cutpoint - 1)) = 1 := by
    rw [hcpv]
    exact e11
  have hB : st.vc.exp_matrices.q (st.vc.iindx st.vc.cutpoint - st.vc.length) = 1 := by
    rw [hcpv, hn]
    exact e22
  have hQ : dimer_QAB st.vc = 1 := by
    unfold dimer_QAB dimer_QAB_raw
    simp only [hsym, hD, hA, hB]
    rw [hn, e12]
    norm_num
  obtain ⟨r, hr, hK, _⟩ := C35_KAB_is_quotient (exampleExternals ℝ Real.log Real.exp)
    exampleConstants
    (exampleOutsideCompound ℝ ['G', 'C'] 2 (fun _ => 0))
    (exampleOutsideCompound ℝ ['G', 'C'] 2 (fun _ => 0))
    none st 0 0 [] rfl h hcp (fun a b => Real.exp_add a b)
    (fun x hx => Real.exp_log hx) hkT (by rw [hA]; norm_num) (by rw [hB]; norm_num)
    (by rw [hQ]; norm_num)
  refine ⟨st, r, h, hr, hQ, hK.trans ?_⟩
  rw [hQ, hA, hB]
  norm_num

end DimerQuotientTheorems

section OrderTheorems2

variable {α : Type} {Ael Aml : Type}

/-- The values of an ascending loop are listed in increasing order. -/
theorem upto_pairwise (lo hi : Int) : (upto lo hi).Pairwise (fun a b => a < b) := by
  unfold upto
  rw [List.pairwise_map]
  refine (List.pairwise_lt_range _).imp ?_
  intro a b hab
  omega

end OrderTheorems2

section OrderTheorems3

variable {α : Type} {Ael Aml : Type}

end OrderTheorems3

section OutsideZeroTheorems

variable {α : Type} {Ael Aml : Type}

/-- The interior-loop step for the pair `(k, l)` writes no cell whose `qb` is `0`. -/
theorem bppm_int_k_qb_zero [LinearOrderedField α] (O : Externals α Ael Aml) (C : Constants)
    (vc : vrna_fold_compound_t α) (S1 : Int → Int) (l : Int) (probs : Int → α)
    (k x : Int) (hx : vc.exp_matrices.qb x = 0) :
    bppm_int_k O C vc S1 l probs k x = probs x := by
  by_cases hxk : x = vc.iindx k - l
  · have h0 : vc.exp_matrices.qb (vc.iindx k - l) = 0 := by
      rw [← hxk]
      exact hx
    simp only [bppm_int_k]
    rw [if_pos h0]
  · exact bppm_int_k_other O C vc S1 l probs k x hxk

/-- The multiloop step for the pair `(k, l)` writes no cell whose `qb` is `0`. -/
theorem bppm_ml_k_qb_zero [LinearOrderedField α] (O : Externals α Ael Aml) (C : Constants)
    (vc : vrna_fold_compound_t α) (S1 : Int → Int) (l : Int) (st : BppmState α)
    (k x : Int) (hx : vc.exp_matrices.qb x = 0) :
    (bppm_ml_k O C vc S1 l st k).probs x = st.probs x := by
  by_cases hxk : x = vc.iindx k - l
  · have h0 : vc.exp_matrices.qb (vc.iindx k - l) = 0 := by
      rw [← hxk]
      exact hx
    simp only [bppm_ml_k]
    rw [if_pos h0]
  · exact bppm_ml_k_other O C vc S1 l st k x hxk

/-- The multiloop step for one `l` writes no cell whose `qb` is `0`. -/
theorem bppm_ml_l_qb_zero [LinearOrderedField α] (O : Externals α Ael Aml) (C : Constants)
    (vc : vrna_fold_compound_t α) (S1 : Int → Int) (l : Int) (st : BppmState α) (x : Int)
    (hx : vc.exp_matrices.qb x = 0) :
    (bppm_ml_l O C vc S1 0 l st).probs x = st.probs x := by
  simp only [bppm_ml_l]
  split_ifs
  · refine (foldl_never (bppm_ml_k O C vc S1 l) (fun s => s.probs x) _ _ ?_).trans rfl
    intro k _ b
    exact bppm_ml_k_qb_zero O C vc S1 l b k x hx
  · rfl

/-- The dimer-crossing step for one `l` writes no cell whose `qb` is `0`. -/
theorem bppm_dimer_l_qb_zero [LinearOrderedField α] (O : Externals α Ael Aml)
    (vc : vrna_fold_compound_t α) (S1 : Int → Int) (l : Int) (st : BppmState α) (x : Int)
    (hx : vc.exp_matrices.qb x = 0) :
    (bppm_dimer_l O vc S1 l st).probs x = st.probs x := by
  have hR : ∀ (Q : Int → α) (L : List Int),
      (L.foldl (bppm_Qrout_add O vc S1 l Q) st.probs) x = st.probs x := by
    intro Q L
    refine foldl_never _ (fun p => p x) _ st.probs ?_
    intro k _ b
    show bppm_Qrout_add O vc S1 l Q b k x = b x
    simp only [bppm_Qrout_add]
    by_cases h0 : vc.exp_matrices.qb (vc.iindx k - l) ≠ 0
    · rw [if_pos h0]
      refine Function.update_noteq ?_ _ _
      intro he
      rw [he] at hx
      exact h0 hx
    · rw [if_neg h0]
  have hL : ∀ (L : List Int),
      (L.foldl (bppm_Qlout_add O vc S1 l st.Qlout) st.probs) x = st.probs x := by
    intro L
    refine foldl_never _ (fun p => p x) _ st.probs ?_
    intro k _ b
    show bppm_Qlout_add O vc S1 l st.Qlout b k x = b x
    simp only [bppm_Qlout_add]
    by_cases h0 : vc.exp_matrices.qb (vc.iindx k - l) ≠ 0
    · rw [if_pos h0]
      refine Function.update_noteq ?_ _ _
      intro he
      rw [he] at hx
      exact h0 hx
    · rw [if_neg h0]
  simp only [bppm_dimer_l]
  split_ifs
  all_goals first
    | rfl
    | exact hR _ _
    | exact hL _

/-- One iteration `l` of the outer sweep writes no cell whose `qb` is `0`. -/
theorem bppm_l_qb_zero [LinearOrderedField α] (O : Externals α Ael Aml) (C : Constants)
    (vc : vrna_fold_compound_t α) (S1 : Int → Int) (l : Int) (st : BppmState α) (x : Int)
    (hx : vc.exp_matrices.qb x = 0) :
    (bppm_l O C vc S1 0 st l).probs x = st.probs x := by
  unfold bppm_l
  rw [bppm_dimer_l_qb_zero O vc S1 l _ x hx, bppm_ml_l_qb_zero O C vc S1 l _ x hx]
  show ((upto 1 (l - 0 - 1)).foldl (bppm_int_k O C vc S1 l) st.probs) x = st.probs x
  refine foldl_never _ (fun p => p x) _ st.probs ?_
  intro k _ b
  exact bppm_int_k_qb_zero O C vc S1 l b k x hx

/-- C38: in `pf_co_bppm` (the fold compound after the initialisation of `q1k` and `qln`,
`iindx` the packing of `iindx`), before the final multiplication by `qb`: after the
exterior initialisation every cell `(i, j)`, `1 ≤ i ≤ j ≤ n`, with `qb[i,j] = 0` has
`probs[i,j] = 0`; no step of an iteration `l` of the outer sweep (interior-loop,
multibranch, dimer-crossing) writes a cell whose `qb` is `0`; so after any number of
iterations of the sweep, and at its end, `probs[i,j] ≠ 0` implies `qb[i,j] ≠ 0`. -/
theorem C38_probs_zero_where_qb_zero [LinearOrderedField α] (O : Externals α Ael Aml)
    (C : Constants) (vc : vrna_fold_compound_t α) (S1 : Int → Int)
    (hidx : ∀ i, vc.iindx i = iindx vc.length i) :
    (∀ i j : Int, 1 ≤ i → i ≤ j → j ≤ vc.length →
      bppm_step1 O C (bppm_init_q1k_qln vc) S1 0 (iindx vc.length i - j) ≠ 0 →
        vc.exp_matrices.qb (iindx vc.length i - j) ≠ 0) ∧
    (∀ (l : Int) (st : BppmState α) (x : Int), vc.exp_matrices.qb x = 0 →
      ((upto 1 (l - 0 - 1)).foldl (bppm_int_k O C (bppm_init_q1k_qln vc) S1 l) st.probs) x =
          st.probs x ∧
        (bppm_ml_l O C (bppm_init_q1k_qln vc) S1 0 l st).probs x = st.probs x ∧
        (bppm_dimer_l O (bppm_init_q1k_qln vc) S1 l st).probs x = st.probs x) ∧
    (∀ (L : List Int) (st : BppmState α) (i j : Int),
      st.probs = bppm_step1 O C (bppm_init_q1k_qln vc) S1 0 →
      1 ≤ i → i ≤ j → j ≤ vc.length →
      (L.foldl (bppm_l O C (bppm_init_q1k_qln vc) S1 0) st).probs (iindx vc.length i - j) ≠ 0 →
        vc.exp_matrices.qb (iindx vc.length i - j) ≠ 0) ∧
    (∀ i j : Int, 1 ≤ i → i ≤ j → j ≤ vc.length →
      (bppm_sweep O C (bppm_init_q1k_qln vc) S1 0).probs (iindx vc.length i - j) ≠ 0 →
        vc.exp_matrices.qb (iindx vc.length i - j) ≠ 0) := by
  have hqb : (bppm_init_q1k_qln vc).exp_matrices.qb = vc.exp_matrices.qb :=
    (bppm_init_frame vc).2.1
  have hidx1 : ∀ i, (bppm_init_q1k_qln vc).iindx i = iindx (bppm_init_q1k_qln vc).length i :=
    hidx
  have hlen : (bppm_init_q1k_qln vc).length = vc.length := rfl
  have hstep1 : ∀ i j : Int, 1 ≤ i → i ≤ j → j ≤ vc.length →
      vc.exp_matrices.qb (iindx vc.length i - j) = 0 →
      bppm_step1 O C (bppm_init_q1k_qln vc) S1 0 (iindx vc.length i - j) = 0 := by
    intro i j hi hij hj h0
    have h := bppm_step1_cell O C (bppm_init_q1k_qln vc) S1 hidx1 i j hi hij hj
    rw [hidx1 i, hlen, hqb] at h
    rw [h, if_neg]
    rintro ⟨_, _, h3⟩
    rw [h0] at h3
    exact lt_irrefl _ h3
  have hfold : ∀ (L : List Int) (st : BppmState α) (x : Int), vc.exp_matrices.qb x = 0 →
      (L.foldl (bppm_l O C (bppm_init_q1k_qln vc) S1 0) st).probs x = st.probs x := by
    intro L st x hx
    refine foldl_never (bppm_l O C (bppm_init_q1k_qln vc) S1 0) (fun s => s.probs x) L st ?_
    intro l _ b
    exact bppm_l_qb_zero O C (bppm_init_q1k_qln vc) S1 l b x (by rw [hqb]; exact hx)
  refine ⟨?_, ?_, ?_, ?_⟩
  · intro i j hi hij hj hne h0
    exact hne (hstep1 i j hi hij hj h0)
  · intro l st x hx
    have hx1 : (bppm_init_q1k_qln vc).exp_matrices.qb x = 0 := by
      rw [hqb]
      exact hx
    refine ⟨?_, bppm_ml_l_qb_zero O C _ S1 l st x hx1, bppm_dimer_l_qb_zero O _ S1 l st x hx1⟩
    refine foldl_never _ (fun p => p x) _ st.probs ?_
    intro k _ b
    exact bppm_int_k_qb_zero O C _ S1 l b k x hx1
  · intro L st i j hst hi hij hj hne h0
    apply hne
    rw [hfold L st _ h0, hst]
    exact hstep1 i j hi hij hj h0
  · intro i j hi hij hj hne h0
    apply hne
    unfold bppm_sweep
    rw [hfold _ _ _ h0]
    exact hstep1 i j hi hij hj h0

/-- C38 witness: three nucleotides, `q = 1`, `qb[1,3] = 1` and `qb = 0` elsewhere: the
cell `(1, 2)` holds `0` after the outer sweep. -/
theorem C38_probs_zero_witness :
    (bppm_sweep (exampleExternals ℚ id id) exampleConstants
        (bppm_init_q1k_qln (exampleOutsideCompound ℚ ['G', 'C', 'G'] (-1)
          (fun x => if x = iindx 3 1 - 3 then 1 else 0)))
        (fun _ => 1) 0).probs (iindx 3 1 - 2) = 0 := by
  by_contra hne
  exact (C38_probs_zero_where_qb_zero (exampleExternals ℚ id id) exampleConstants
    (exampleOutsideCompound ℚ ['G', 'C', 'G'] (-1)
      (fun x => if x = iindx 3 1 - 3 then 1 else 0))
    (fun _ => 1) (fun _ => rfl)).2.2.2 1 2 (by decide) (by decide) (by decide) hne
    (by decide)

end OutsideZeroTheorems

section InteriorTheorems

variable {α : Type} {Ael Aml : Type}

/-- On a list on which a test, once failed, fails for every later element, the longest
prefix passing the test consists of the elements passing it. -/
theorem takeWhile_eq_filter_of_pairwise {β : Type} (p : β → Bool) :
    ∀ (L : List β), L.Pairwise (fun a b => p b = true → p a = true) →
      L.takeWhile p = L.filter p := by
  intro L
  induction L with
  | nil =>
    intro _
    rfl
  | cons a t ih =>
    intro h
    rw [List.pairwise_cons] at h
    by_cases hp : p a = true
    · rw [List.takeWhile_cons_of_pos hp, List.filter_cons_of_pos hp, ih h.2]
    · rw [List.takeWhile_cons_of_neg hp, List.filter_cons_of_neg hp]
      symm
      rw [List.filter_eq_nil_iff]
      intro b hb hpb
      exact hp (h.1 b hb hpb)

/-- The array computed together with the list of pairs is the one of `bppm_int_k`. -/
theorem bppm_int_k_pairs_fst [LinearOrderedField α] (O : Externals α Ael Aml) (C : Constants)
    (vc : vrna_fold_compound_t α) (S1 : Int → Int) (l : Int) (probs : Int → α) (k : Int) :
    (bppm_int_k_pairs O C vc S1 l probs k).1 = bppm_int_k O C vc S1 l probs k := by
  have hin : ∀ (f : (Int → α) → Int → (Int → α)) (g : (Int → α) → Int → Bool) (i : Int)
      (L : List Int) (s : (Int → α) × List (Int × Int)),
      (L.foldl (fun (s1 : (Int → α) × List (Int × Int)) j =>
        (f s1.1 j, if g s1.1 j = true then s1.2 ++ [(i, j)] else s1.2)) s).1 =
        L.foldl f s.1 := by
    intro f g i L
    induction L with
    | nil =>
      intro s
      rfl
    | cons j t ih =>
      intro s
      rw [List.foldl_cons, List.foldl_cons, ih]
  have hout : ∀ (F : (Int → α) × List (Int × Int) → Int → (Int → α) × List (Int × Int))
      (G : (Int → α) → Int → (Int → α)),
      (∀ s i, (F s i).1 = G s.1 i) →
      ∀ (L : List Int) (s : (Int → α) × List (Int × Int)),
        (L.foldl F s).1 = L.foldl G s.1 := by
    intro F G hFG L
    induction L with
    | nil =>
      intro s
      rfl
    | cons i t ih =>
      intro s
      rw [List.foldl_cons, List.foldl_cons, ih, hFG]
  simp only [bppm_int_k_pairs, bppm_int_k]
  split_ifs
  · rfl
  · refine hout _ _ ?_ _ _
    intro s i
    beta_reduce
    split_ifs
    · rfl
    · exact hin _ _ i _ s
  · rfl

/-- The innermost body of step 2 without soft constraints: the term `tmp2` is added to
`probs[kl]` when the three tests are passed, and nothing is done otherwise. -/
theorem bppm_int_ij_eq [LinearOrderedField α] (O : Externals α Ael Aml) (C : Constants)
    (vc : vrna_fold_compound_t α) (S1 : Int → Int) (hsc : vc.sc = none)
    (l k type_2 i : Int) (probs : Int → α) (j : Int) :
    bppm_int_ij O C vc S1 l k type_2 i probs j =
      if bppm_int_adds C vc l k i probs j = true then
        Function.update probs (vc.iindx k - l)
          (probs (vc.iindx k - l) + bppm_int_tmp2 O vc S1 l k type_2 probs i j)
      else probs := by
  simp only [bppm_int_ij, bppm_int_adds, bppm_int_tmp2, hsc, sc_none_factors.1,
    sc_none_factors.2.1, sc_none_factors.2.2.1, sc_none_factors.2.2.2, mul_one,
    Bool.and_eq_true, decide_eq_true_eq]
  by_cases h1 : hc_allows (vc.hc.matrix (vc.jindx j + i)) C.CONTEXT_INT_LOOP = true
  · by_cases h2 : vc.strand_number k = vc.strand_number i ∧
        vc.strand_number j = vc.strand_number l
    · by_cases h3 : probs (vc.iindx i - j) > 0
      · rw [if_pos h1, if_pos h2, if_pos h3, if_pos ⟨⟨h1, h2⟩, h3⟩]
      · rw [if_pos h1, if_pos h2, if_neg h3, if_neg (fun h => h3 h.2)]
    · rw [if_pos h1, if_neg h2, if_neg (fun h => h2 h.1.2)]
  · rw [if_neg h1, if_neg (fun h => h1 h.1.1)]

/-- The loop over `j` of step 2 for one `i`, over a list of values of `j` whose cells
`(i, j)` are not the cell `(k, l)`: the pairs recorded are those passing the three tests
on the array before the loop, and the sum of their terms is added to `probs[kl]`. -/
theorem bppm_int_inner [LinearOrderedField α] (O : Externals α Ael Aml) (C : Constants)
    (vc : vrna_fold_compound_t α) (S1 : Int → Int) (hsc : vc.sc = none)
    (l k type_2 i : Int) (probs : Int → α) :
    ∀ (L : List Int) (s : (Int → α) × List (Int × Int)),
      (∀ j ∈ L, vc.iindx i - j ≠ vc.iindx k - l) →
      (∀ x, x ≠ vc.iindx k - l → s.1 x = probs x) →
      (∀ x, x ≠ vc.iindx k - l →
        (L.foldl (fun (s1 : (Int → α) × List (Int × Int)) j =>
          (bppm_int_ij O C vc S1 l k type_2 i s1.1 j,
            if bppm_int_adds C vc l k i s1.1 j = true then s1.2 ++ [(i, j)] else s1.2))
          s).1 x = probs x) ∧
      (L.foldl (fun (s1 : (Int → α) × List (Int × Int)) j =>
          (bppm_int_ij O C vc S1 l k type_2 i s1.1 j,
            if bppm_int_adds C vc l k i s1.1 j = true then s1.2 ++ [(i, j)] else s1.2))
          s).2 =
        s.2 ++ (L.filter (bppm_int_adds C vc l k i probs)).map (fun j => (i, j)) ∧
      (L.foldl (fun (s1 : (Int → α) × List (Int × Int)) j =>
          (bppm_int_ij O C vc S1 l k type_2 i s1.1 j,
            if bppm_int_adds C vc l k i s1.1 j = true then s1.2 ++ [(i, j)] else s1.2))
          s).1 (vc.iindx k - l) =
        s.1 (vc.iindx k - l) +
          (((L.filter (bppm_int_adds C vc l k i probs)).map (fun j => (i, j))).map
            (fun p => bppm_int_tmp2 O vc S1 l k type_2 probs p.1 p.2)).sum := by
  intro L
  induction L with
  | nil =>
    intro s _ hs
    refine ⟨hs, ?_, ?_⟩
    · simp only [List.foldl_nil, List.filter_nil, List.map_nil, List.append_nil]
    · simp only [List.foldl_nil, List.filter_nil, List.map_nil, List.sum_nil, add_zero]
  | cons j t ih =>
    intro s hne hs
    have hij : vc.iindx i - j ≠ vc.iindx k - l := hne j (List.mem_cons_self _ _)
    have hadds : bppm_int_adds C vc l k i s.1 j = bppm_int_adds C vc l k i probs j := by
      simp only [bppm_int_adds]
      rw [hs _ hij]
    have htmp : bppm_int_tmp2 O vc S1 l k type_2 s.1 i j =
        bppm_int_tmp2 O vc S1 l k type_2 probs i j := by
      simp only [bppm_int_tmp2]
      rw [hs _ hij]
    rw [List.foldl_cons]
    have hstep := bppm_int_ij_eq O C vc S1 hsc l k type_2 i s.1 j
    rw [hadds, htmp] at hstep
    by_cases ha : bppm_int_adds C vc l k i probs j = true
    · rw [if_pos ha] at hstep
      obtain ⟨h1, h2, h3⟩ := ih
        (bppm_int_ij O C vc S1 l k type_2 i s.1 j,
          if bppm_int_adds C vc l k i s.1 j = true then s.2 ++ [(i, j)] else s.2)
        (fun j1 hj1 => hne j1 (List.mem_cons_of_mem _ hj1))
        (by
          intro x hx
          show bppm_int_ij O C vc S1 l k type_2 i s.1 j x = probs x
          rw [hstep, Function.update_noteq hx]
          exact hs x hx)
      refine ⟨h1, ?_, ?_⟩
      · rw [h2, hadds, if_pos ha, List.filter_cons_of_pos ha, List.map_cons,
          List.append_assoc]
        rfl
      · rw [h3]
        show bppm_int_ij O C vc S1 l k type_2 i s.1 j (vc.iindx k - l) + _ = _
        rw [hstep, Function.update_same, List.filter_cons_of_pos ha, List.map_cons,
          List.map_cons, List.sum_cons, add_assoc]
    · rw [if_neg ha] at hstep
      obtain ⟨h1, h2, h3⟩ := ih
        (bppm_int_ij O C vc S1 l k type_2 i s.1 j,
          if bppm_int_adds C vc l k i s.1 j = true then s.2 ++ [(i, j)] else s.2)
        (fun j1 hj1 => hne j1 (List.mem_cons_of_mem _ hj1))
        (by
          intro x hx
          show bppm_int_ij O C vc S1 l k type_2 i s.1 j x = probs x
          rw [hstep]
          exact hs x hx)
      refine ⟨h1, ?_, ?_⟩
      · rw [h2, hadds, if_neg ha, List.filter_cons_of_neg ha]
      · rw [h3]
        show bppm_int_ij O C vc S1 l k type_2 i s.1 j (vc.iindx k - l) + _ = _
        rw [hstep, List.filter_cons_of_neg ha]


/-- The loop over `i` of step 2 for the pair `(k, l)`, over a list of values of `i` whose
cells `(i, j)` are not the cell `(k, l)`: the pairs recorded are the visited pairs passing
the three tests on the array before the loop, and the sum of their terms is added to
`probs[kl]`. -/
theorem bppm_int_outer [LinearOrderedField α] (O : Externals α Ael Aml) (C : Constants)
    (vc : vrna_fold_compound_t α) (S1 : Int → Int) (hsc : vc.sc = none)
    (l k type_2 : Int) (probs : Int → α) (J : Int → List Int) :
    ∀ (L : List Int) (s : (Int → α) × List (Int × Int)),
      (∀ i ∈ L, ∀ j ∈ J i, vc.iindx i - j ≠ vc.iindx k - l) →
      (∀ x, x ≠ vc.iindx k - l → s.1 x = probs x) →
      (∀ x, x ≠ vc.iindx k - l →
        (L.foldl (fun (s0 : (Int → α) × List (Int × Int)) i =>
          if vc.hc.up_int (i + 1) < k - i - 1 then s0
          else (J i).foldl (fun (s1 : (Int → α) × List (Int × Int)) j =>
            (bppm_int_ij O C vc S1 l k type_2 i s1.1 j,
              if bppm_int_adds C vc l k i s1.1 j = true then s1.2 ++ [(i, j)] else s1.2))
            s0) s).1 x = probs x) ∧
      (L.foldl (fun (s0 : (Int → α) × List (Int × Int)) i =>
          if vc.hc.up_int (i + 1) < k - i - 1 then s0
          else (J i).foldl (fun (s1 : (Int → α) × List (Int × Int)) j =>
            (bppm_int_ij O C vc S1 l k type_2 i s1.1 j,
              if bppm_int_adds C vc l k i s1.1 j = true then s1.2 ++ [(i, j)] else s1.2))
            s0) s).2 =
        s.2 ++ L.flatMap (fun i =>
          if vc.hc.up_int (i + 1) < k - i - 1 then []
          else ((J i).filter (bppm_int_adds C vc l k i probs)).map (fun j => (i, j))) ∧
      (L.foldl (fun (s0 : (Int → α) × List (Int × Int)) i =>
          if vc.hc.up_int (i + 1) < k - i - 1 then s0
          else (J i).foldl (fun (s1 : (Int → α) × List (Int × Int)) j =>
            (bppm_int_ij O C vc S1 l k type_2 i s1.1 j,
              if bppm_int_adds C vc l k i s1.1 j = true then s1.2 ++ [(i, j)] else s1.2))
            s0) s).1 (vc.iindx k - l) =
        s.1 (vc.iindx k - l) +
          ((L.flatMap (fun i =>
            if vc.hc.up_int (i + 1) < k - i - 1 then []
            else ((J i).filter (bppm_int_adds C vc l k i probs)).map (fun j => (i, j)))).map
            (fun p => bppm_int_tmp2 O vc S1 l k type_2 probs p.1 p.2)).sum := by
  intro L
  induction L with
  | nil =>
    intro s _ hs
    refine ⟨hs, ?_, ?_⟩
    · simp only [List.foldl_nil, List.flatMap_nil, List.append_nil]
    · simp only [List.foldl_nil, List.flatMap_nil, List.map_nil, List.sum_nil, add_zero]
  | cons i t ih =>
    intro s hne hs
    rw [List.foldl_cons, List.flatMap_cons]
    by_cases hu : vc.hc.up_int (i + 1) < k - i - 1
    · rw [if_pos hu, if_pos hu, List.nil_append]
      exact ih s (fun i1 hi1 => hne i1 (List.mem_cons_of_mem _ hi1)) hs
    · rw [if_neg hu, if_neg hu]
      obtain ⟨g1, g2, g3⟩ := bppm_int_inner O C vc S1 hsc l k type_2 i probs (J i) s
        (hne i (List.mem_cons_self _ _)) hs
      obtain ⟨h1, h2, h3⟩ := ih _ (fun i1 hi1 => hne i1 (List.mem_cons_of_mem _ hi1)) g1
      refine ⟨h1, ?_, ?_⟩
      · rw [h2, g2, List.append_assoc]
      · rw [h3, g3, List.map_append, List.sum_append, add_assoc]

/-- The list of pairs recorded by `bppm_int_k_pairs` and the value left in `probs[kl]`
(no soft constraints, `iindx` the packing, `1 ≤ k < l ≤ n`). -/
theorem bppm_int_k_pairs_spec [LinearOrderedField α] (O : Externals α Ael Aml)
    (C : Constants) (vc : vrna_fold_compound_t α) (S1 : Int → Int)
    (hidx : ∀ i, vc.iindx i = iindx vc.length i) (hsc : vc.sc = none)
    (l : Int) (probs : Int → α) (k : Int) (hk : 1 ≤ k) (hkl : k < l) (hl : l ≤ vc.length) :
    (bppm_int_k_pairs O C vc S1 l probs k).2 =
        (if vc.exp_matrices.qb (vc.iindx k - l) ≠ 0 ∧
            hc_allows (vc.hc.matrix (vc.jindx l + k)) C.CONTEXT_INT_LOOP_ENC = true then
          bppm_int_visited O C vc l probs k else []) ∧
      (bppm_int_k_pairs O C vc S1 l probs k).1 (vc.iindx k - l) =
        probs (vc.iindx k - l) +
          ((bppm_int_k_pairs O C vc S1 l probs k).2.map
            (fun p => bppm_int_tmp2 O vc S1 l k
              (ptype_or_7 (vc.exp_params.model_details.rtype (vc.ptype (vc.jindx l + k))))
              probs p.1 p.2)).sum := by
  by_cases hq : vc.exp_matrices.qb (vc.iindx k - l) = 0
  · simp only [bppm_int_k_pairs]
    rw [if_pos hq, if_neg (fun h => h.1 hq)]
    simp only [List.map_nil, List.sum_nil, add_zero, and_self]
  · by_cases hc : hc_allows (vc.hc.matrix (vc.jindx l + k)) C.CONTEXT_INT_LOOP_ENC = true
    · have hne : ∀ i ∈ upto (max 1 (k - O.MAXLOOP - 1)) (k - 1),
          ∀ j ∈ (upto (l + 1) (min (l + O.MAXLOOP - k + i + 2) vc.length)).takeWhile
            (fun j => decide (¬ vc.hc.up_int (l + 1) < j - l - 1)),
          vc.iindx i - j ≠ vc.iindx k - l := by
        intro i hi j hj he
        rw [mem_upto] at hi
        have hj1 := (List.takeWhile_sublist _).subset hj
        rw [mem_upto] at hj1
        rw [hidx i, hidx k] at he
        have := pack_injective vc.length i j k l (by omega) (by omega) (by omega) hk
          (le_of_lt hkl) hl he
        omega
      obtain ⟨_, h2, h3⟩ := bppm_int_outer O C vc S1 hsc l k
        (ptype_or_7 (vc.exp_params.model_details.rtype (vc.ptype (vc.jindx l + k)))) probs
        (fun i => (upto (l + 1) (min (l + O.MAXLOOP - k + i + 2) vc.length)).takeWhile
            (fun j => decide (¬ vc.hc.up_int (l + 1) < j - l - 1)))
        (upto (max 1 (k - O.MAXLOOP - 1)) (k - 1)) (probs, []) hne (fun _ _ => rfl)
      have hrun : bppm_int_k_pairs O C vc S1 l probs k =
          (upto (max 1 (k - O.MAXLOOP - 1)) (k - 1)).foldl
            (fun (s0 : (Int → α) × List (Int × Int)) i =>
              if vc.hc.up_int (i + 1) < k - i - 1 then s0
              else ((upto (l + 1) (min (l + O.MAXLOOP - k + i + 2) vc.length)).takeWhile
                  (fun j => decide (¬ vc.hc.up_int (l + 1) < j - l - 1))).foldl
                (fun (s1 : (Int → α) × List (Int × Int)) j =>
                  (bppm_int_ij O C vc S1 l k
                    (ptype_or_7 (vc.exp_params.model_details.rtype
                      (vc.ptype (vc.jindx l + k)))) i s1.1 j,
                    if bppm_int_adds C vc l k i s1.1 j = true then s1.2 ++ [(i, j)]
                    else s1.2))
                s0) (probs, []) := by
        simp only [bppm_int_k_pairs]
        rw [if_neg hq, if_pos hc]
      rw [hrun]
      rw [List.nil_append] at h2
      refine ⟨?_, ?_⟩
      · rw [h2, if_pos ⟨hq, hc⟩]
        rfl
      · rw [h3, h2]
    · simp only [bppm_int_k_pairs]
      rw [if_neg hq, if_neg hc, if_neg (fun h => hc h.2)]
      simp only [List.map_nil, List.sum_nil, add_zero, and_self]

/-- The pairs visited by the two loops of step 2 and passing the three tests. -/
theorem mem_bppm_int_visited [LinearOrderedField α] (O : Externals α Ael Aml)
    (C : Constants) (vc : vrna_fold_compound_t α) (l : Int) (probs : Int → α) (k i j : Int) :
    (i, j) ∈ bppm_int_visited O C vc l probs k ↔
      1 ≤ i ∧ i < k ∧ l < j ∧ j ≤ vc.length ∧ k - i - 1 ≤ O.MAXLOOP ∧
        j - l - 1 ≤ O.MAXLOOP - (k - i - 1) ∧
        k - i - 1 ≤ vc.hc.up_int (i + 1) ∧ j - l - 1 ≤ vc.hc.up_int (l + 1) ∧
        hc_allows (vc.hc.matrix (vc.jindx j + i)) C.CONTEXT_INT_LOOP = true ∧
        vc.strand_number k = vc.strand_number i ∧ vc.strand_number j = vc.strand_number l ∧
        probs (vc.iindx i - j) > 0 := by
  have htw : ∀ i1 : Int,
      (upto (l + 1) (min (l + O.MAXLOOP - k + i1 + 2) vc.length)).takeWhile
          (fun j => decide (¬ vc.hc.up_int (l + 1) < j - l - 1)) =
        (upto (l + 1) (min (l + O.MAXLOOP - k + i1 + 2) vc.length)).filter
          (fun j => decide (¬ vc.hc.up_int (l + 1) < j - l - 1)) := by
    intro i1
    apply takeWhile_eq_filter_of_pairwise
    refine (upto_pairwise _ _).imp ?_
    intro a b hab hb
    rw [decide_eq_true_eq] at hb ⊢
    omega
  unfold bppm_int_visited
  rw [List.mem_flatMap]
  constructor
  · rintro ⟨i1, hi1, hm⟩
    rw [mem_upto] at hi1
    by_cases hu : vc.hc.up_int (i1 + 1) < k - i1 - 1
    · rw [if_pos hu] at hm
      cases hm
    · rw [if_neg hu, htw, List.mem_map] at hm
      obtain ⟨j1, hj1, he⟩ := hm
      rw [Prod.mk.injEq] at he
      obtain ⟨rfl, rfl⟩ := he
      rw [List.mem_filter, List.mem_filter, mem_upto, decide_eq_true_eq] at hj1
      obtain ⟨⟨hr, hup⟩, hadd⟩ := hj1
      simp only [bppm_int_adds, Bool.and_eq_true, decide_eq_true_eq] at hadd
      obtain ⟨⟨ha1, ha2, ha3⟩, ha4⟩ := hadd
      have hmin := le_min_iff.mp hr.2
      refine ⟨by omega, by omega, by omega, hmin.2, by omega, by omega, by omega,
        by omega, ha1, ha2, ha3, ha4⟩
  · rintro ⟨h1, h2, h3, h4, h5, h6, h7, h8, h9, h10, h11, h12⟩
    refine ⟨i, ?_, ?_⟩
    · rw [mem_upto]
      constructor
      · exact max_le h1 (by omega)
      · omega
    · rw [if_neg (by omega), htw, List.mem_map]
      refine ⟨j, ?_, rfl⟩
      rw [List.mem_filter, List.mem_filter, mem_upto, decide_eq_true_eq]
      refine ⟨⟨⟨by omega, le_min (by omega) h4⟩, by omega⟩, ?_⟩
      simp only [bppm_int_adds, Bool.and_eq_true, decide_eq_true_eq]
      exact ⟨⟨h9, h10, h11⟩, h12⟩


/-- Every pair recorded by `bppm_int_k_pairs` was visited by the two loops: `i` runs
from `max(1, k - MAXLOOP - 1)` to `k - 1` and `j` from `l + 1` to
`min(l + MAXLOOP - k + i + 2, n)`. -/
theorem bppm_int_k_pairs_range [LinearOrderedField α] (O : Externals α Ael Aml)
    (C : Constants) (vc : vrna_fold_compound_t α) (S1 : Int → Int) (l : Int)
    (probs : Int → α) (k : Int) :
    ∀ p ∈ (bppm_int_k_pairs O C vc S1 l probs k).2,
      max 1 (k - O.MAXLOOP - 1) ≤ p.1 ∧ p.1 ≤ k - 1 ∧ l + 1 ≤ p.2 ∧
        p.2 ≤ min (l + O.MAXLOOP - k + p.1 + 2) vc.length := by
  simp only [bppm_int_k_pairs]
  split_ifs
  · intro p hp
    cases hp
  · refine foldl_inv (fun (s : (Int → α) × List (Int × Int)) => ∀ p ∈ s.2,
      max 1 (k - O.MAXLOOP - 1) ≤ p.1 ∧ p.1 ≤ k - 1 ∧ l + 1 ≤ p.2 ∧
        p.2 ≤ min (l + O.MAXLOOP - k + p.1 + 2) vc.length) _ _ _ ?_ ?_
    · intro p hp
      cases hp
    · intro s i hi hs
      rw [mem_upto] at hi
      beta_reduce
      split_ifs
      · exact hs
      · refine foldl_inv (fun (s : (Int → α) × List (Int × Int)) => ∀ p ∈ s.2,
          max 1 (k - O.MAXLOOP - 1) ≤ p.1 ∧ p.1 ≤ k - 1 ∧ l + 1 ≤ p.2 ∧
            p.2 ≤ min (l + O.MAXLOOP - k + p.1 + 2) vc.length) _ _ _ hs ?_
        intro s1 j hj hs1
        have hj1 := (List.takeWhile_sublist _).subset hj
        rw [mem_upto] at hj1
        split_ifs
        · intro p hp
          rcases List.mem_append.mp hp with h | h
          · exact hs1 p h
          · rw [List.mem_singleton] at h
            subst h
            exact ⟨hi.1, hi.2, hj1.1, hj1.2⟩
        · exact hs1
  · intro p hp
    cases hp

end InteriorTheorems

section InteriorClaims

variable {α : Type} {Ael Aml : Type}

/-- C27 (amended): in the interior-loop step of the outside sweep for the pair `(k, l)`,
`1 ≤ k < l ≤ n` (no soft constraints, `iindx` the packing of `iindx`), the enclosing
pairs `(i, j)` whose term `probs[i,j] * scale[u1+u2+2] * expIntLoop(u1, u2, ...)` is
added to `probs[k,l]` are exactly the pairs with `1 ≤ i < k`, `l < j ≤ n`,
`u1 = k-i-1 ≤ MAXLOOP`, `u2 = j-l-1 ≤ MAXLOOP - u1`, `i` on the strand of `k` and `j` on
the strand of `l`, permitted by the hard constraints (`u1 ≤ hc_up_int[i+1]`,
`u2 ≤ hc_up_int[l+1]`, `(i, j)` allowed as closing pair and `(k, l)` as enclosed pair of an
interior loop), with `probs[i,j] > 0` and `qb[k,l] ≠ 0`; and `probs[k,l]` grows by the
sum of their terms. -/
theorem C27_interior_pairs [LinearOrderedField α] (O : Externals α Ael Aml)
    (C : Constants) (vc : vrna_fold_compound_t α) (S1 : Int → Int)
    (hidx : ∀ i, vc.iindx i = iindx vc.length i) (hsc : vc.sc = none)
    (l : Int) (probs : Int → α) (k : Int) (hk : 1 ≤ k) (hkl : k < l) (hl : l ≤ vc.length) :
    (bppm_int_k_pairs O C vc S1 l probs k).1 = bppm_int_k O C vc S1 l probs k ∧
    (∀ i j : Int, (i, j) ∈ (bppm_int_k_pairs O C vc S1 l probs k).2 ↔
      1 ≤ i ∧ i < k ∧ l < j ∧ j ≤ vc.length ∧ k - i - 1 ≤ O.MAXLOOP ∧
        j - l - 1 ≤ O.MAXLOOP - (k - i - 1) ∧
        k - i - 1 ≤ vc.hc.up_int (i + 1) ∧ j - l - 1 ≤ vc.hc.up_int (l + 1) ∧
        hc_allows (vc.hc.matrix (vc.jindx j + i)) C.CONTEXT_INT_LOOP = true ∧
        hc_allows (vc.hc.matrix (vc.jindx l + k)) C.CONTEXT_INT_LOOP_ENC = true ∧
        vc.strand_number k = vc.strand_number i ∧ vc.strand_number j = vc.strand_number l ∧
        probs (vc.iindx i - j) > 0 ∧ vc.exp_matrices.qb (vc.iindx k - l) ≠ 0) ∧
    bppm_int_k O C vc S1 l probs k (vc.iindx k - l) =
      probs (vc.iindx k - l) +
        ((bppm_int_k_pairs O C vc S1 l probs k).2.map
          (fun p => probs (vc.iindx p.1 - p.2) *
            vc.exp_matrices.scale ((k - p.1 - 1) + (p.2 - l - 1) + 2) *
            O.exp_E_IntLoop (k - p.1 - 1) (p.2 - l - 1)
              (ptype_or_7 (vc.ptype (vc.jindx p.2 + p.1)))
              (ptype_or_7 (vc.exp_params.model_details.rtype (vc.ptype (vc.jindx l + k))))
              (S1 (p.1 + 1)) (S1 (p.2 - 1)) (S1 (k - 1)) (S1 (l + 1)) vc.exp_params)).sum := by
  obtain ⟨h1, h2⟩ := bppm_int_k_pairs_spec O C vc S1 hidx hsc l probs k hk hkl hl
  refine ⟨bppm_int_k_pairs_fst O C vc S1 l probs k, ?_, ?_⟩
  · intro i j
    rw [h1]
    by_cases hc : vc.exp_matrices.qb (vc.iindx k - l) ≠ 0 ∧
        hc_allows (vc.hc.matrix (vc.jindx l + k)) C.CONTEXT_INT_LOOP_ENC = true
    · rw [if_pos hc, mem_bppm_int_visited]
      constructor
      · rintro ⟨a1, a2, a3, a4, a5, a6, a7, a8, a9, a10, a11, a12⟩
        exact ⟨a1, a2, a3, a4, a5, a6, a7, a8, a9, hc.2, a10, a11, a12, hc.1⟩
      · rintro ⟨a1, a2, a3, a4, a5, a6, a7, a8, a9, _, a10, a11, a12, _⟩
        exact ⟨a1, a2, a3, a4, a5, a6, a7, a8, a9, a10, a11, a12⟩
    · rw [if_neg hc]
      constructor
      · intro h
        cases h
      · rintro ⟨_, _, _, _, _, _, _, _, _, a10, _, _, _, a14⟩
        exact absurd ⟨a14, a10⟩ hc
  · rw [← bppm_int_k_pairs_fst O C vc S1 l probs k, h2]
    rfl

/-- C27 witness: four nucleotides, `probs = 1` everywhere: for the pair `(2, 3)` the only
enclosing pair is `(1, 4)`, and its term `1` is added to `probs[2,3]`. -/
theorem C27_interior_pairs_witness :
    (1, 4) ∈ (bppm_int_k_pairs (exampleExternals ℚ id id) exampleConstants
        (exampleLoopCompound ℚ ['G', 'C', 'G', 'C']) (fun _ => 1) 3 (fun _ => 1) 2).2 ∧
      (bppm_int_k_pairs (exampleExternals ℚ id id) exampleConstants
        (exampleLoopCompound ℚ ['G', 'C', 'G', 'C']) (fun _ => 1) 3 (fun _ => 1) 2).1 =
        bppm_int_k (exampleExternals ℚ id id) exampleConstants
          (exampleLoopCompound ℚ ['G', 'C', 'G', 'C']) (fun _ => 1) 3 (fun _ => 1) 2 := by
  obtain ⟨h1, h2, _⟩ := C27_interior_pairs (exampleExternals ℚ id id) exampleConstants
    (exampleLoopCompound ℚ ['G', 'C', 'G', 'C']) (fun _ => 1) (fun _ => rfl) rfl 3
    (fun _ => 1) 2 (by decide) (by decide) (by decide)
  refine ⟨(h2 1 4).mpr ?_, h1⟩
  refine ⟨by decide, by decide, by decide, by decide, by decide, by decide, by decide,
    by decide, by decide, by decide, by decide, by decide, ?_, ?_⟩
  · norm_num
  · norm_num [exampleLoopCompound, exampleOutsideCompound]

/-- C27 counterexample to the claim as stated: 35 nucleotides on one strand,
`MAXLOOP = 30`, every loop allowed by the hard constraints, `qb = 1`, and
`probs[1,35] = 1` the only non-zero entry.  For `(k, l) = (17, 18)` the pair
`(i, j) = (1, 35)` has `u1 = 15 ≤ MAXLOOP` and `u2 = 16 ≤ MAXLOOP + u1` and a term equal
to `1`, but it is not among the pairs whose term is added (`u1 + u2 = 31 > MAXLOOP`), and
`probs[17,18]` stays `0`. -/
theorem C27_u2_bound_counterexample :
    ((1 : Int) < 17 ∧ (18 : Int) < 35 ∧
      (35 : Int) ≤ (exampleLoopCompound ℚ (List.replicate 35 'G')).length ∧
      (17 : Int) - 1 - 1 ≤ (exampleExternals ℚ id id).MAXLOOP ∧
      (35 : Int) - 18 - 1 ≤ (exampleExternals ℚ id id).MAXLOOP + (17 - 1 - 1) ∧
      (exampleLoopCompound ℚ (List.replicate 35 'G')).strand_number 17 =
        (exampleLoopCompound ℚ (List.replicate 35 'G')).strand_number 1 ∧
      (exampleLoopCompound ℚ (List.replicate 35 'G')).strand_number 35 =
        (exampleLoopCompound ℚ (List.replicate 35 'G')).strand_number 18 ∧
      (17 : Int) - 1 - 1 ≤ (exampleLoopCompound ℚ (List.replicate 35 'G')).hc.up_int (1 + 1) ∧
      (35 : Int) - 18 - 1 ≤
        (exampleLoopCompound ℚ (List.replicate 35 'G')).hc.up_int (18 + 1) ∧
      hc_allows ((exampleLoopCompound ℚ (List.replicate 35 'G')).hc.matrix
        ((exampleLoopCompound ℚ (List.replicate 35 'G')).jindx 35 + 1))
        exampleConstants.CONTEXT_INT_LOOP = true ∧
      hc_allows ((exampleLoopCompound ℚ (List.replicate 35 'G')).hc.matrix
        ((exampleLoopCompound ℚ (List.replicate 35 'G')).jindx 18 + 17))
        exampleConstants.CONTEXT_INT_LOOP_ENC = true ∧
      (exampleLoopCompound ℚ (List.replicate 35 'G')).exp_matrices.qb
        ((exampleLoopCompound ℚ (List.replicate 35 'G')).iindx 17 - 18) ≠ 0 ∧
      (fun x : Int => if x = iindx 35 1 - 35 then (1 : ℚ) else 0)
        ((exampleLoopCompound ℚ (List.replicate 35 'G')).iindx 1 - 35) > 0) ∧
    (1, 35) ∉ (bppm_int_k_pairs (exampleExternals ℚ id id) exampleConstants
        (exampleLoopCompound ℚ (List.replicate 35 'G')) (fun _ => 1) 18
        (fun x => if x = iindx 35 1 - 35 then 1 else 0) 17).2 ∧
    bppm_int_tmp2 (exampleExternals ℚ id id) (exampleLoopCompound ℚ (List.replicate 35 'G'))
        (fun _ => 1) 18 17 1 (fun x => if x = iindx 35 1 - 35 then 1 else 0) 1 35 = 1 ∧
    bppm_int_k (exampleExternals ℚ id id) exampleConstants
        (exampleLoopCompound ℚ (List.replicate 35 'G')) (fun _ => 1) 18
        (fun x => if x = iindx 35 1 - 35 then 1 else 0) 17
        ((exampleLoopCompound ℚ (List.replicate 35 'G')).iindx 17 - 18) = 0 := by
  have hlen : (exampleLoopCompound ℚ (List.replicate 35 'G')).length = 35 := by decide
  have hidx : ∀ i, (exampleLoopCompound ℚ (List.replicate 35 'G')).iindx i =
      iindx (exampleLoopCompound ℚ (List.replicate 35 'G')).length i := fun _ => rfl
  have hrange := bppm_int_k_pairs_range (exampleExternals ℚ id id) exampleConstants
    (exampleLoopCompound ℚ (List.replicate 35 'G')) (fun _ => 1) 18
    (fun x => if x = iindx 35 1 - 35 then 1 else 0) 17
  have hnot : (1, 35) ∉ (bppm_int_k_pairs (exampleExternals ℚ id id) exampleConstants
      (exampleLoopCompound ℚ (List.replicate 35 'G')) (fun _ => 1) 18
      (fun x => if x = iindx 35 1 - 35 then 1 else 0) 17).2 := by
    intro hm
    have h := (hrange _ hm).2.2.2
    have h1 := (le_min_iff.mp h).1
    have hM : (exampleExternals ℚ id id).MAXLOOP = 30 := rfl
    rw [hM] at h1
    revert h1
    decide
  obtain ⟨h1, h2⟩ := bppm_int_k_pairs_spec (exampleExternals ℚ id id) exampleConstants
    (exampleLoopCompound ℚ (List.replicate 35 'G')) (fun _ => 1) hidx rfl 18
    (fun x => if x = iindx 35 1 - 35 then 1 else 0) 17 (by decide) (by decide)
    (by rw [hlen]; decide)
  have hnil : (bppm_int_k_pairs (exampleExternals ℚ id id) exampleConstants
      (exampleLoopCompound ℚ (List.replicate 35 'G')) (fun _ => 1) 18
      (fun x => if x = iindx 35 1 - 35 then 1 else 0) 17).2 = [] := by
    rw [List.eq_nil_iff_forall_not_mem]
    rintro ⟨i, j⟩ hm
    have hr := hrange _ hm
    have hm2 := hm
    rw [h1] at hm2
    split_ifs at hm2
    · rw [mem_bppm_int_visited] at hm2
      obtain ⟨a1, a2, a3, a4, _, _, _, _, _, _, _, a12⟩ := hm2
      have hoff : (exampleLoopCompound ℚ (List.replicate 35 'G')).iindx i - j =
          iindx 35 1 - 35 := by
        by_contra hne
        rw [if_neg hne] at a12
        exact lt_irrefl _ a12
      rw [hidx i, hlen] at hoff
      rw [hlen] at a4
      obtain ⟨hi1, hj35⟩ := pack_injective 35 i j 1 35 a1 (by omega) a4 (by decide)
        (by decide) (by decide) hoff
      subst hi1 hj35
      exact hnot hm
    · cases hm2
  refine ⟨⟨by decide, by decide, by rw [hlen], by decide, by decide, by decide, by decide,
    by decide, by decide, by decide, by decide, ?_, ?_⟩, hnot, ?_, ?_⟩
  · norm_num [exampleLoopCompound, exampleOutsideCompound]
  · rw [hidx 1, hlen]
    norm_num
  · simp only [bppm_int_tmp2]
    rw [hidx 1, hlen, if_pos rfl]
    norm_num [exampleLoopCompound, exampleOutsideCompound, exampleFoldCompound,
      exampleExternals]
  · rw [← bppm_int_k_pairs_fst, h2, hnil]
    have h17 : (exampleLoopCompound ℚ (List.replicate 35 'G')).iindx 17 - 18 ≠
        iindx 35 1 - 35 := by decide
    rw [if_neg h17]
    simp

/-- C28: every enclosing pair `(i, j)` whose interior-loop term the outside sweep adds to
`probs[k,l]` has `u1 = k-i-1 ≥ 0`, `u2 = j-l-1 ≥ 0` and `u1 + u2 ≤ MAXLOOP`, with
`1 ≤ i` and `j ≤ n`; the array computed along with the list of these pairs is the one of
the interior-loop step. -/
theorem C28_interior_loop_cap [LinearOrderedField α] (O : Externals α Ael Aml)
    (C : Constants) (vc : vrna_fold_compound_t α) (S1 : Int → Int) (l : Int)
    (probs : Int → α) (k : Int) :
    (bppm_int_k_pairs O C vc S1 l probs k).1 = bppm_int_k O C vc S1 l probs k ∧
    ∀ i j : Int, (i, j) ∈ (bppm_int_k_pairs O C vc S1 l probs k).2 →
      0 ≤ k - i - 1 ∧ 0 ≤ j - l - 1 ∧ (k - i - 1) + (j - l - 1) ≤ O.MAXLOOP ∧
        1 ≤ i ∧ j ≤ vc.length := by
  refine ⟨bppm_int_k_pairs_fst O C vc S1 l probs k, ?_⟩
  intro i j hm
  obtain ⟨h1, h2, h3, h4⟩ := bppm_int_k_pairs_range O C vc S1 l probs k _ hm
  have h5 := le_min_iff.mp h4
  have h6 := max_le_iff.mp h1
  simp only at h2 h3 h5 h6
  refine ⟨by omega, by omega, by omega, h6.1, h5.2⟩

/-- C28 witness: four nucleotides, `probs = 1` everywhere: the enclosing pair `(1, 4)` of
`(2, 3)` is recorded, with `u1 = u2 = 0`. -/
theorem C28_interior_loop_cap_witness :
    (0 : Int) ≤ 2 - 1 - 1 ∧ (0 : Int) ≤ 4 - 3 - 1 ∧
      ((2 : Int) - 1 - 1) + (4 - 3 - 1) ≤ (exampleExternals ℚ id id).MAXLOOP ∧
      (1 : Int) ≤ 1 ∧ (4 : Int) ≤ (exampleLoopCompound ℚ ['G', 'C', 'G', 'C']).length := by
  refine (C28_interior_loop_cap (exampleExternals ℚ id id) exampleConstants
    (exampleLoopCompound ℚ ['G', 'C', 'G', 'C']) (fun _ => 1) 3 (fun _ => 1) 2).2 1 4 ?_
  rw [(bppm_int_k_pairs_spec (exampleExternals ℚ id id) exampleConstants
    (exampleLoopCompound ℚ ['G', 'C', 'G', 'C']) (fun _ => 1) (fun _ => rfl) rfl 3
    (fun _ => 1) 2 (by decide) (by decide) (by decide)).1, if_pos, mem_bppm_int_visited]
  · refine ⟨by decide, by decide, by decide, by decide, by decide, by decide, by decide,
      by decide, by decide, by decide, by decide, ?_⟩
    norm_num
  · constructor
    · norm_num [exampleLoopCompound, exampleOutsideCompound]
    · decide

end InteriorClaims

section MultiloopTheorems

variable {α : Type} {Ael Aml : Type}

/-- An ascending loop with one more value. -/
theorem upto_succ (lo hi : Int) (h : lo ≤ hi + 1) : upto lo (hi + 1) = upto lo hi ++ [hi + 1] := by
  unfold upto
  have h1 : (hi + 1 + 1 - lo).toNat = (hi + 1 - lo).toNat + 1 := by omega
  rw [h1, List.range_succ, List.map_append, List.map_singleton]
  congr 2
  omega

/-- C29: in an iteration `l` of the outside sweep that takes the multibranch branch, the
state after position `k` is the loop over `2, ..., k` run from the state with
`prm_MLb = 0`.  Let `P i` be the value `prmt` (after `prmt *= expMLclosing`) stored into
`prml[i]` at position `i + 1`.  Without soft constraints and with `up_ml[i] ≠ 0` for
`1 ≤ i ≤ k - 1`, after position `k ≥ 1` the accumulator `prm_MLb` is the sum over
`i = 1, ..., k - 1` of `P i * expMLbase[1] ^ (k - 1 - i)`; and whenever `up_ml[k-1] = 0`
the accumulator after position `k ≥ 2` is `P (k - 1)`.  The loop of the iteration,
over `2, ..., l - 1`, passes through the state after position `k` for `1 ≤ k ≤ l - 1`. -/
theorem C29_prm_MLb_closed_form [LinearOrderedField α] (O : Externals α Ael Aml)
    (C : Constants) (vc : vrna_fold_compound_t α) (S1 : Int → Int) (l : Int)
    (st : BppmState α) (hsc : vc.sc = none) :
    (∀ k : Int, 1 ≤ k → (∀ i : Int, 1 ≤ i → i ≤ k - 1 → vc.hc.up_ml i ≠ 0) →
      ((upto 2 k).foldl (bppm_ml_k O C vc S1 l) { st with prm_MLb := 0 }).prm_MLb =
        ((upto 1 (k - 1)).map (fun i =>
          bppm_prmt O C vc S1 l
              ((upto 2 i).foldl (bppm_ml_k O C vc S1 l) { st with prm_MLb := 0 }).probs (i + 1) *
            vc.exp_matrices.expMLbase 1 ^ (k - 1 - i).toNat)).sum) ∧
    (∀ k : Int, 2 ≤ k → vc.hc.up_ml (k - 1) = 0 →
      ((upto 2 k).foldl (bppm_ml_k O C vc S1 l) { st with prm_MLb := 0 }).prm_MLb =
        bppm_prmt O C vc S1 l
          ((upto 2 (k - 1)).foldl (bppm_ml_k O C vc S1 l) { st with prm_MLb := 0 }).probs k) ∧
    (∀ k : Int, 1 ≤ k → k ≤ l - 1 →
      (upto 2 (l - 0 - 1)).foldl (bppm_ml_k O C vc S1 l) { st with prm_MLb := 0 } =
        (upto (k + 1) (l - 0 - 1)).foldl (bppm_ml_k O C vc S1 l)
          ((upto 2 k).foldl (bppm_ml_k O C vc S1 l) { st with prm_MLb := 0 })) := by
  have hstep : ∀ k : Int, 1 ≤ k →
      (upto 2 (k + 1)).foldl (bppm_ml_k O C vc S1 l) { st with prm_MLb := 0 } =
        bppm_ml_k O C vc S1 l
          ((upto 2 k).foldl (bppm_ml_k O C vc S1 l) { st with prm_MLb := 0 }) (k + 1) := by
    intro k hk
    rw [upto_succ 2 k (by omega), List.foldl_append]
    rfl
  refine ⟨?_, ?_, ?_⟩
  · have hnat : ∀ (m : Nat) (k : Int), k = (m : Int) + 1 →
        (∀ i : Int, 1 ≤ i → i ≤ k - 1 → vc.hc.up_ml i ≠ 0) →
        ((upto 2 k).foldl (bppm_ml_k O C vc S1 l) { st with prm_MLb := 0 }).prm_MLb =
          ((upto 1 (k - 1)).map (fun i =>
            bppm_prmt O C vc S1 l
                ((upto 2 i).foldl (bppm_ml_k O C vc S1 l) { st with prm_MLb := 0 }).probs
                (i + 1) *
              vc.exp_matrices.expMLbase 1 ^ (k - 1 - i).toNat)).sum := by
      intro m
      induction m with
      | zero =>
        intro k hk _
        have hk1 : k = 1 := by omega
        subst hk1
        have e1 : upto 2 1 = [] := by decide
        have e2 : upto 1 (1 - 1) = [] := by decide
        rw [e1, e2]
        rfl
      | succ m ih =>
        intro k hk hup
        have hk1 : k = ((m : Int) + 1) + 1 := by
          rw [hk]
          push_cast
          ring
        subst hk1
        have hprev := ih ((m : Int) + 1) rfl (fun i h1 h2 => hup i h1 (by omega))
        rw [hstep _ (by omega)]
        have hf := (bppm_ml_k_fields O C vc S1 l
          ((upto 2 ((m : Int) + 1)).foldl (bppm_ml_k O C vc S1 l) { st with prm_MLb := 0 })
          ((m : Int) + 1 + 1)).2.2.2.2.2.1
        have hsub : (m : Int) + 1 + 1 - 1 = (m : Int) + 1 := by ring
        rw [hf, hsub, if_pos (hup _ (by omega) (by omega)), hsc, sc_none_factors.2.1, mul_one,
          hprev]
        have hsub2 : (m : Int) + 1 - 1 + 1 = (m : Int) + 1 := by ring
        rw [← hsub2, upto_succ 1 ((m : Int) + 1 - 1) (by omega), hsub2, List.map_append,
          List.sum_append, List.map_singleton, List.sum_singleton]
        have hz : ((m : Int) + 1 - ((m : Int) + 1)).toNat = 0 := by
          rw [sub_self]
          rfl
        rw [hz, pow_zero, mul_one, ← List.sum_map_mul_right]
        congr 1
        apply congrArg List.sum
        apply List.map_congr_left
        intro i hi
        rw [mem_upto] at hi
        have hp : ((m : Int) + 1 - i).toNat = ((m : Int) + 1 - 1 - i).toNat + 1 := by omega
        rw [hp, pow_succ, mul_assoc]
    intro k hk hup
    exact hnat (k - 1).toNat k (by omega) hup
  · intro k hk hup
    have hk1 : k = (k - 1) + 1 := by ring
    have hs := hstep (k - 1) (by omega)
    rw [← hk1] at hs
    rw [hs, (bppm_ml_k_fields O C vc S1 l _ k).2.2.2.2.2.1, if_neg (by rw [hup]; simp)]
  · intro k hk1 hk2
    have hsplit : ∀ (m : Nat) (hi : Int), hi = k + (m : Int) →
        upto 2 hi = upto 2 k ++ upto (k + 1) hi := by
      intro m
      induction m with
      | zero =>
        intro hi hhi
        have : hi = k := by omega
        subst this
        have e : upto (hi + 1) hi = [] := by
          unfold upto
          have : (hi + 1 - (hi + 1)).toNat = 0 := by omega
          rw [this]
          rfl
        rw [e, List.append_nil]
      | succ m ih =>
        intro hi hhi
        have h1 : hi = (hi - 1) + 1 := by ring
        have h2 : hi - 1 = k + (m : Int) := by
          push_cast at hhi
          omega
        rw [h1, upto_succ 2 (hi - 1) (by omega), upto_succ (k + 1) (hi - 1) (by omega),
          ih (hi - 1) h2, List.append_assoc]
    rw [hsplit (l - 0 - 1 - k).toNat (l - 0 - 1) (by omega), List.foldl_append]

/-- C29 witness: with `up_ml = 100` everywhere, no soft constraints and three positions
processed, `prm_MLb` is `P 1 * expMLbase[1] + P 2`. -/
theorem C29_prm_MLb_witness :
    ((upto 2 3).foldl (bppm_ml_k (exampleExternals ℚ id id) exampleConstants
        (exampleLoopCompound ℚ ['G', 'C', 'G', 'C', 'G', 'C']) (fun _ => 1) 5)
        { ({ probs := fun _ => 1, prm_l := fun _ => 0, prm_l1 := fun _ => 0,
             prml := fun _ => 0, Qrout := fun _ => 0, Qlout := fun _ => 0, prm_MLb := 7,
             Qmax := 0, ov := 0, warnings := [] } : BppmState ℚ) with prm_MLb := 0 }).prm_MLb =
      ((upto 1 (3 - 1)).map (fun i =>
        bppm_prmt (exampleExternals ℚ id id) exampleConstants
            (exampleLoopCompound ℚ ['G', 'C', 'G', 'C', 'G', 'C']) (fun _ => 1) 5
            ((upto 2 i).foldl (bppm_ml_k (exampleExternals ℚ id id) exampleConstants
              (exampleLoopCompound ℚ ['G', 'C', 'G', 'C', 'G', 'C']) (fun _ => 1) 5)
              { ({ probs := fun _ => 1, prm_l := fun _ => 0, prm_l1 := fun _ => 0,
                   prml := fun _ => 0, Qrout := fun _ => 0, Qlout := fun _ => 0, prm_MLb := 7,
                   Qmax := 0, ov := 0, warnings := [] } : BppmState ℚ) with
                prm_MLb := 0 }).probs (i + 1) *
          (exampleLoopCompound ℚ ['G', 'C', 'G', 'C', 'G', 'C']).exp_matrices.expMLbase 1 ^
            (3 - 1 - i).toNat)).sum :=
  (C29_prm_MLb_closed_form (exampleExternals ℚ id id) exampleConstants
    (exampleLoopCompound ℚ ['G', 'C', 'G', 'C', 'G', 'C']) (fun _ => 1) 5 _ rfl).1 3
    (by decide) (by intro i _ _; exact (by decide : (100 : Int) ≠ 0))

end MultiloopTheorems

section RollingArrayTheorems

variable {α : Type} {Ael Aml : Type}

/-- Two folds of functions that agree on the elements of the list agree. -/
theorem foldl_congr_mem {β γ : Type} (f g : β → γ → β) :
    ∀ (L : List γ) (b : β), (∀ x ∈ L, ∀ b, f b x = g b x) → L.foldl f b = L.foldl g b := by
  intro L
  induction L with
  | nil =>
    intro b _
    rfl
  | cons x t ih =>
    intro b h
    rw [List.foldl_cons, List.foldl_cons, h x (List.mem_cons_self _ _) b]
    exact ih _ (fun y hy => h y (List.mem_cons_of_mem _ hy))

/-- The closing sum of the multiloop step for the pair `(k, l)` reads `prml[i]` for
`1 ≤ i ≤ k - 2` only. -/
theorem bppm_ml_temp_congr [LinearOrderedField α] (O : Externals α Ael Aml)
    (vc : vrna_fold_compound_t α) (S1 : Int → Int) (l k : Int) (prm_MLb : α)
    (prml prml' : Int → α) (h : ∀ i : Int, 1 ≤ i → i ≤ k - 2 → prml i = prml' i) :
    bppm_ml_temp O vc S1 l k prm_MLb prml = bppm_ml_temp O vc S1 l k prm_MLb prml' := by
  simp only [bppm_ml_temp]
  congr 1
  apply foldl_congr_mem
  intro i hi b
  rw [mem_upto] at hi
  rw [h i hi.1 hi.2]

/-- What the multiloop step for the pair `(k, l)` does to `probs`, `Qmax`, `ov` and the
warnings is a function of their previous values and of the value
`probs[kl] + temp` computed from the new `prm_MLb` and `prml`. -/
theorem bppm_ml_k_outputs [LinearOrderedField α] (O : Externals α Ael Aml) (C : Constants)
    (vc : vrna_fold_compound_t α) (S1 : Int → Int) (l k : Int) :
    ∃ G : (Int → α) → α → Nat → List (Int × Int × α) → α →
        (Int → α) × α × Nat × List (Int × Int × α),
      ∀ st : BppmState α,
        ((bppm_ml_k O C vc S1 l st k).probs, (bppm_ml_k O C vc S1 l st k).Qmax,
            (bppm_ml_k O C vc S1 l st k).ov, (bppm_ml_k O C vc S1 l st k).warnings) =
          G st.probs st.Qmax st.ov st.warnings
            (st.probs (vc.iindx k - l) +
              bppm_ml_temp O vc S1 l k
                (if vc.hc.up_ml (k - 1) ≠ 0 then
                  st.prm_MLb * vc.exp_matrices.expMLbase 1 * sc_exp_energy_up vc.sc (k - 1) 1 +
                    bppm_prmt O C vc S1 l st.probs k
                else bppm_prmt O C vc S1 l st.probs k)
                (Function.update
                  (Function.update st.prml (k - 1) (bppm_prmt O C vc S1 l st.probs k)) (k - 1)
                  (bppm_prmt O C vc S1 l st.probs k +
                    (if vc.hc.up_ml (l + 1) ≠ 0 then
                      st.prm_l1 (k - 1) * vc.exp_matrices.expMLbase 1 *
                          sc_exp_energy_up vc.sc (l + 1) 1 + bppm_prmt1 O C vc S1 l st.probs k
                    else bppm_prmt1 O C vc S1 l st.probs k)))) := by
  refine ⟨fun probs Qmax ov w p =>
    if vc.exp_matrices.qb (vc.iindx k - l) = 0 then (probs, Qmax, ov, w)
    else if hc_allows (vc.hc.matrix (vc.jindx l + k)) C.CONTEXT_MB_LOOP_ENC = true then
      if p ≥ O.max_real then
        (Function.update probs (vc.iindx k - l) O.FLT_MAX, (if p > Qmax then p else Qmax),
          ov + 1, (if p > Qmax ∧ p > O.max_real / 10 then w ++ [(k, l, p)] else w))
      else
        (Function.update probs (vc.iindx k - l) p, (if p > Qmax then p else Qmax),
          ov, (if p > Qmax ∧ p > O.max_real / 10 then w ++ [(k, l, p)] else w))
    else (probs, Qmax, ov, w), ?_⟩
  intro st
  simp only [bppm_ml_k, Function.update_same]
  by_cases h0 : vc.exp_matrices.qb (vc.iindx k - l) = 0
  · rw [if_pos h0, if_pos h0]
  · rw [if_neg h0, if_neg h0]
    by_cases h1 : hc_allows (vc.hc.matrix (vc.jindx l + k)) C.CONTEXT_MB_LOOP_ENC = true
    · rw [if_pos h1, if_pos h1]
      split_ifs <;> rfl
    · rw [if_neg h1, if_neg h1]

/-- The loop over `k` of the multiloop step of iteration `l`, run from two states that
agree on `probs`, `Qmax`, `ov`, the warnings and the entries `1, ..., l - 2` of `prm_l1`:
after position `k ≤ l - 1` the two runs agree on these, on `prm_MLb`, and on the entries
`1, ..., k - 1` of `prml` and `prm_l`. -/
theorem bppm_ml_loop_agree [LinearOrderedField α] (O : Externals α Ael Aml) (C : Constants)
    (vc : vrna_fold_compound_t α) (S1 : Int → Int) (l : Int) (st st' : BppmState α)
    (hp : st.probs = st'.probs) (hQ : st.Qmax = st'.Qmax) (hov : st.ov = st'.ov)
    (hw : st.warnings = st'.warnings)
    (h1 : ∀ i : Int, 1 ≤ i → i ≤ l - 2 → st.prm_l1 i = st'.prm_l1 i) :
    ∀ (m : Nat) (k : Int), k = (m : Int) + 1 → k ≤ l - 1 →
      ((upto 2 k).foldl (bppm_ml_k O C vc S1 l) { st with prm_MLb := 0 }).probs =
          ((upto 2 k).foldl (bppm_ml_k O C vc S1 l) { st' with prm_MLb := 0 }).probs ∧
        ((upto 2 k).foldl (bppm_ml_k O C vc S1 l) { st with prm_MLb := 0 }).Qmax =
          ((upto 2 k).foldl (bppm_ml_k O C vc S1 l) { st' with prm_MLb := 0 }).Qmax ∧
        ((upto 2 k).foldl (bppm_ml_k O C vc S1 l) { st with prm_MLb := 0 }).ov =
          ((upto 2 k).foldl (bppm_ml_k O C vc S1 l) { st' with prm_MLb := 0 }).ov ∧
        ((upto 2 k).foldl (bppm_ml_k O C vc S1 l) { st with prm_MLb := 0 }).warnings =
          ((upto 2 k).foldl (bppm_ml_k O C vc S1 l) { st' with prm_MLb := 0 }).warnings ∧
        ((upto 2 k).foldl (bppm_ml_k O C vc S1 l) { st with prm_MLb := 0 }).prm_MLb =
          ((upto 2 k).foldl (bppm_ml_k O C vc S1 l) { st' with prm_MLb := 0 }).prm_MLb ∧
        ((upto 2 k).foldl (bppm_ml_k O C vc S1 l) { st with prm_MLb := 0 }).prm_l1 =
          st.prm_l1 ∧
        ((upto 2 k).foldl (bppm_ml_k O C vc S1 l) { st' with prm_MLb := 0 }).prm_l1 =
          st'.prm_l1 ∧
        (∀ i : Int, 1 ≤ i → i ≤ k - 1 →
          ((upto 2 k).foldl (bppm_ml_k O C vc S1 l) { st with prm_MLb := 0 }).prml i =
            ((upto 2 k).foldl (bppm_ml_k O C vc S1 l) { st' with prm_MLb := 0 }).prml i ∧
          ((upto 2 k).foldl (bppm_ml_k O C vc S1 l) { st with prm_MLb := 0 }).prm_l i =
            ((upto 2 k).foldl (bppm_ml_k O C vc S1 l) { st' with prm_MLb := 0 }).prm_l i) := by
  intro m
  induction m with
  | zero =>
    intro k hk _
    have hk1 : k = 1 := by omega
    subst hk1
    have e1 : upto 2 1 = [] := by decide
    rw [e1]
    refine ⟨hp, hQ, hov, hw, rfl, rfl, rfl, ?_⟩
    intro i hi1 hi2
    omega
  | succ m ih =>
    intro k hk hkl
    have hk1 : k = ((m : Int) + 1) + 1 := by
      rw [hk]
      push_cast
      ring
    subst hk1
    obtain ⟨a1, a2, a3, a4, a5, a6, a7, a8⟩ := ih ((m : Int) + 1) rfl (by omega)
    rw [upto_succ 2 ((m : Int) + 1) (by omega), List.foldl_append, List.foldl_append]
    simp only [List.foldl_cons, List.foldl_nil]
    generalize (upto 2 ((m : Int) + 1)).foldl (bppm_ml_k O C vc S1 l)
      { st with prm_MLb := 0 } = s at a1 a2 a3 a4 a5 a6 a8 ⊢
    generalize (upto 2 ((m : Int) + 1)).foldl (bppm_ml_k O C vc S1 l)
      { st' with prm_MLb := 0 } = s' at a1 a2 a3 a4 a5 a7 a8 ⊢
    have hsub : (m : Int) + 1 + 1 - 1 = (m : Int) + 1 := by ring
    obtain ⟨f1, f2, f3, _, _, f6, _⟩ :=
      bppm_ml_k_fields O C vc S1 l s ((m : Int) + 1 + 1)
    obtain ⟨g1, g2, g3, _, _, g6, _⟩ :=
      bppm_ml_k_fields O C vc S1 l s' ((m : Int) + 1 + 1)
    rw [hsub] at f1 f3 f6 g1 g3 g6
    have hl1 : s.prm_l1 ((m : Int) + 1) = s'.prm_l1 ((m : Int) + 1) := by
      rw [a6, a7]
      exact h1 _ (by omega) (by omega)
    have hMLb : (bppm_ml_k O C vc S1 l s ((m : Int) + 1 + 1)).prm_MLb =
        (bppm_ml_k O C vc S1 l s' ((m : Int) + 1 + 1)).prm_MLb := by
      rw [f6, g6, a1, a5]
    have hprml : ∀ i : Int, 1 ≤ i → i ≤ (m : Int) + 1 →
        (bppm_ml_k O C vc S1 l s ((m : Int) + 1 + 1)).prml i =
          (bppm_ml_k O C vc S1 l s' ((m : Int) + 1 + 1)).prml i := by
      intro i hi1 hi2
      rw [f3, g3]
      by_cases hi : i = (m : Int) + 1
      · rw [hi, Function.update_same, Function.update_same, a1, hl1]
      · rw [Function.update_noteq hi, Function.update_noteq hi, Function.update_noteq hi,
          Function.update_noteq hi]
        exact (a8 i hi1 (by omega)).1
    have hprm_l : ∀ i : Int, 1 ≤ i → i ≤ (m : Int) + 1 →
        (bppm_ml_k O C vc S1 l s ((m : Int) + 1 + 1)).prm_l i =
          (bppm_ml_k O C vc S1 l s' ((m : Int) + 1 + 1)).prm_l i := by
      intro i hi1 hi2
      rw [f1, g1]
      by_cases hi : i = (m : Int) + 1
      · rw [hi, Function.update_same, Function.update_same, a1, hl1]
      · rw [Function.update_noteq hi, Function.update_noteq hi]
        exact (a8 i hi1 (by omega)).2
    have htemp : bppm_ml_temp O vc S1 l ((m : Int) + 1 + 1)
          (bppm_ml_k O C vc S1 l s ((m : Int) + 1 + 1)).prm_MLb
          (bppm_ml_k O C vc S1 l s ((m : Int) + 1 + 1)).prml =
        bppm_ml_temp O vc S1 l ((m : Int) + 1 + 1)
          (bppm_ml_k O C vc S1 l s' ((m : Int) + 1 + 1)).prm_MLb
          (bppm_ml_k O C vc S1 l s' ((m : Int) + 1 + 1)).prml := by
      rw [hMLb]
      exact bppm_ml_temp_congr O vc S1 l _ _ _ _ (fun i hi1 hi2 => hprml i hi1 (by omega))
    obtain ⟨G, hG⟩ := bppm_ml_k_outputs O C vc S1 l ((m : Int) + 1 + 1)
    have hout := hG s
    have hout' := hG s'
    rw [hsub] at hout hout'
    rw [← f6, ← f3] at hout
    rw [← g6, ← g3] at hout'
    have hboth : ((bppm_ml_k O C vc S1 l s ((m : Int) + 1 + 1)).probs,
        (bppm_ml_k O C vc S1 l s ((m : Int) + 1 + 1)).Qmax,
        (bppm_ml_k O C vc S1 l s ((m : Int) + 1 + 1)).ov,
        (bppm_ml_k O C vc S1 l s ((m : Int) + 1 + 1)).warnings) =
        ((bppm_ml_k O C vc S1 l s' ((m : Int) + 1 + 1)).probs,
        (bppm_ml_k O C vc S1 l s' ((m : Int) + 1 + 1)).Qmax,
        (bppm_ml_k O C vc S1 l s' ((m : Int) + 1 + 1)).ov,
        (bppm_ml_k O C vc S1 l s' ((m : Int) + 1 + 1)).warnings) := by
      rw [hout, hout', a1, a2, a3, a4, htemp]
    simp only [Prod.mk.injEq] at hboth
    refine ⟨hboth.1, hboth.2.1, hboth.2.2.1, hboth.2.2.2, hMLb, ?_, ?_, ?_⟩
    · rw [f2, a6]
    · rw [g2, a7]
    · intro i hi1 hi2
      rw [hsub] at hi2
      exact ⟨hprml i hi1 hi2, hprm_l i hi1 hi2⟩

/-- C30: iteration `l` of the outer sweep of `pf_co_bppm`, multiloop step, run from two
states that agree on `probs`, `Qmax`, `ov` and the warnings but hold arbitrary, different
contents in `prm_l`, `prml` and `prm_MLb`.  In the multibranch branch, if the two arrays
`prm_l1` agree on the entries `1, ..., l - 2`, the two results agree on `probs`, `Qmax`,
`ov`, the warnings and the entries `1, ..., l - 2` of the new `prm_l1` (the array
`prm_l` written in this iteration): nothing else of `prm_l1`, and nothing of the previous
contents of `prm_l` and `prml`, is read.  In the other branch the two results agree
whatever `prm_l1` holds, and the new `prm_l1` holds `0` at `0, ..., n`. -/
theorem C30_rolling_arrays_fresh [LinearOrderedField α] (O : Externals α Ael Aml)
    (C : Constants) (vc : vrna_fold_compound_t α) (S1 : Int → Int) (l : Int)
    (st st' : BppmState α)
    (hp : st.probs = st'.probs) (hQ : st.Qmax = st'.Qmax) (hov : st.ov = st'.ov)
    (hw : st.warnings = st'.warnings) :
    (l < vc.length ∧ vc.strand_number (l + 1) = vc.strand_number l →
      (∀ i : Int, 1 ≤ i → i ≤ l - 2 → st.prm_l1 i = st'.prm_l1 i) →
      (bppm_ml_l O C vc S1 0 l st).probs = (bppm_ml_l O C vc S1 0 l st').probs ∧
        (bppm_ml_l O C vc S1 0 l st).Qmax = (bppm_ml_l O C vc S1 0 l st').Qmax ∧
        (bppm_ml_l O C vc S1 0 l st).ov = (bppm_ml_l O C vc S1 0 l st').ov ∧
        (bppm_ml_l O C vc S1 0 l st).warnings = (bppm_ml_l O C vc S1 0 l st').warnings ∧
        ∀ i : Int, 1 ≤ i → i ≤ l - 2 →
          (bppm_ml_l O C vc S1 0 l st).prm_l1 i = (bppm_ml_l O C vc S1 0 l st').prm_l1 i) ∧
    (¬(l < vc.length ∧ vc.strand_number (l + 1) = vc.strand_number l) →
      (bppm_ml_l O C vc S1 0 l st).probs = (bppm_ml_l O C vc S1 0 l st').probs ∧
        (bppm_ml_l O C vc S1 0 l st).Qmax = (bppm_ml_l O C vc S1 0 l st').Qmax ∧
        (bppm_ml_l O C vc S1 0 l st).ov = (bppm_ml_l O C vc S1 0 l st').ov ∧
        (bppm_ml_l O C vc S1 0 l st).warnings = (bppm_ml_l O C vc S1 0 l st').warnings ∧
        ∀ i : Int, 0 ≤ i → i ≤ vc.length →
          (bppm_ml_l O C vc S1 0 l st).prm_l1 i = 0 ∧
            (bppm_ml_l O C vc S1 0 l st').prm_l1 i = 0) := by
  constructor
  · intro hbr h1
    simp only [bppm_ml_l]
    rw [if_pos hbr, if_pos hbr]
    by_cases hl : 1 ≤ l - 0 - 1
    · obtain ⟨a1, a2, a3, a4, _, _, _, a8⟩ := bppm_ml_loop_agree O C vc S1 l st st' hp hQ hov
        hw h1 (l - 0 - 1 - 1).toNat (l - 0 - 1) (by omega) (by omega)
      refine ⟨a1, a2, a3, a4, ?_⟩
      intro i hi1 hi2
      exact (a8 i hi1 (by omega)).2
    · have e : upto 2 (l - 0 - 1) = [] := by
        unfold upto
        have : (l - 0 - 1 + 1 - 2).toNat = 0 := by omega
        rw [this]
        rfl
      rw [e]
      refine ⟨hp, hQ, hov, hw, ?_⟩
      intro i hi1 hi2
      omega
  · intro hbr
    have hz : ∀ (a : Int → α) (i : Int), 0 ≤ i → i ≤ vc.length →
        ((upto 0 vc.length).foldl (fun a i => Function.update a i 0) a) i = 0 := by
      intro a i hi1 hi2
      refine foldl_once (fun (a : Int → α) (i : Int) => Function.update a i 0)
        (fun a => a i) i (fun _ => 0) (upto 0 vc.length) a (upto_nodup _ _)
        ((mem_upto _ _ _).mpr ⟨hi1, hi2⟩) ?_ ?_
      · intro g _ hne b
        exact Function.update_noteq (Ne.symm hne) _ _
      · intro b
        exact Function.update_same _ _ _
    simp only [bppm_ml_l]
    rw [if_neg hbr, if_neg hbr]
    refine ⟨hp, hQ, hov, hw, ?_⟩
    intro i hi1 hi2
    exact ⟨hz _ i hi1 hi2, hz _ i hi1 hi2⟩

/-- C30 witness: iteration `l = 4` on six nucleotides (multibranch branch), from two
states with the same `probs` whose arrays `prm_l`, `prml` differ everywhere and whose
arrays `prm_l1` differ outside `1, 2`: the resulting `probs` are the same. -/
theorem C30_rolling_arrays_witness :
    (bppm_ml_l (exampleExternals ℚ id id) exampleConstants
        (exampleLoopCompound ℚ ['G', 'C', 'G', 'C', 'G', 'C']) (fun _ => 1) 0 4
        { probs := fun _ => 1, prm_l := fun _ => 5, prm_l1 := fun i => if i ≤ 2 then 1 else 8,
          prml := fun _ => 6, Qrout := fun _ => 0, Qlout := fun _ => 0, prm_MLb := 7,
          Qmax := 0, ov := 0, warnings := [] }).probs =
      (bppm_ml_l (exampleExternals ℚ id id) exampleConstants
        (exampleLoopCompound ℚ ['G', 'C', 'G', 'C', 'G', 'C']) (fun _ => 1) 0 4
        { probs := fun _ => 1, prm_l := fun _ => 0, prm_l1 := fun i => if i ≤ 2 then 1 else 9,
          prml := fun _ => 0, Qrout := fun _ => 0, Qlout := fun _ => 0, prm_MLb := 0,
          Qmax := 0, ov := 0, warnings := [] }).probs :=
  ((C30_rolling_arrays_fresh (exampleExternals ℚ id id) exampleConstants
    (exampleLoopCompound ℚ ['G', 'C', 'G', 'C', 'G', 'C']) (fun _ => 1) 4
    { probs := fun _ => 1, prm_l := fun _ => 5, prm_l1 := fun i => if i ≤ 2 then 1 else 8,
      prml := fun _ => 6, Qrout := fun _ => 0, Qlout := fun _ => 0, prm_MLb := 7,
      Qmax := 0, ov := 0, warnings := [] }
    { probs := fun _ => 1, prm_l := fun _ => 0, prm_l1 := fun i => if i ≤ 2 then 1 else 9,
      prml := fun _ => 0, Qrout := fun _ => 0, Qlout := fun _ => 0, prm_MLb := 0,
      Qmax := 0, ov := 0, warnings := [] } rfl rfl rfl rfl).1 (by decide) (by
      intro i _ hi2
      show (if i ≤ 2 then (1 : ℚ) else 8) = (if i ≤ 2 then 1 else 9)
      rw [if_pos (by omega), if_pos (by omega)])).1

end RollingArrayTheorems

section DimerCrossingTheorems

variable {α : Type} {Ael Aml : Type}

/-- The multiloop step of one iteration leaves `Qlout` as it is. -/
theorem bppm_ml_l_Qlout [LinearOrderedField α] (O : Externals α Ael Aml) (C : Constants)
    (vc : vrna_fold_compound_t α) (S1 : Int → Int) (l : Int) (st : BppmState α) :
    (bppm_ml_l O C vc S1 0 l st).Qlout = st.Qlout := by
  simp only [bppm_ml_l]
  split_ifs
  · refine (foldl_never (bppm_ml_k O C vc S1 l) (fun s => s.Qlout) _ _ ?_).trans rfl
    intro k _ b
    exact (bppm_ml_k_fields O C vc S1 l b k).2.2.2.2.1
  · rfl

/-- When the cut point is `n`, no iteration of the outer sweep writes `Qlout`: the
iteration `l = cp = n` is left at `if ((l == n) || (l <= 2)) continue;` before the branch
`l == cp` is reached. -/
theorem bppm_l_Qlout_of_cp_eq_n [LinearOrderedField α] (O : Externals α Ael Aml)
    (C : Constants) (vc : vrna_fold_compound_t α) (S1 : Int → Int)
    (hcp : vc.cutpoint = vc.length) (st : BppmState α) (l : Int) (hl : l ≤ vc.length) :
    (bppm_l O C vc S1 0 st l).Qlout = st.Qlout := by
  unfold bppm_l
  have hd : ∀ s : BppmState α, (bppm_dimer_l O vc S1 l s).Qlout = s.Qlout := by
    intro s
    simp only [bppm_dimer_l]
    by_cases h1 : vc.cutpoint ≤ 0
    · rw [if_pos h1]
    · rw [if_neg h1]
      by_cases h2 : l = vc.length ∨ l ≤ 2
      · rw [if_pos h2]
      · rw [if_neg h2]
        have h3 : ¬ l > vc.cutpoint := by
          rw [hcp]
          omega
        have h4 : ¬ l = vc.cutpoint := by
          rw [hcp]
          exact fun h => h2 (Or.inl h)
        rw [if_neg h3, if_neg h4]
        split_ifs <;> rfl
  rw [hd, bppm_ml_l_Qlout]

/-- The interior-loop step for a pair `(1, l)` does nothing: there is no `i < 1`. -/
theorem bppm_int_k_first [LinearOrderedField α] (O : Externals α Ael Aml) (C : Constants)
    (vc : vrna_fold_compound_t α) (S1 : Int → Int) (l : Int) (probs : Int → α) :
    bppm_int_k O C vc S1 l probs 1 = probs := by
  have e : upto (max 1 (1 - O.MAXLOOP - 1)) (1 - 1) = [] := by
    unfold upto
    have h : (1 - 1 + 1 - max 1 (1 - O.MAXLOOP - 1)).toNat = 0 := by
      have := le_max_left (1 : Int) (1 - O.MAXLOOP - 1)
      omega
    rw [h]
    rfl
  simp only [bppm_int_k]
  rw [e]
  split_ifs <;> rfl

/-- The cell `(1, n)` is written by step 1 only: the outer sweep leaves it as it is. -/
theorem bppm_sweep_corner [LinearOrderedField α] (O : Externals α Ael Aml) (C : Constants)
    (vc : vrna_fold_compound_t α) (S1 : Int → Int)
    (hidx : ∀ i, vc.iindx i = iindx vc.length i) (hn : 2 ≤ vc.length) :
    (bppm_sweep O C vc S1 0).probs (vc.iindx 1 - vc.length) =
      bppm_step1 O C vc S1 0 (vc.iindx 1 - vc.length) := by
  have hne : ∀ k l : Int, 1 ≤ k → k < l → l ≤ vc.length → (k, l) ≠ (1, vc.length) →
      vc.iindx 1 - vc.length ≠ vc.iindx k - l := by
    intro k l hk hkl hl hdiff he
    rw [hidx 1, hidx k] at he
    have := pack_injective vc.length 1 vc.length k l (le_refl _) (by omega) (le_refl _) hk
      (le_of_lt hkl) hl he
    apply hdiff
    rw [← this.1, ← this.2]
  unfold bppm_sweep
  refine (foldl_never (bppm_l O C vc S1 0) (fun s => s.probs (vc.iindx 1 - vc.length)) _ _
    ?_).trans rfl
  intro l hl b
  rw [mem_downto] at hl
  show (bppm_l O C vc S1 0 b l).probs (vc.iindx 1 - vc.length) = b.probs _
  by_cases hln : l = vc.length
  · subst hln
    unfold bppm_l
    have hd : ∀ s : BppmState α, bppm_dimer_l O vc S1 vc.length s = s := by
      intro s
      by_cases h1 : vc.cutpoint ≤ 0
      · simp only [bppm_dimer_l, if_pos h1]
      · simp only [bppm_dimer_l, if_neg h1, true_or, if_true]
    have hm : ∀ s : BppmState α, (bppm_ml_l O C vc S1 0 vc.length s).probs = s.probs := by
      intro s
      simp only [bppm_ml_l]
      rw [if_neg (fun h => lt_irrefl _ h.1)]
    rw [hd, hm]
    show ((upto 1 (vc.length - 0 - 1)).foldl (bppm_int_k O C vc S1 vc.length) b.probs)
      (vc.iindx 1 - vc.length) = b.probs _
    refine foldl_never _ (fun p => p (vc.iindx 1 - vc.length)) _ b.probs ?_
    intro k hk p
    rw [mem_upto] at hk
    show bppm_int_k O C vc S1 vc.length p k (vc.iindx 1 - vc.length) = p _
    by_cases hk1 : k = 1
    · rw [hk1, bppm_int_k_first]
    · exact bppm_int_k_other O C vc S1 vc.length p k _
        (hne k vc.length hk.1 (by omega) (le_refl _) (by
          intro h
          rw [Prod.mk.injEq] at h
          exact hk1 h.1))
  · exact bppm_l_other O C vc S1 l b _ (fun k h1 h2 =>
      hne k l h1 h2 hl.2 (by
        intro h
        rw [Prod.mk.injEq] at h
        exact hln h.2))

/-- C31, the code on the cut point `cp = n`: four nucleotides `GGC` and `C` (`n = 4`,
`cp = 4`), every pair allowed, `q = 1` and `qb = 1`.  After the outer sweep `Qlout[2]`
is `0`, although the pair `(s, k) = (1, 4)` with `s < 2 < cp ≤ k` has `qb[1,4] ≠ 0`,
outside value `probs[1,4] = 1` and a term equal to `1`, the value with which the
statement `Qlout[t] += temp` would be run for `t = 2`, `s = 1`, `k = 4`. -/
theorem C31_Qlout_not_built_for_cp_n :
    (bppm_sweep (exampleExternals ℚ id id) exampleConstants
        (bppm_init_q1k_qln (exampleOutsideCompound ℚ ['G', 'G', 'C', 'C'] 4 (fun _ => 1)))
        (fun _ => 1) 0).Qlout 2 = 0 ∧
      (exampleOutsideCompound ℚ ['G', 'G', 'C', 'C'] 4 (fun _ => 1)).exp_matrices.qb
        (iindx 4 1 - 4) ≠ 0 ∧
      (bppm_sweep (exampleExternals ℚ id id) exampleConstants
        (bppm_init_q1k_qln (exampleOutsideCompound ℚ ['G', 'G', 'C', 'C'] 4 (fun _ => 1)))
        (fun _ => 1) 0).probs (iindx 4 1 - 4) = 1 ∧
      bppm_Qlout_tsk (exampleExternals ℚ id id)
        (bppm_init_q1k_qln (exampleOutsideCompound ℚ ['G', 'G', 'C', 'C'] 4 (fun _ => 1)))
        (fun _ => 1)
        (bppm_sweep (exampleExternals ℚ id id) exampleConstants
          (bppm_init_q1k_qln (exampleOutsideCompound ℚ ['G', 'G', 'C', 'C'] 4 (fun _ => 1)))
          (fun _ => 1) 0).probs 2 1 (fun _ => 0) 4 2 = 1 := by
  have hlen : (bppm_init_q1k_qln
      (exampleOutsideCompound ℚ ['G', 'G', 'C', 'C'] 4 (fun _ => 1))).length = 4 := rfl
  have hidx : ∀ i, (bppm_init_q1k_qln
      (exampleOutsideCompound ℚ ['G', 'G', 'C', 'C'] 4 (fun _ => 1))).iindx i =
      iindx (bppm_init_q1k_qln
        (exampleOutsideCompound ℚ ['G', 'G', 'C', 'C'] 4 (fun _ => 1))).length i :=
    fun _ => rfl
  have hqb : (bppm_init_q1k_qln
      (exampleOutsideCompound ℚ ['G', 'G', 'C', 'C'] 4 (fun _ => 1))).exp_matrices.qb =
      fun _ => 1 := (bppm_init_frame _).2.1
  have hQ : (bppm_sweep (exampleExternals ℚ id id) exampleConstants
      (bppm_init_q1k_qln (exampleOutsideCompound ℚ ['G', 'G', 'C', 'C'] 4 (fun _ => 1)))
      (fun _ => 1) 0).Qlout 2 = 0 := by
    unfold bppm_sweep
    refine (foldl_never (bppm_l (exampleExternals ℚ id id) exampleConstants
      (bppm_init_q1k_qln (exampleOutsideCompound ℚ ['G', 'G', 'C', 'C'] 4 (fun _ => 1)))
      (fun _ => 1) 0) (fun s => s.Qlout 2) _ _ ?_).trans rfl
    intro l hl b
    rw [mem_downto] at hl
    show (bppm_l _ _ _ _ 0 b l).Qlout 2 = b.Qlout 2
    rw [bppm_l_Qlout_of_cp_eq_n _ _ _ _ rfl b l hl.2]
  have hP : (bppm_sweep (exampleExternals ℚ id id) exampleConstants
      (bppm_init_q1k_qln (exampleOutsideCompound ℚ ['G', 'G', 'C', 'C'] 4 (fun _ => 1)))
      (fun _ => 1) 0).probs (iindx 4 1 - 4) = 1 := by
    have h := bppm_sweep_corner (exampleExternals ℚ id id) exampleConstants
      (bppm_init_q1k_qln (exampleOutsideCompound ℚ ['G', 'G', 'C', 'C'] 4 (fun _ => 1)))
      (fun _ => 1) hidx (by rw [hlen]; decide)
    rw [hlen, hidx 1, hlen] at h
    rw [h]
    have h1 := bppm_step1_cell (exampleExternals ℚ id id) exampleConstants
      (bppm_init_q1k_qln (exampleOutsideCompound ℚ ['G', 'G', 'C', 'C'] 4 (fun _ => 1)))
      (fun _ => 1) hidx 1 4 (by decide) (by decide) (by rw [hlen])
    rw [hidx 1, hlen] at h1
    rw [h1, hqb]
    have hs := bppm_init_spec (exampleOutsideCompound ℚ ['G', 'G', 'C', 'C'] 4 (fun _ => 1))
    have hn : (exampleOutsideCompound ℚ ['G', 'G', 'C', 'C'] 4 (fun _ => 1)).length = 4 := rfl
    rw [hn] at hs
    have e1 : (1 : Int) - 1 = 0 := by decide
    have e2 : (4 : Int) + 1 = 4 + 1 := rfl
    rw [if_pos ⟨by decide, by decide, by norm_num⟩, e1, hs.1, hs.2.1,
      (hs.2.2 4 (by decide) (by decide)).1]
    norm_num [exampleOutsideCompound, exampleExternals, sc_exp_f, bppm_init_q1k_qln,
      exampleFoldCompound]
  refine ⟨hQ, by norm_num [exampleOutsideCompound], hP, ?_⟩
  simp only [bppm_Qlout_tsk]
  rw [hqb, if_pos (by norm_num), hidx 1, hlen, hP]
  have hsn : (bppm_init_q1k_qln
      (exampleOutsideCompound ℚ ['G', 'G', 'C', 'C'] 4 (fun _ => 1))).strand_number 4 ≠
      (bppm_init_q1k_qln
        (exampleOutsideCompound ℚ ['G', 'G', 'C', 'C'] 4 (fun _ => 1))).strand_number (4 - 1) := by
    decide
  have hscale : (bppm_init_q1k_qln
      (exampleOutsideCompound ℚ ['G', 'G', 'C', 'C'] 4 (fun _ => 1))).exp_matrices.scale =
      fun _ => 1 := (bppm_init_frame _).2.2.2.2.1
  simp only [hsn, decide_False, Function.update_same, hscale]
  norm_num [exampleExternals]

end DimerCrossingTheorems

section MsaParserClaims

/-- C40, the code on a Clustal file with inconsistent names: the file consists of the
header `CLUSTAL W`, a block with the lines `seq1 ACGU` and `seq2 ACGU`, an empty line and
a block with the lines `seq1 ACGU` and `seqX ACGU`.  Read with the Clustal format
selected and the four pointers given, `vrna_file_msa_read_record` returns `0`, but
`*names` and `*aln` are not `NULL`: they hold the names `seq1`, `seq2` and the sequences
`ACGUACGU`, `ACGU` read so far. -/
theorem C40_clustal_inconsistent_names_keeps_data :
    vrna_file_msa_read_record exampleMsaConstants exampleMsaFileParsers
        (some ["CLUSTAL W".toList, [], "seq1 ACGU".toList, "seq2 ACGU".toList, [],
          "seq1 ACGU".toList, "seqX ACGU".toList])
        ⟨true, true, true, true⟩ ⟨none, none, none, none⟩
        exampleMsaConstants.FORMAT_CLUSTAL =
      (0, ⟨some ["seq1".toList, "seq2".toList],
        some ["ACGUACGU".toList, "ACGU".toList], none, none⟩, []) := by
  decide

end MsaParserClaims

section StockholmTheorems

/-- A line of a Stockholm record that neither ends the record, nor restarts it, nor is a
sequence line leaves the count and the two arrays as they are. -/
theorem stockholm_record_other (args : MsaArgs) (line : List Char) (rest : List (List Char))
    (k L : Int) (mem : MsaRecord)
    (hend : strncmp line ['/', '/'] 2 ≠ 0)
    (hrestart : ¬(line.head? = some '#' ∧ strstr_found line str_STOCKHOLM = true))
    (hnone : stockholm_seq_line line = none) :
    ∃ mem1 : MsaRecord, mem1.names = mem.names ∧ mem1.aln = mem.aln ∧
      stockholm_record args (line :: rest) k L mem = stockholm_record args rest k L mem1 := by
  cases line with
  | nil =>
    refine ⟨mem, rfl, rfl, ?_⟩
    rw [stockholm_record, if_neg hend]
  | cons c t =>
    rw [stockholm_record, if_neg hend]
    simp only []
    by_cases h1 : c = ' '
    · rw [if_pos h1]
      exact ⟨mem, rfl, rfl, rfl⟩
    · rw [if_neg h1]
      by_cases h2 : c = '#'
      · rw [if_pos h2]
        have h3 : ¬ strstr_found (c :: t) str_STOCKHOLM = true := by
          intro h
          apply hrestart
          rw [h2] at h ⊢
          exact ⟨rfl, h⟩
        rw [if_neg h3]
        split_ifs
        all_goals first
          | exact ⟨mem, rfl, rfl, rfl⟩
          | exact ⟨{ mem with id := sscanf_after 7 (c :: t) }, rfl, rfl, rfl⟩
          | exact ⟨{ mem with structure_str := sscanf_after 12 (c :: t) }, rfl, rfl, rfl⟩
      · rw [if_neg h2]
        have h3 : ¬ (sscanf_s_s (c :: t)).1 = 2 := by
          intro h
          simp only [stockholm_seq_line] at hnone
          rw [if_neg (by rintro (h | h); exact h1 h; exact h2 h), if_pos h] at hnone
          cases hnone
        rw [if_neg h3]
        exact ⟨mem, rfl, rfl, rfl⟩

/-- A sequence line of a Stockholm record: the first one sets the length, a later one
with another length ends the parse with everything freed, and otherwise the two fields
are stored. -/
theorem stockholm_record_seq (args : MsaArgs) (line : List Char) (rest : List (List Char))
    (k L : Int) (mem : MsaRecord) (nm sq : List Char)
    (hend : strncmp line ['/', '/'] 2 ≠ 0)
    (hsome : stockholm_seq_line line = some (nm, sq)) :
    stockholm_record args (line :: rest) k L mem =
      if k + 1 = 1 then
        stockholm_record args rest (k + 1) (strlen_int sq) (msa_store mem (k + 1 - 1) nm sq)
      else if L ≠ strlen_int sq then (0, free_msa_record args mem, rest)
      else stockholm_record args rest (k + 1) L (msa_store mem (k + 1 - 1) nm sq) := by
  cases line with
  | nil =>
    simp only [stockholm_seq_line] at hsome
    cases hsome
  | cons c t =>
    simp only [stockholm_seq_line] at hsome
    by_cases h12 : c = ' ' ∨ c = '#'
    · rw [if_pos h12] at hsome
      cases hsome
    · rw [if_neg h12] at hsome
      by_cases h3 : (sscanf_s_s (c :: t)).1 = 2
      · rw [if_pos h3] at hsome
        injection hsome with hsome
        rw [Prod.mk.injEq] at hsome
        obtain ⟨hn, hs⟩ := hsome
        rw [stockholm_record, if_neg hend]
        simp only []
        rw [if_neg (fun h => h12 (Or.inl h)), if_neg (fun h => h12 (Or.inr h)), if_pos h3,
          hn, hs]
      · rw [if_neg h3] at hsome
        cases hsome


/-- The loop of `parse_stockholm_alignment` over the lines of a record up to the line
`//`, none of which restarts the record: with `acc` the sequence lines stored so far,
all of length `L`, the loop stores the two fields of every further sequence line when
all lengths agree, and otherwise ends the parse with `seq_num = 0` and everything
freed. -/
theorem stockholm_record_body (args : MsaArgs) (endl : List Char) (post : List (List Char))
    (hendl : strncmp endl ['/', '/'] 2 = 0) :
    ∀ (body : List (List Char)) (acc : List (List Char × List Char)) (k L : Int)
      (mem : MsaRecord),
      (∀ l ∈ body, strncmp l ['/', '/'] 2 ≠ 0) →
      (∀ l ∈ body, ¬(l.head? = some '#' ∧ strstr_found l str_STOCKHOLM = true)) →
      k = (acc.length : Int) →
      mem.names = (if acc = [] then none else some (acc.map Prod.fst)) →
      mem.aln = (if acc = [] then none else some (acc.map Prod.snd)) →
      (∀ p ∈ acc, strlen_int p.2 = L) →
      ((∀ p ∈ acc ++ body.filterMap stockholm_seq_line, ∀ q ∈ acc ++
          body.filterMap stockholm_seq_line, strlen_int p.2 = strlen_int q.2) →
        ∃ mem1 : MsaRecord,
          mem1.names = (if acc ++ body.filterMap stockholm_seq_line = [] then none
            else some ((acc ++ body.filterMap stockholm_seq_line).map Prod.fst)) ∧
          mem1.aln = (if acc ++ body.filterMap stockholm_seq_line = [] then none
            else some ((acc ++ body.filterMap stockholm_seq_line).map Prod.snd)) ∧
          stockholm_record args (body ++ endl :: post) k L mem =
            (((acc ++ body.filterMap stockholm_seq_line).length : Int), mem1, post)) ∧
      (¬(∀ p ∈ acc ++ body.filterMap stockholm_seq_line, ∀ q ∈ acc ++
          body.filterMap stockholm_seq_line, strlen_int p.2 = strlen_int q.2) →
        ∃ (mem1 : MsaRecord) (rest1 : List (List Char)),
          stockholm_record args (body ++ endl :: post) k L mem =
            (0, free_msa_record args mem1, rest1)) := by
  intro body
  induction body with
  | nil =>
    intro acc k L mem _ _ hk hn ha hL
    simp only [List.filterMap_nil, List.append_nil, List.nil_append]
    constructor
    · intro _
      refine ⟨mem, hn, ha, ?_⟩
      cases endl with
      | nil => exact absurd hendl (by decide)
      | cons c t => rw [stockholm_record, if_pos hendl, hk]
    · intro hne
      exfalso
      apply hne
      intro p hp q hq
      rw [hL p hp, hL q hq]
  | cons line rest ih =>
    intro acc k L mem hb hr hk hn ha hL
    have hend : strncmp line ['/', '/'] 2 ≠ 0 := hb line (List.mem_cons_self _ _)
    have hb1 : ∀ l ∈ rest, strncmp l ['/', '/'] 2 ≠ 0 :=
      fun l hl => hb l (List.mem_cons_of_mem _ hl)
    have hr1 : ∀ l ∈ rest, ¬(l.head? = some '#' ∧ strstr_found l str_STOCKHOLM = true) :=
      fun l hl => hr l (List.mem_cons_of_mem _ hl)
    rw [List.cons_append]
    cases hs : stockholm_seq_line line with
    | none =>
      obtain ⟨mem1, e1, e2, e3⟩ := stockholm_record_other args line (rest ++ endl :: post) k L
        mem hend (hr line (List.mem_cons_self _ _)) hs
      rw [e3, List.filterMap_cons_none hs]
      exact ih acc k L mem1 hb1 hr1 hk (e1.trans hn) (e2.trans ha) hL
    | some p =>
      obtain ⟨nm, sq⟩ := p
      rw [stockholm_record_seq args line (rest ++ endl :: post) k L mem nm sq hend hs,
        List.filterMap_cons_some hs]
      have happ : acc ++ (nm, sq) :: rest.filterMap stockholm_seq_line =
          (acc ++ [(nm, sq)]) ++ rest.filterMap stockholm_seq_line := by
        rw [List.append_assoc]
        rfl
      rw [happ]
      have hne : acc ++ [(nm, sq)] ≠ [] := by
        intro h
        have := congrArg List.length h
        rw [List.length_append] at this
        simp at this
      have hk1 : k + 1 = ((acc ++ [(nm, sq)]).length : Int) := by
        rw [List.length_append, hk]
        simp
      have hsub : k + 1 - 1 = k := by ring
      have hnames : (msa_store mem (k + 1 - 1) nm sq).names =
          (if acc ++ [(nm, sq)] = [] then none else some ((acc ++ [(nm, sq)]).map Prod.fst)) := by
        rw [if_neg hne, hsub]
        simp only [msa_store]
        rw [hn, hk]
        by_cases hacc : acc = []
        · rw [if_pos hacc, hacc]
          rfl
        · rw [if_neg hacc]
          simp only [Option.getD_some, Int.toNat_ofNat, List.map_append, List.map_cons,
            List.map_nil]
          rw [List.take_of_length_le (by rw [List.length_map])]
      have haln : (msa_store mem (k + 1 - 1) nm sq).aln =
          (if acc ++ [(nm, sq)] = [] then none else some ((acc ++ [(nm, sq)]).map Prod.snd)) := by
        rw [if_neg hne, hsub]
        simp only [msa_store]
        rw [ha, hk]
        by_cases hacc : acc = []
        · rw [if_pos hacc, hacc]
          rfl
        · rw [if_neg hacc]
          simp only [Option.getD_some, Int.toNat_ofNat, List.map_append, List.map_cons,
            List.map_nil]
          rw [List.take_of_length_le (by rw [List.length_map])]
      by_cases hfirst : k + 1 = 1
      · rw [if_pos hfirst]
        have hacc : acc = [] := by
          have : (acc.length : Int) = 0 := by omega
          exact List.length_eq_zero.mp (by exact_mod_cast this)
        refine ih (acc ++ [(nm, sq)]) (k + 1) (strlen_int sq) _ hb1 hr1 hk1 hnames haln ?_
        intro p hp
        rw [hacc, List.nil_append, List.mem_singleton] at hp
        rw [hp]
      · rw [if_neg hfirst]
        by_cases hL1 : L ≠ strlen_int sq
        · rw [if_pos hL1]
          constructor
          · intro hall
            exfalso
            have hacc : acc ≠ [] := by
              intro h
              rw [h] at hk
              simp at hk
              omega
            obtain ⟨p0, t0, hp0⟩ := List.exists_cons_of_ne_nil hacc
            have hm0 : p0 ∈ acc := by
              rw [hp0]
              exact List.mem_cons_self _ _
            have h1 := hall p0 (List.mem_append_left _ (List.mem_append_left _ hm0)) (nm, sq)
              (List.mem_append_left _ (List.mem_append_right _ (List.mem_singleton_self _)))
            rw [hL p0 hm0] at h1
            exact hL1 h1
          · intro _
            exact ⟨mem, _, rfl⟩
        · rw [if_neg hL1]
          refine ih (acc ++ [(nm, sq)]) (k + 1) L _ hb1 hr1 hk1 hnames haln ?_
          intro p hp
          rcases List.mem_append.mp hp with h | h
          · exact hL p h
          · rw [List.mem_singleton] at h
            rw [h]
            exact (not_not.mp hL1).symm

end StockholmTheorems

section StockholmClaims

/-- Lines that fail a test are skipped by `dropWhile` on its negation. -/
theorem dropWhile_not_append {β : Type} (p : β → Bool) (pre : List β) (x : β) (t : List β)
    (hpre : ∀ l ∈ pre, p l = false) (hx : p x = true) :
    (pre ++ x :: t).dropWhile (fun l => !p l) = x :: t := by
  induction pre with
  | nil =>
    rw [List.nil_append, List.dropWhile_cons_of_neg]
    rw [hx]
    decide
  | cons a s ih =>
    rw [List.cons_append, List.dropWhile_cons_of_pos]
    · exact ih (fun l hl => hpre l (List.mem_cons_of_mem _ hl))
    · rw [hpre a (List.mem_cons_self _ _)]
      rfl

/-- C33 (amended): for an input that contains a first line with `STOCKHOLM 1.0` followed
by lines, none of which starts with `#` and contains `STOCKHOLM 1.0`, up to the first line
starting with `//` (the four pointers given, sequences shorter than `2^31`): when the
sequences of all sequence lines between them have the same length,
`parse_stockholm_alignment` returns their number `N`, leaves in `names[k]` and `aln[k]`
the two fields of the `k`-th such line in file order (both `NULL` when `N = 0`), and has
read up to the line `//`; when two of the sequences differ in length, it returns `0` and
`*names`, `*aln`, `*id` and `*structure` are `NULL`. -/
theorem C33_stockholm_record (pre body post : List (List Char)) (hdr endl : List Char)
    (mem : MsaRecord) (verbosity : Int)
    (hpre : ∀ l ∈ pre, strstr_found l str_STOCKHOLM = false)
    (hhdr : strstr_found hdr str_STOCKHOLM = true)
    (hbody : ∀ l ∈ body, strncmp l ['/', '/'] 2 ≠ 0)
    (hendl : strncmp endl ['/', '/'] 2 = 0)
    (hrestart : ∀ l ∈ body, ¬(l.head? = some '#' ∧ strstr_found l str_STOCKHOLM = true))
    (hlen : ∀ p ∈ body.filterMap stockholm_seq_line, p.2.length < 2 ^ 31) :
    ((∀ p ∈ body.filterMap stockholm_seq_line, ∀ q ∈ body.filterMap stockholm_seq_line,
        p.2.length = q.2.length) →
      (parse_stockholm_alignment (some (pre ++ hdr :: (body ++ endl :: post)))
          ⟨true, true, true, true⟩ mem verbosity).1 =
        ((body.filterMap stockholm_seq_line).length : Int) ∧
      (parse_stockholm_alignment (some (pre ++ hdr :: (body ++ endl :: post)))
          ⟨true, true, true, true⟩ mem verbosity).2.1.names =
        (if body.filterMap stockholm_seq_line = [] then none
          else some ((body.filterMap stockholm_seq_line).map Prod.fst)) ∧
      (parse_stockholm_alignment (some (pre ++ hdr :: (body ++ endl :: post)))
          ⟨true, true, true, true⟩ mem verbosity).2.1.aln =
        (if body.filterMap stockholm_seq_line = [] then none
          else some ((body.filterMap stockholm_seq_line).map Prod.snd)) ∧
      (parse_stockholm_alignment (some (pre ++ hdr :: (body ++ endl :: post)))
          ⟨true, true, true, true⟩ mem verbosity).2.2 = post) ∧
    (¬(∀ p ∈ body.filterMap stockholm_seq_line, ∀ q ∈ body.filterMap stockholm_seq_line,
        p.2.length = q.2.length) →
      (parse_stockholm_alignment (some (pre ++ hdr :: (body ++ endl :: post)))
          ⟨true, true, true, true⟩ mem verbosity).1 = 0 ∧
      (parse_stockholm_alignment (some (pre ++ hdr :: (body ++ endl :: post)))
          ⟨true, true, true, true⟩ mem verbosity).2.1 = ⟨none, none, none, none⟩) := by
  have hsame : (∀ p ∈ [] ++ body.filterMap stockholm_seq_line,
      ∀ q ∈ [] ++ body.filterMap stockholm_seq_line, strlen_int p.2 = strlen_int q.2) ↔
      (∀ p ∈ body.filterMap stockholm_seq_line, ∀ q ∈ body.filterMap stockholm_seq_line,
        p.2.length = q.2.length) := by
    rw [List.nil_append]
    constructor
    · intro h p hp q hq
      have := h p hp q hq
      rw [strlen_int_eq _ (hlen p hp), strlen_int_eq _ (hlen q hq)] at this
      exact_mod_cast this
    · intro h p hp q hq
      rw [strlen_int_eq _ (hlen p hp), strlen_int_eq _ (hlen q hq), h p hp q hq]
  have hrun : parse_stockholm_alignment (some (pre ++ hdr :: (body ++ endl :: post)))
      ⟨true, true, true, true⟩ mem verbosity =
      ((stockholm_record ⟨true, true, true, true⟩ (body ++ endl :: post) 0 0
          (msa_reset ⟨true, true, true, true⟩ mem)).1,
        endmarker_msa_record
          (stockholm_record ⟨true, true, true, true⟩ (body ++ endl :: post) 0 0
            (msa_reset ⟨true, true, true, true⟩ mem)).2.1
          (stockholm_record ⟨true, true, true, true⟩ (body ++ endl :: post) 0 0
            (msa_reset ⟨true, true, true, true⟩ mem)).1,
        (stockholm_record ⟨true, true, true, true⟩ (body ++ endl :: post) 0 0
          (msa_reset ⟨true, true, true, true⟩ mem)).2.2) := by
    simp only [parse_stockholm_alignment, and_self, if_true]
    rw [dropWhile_not_append (fun l => strstr_found l str_STOCKHOLM) pre hdr _ hpre hhdr]
  obtain ⟨hA, hB⟩ := stockholm_record_body ⟨true, true, true, true⟩ endl post hendl body []
    0 0 (msa_reset ⟨true, true, true, true⟩ mem) hbody hrestart rfl rfl rfl
    (fun p hp => by cases hp)
  rw [hrun]
  constructor
  · intro h
    obtain ⟨mem1, e1, e2, e3⟩ := hA (hsame.mpr h)
    rw [List.nil_append] at e1 e2 e3
    rw [e3]
    refine ⟨rfl, ?_, ?_, rfl⟩
    · show (endmarker_msa_record mem1 _).names = _
      unfold endmarker_msa_record
      by_cases hnil : body.filterMap stockholm_seq_line = []
      · rw [hnil] at e1 ⊢
        rw [if_pos rfl] at e1
        simp only [List.length_nil, Nat.cast_zero, gt_iff_lt, lt_self_iff_false, if_false,
          if_true]
        exact e1
      · have hpos : ((body.filterMap stockholm_seq_line).length : Int) > 0 := by
          have := List.length_pos.mpr hnil
          exact_mod_cast this
        rw [if_pos hpos, if_neg hnil]
        show some _ = _
        rw [e1, if_neg hnil, Option.getD_some, Int.toNat_ofNat,
          List.take_of_length_le (by rw [List.length_map])]
    · show (endmarker_msa_record mem1 _).aln = _
      unfold endmarker_msa_record
      by_cases hnil : body.filterMap stockholm_seq_line = []
      · rw [hnil] at e2 ⊢
        rw [if_pos rfl] at e2
        simp only [List.length_nil, Nat.cast_zero, gt_iff_lt, lt_self_iff_false, if_false,
          if_true]
        exact e2
      · have hpos : ((body.filterMap stockholm_seq_line).length : Int) > 0 := by
          have := List.length_pos.mpr hnil
          exact_mod_cast this
        rw [if_pos hpos, if_neg hnil]
        show some _ = _
        rw [e2, if_neg hnil, Option.getD_some, Int.toNat_ofNat,
          List.take_of_length_le (by rw [List.length_map])]
  · intro h
    obtain ⟨mem1, rest1, e⟩ := hB (fun h1 => h (hsame.mp h1))
    rw [e]
    refine ⟨rfl, ?_⟩
    show endmarker_msa_record (free_msa_record ⟨true, true, true, true⟩ mem1) 0 = _
    rw [free_msa_record_all]
    rfl

/-- C33 witness: a record with the header, a comment, the sequence lines `a ACGU` and
`b AC-U` and the line `//`, followed by another line: two sequences are returned. -/
theorem C33_stockholm_record_witness :
    parse_stockholm_alignment
        (some ["# STOCKHOLM 1.0".toList, "#=GF ID x".toList, "a ACGU".toList,
          "b AC-U".toList, "//".toList, "rest".toList])
        ⟨true, true, true, true⟩ ⟨none, none, none, none⟩ 0 =
      (2, ⟨some ["a".toList, "b".toList], some ["ACGU".toList, "AC-U".toList],
        some ['x'], none⟩, ["rest".toList]) ∧
    (parse_stockholm_alignment
        (some ([] ++ "# STOCKHOLM 1.0".toList ::
          (["#=GF ID x".toList, "a ACGU".toList, "b AC-U".toList] ++
            "//".toList :: ["rest".toList])))
        ⟨true, true, true, true⟩ ⟨none, none, none, none⟩ 0).1 =
      ((["#=GF ID x".toList, "a ACGU".toList, "b AC-U".toList].filterMap
        stockholm_seq_line).length : Int) :=
  ⟨by decide,
    ((C33_stockholm_record [] ["#=GF ID x".toList, "a ACGU".toList, "b AC-U".toList]
      ["rest".toList] "# STOCKHOLM 1.0".toList "//".toList ⟨none, none, none, none⟩ 0
      (by decide) (by decide) (by decide) (by decide) (by decide) (by decide)).1
      (by decide)).1⟩

/-- C33 counterexample to the claim as stated: the record has the header, the sequence
line `a ACGU`, a second line `# STOCKHOLM 1.0`, the sequence line `b ACGU` and the line
`//`.  Between the first line with `STOCKHOLM 1.0` and the line `//` there are two
sequence lines with sequences of the same length, but the parser returns `1`, with the
name `b` only: at the second header it drops what it has read. -/
theorem C33_restart_counterexample :
    parse_stockholm_alignment
        (some ["# STOCKHOLM 1.0".toList, "a ACGU".toList, "# STOCKHOLM 1.0".toList,
          "b ACGU".toList, "//".toList])
        ⟨true, true, true, true⟩ ⟨none, none, none, none⟩ 0 =
      (1, ⟨some ["b".toList], some ["ACGU".toList], none, none⟩, []) ∧
    ["a ACGU".toList, "# STOCKHOLM 1.0".toList, "b ACGU".toList].filterMap
        stockholm_seq_line =
      [("a".toList, "ACGU".toList), ("b".toList, "ACGU".toList)] := by
  decide

end StockholmClaims

section ClustalTheorems

/-- A string compares equal to itself. -/
theorem strcmp_self : ∀ s : List Char, strcmp s s = 0 := by
  intro s
  induction s with
  | nil => rfl
  | cons a t ih =>
    rw [strcmp, if_pos rfl]
    split_ifs
    · rfl
    · exact ih

/-- A separator line resets the position in the block. -/
theorem clustal_lines_sep (H : MsaHelpers) (line : List Char) (rest : List (List Char))
    (nn sn : Int) (mem : MsaRecord) (h : clustal_is_separator line = true) :
    clustal_lines H (line :: rest) nn sn mem = clustal_lines H rest 0 sn mem := by
  have h1 : strlen_int line < 4 ∨ isspace (line.headD (Char.ofNat 0)) = true := by
    simp only [clustal_is_separator, Bool.or_eq_true, decide_eq_true_eq] at h
    exact h
  rw [clustal_lines]
  simp only []
  rw [if_pos h1]

/-- A line that is neither a separator nor a sequence line is skipped. -/
theorem clustal_lines_skip (H : MsaHelpers) (line : List Char) (rest : List (List Char))
    (nn sn : Int) (mem : MsaRecord) (h : clustal_is_separator line = false)
    (hn : clustal_seq_line line = none) :
    clustal_lines H (line :: rest) nn sn mem = clustal_lines H rest nn sn mem := by
  have h1 : ¬(strlen_int line < 4 ∨ isspace (line.headD (Char.ofNat 0)) = true) := by
    intro h2
    have : clustal_is_separator line = true := by
      simp only [clustal_is_separator, Bool.or_eq_true, decide_eq_true_eq]
      exact h2
    rw [h] at this
    cases this
  rw [clustal_lines]
  simp only []
  rw [if_neg h1]
  by_cases h2 : line.headD (Char.ofNat 0) = '#'
  · rw [if_pos h2]
  · rw [if_neg h2]
    have h3 : ¬ (sscanf_s_s line).1 = 2 := by
      intro h3
      simp only [clustal_seq_line] at hn
      rw [h, if_neg (by decide), if_neg h2, if_pos h3] at hn
      cases hn
    rw [if_neg h3]

/-- A sequence line: in the first block its two fields are stored as a new sequence; in a
later block the name is compared with the stored one and the segment is appended. -/
theorem clustal_lines_seq (H : MsaHelpers) (line : List Char) (rest : List (List Char))
    (nn sn : Int) (mem : MsaRecord) (nm sg : List Char)
    (hs : clustal_seq_line line = some (nm, sg)) :
    clustal_lines H (line :: rest) nn sn mem =
      if nn = sn then
        clustal_lines H rest (nn + 1) (if nn + 1 > sn then nn + 1 else sn)
          (msa_store mem nn nm (clustal_conv H sg))
      else if strcmp nm (msa_names mem nn) ≠ 0 then (some 0, sn, mem, rest)
      else
        clustal_lines H rest (nn + 1) (if nn + 1 > sn then nn + 1 else sn)
          { mem with
            aln := some ((mem.aln.getD []).set nn.toNat (msa_aln mem nn ++ clustal_conv H sg)) } := by
  simp only [clustal_seq_line] at hs
  by_cases h : clustal_is_separator line = true
  · rw [if_pos h] at hs
    cases hs
  · rw [if_neg h] at hs
    by_cases h2 : line.headD (Char.ofNat 0) = '#'
    · rw [if_pos h2] at hs
      cases hs
    · rw [if_neg h2] at hs
      by_cases h3 : (sscanf_s_s line).1 = 2
      · rw [if_pos h3] at hs
        have hs1 := Option.some.inj hs
        have e1 : (sscanf_s_s line).2.1 = nm := congrArg Prod.fst hs1
        have e2 : (sscanf_s_s line).2.2 = sg := congrArg Prod.snd hs1
        have h1 : ¬(strlen_int line < 4 ∨ isspace (line.headD (Char.ofNat 0)) = true) := by
          intro h4
          apply h
          simp only [clustal_is_separator, Bool.or_eq_true, decide_eq_true_eq]
          exact h4
        rw [clustal_lines]
        simp only [clustal_conv]
        rw [if_neg h1, if_neg h2, if_pos h3, e1, e2]
      · rw [if_neg h3] at hs
        cases hs

/-- The blocks of an empty file. -/
theorem clustal_blocks_nil (cur : List (List Char × List Char)) :
    clustal_blocks [] cur = clustal_flush cur := rfl

/-- The blocks of a file, unfolded at its first line. -/
theorem clustal_blocks_cons (line : List Char) (rest : List (List Char))
    (cur : List (List Char × List Char)) :
    clustal_blocks (line :: rest) cur =
      if clustal_is_separator line = true then clustal_flush cur ++ clustal_blocks rest []
      else clustal_blocks rest (clustal_extend cur line) := rfl

/-- The run extended by a sequence line. -/
theorem clustal_extend_some (cur : List (List Char × List Char)) (line : List Char)
    (p : List Char × List Char) (h : clustal_seq_line line = some p) :
    clustal_extend cur line = cur ++ [p] := by
  rw [clustal_extend, h]
  rfl

/-- The run is unchanged by a line that is no sequence line. -/
theorem clustal_extend_none (cur : List (List Char × List Char)) (line : List Char)
    (h : clustal_seq_line line = none) :
    clustal_extend cur line = cur := by
  rw [clustal_extend, h]
  exact List.append_nil cur

/-- The first block of the blocks of a file starts with the run collected so far. -/
theorem clustal_blocks_head :
    ∀ (rest : List (List Char)) (cur : List (List Char × List Char)), cur ≠ [] →
      ∃ s tl, clustal_blocks rest cur = (cur ++ s) :: tl := by
  intro rest
  induction rest with
  | nil =>
    intro cur hc
    refine ⟨[], [], ?_⟩
    rw [clustal_blocks_nil, List.append_nil]
    cases cur with
    | nil => exact absurd rfl hc
    | cons a t => rfl
  | cons line rest ih =>
    intro cur hc
    rw [clustal_blocks_cons]
    by_cases h : clustal_is_separator line = true
    · rw [if_pos h]
      refine ⟨[], clustal_blocks rest [], ?_⟩
      rw [List.append_nil]
      cases cur with
      | nil => exact absurd rfl hc
      | cons a t => rfl
    · rw [if_neg h]
      cases hs : clustal_seq_line line with
      | none =>
        rw [clustal_extend_none cur line hs]
        exact ih cur hc
      | some p =>
        rw [clustal_extend_some cur line p hs]
        obtain ⟨s, tl, e⟩ := ih (cur ++ [p]) (List.append_ne_nil_of_right_ne_nil _
          (List.cons_ne_nil _ _))
        refine ⟨p :: s, tl, ?_⟩
        rw [e, List.append_assoc, List.singleton_append]

/-- A run that is not empty is a block. -/
theorem clustal_flush_of_ne_nil (cur : List (List Char × List Char)) (h : cur ≠ []) :
    clustal_flush cur = [cur] := by
  cases cur with
  | nil => exact absurd rfl h
  | cons a t => rfl

/-- With no line of the next block read, the sequences are those of the complete
blocks. -/
theorem clustal_progress_nil (H : MsaHelpers) (done : List (List (List Char))) (k : Nat) :
    clustal_progress H done [] k = clustal_concat H done k := by
  unfold clustal_progress
  simp only [List.length_nil, Nat.not_lt_zero, if_false, List.append_nil]

/-- The sequences of the blocks followed by one more block. -/
theorem clustal_concat_snoc (H : MsaHelpers) (done : List (List (List Char)))
    (b : List (List Char)) (k : Nat) :
    clustal_concat H (done ++ [b]) k =
      clustal_concat H done k ++ clustal_conv H (b.getD k []) := by
  unfold clustal_concat
  rw [List.map_append, List.flatten_append]
  simp only [List.map_cons, List.map_nil, List.flatten_cons, List.flatten_nil,
    List.append_nil]

/-- With all lines of the next block read, the block is complete. -/
theorem clustal_progress_full (H : MsaHelpers) (names : List (List Char))
    (done : List (List (List Char))) (b : List (List Char))
    (hb : b.length = names.length) (k : Nat) (hk : k < names.length) :
    clustal_progress H done (names.zip b) k = clustal_concat H (done ++ [b]) k := by
  have hk2 : k < b.length := by rw [hb]; exact hk
  have hz : k < (names.zip b).length := by
    rw [List.length_zip, hb, min_self]
    exact hk
  unfold clustal_progress
  rw [if_pos hz, clustal_concat_snoc]
  congr 2
  rw [List.getD_eq_getElem _ _ hz, List.getD_eq_getElem _ _ hk2, List.getElem_zip]

/-- The sequences after one more line of the next block. -/
theorem clustal_progress_snoc (H : MsaHelpers) (done : List (List (List Char)))
    (cp : List (List Char × List Char)) (nm sg : List Char) (k : Nat) :
    clustal_progress H done (cp ++ [(nm, sg)]) k =
      if k = cp.length then clustal_progress H done cp k ++ clustal_conv H sg
      else clustal_progress H done cp k := by
  unfold clustal_progress
  rw [List.length_append, List.length_singleton]
  rcases Nat.lt_trichotomy k cp.length with h | h | h
  · rw [if_pos (by omega : k < cp.length + 1), if_pos h, if_neg (by omega : ¬ k = cp.length),
      List.getD_append _ _ _ _ h]
  · subst h
    rw [if_pos (Nat.lt_succ_self _), if_neg (Nat.lt_irrefl _), if_pos rfl, List.append_nil]
    congr 2
    rw [List.getD_append_right _ _ _ _ (le_refl _), Nat.sub_self]
    rfl
  · rw [if_neg (by omega : ¬ k < cp.length + 1), if_neg (by omega : ¬ k < cp.length),
      if_neg (by omega : ¬ k = cp.length)]

/-- Appending a converted segment to the stored sequence of the line read gives the
sequences after that line. -/
theorem clustal_progress_set (H : MsaHelpers) (n : Nat) (done : List (List (List Char)))
    (cp : List (List Char × List Char)) (nm sg : List Char) (hc : cp.length < n) :
    ((List.range n).map (clustal_progress H done cp)).set cp.length
        (((List.range n).map (clustal_progress H done cp)).getD cp.length [] ++
          clustal_conv H sg) =
      (List.range n).map (clustal_progress H done (cp ++ [(nm, sg)])) := by
  apply List.ext_getElem?
  intro i
  rw [List.getElem?_set]
  by_cases hi : i < n
  · have e1 : ((List.range n).map (clustal_progress H done cp))[i]? =
        some (clustal_progress H done cp i) := by
      rw [List.getElem?_map, List.getElem?_range hi]
      rfl
    have e2 : ((List.range n).map (clustal_progress H done (cp ++ [(nm, sg)])))[i]? =
        some (clustal_progress H done (cp ++ [(nm, sg)]) i) := by
      rw [List.getElem?_map, List.getElem?_range hi]
      rfl
    have e3 : ((List.range n).map (clustal_progress H done cp)).getD cp.length [] =
        clustal_progress H done cp cp.length := by
      rw [List.getD_eq_getElem?_getD, List.getElem?_map, List.getElem?_range hc]
      rfl
    rw [e2, clustal_progress_snoc, e3]
    by_cases hic : cp.length = i
    · subst hic
      rw [if_pos rfl, if_pos rfl, List.length_map, List.length_range, if_pos hc]
    · rw [if_neg hic, if_neg (fun h => hic h.symm), e1]
  · have e1 : ((List.range n).map (clustal_progress H done cp))[i]? = none := by
      rw [List.getElem?_eq_none_iff, List.length_map, List.length_range]
      omega
    have e2 : ((List.range n).map (clustal_progress H done (cp ++ [(nm, sg)])))[i]? =
        none := by
      rw [List.getElem?_eq_none_iff, List.length_map, List.length_range]
      omega
    rw [e2, if_neg (by omega : ¬ cp.length = i), e1]

/-- The sequences of a single block are its converted segments. -/
theorem clustal_first_block (H : MsaHelpers) (names : List (List Char))
    (b : List (List Char)) (hb : b.length = names.length) :
    (names.zip b).map (fun p => clustal_conv H p.2) =
      (List.range names.length).map (clustal_progress H [] (names.zip b)) := by
  have hz : (names.zip b).length = names.length := by
    rw [List.length_zip, hb, min_self]
  apply List.ext_getElem?
  intro i
  by_cases hi : i < names.length
  · have hi2 : i < (names.zip b).length := by rw [hz]; exact hi
    rw [List.getElem?_map, List.getElem?_map, List.getElem?_range hi,
      List.getElem?_eq_getElem hi2]
    simp only [Option.map_some', clustal_progress, clustal_concat, List.map_nil,
      List.flatten_nil, List.nil_append, if_pos hi2, List.getD_eq_getElem _ _ hi2]
  · rw [List.getElem?_eq_none_iff.mpr (by rw [List.length_map, hz]; omega),
      List.getElem?_eq_none_iff.mpr (by rw [List.length_map, List.length_range]; omega)]

/-- A run that is a block of the file is a complete block: it lists the names. -/
theorem clustal_block_complete (H : MsaHelpers) (names : List (List Char))
    (done todo : List (List (List Char))) (cp : List (List Char × List Char))
    (tl : List (List (List Char × List Char)))
    (hl : ∀ b ∈ todo, b.length = names.length)
    (hb : cp :: tl = todo.map (fun b => names.zip b)) :
    ∃ b todo2, todo = b :: todo2 ∧ cp = names.zip b ∧ b.length = names.length ∧
      (∀ b ∈ todo2, b.length = names.length) ∧
      tl = todo2.map (fun b => names.zip b) ∧
      (List.range names.length).map (clustal_progress H done cp) =
        (List.range names.length).map (clustal_progress H (done ++ [b]) []) := by
  cases todo with
  | nil => cases hb
  | cons b todo2 =>
    rw [List.map_cons] at hb
    have h1 : cp = names.zip b := (List.cons.inj hb).1
    have h2 : tl = todo2.map (fun b => names.zip b) := (List.cons.inj hb).2
    have hbl : b.length = names.length := hl b (List.mem_cons_self _ _)
    refine ⟨b, todo2, rfl, h1, hbl, fun c hc => hl c (List.mem_cons_of_mem _ hc), h2, ?_⟩
    apply List.map_congr_left
    intro k hk
    rw [h1, clustal_progress_nil]
    exact clustal_progress_full H names done b hbl k (List.mem_range.mp hk)

/-- The blocks after the first one: with the names stored and the sequences of the
complete blocks and of the lines read of the current block stored, the rest of the file
is read to its end, every segment being appended to the sequence of its line. -/
theorem clustal_lines_later (H : MsaHelpers) (names : List (List Char)) :
    ∀ (rest : List (List Char)) (cp : List (List Char × List Char))
      (done todo : List (List (List Char))) (mem : MsaRecord),
      mem.names = some names →
      mem.aln = some ((List.range names.length).map (clustal_progress H done cp)) →
      (∀ b ∈ todo, b.length = names.length) →
      clustal_blocks rest cp = todo.map (fun b => names.zip b) →
      clustal_lines H rest (cp.length : Int) (names.length : Int) mem =
        (none, (names.length : Int),
          { mem with
            aln := some ((List.range names.length).map (clustal_concat H (done ++ todo))) },
          []) := by
  intro rest
  induction rest with
  | nil =>
    intro cp done todo mem hn ha hl hb
    rw [clustal_blocks_nil] at hb
    rw [clustal_lines]
    cases cp with
    | nil =>
      have ht : todo = [] := by
        cases todo with
        | nil => rfl
        | cons b t => cases hb
      subst ht
      have e : (List.range names.length).map (clustal_progress H done []) =
          (List.range names.length).map (clustal_concat H done) := by
        apply List.map_congr_left
        intro k _
        exact clustal_progress_nil H done k
      rw [e] at ha
      rw [List.append_nil, ← ha]
    | cons p cp2 =>
      rw [clustal_flush_of_ne_nil _ (List.cons_ne_nil p cp2)] at hb
      obtain ⟨b, todo2, e1, _, _, _, e5, e6⟩ :=
        clustal_block_complete H names done todo (p :: cp2) [] hl hb
      have ht : todo2 = [] := by
        cases todo2 with
        | nil => rfl
        | cons b t => cases e5
      subst ht
      subst e1
      have e : (List.range names.length).map (clustal_progress H (done ++ [b]) []) =
          (List.range names.length).map (clustal_concat H (done ++ [b])) := by
        apply List.map_congr_left
        intro k _
        exact clustal_progress_nil H (done ++ [b]) k
      rw [e6, e] at ha
      rw [← ha]
  | cons line rest ih =>
    intro cp done todo mem hn ha hl hb
    rw [clustal_blocks_cons] at hb
    by_cases h : clustal_is_separator line = true
    · rw [if_pos h] at hb
      rw [clustal_lines_sep H line rest _ _ mem h]
      cases cp with
      | nil =>
        exact ih [] done todo mem hn ha hl hb
      | cons p cp2 =>
        rw [clustal_flush_of_ne_nil _ (List.cons_ne_nil p cp2)] at hb
        obtain ⟨b, todo2, e1, _, _, e4, e5, e6⟩ :=
          clustal_block_complete H names done todo (p :: cp2) _ hl hb
        subst e1
        rw [e6] at ha
        have r := ih [] (done ++ [b]) todo2 mem hn ha e4 e5
        rw [List.append_assoc, List.singleton_append] at r
        exact r
    · rw [if_neg h] at hb
      cases hs : clustal_seq_line line with
      | none =>
        rw [clustal_extend_none cp line hs] at hb
        rw [clustal_lines_skip H line rest _ _ mem (Bool.eq_false_iff.mpr h) hs]
        exact ih cp done todo mem hn ha hl hb
      | some p =>
        obtain ⟨nm, sg⟩ := p
        rw [clustal_extend_some cp line (nm, sg) hs] at hb
        obtain ⟨s, tl, e⟩ := clustal_blocks_head rest (cp ++ [(nm, sg)])
          (List.append_ne_nil_of_right_ne_nil _ (List.cons_ne_nil _ _))
        have hb2 := hb
        rw [e] at hb2
        obtain ⟨b, todo2, e1, e2, e3, _, _, _⟩ :=
          clustal_block_complete H names done todo _ tl hl hb2
        have hz : (names.zip b).length = names.length := by
          rw [List.length_zip, e3, min_self]
        have hlen : cp.length + 1 + s.length = names.length := by
          rw [← hz, ← e2, List.length_append, List.length_append, List.length_singleton]
        have hc : cp.length < names.length := by omega
        have hget : (names.zip b)[cp.length]? = some (nm, sg) := by
          rw [← e2, List.append_assoc, List.getElem?_append_right (le_refl _), Nat.sub_self,
            List.singleton_append, List.getElem?_cons_zero]
        have hnm : names[cp.length]? = some nm := (List.getElem?_zip_eq_some.mp hget).1
        have hname : msa_names mem (cp.length : Int) = nm := by
          unfold msa_names
          rw [hn, Option.getD_some, Int.toNat_ofNat, List.getD_eq_getElem?_getD, hnm,
            Option.getD_some]
        have hne : ¬ ((cp.length : Int) = (names.length : Int)) := by omega
        have hgt : ¬ ((cp.length : Int) + 1 > (names.length : Int)) := by omega
        have hcmp : ¬ (strcmp nm (msa_names mem (cp.length : Int)) ≠ 0) := by
          rw [hname, strcmp_self]
          exact fun h0 => h0 rfl
        rw [clustal_lines_seq H line rest _ _ mem nm sg hs, if_neg hne, if_neg hcmp,
          if_neg hgt]
        have hlen2 : (((cp ++ [(nm, sg)]).length : Nat) : Int) = (cp.length : Int) + 1 := by
          rw [List.length_append, List.length_singleton, Nat.cast_add, Nat.cast_one]
        have ha2 : (some ((mem.aln.getD []).set (cp.length : Int).toNat
            (msa_aln mem (cp.length : Int) ++ clustal_conv H sg)) : Option (List (List Char))) =
            some ((List.range names.length).map
              (clustal_progress H done (cp ++ [(nm, sg)]))) := by
          unfold msa_aln
          rw [ha, Option.getD_some, Int.toNat_ofNat,
            clustal_progress_set H names.length done cp nm sg hc]
        rw [← hlen2]
        exact ih (cp ++ [(nm, sg)]) done todo
          { mem with aln := some ((mem.aln.getD []).set (cp.length : Int).toNat
              (msa_aln mem (cp.length : Int) ++ clustal_conv H sg)) } hn ha2 hl hb

/-- The end of the first block: once the lines read are a block of the file, the names
are complete and the rest of the file is read as the later blocks are. -/
theorem clustal_lines_handover (H : MsaHelpers) (names : List (List Char))
    (rest : List (List Char)) (cp : List (List Char × List Char))
    (b1 : List (List Char)) (todo : List (List (List Char)))
    (tl : List (List (List Char × List Char))) (mem0 : MsaRecord)
    (hl1 : b1.length = names.length) (hl : ∀ b ∈ todo, b.length = names.length)
    (hfl : cp :: tl = (b1 :: todo).map (fun b => names.zip b))
    (hb : clustal_blocks rest cp = (b1 :: todo).map (fun b => names.zip b)) :
    clustal_lines H rest (cp.length : Int) (cp.length : Int)
        { mem0 with
          names := some (cp.map Prod.fst)
          aln := some (cp.map (fun p => clustal_conv H p.2)) } =
      (none, (names.length : Int),
        { mem0 with
          names := some names
          aln := some ((List.range names.length).map (clustal_concat H (b1 :: todo))) },
        []) := by
  rw [List.map_cons] at hfl
  have h1 : cp = names.zip b1 := (List.cons.inj hfl).1
  subst h1
  have hz : (names.zip b1).length = names.length := by
    rw [List.length_zip, hl1, min_self]
  have hl2 : ∀ b ∈ b1 :: todo, b.length = names.length := by
    intro b hb
    rcases List.mem_cons.mp hb with e | e
    · rw [e]
      exact hl1
    · exact hl b e
  have r := clustal_lines_later H names rest (names.zip b1) [] (b1 :: todo)
    { mem0 with
      names := some names
      aln := some ((List.range names.length).map (clustal_progress H [] (names.zip b1))) }
    rfl rfl hl2 hb
  rw [List.map_fst_zip _ _ (le_of_eq hl1.symm), clustal_first_block H names b1 hl1, hz]
  rw [hz, List.nil_append] at r
  exact r

/-- The first block: every sequence line stores a new name and a new sequence, until the
first block of the file is complete; the rest of the file is read as the later blocks
are. -/
theorem clustal_lines_first (H : MsaHelpers) (names : List (List Char)) (mem0 : MsaRecord) :
    ∀ (rest : List (List Char)) (cp : List (List Char × List Char))
      (b1 : List (List Char)) (todo : List (List (List Char))) (mem : MsaRecord),
      (cp = [] → mem = mem0) →
      (cp ≠ [] → mem =
        { mem0 with
          names := some (cp.map Prod.fst)
          aln := some (cp.map (fun p => clustal_conv H p.2)) }) →
      b1.length = names.length →
      (∀ b ∈ todo, b.length = names.length) →
      clustal_blocks rest cp = (b1 :: todo).map (fun b => names.zip b) →
      clustal_lines H rest (cp.length : Int) (cp.length : Int) mem =
        (none, (names.length : Int),
          { mem0 with
            names := some names
            aln := some ((List.range names.length).map (clustal_concat H (b1 :: todo))) },
          []) := by
  intro rest
  induction rest with
  | nil =>
    intro cp b1 todo mem hm0 hm1 hl1 hl hb
    cases cp with
    | nil =>
      rw [clustal_blocks_nil] at hb
      cases hb
    | cons p cp2 =>
      have hb2 := hb
      rw [clustal_blocks_nil, clustal_flush_of_ne_nil _ (List.cons_ne_nil p cp2)] at hb2
      rw [hm1 (List.cons_ne_nil p cp2)]
      exact clustal_lines_handover H names [] (p :: cp2) b1 todo [] mem0 hl1 hl hb2 hb
  | cons line rest ih =>
    intro cp b1 todo mem hm0 hm1 hl1 hl hb
    by_cases h : clustal_is_separator line = true
    · cases cp with
      | nil =>
        rw [clustal_blocks_cons, if_pos h] at hb
        rw [clustal_lines_sep H line rest _ _ mem h]
        exact ih [] b1 todo mem hm0 hm1 hl1 hl hb
      | cons p cp2 =>
        have hb2 := hb
        rw [clustal_blocks_cons, if_pos h,
          clustal_flush_of_ne_nil _ (List.cons_ne_nil p cp2)] at hb2
        rw [hm1 (List.cons_ne_nil p cp2)]
        exact clustal_lines_handover H names (line :: rest) (p :: cp2) b1 todo _ mem0 hl1 hl
          hb2 hb
    · rw [clustal_blocks_cons, if_neg h] at hb
      cases hs : clustal_seq_line line with
      | none =>
        rw [clustal_extend_none cp line hs] at hb
        rw [clustal_lines_skip H line rest _ _ mem (Bool.eq_false_iff.mpr h) hs]
        exact ih cp b1 todo mem hm0 hm1 hl1 hl hb
      | some p =>
        obtain ⟨nm, sg⟩ := p
        rw [clustal_extend_some cp line (nm, sg) hs] at hb
        have hgt : (cp.length : Int) + 1 > (cp.length : Int) := by omega
        have hlen2 : (((cp ++ [(nm, sg)]).length : Nat) : Int) = (cp.length : Int) + 1 := by
          rw [List.length_append, List.length_singleton, Nat.cast_add, Nat.cast_one]
        rw [clustal_lines_seq H line rest _ _ mem nm sg hs, if_pos rfl, if_pos hgt, ← hlen2]
        apply ih (cp ++ [(nm, sg)]) b1 todo _ _ _ hl1 hl hb
        · intro h0
          exact absurd h0 (List.append_ne_nil_of_right_ne_nil _ (List.cons_ne_nil _ _))
        · intro _
          unfold msa_store
          rw [Int.toNat_ofNat]
          cases cp with
          | nil =>
            rw [hm0 rfl]
            rfl
          | cons q cp2 =>
            rw [hm1 (List.cons_ne_nil q cp2)]
            simp only [Option.getD_some, List.map_append, List.map_cons, List.map_nil]
            rw [List.take_of_length_le (by rw [List.length_cons, List.length_map,
                List.length_cons]),
              List.take_of_length_le (by rw [List.length_cons, List.length_map,
                List.length_cons])]

/-- A string that starts with a second one compares equal to it over the length of the
second one. -/
theorem strncmp_of_starts : ∀ (p t : List Char), strncmp (p ++ t) p p.length = 0 := by
  intro p
  induction p with
  | nil =>
    intro t
    rw [List.length_nil, strncmp]
  | cons a p ih =>
    intro t
    rw [List.cons_append, List.length_cons, strncmp, if_pos rfl]
    split_ifs
    · rfl
    · exact ih t

/-- A line shorter than 4 characters is a separator also when it starts with `#`: in
the file with the header `CLUSTAL W` and the lines `a ACGU`, `#`, `b ACGU` the line `#`
ends the first block, so that `b` is compared with the stored name `a` and the reader
returns `0`. -/
theorem clustal_short_comment_line_separates :
    clustal_is_separator "#".toList = true ∧
    parse_clustal_alignment exampleMsaHelpers
        ["CLUSTAL W".toList, "a ACGU".toList, "#".toList, "b ACGU".toList]
        ⟨none, none, none, none⟩ 0 =
      (0, ⟨some ["a".toList], some ["ACGU".toList], none, none⟩, []) := by
  decide

end ClustalTheorems

section ClustalClaims

/-- C32, a Clustal file of blocks that list the same names: let the first line start
with `CLUSTAL`, and let the blocks of the lines after it (the maximal runs of lines
`name segment` between separator lines, a separator being a line shorter than 4
characters or starting with white space, and the other lines starting with `#` being
ignored) be `B >= 1` blocks that each list the names `names` in order, block `i` with the
segments `segs[i]`.  Then `parse_clustal_alignment` returns the number of names, `*names`
holds the names and `(*aln)[k]` holds the concatenation, in block order, of the `k`-th
segments, each with every `.` replaced by `-` and passed to `vrna_seq_toupper`; the
whole file has been read. -/
theorem C32_clustal_blocks_concatenated (H : MsaHelpers) (header : List Char)
    (rest : List (List Char)) (mem : MsaRecord) (verbosity : Int)
    (names : List (List Char)) (segs : List (List (List Char)))
    (hhead : header.take 7 = str_CLUSTAL)
    (hsegs : segs ≠ [])
    (hlen : ∀ b ∈ segs, b.length = names.length)
    (hblocks : clustal_blocks rest [] = segs.map (fun b => names.zip b)) :
    parse_clustal_alignment H (header :: rest) mem verbosity =
      ((names.length : Int),
        { mem with
          names := some names
          aln := some ((List.range names.length).map (clustal_concat H segs)) },
        []) := by
  obtain ⟨b1, todo, hseg⟩ : ∃ b1 todo, segs = b1 :: todo := by
    cases segs with
    | nil => exact absurd rfl hsegs
    | cons b t => exact ⟨b, t, rfl⟩
  subst hseg
  have hs : strncmp header str_CLUSTAL 7 = 0 := by
    have e := List.take_append_drop 7 header
    rw [hhead] at e
    rw [← e]
    exact strncmp_of_starts str_CLUSTAL _
  have r : clustal_lines H rest 0 0 mem = _ :=
    clustal_lines_first H names mem rest [] b1 todo mem (fun _ => rfl)
      (fun h => absurd rfl h) (hlen b1 (List.mem_cons_self _ _))
      (fun b hb => hlen b (List.mem_cons_of_mem _ hb)) hblocks
  rw [parse_clustal_alignment]
  simp only []
  rw [if_neg (not_not.mpr hs), r]
  simp only [endmarker_msa_record]
  split_ifs
  · simp only [Option.getD_some, Int.toNat_ofNat]
    rw [List.take_of_length_le (le_refl _),
      List.take_of_length_le (by rw [List.length_map, List.length_range])]
  · rfl

/-- C32 on an example: the header `CLUSTAL W (1.83)`, a block with the lines `seq1 AC.u`
and `seq2 GGcc`, a comment line between them and a line starting with white space after
them, an empty line, and a block with the lines `seq1 gg` and `seq2 .c`.  The reader
returns `2`, the names `seq1`, `seq2` and the sequences `AC-UGG`, `GGCC-C`. -/
theorem C32_clustal_blocks_witness :
    ("CLUSTAL W (1.83)".toList.take 7 = str_CLUSTAL) ∧
    ([["AC.u".toList, "GGcc".toList], ["gg".toList, ".c".toList]] ≠ []) ∧
    (∀ b ∈ [["AC.u".toList, "GGcc".toList], ["gg".toList, ".c".toList]],
      b.length = ["seq1".toList, "seq2".toList].length) ∧
    (clustal_blocks
        [[], "seq1 AC.u".toList, "# a comment".toList, "seq2 GGcc".toList,
          "     ** ".toList, [], "seq1 gg".toList, "seq2 .c".toList] [] =
      [["AC.u".toList, "GGcc".toList], ["gg".toList, ".c".toList]].map
        (fun b => ["seq1".toList, "seq2".toList].zip b)) ∧
    parse_clustal_alignment exampleMsaHelpers
        ("CLUSTAL W (1.83)".toList ::
          [[], "seq1 AC.u".toList, "# a comment".toList, "seq2 GGcc".toList,
            "     ** ".toList, [], "seq1 gg".toList, "seq2 .c".toList])
        ⟨none, none, none, none⟩ 0 =
      (2, ⟨some ["seq1".toList, "seq2".toList],
        some ["AC-UGG".toList, "GGCC-C".toList], none, none⟩, []) :=
  ⟨by decide, by decide, by decide, by decide,
    C32_clustal_blocks_concatenated exampleMsaHelpers "CLUSTAL W (1.83)".toList
      [[], "seq1 AC.u".toList, "# a comment".toList, "seq2 GGcc".toList,
        "     ** ".toList, [], "seq1 gg".toList, "seq2 .c".toList]
      ⟨none, none, none, none⟩ 0 ["seq1".toList, "seq2".toList]
      [["AC.u".toList, "GGcc".toList], ["gg".toList, ".c".toList]]
      (by decide) (by decide) (by decide) (by decide)⟩

end ClustalClaims

end ViennaRNA
